import Mathlib

/-!
Spline curves of `libprocess/spline.c`.

A shallow embedding of the spline-curve engine (`GwySpline`) and theorems about
it.

Modelling conventions.

* `gdouble` is an arbitrary linearly ordered field `F` (exact arithmetic); the
  definitions run on `ℚ`.  The C library functions `hypot` and `sqrt` are not
  part of the repository and are taken as a parameter (`Libm`); `floor` is the
  floor of a `FloorRing`.
* Rounding of doubles is modelled where the control flow of the code depends
  on it: `round_double` is rounding to the nearest binary64 number, and
  `sample_position_double` is the target position of `sample_curve_uniformly`
  with every operation rounded.  Theorems on exact arithmetic say so; what
  they state of `sample_curve_uniformly` on open curves holds of the code only
  as far as the targets are not rounded above the length.
* A C array given by pointer and element count is a `List`.  `memcmp` of two
  arrays compares bytes, which the values determine except for the sign of a
  zero; the outcome for arrays of equal values is an argument (`same_bits`).
* `gboolean` is `Bool`; the C idioms `!x` and `!!x` are kept.
* A function that mutates `*spline` returns the new state.
* Division of a nonzero number by zero gives an infinity in C; where the code
  can do that (the velocity test of `sample_curve_recurse`) the comparison of
  the quotient with a finite bound is modelled as false.
* Cells of the `control_points` array that the code reads or exposes without
  having written them hold unspecified values; they are given by a parameter
  `junk : Nat → ControlPoint F` (cell index to content), and theorems hold
  for every `junk`.  A `junk` is a number: a cell that holds a NaN or an
  infinity, which C allows for a read past the end of the array, is outside
  the model.
* Recursion that C bounds only by its stack takes a `fuel` argument and
  returns `none` when the fuel is used up; `none` also stands for an
  aborting `g_assert` or a read past the end of the natural sampling.
* That the recursion returns on a curved segment is proved over the real
  numbers, where the speed has a positive minimum on every closed interval
  free of stationary points; the theorems that need it are stated for `ℝ`
  with an exact `hypot` and `sqrt`.
-/

set_option linter.unusedSectionVars false

namespace Gwy

/-! ## Data model -/

/-- Plane point `GwyTriangulationPointXY` (`PointXY` in the source). -/
structure PointXY (F : Type) where
  x : F
  y : F
deriving DecidableEq, Repr

/-- Bezier control points `u` and `v` of one segment. -/
structure ControlPoint (F : Type) where
  ux : F
  uy : F
  vx : F
  vy : F
deriving DecidableEq, Repr

/-- Output type of the recursive sampling. -/
inductive GwySplineRecurseOutputType where
  | CURVE_RECURSE_OUTPUT_X_Y
  | CURVE_RECURSE_OUTPUT_T_L
deriving DecidableEq, Repr

open GwySplineRecurseOutputType

/-- Parameters threaded through `sample_curve_recurse`. -/
structure GwySplineSampleParams (F : Type) where
  pt0 : PointXY F
  pt1 : PointXY F
  uv : ControlPoint F
  max_dev : F
  max_vrdev : F
  points : List (PointXY F)
  otype : GwySplineRecurseOutputType
  depth : Int

/-- One end of a sampled sub-interval: position, velocity, time, speed. -/
structure GwySplineSampleItem (F : Type) where
  z : PointXY F
  v : PointXY F
  t : F
  vl : F

/-- The spline object `struct _GwySpline`. -/
structure GwySpline (F : Type) where
  points : List (PointXY F)
  slackness : F
  closed : Bool
  natural_sampling_valid : Bool
  control_points : List (ControlPoint F)
  natural_points : List (PointXY F)
  length : F
  fixed_sampling_valid : Bool
  nfixed : Nat
  fixed_samples : List (PointXY F)
deriving DecidableEq

/-- The functions of the C mathematical library used by the source. -/
structure Libm (F : Type) where
  hypot : F → F → F
  sqrt : F → F

section Model

variable {F : Type} [LinearOrderedField F]

/-! ## Construction, getters and setters -/

/-- Source `gwy_spline_invalidate`. -/
def gwy_spline_invalidate (spline : GwySpline F) : GwySpline F :=
  { spline with natural_sampling_valid := false, fixed_sampling_valid := false }

/-- Source `gwy_spline_new`; `g_slice_new0` zero-fills the structure. -/
def gwy_spline_new : GwySpline F :=
  { points := []
    slackness := 1
    closed := false
    natural_sampling_valid := false
    control_points := []
    natural_points := []
    length := 0
    fixed_sampling_valid := false
    nfixed := 0
    fixed_samples := [] }

/-- Source `gwy_spline_get_npoints`. -/
def gwy_spline_get_npoints (spline : GwySpline F) : Nat :=
  spline.points.length

/-- Source `gwy_spline_get_points`. -/
def gwy_spline_get_points (spline : GwySpline F) : List (PointXY F) :=
  spline.points

/-- Source `gwy_spline_get_slackness`. -/
def gwy_spline_get_slackness (spline : GwySpline F) : F :=
  spline.slackness

/-- Source `gwy_spline_get_closed`. -/
def gwy_spline_get_closed (spline : GwySpline F) : Bool :=
  spline.closed

/-- Source `gwy_spline_set_points`: the first `n` elements of `xy` are compared
with and then copied to the point array.  The comparison is `memcmp`, of
bytes: arrays with a different coordinate differ, but arrays equal in every
coordinate need not be byte-identical (`-0.0` and `0.0` are equal numbers
with different bytes).  `same_bits` is the part of the outcome that the
values do not determine: whether the coordinates of `xy`, where equal to the
current ones, also have their bit patterns.  No bytes are compared when
`n = 0`. -/
def gwy_spline_set_points (spline : GwySpline F) (xy : List (PointXY F)) (n : Nat)
    (same_bits : Bool) : GwySpline F :=
  let points := spline.points
  if points.length = n ∧ (xy.take n = points.take n ∧ (n = 0 ∨ same_bits = true)) then
    spline
  else
    gwy_spline_invalidate { spline with points := ([] : List (PointXY F)) ++ xy.take n }

/-- Source `gwy_spline_set_slackness`; the warning is not modelled. -/
def gwy_spline_set_slackness (spline : GwySpline F) (slackness : F) : GwySpline F :=
  if spline.slackness = slackness then
    spline
  else if ¬(slackness ≥ 0 ∧ slackness ≤ 1) then
    spline
  else
    gwy_spline_invalidate { spline with slackness := slackness }

/-- Source `gwy_spline_set_closed`. -/
def gwy_spline_set_closed (spline : GwySpline F) (closed : Bool) : GwySpline F :=
  if (!spline.closed) = (!closed) then
    spline
  else
    gwy_spline_invalidate { spline with closed := !!closed }

/-- Source `gwy_spline_from_points`.  The new spline has no points, so
`gwy_spline_set_points` compares bytes only when `n = 0`, and then none. -/
def gwy_spline_from_points (xy : List (PointXY F)) (n : Nat) : GwySpline F :=
  let spline : GwySpline F := gwy_spline_new
  gwy_spline_set_points spline xy n true

/-- States reachable from `gwy_spline_new` by the three setters. -/
inductive Reachable : GwySpline F → Prop
  | new : Reachable gwy_spline_new
  | set_points (s : GwySpline F) (xy : List (PointXY F)) (n : Nat) (same_bits : Bool) :
      Reachable s → Reachable (gwy_spline_set_points s xy n same_bits)
  | set_slackness (s : GwySpline F) (slackness : F) :
      Reachable s → Reachable (gwy_spline_set_slackness s slackness)
  | set_closed (s : GwySpline F) (closed : Bool) :
      Reachable s → Reachable (gwy_spline_set_closed s closed)

/-- Source `gwy_spline_length`.  The recomputation is a `TODO` in the source:
with an invalid natural sampling the function returns `0.0`. -/
def gwy_spline_length (spline : GwySpline F) : F :=
  if spline.natural_sampling_valid then
    spline.length
  else
    0

/-- Source `gwy_spline_sample`: returns the buffer `xy` after the call and the
returned number.  The recomputation is a `TODO` in the source. -/
def gwy_spline_sample (spline : GwySpline F) (xy : List (PointXY F)) (n : Nat) :
    List (PointXY F) × F :=
  if spline.fixed_sampling_valid ∧ spline.nfixed = n then
    (spline.fixed_samples.take n ++ xy.drop n, spline.length)
  else
    (xy, 0)

/-! ## Arrays -/

/-- Read of element `i` of an array; `d` is the content of the cell when `i` is
past the end. -/
def g_array_index {α : Type} (a : List α) (i : Nat) (d : α) : α :=
  a.getD i d

/-- GLib `g_array_set_size` for an array created without the clear flag: a
shrunk array keeps its first `n` elements, new cells `i` hold `junk i`. -/
def g_array_set_size {α : Type} (a : List α) (n : Nat) (junk : Nat → α) : List α :=
  a.take n ++ (List.range' a.length (n - a.length)).map junk

/-- Read of a point array (in range at every use; the zero point otherwise). -/
def point_at (a : List (PointXY F)) (i : Nat) : PointXY F :=
  g_array_index a i ⟨0, 0⟩

/-! ## Segment interpolation -/

/-- Source `division_time`. -/
def division_time (L : Libm F) (v0 v1 x : F) : F :=
  if v0 = v1 then
    x
  else
    let eps := (v1 - v0)/(v1 + v0)
    if eps < 1/1000000 then
      x*(1 + eps*(1 - x))
    else
      let eps1 := 1 - eps
      (L.sqrt (4*x*eps + eps1*eps1) - eps1)/(2*eps)

/-- Source `interpolate_z`. -/
def interpolate_z (pt0 pt1 : PointXY F) (uv : ControlPoint F) (t : F) : PointXY F :=
  let s := 1 - t
  let s2 := s*s
  let s3 := s2*s
  let t2 := t*t
  let t3 := t2*t
  { x := s3*pt0.x + 3*(s2*t*uv.ux + s*t2*uv.vx) + t3*pt1.x
    y := s3*pt0.y + 3*(s2*t*uv.uy + s*t2*uv.vy) + t3*pt1.y }

/-- Source `interpolate_v`. -/
def interpolate_v (pt0 pt1 : PointXY F) (uv : ControlPoint F) (t : F) : PointXY F :=
  let s := 1 - t
  let s2 := s*s
  let t2 := t*t
  let std := 2*s*t
  { x := 3*(-s2*pt0.x + (s2 - std)*uv.ux + (std - t2)*uv.vx + t2*pt1.x)
    y := 3*(-s2*pt0.y + (s2 - std)*uv.uy + (std - t2)*uv.vy + t2*pt1.y) }

/-- Source `interpolate_straight_line`. -/
def interpolate_straight_line (xyp xyn : PointXY F) (_uv : ControlPoint F) : ControlPoint F :=
  { ux := (2*xyp.x + xyn.x)/3
    uy := (2*xyp.y + xyn.y)/3
    vx := (xyp.x + 2*xyn.x)/3
    vy := (xyp.y + 2*xyn.y)/3 }

/-- Source `interpolate_cu_next`: sets the `u` of `uv`. -/
def interpolate_cu_next (xyp cp cn : PointXY F) (kq : F) (uv : ControlPoint F) :
    ControlPoint F :=
  { uv with
    ux := xyp.x + kq*(cn.x - cp.x)
    uy := xyp.y + kq*(cn.y - cp.y) }

/-- Source `interpolate_cv_prev`: sets the `v` of `uv`. -/
def interpolate_cv_prev (xyp cp cn : PointXY F) (kq : F) (uv : ControlPoint F) :
    ControlPoint F :=
  { uv with
    vx := xyp.x + kq*(cp.x - cn.x)
    vy := xyp.y + kq*(cp.y - cn.y) }

/-! ## Control points -/

/-- The straight-line loop of `calculate_control_points`
(`for (i = 0; i < to; i++)`); `xyn` is the index of the point `xyn` points to,
the first argument counts the remaining iterations. -/
def calculate_control_points_straight (n : Nat) (xy : List (PointXY F)) :
    Nat → Nat → Nat → List (ControlPoint F) → List (ControlPoint F)
  | 0, _, _, uv => uv
  | rem + 1, i, xyn, uv =>
    let xyp := xyn
    let xyn := if i = n then 0 else xyn + 1
    let uv := uv.modify (interpolate_straight_line (point_at xy xyp) (point_at xy xyn)) i
    calculate_control_points_straight n xy rem (i + 1) xyn uv

/-- The loop over the inner knots of `calculate_control_points`
(`for (i = 1; i < to; i++)`). -/
def calculate_control_points_inner (L : Libm F) (n : Nat) (xy : List (PointXY F))
    (slackness : F) :
    Nat → Nat → Nat → PointXY F → F → List (ControlPoint F) → List (ControlPoint F)
  | 0, _, _, _, _, uv => uv
  | rem + 1, i, xyn, cn, lenn, uv =>
    let xyp := xyn
    let xyn := if i = n then 0 else xyn + 1
    let cp := cn
    let cn : PointXY F :=
      { x := ((point_at xy xyp).x + (point_at xy xyn).x)/2
        y := ((point_at xy xyp).y + (point_at xy xyn).y)/2 }
    let lenp := lenn
    let lenn := L.hypot ((point_at xy xyp).x - (point_at xy xyn).x)
      ((point_at xy xyp).y - (point_at xy xyn).y)
    let q := if lenp + lenn = 0 then 1/2 else lenn/(lenp + lenn)
    let uv := uv.modify (interpolate_cv_prev (point_at xy xyp) cp cn (slackness*(1 - q))) (i - 1)
    let uv := uv.modify (interpolate_cu_next (point_at xy xyp) cp cn (slackness*q))
      (if i = n + 1 then 0 else i)
    calculate_control_points_inner L n xy slackness rem (i + 1) xyn cn lenn uv

/-- Source `calculate_control_points`: `n` is the number of segments of the
open curve, `xy` the points, `uv` the array the control points are stored to.
The `g_return_if_fail` guards leave `uv` as it is. -/
def calculate_control_points (L : Libm F) (n : Int) (xy : List (PointXY F)) (slackness : F)
    (closed : Bool) (uv : List (ControlPoint F)) : List (ControlPoint F) :=
  if ¬(n ≥ 1) then
    uv
  else if ¬(slackness ≥ 0 ∧ slackness ≤ 1) then
    uv
  else
    let n := n.toNat
    if n = 1 ∨ slackness = 0 then
      let to_ := if closed then n + 1 else n
      calculate_control_points_straight n xy to_ 0 0 uv
    else
      let to_ := if closed then n + 2 else n
      let cn : PointXY F :=
        { x := ((point_at xy 0).x + (point_at xy 1).x)/2
          y := ((point_at xy 0).y + (point_at xy 1).y)/2 }
      let lenn := L.hypot ((point_at xy 0).x - (point_at xy 1).x)
        ((point_at xy 0).y - (point_at xy 1).y)
      let uv := calculate_control_points_inner L n xy slackness (to_ - 1) 1 1 cn lenn uv
      if closed then
        uv
      else
        let uv0 := g_array_index uv 0 ⟨0, 0, 0, 0⟩
        let uv := uv.modify (fun c => { c with
          ux := ((2 - slackness)*(point_at xy 0).x + slackness*uv0.vx)/2
          uy := ((2 - slackness)*(point_at xy 0).y + slackness*uv0.vy)/2 }) 0
        let uvn := g_array_index uv (n - 1) ⟨0, 0, 0, 0⟩
        uv.modify (fun c => { c with
          vx := ((2 - slackness)*(point_at xy n).x + slackness*uvn.ux)/2
          vy := ((2 - slackness)*(point_at xy n).y + slackness*uvn.uy)/2 }) (n - 1)

/-! ## Natural sampling -/

/-- The test `eps <= max_vrdev` of `sample_curve_recurse`, made after
`if (eps) eps /= d`.  A nonzero `eps` divided by a zero `d` is infinite in C
and fails the test. -/
def vrdev_within (eps d max_vrdev : F) : Bool :=
  if eps ≠ 0 then
    decide (d ≠ 0) && decide (eps/d ≤ max_vrdev)
  else
    decide (eps ≤ max_vrdev)

/-- Middle item `cc` of `sample_curve_recurse`. -/
def sample_curve_middle (L : Libm F) (cparam : GwySplineSampleParams F)
    (c0 c1 : GwySplineSampleItem F) : GwySplineSampleItem F :=
  let q := division_time L c0.vl c1.vl (1/2)
  let t := c0.t*(1 - q) + c1.t*q
  let ccz := interpolate_z cparam.pt0 cparam.pt1 cparam.uv t
  let ccv := interpolate_v cparam.pt0 cparam.pt1 cparam.uv t
  { z := ccz, v := ccv, t := t, vl := L.hypot ccv.x ccv.y }

/-- The two tolerance tests of `sample_curve_recurse` on the interval
`(c0, c1)`: `hypot(...) <= max_dev` and `eps <= max_vrdev`. -/
def sample_curve_within (L : Libm F) (cparam : GwySplineSampleParams F)
    (c0 c1 : GwySplineSampleItem F) : Bool :=
  let z : PointXY F := { x := (c0.z.x + c1.z.x)/2, y := (c0.z.y + c1.z.y)/2 }
  let q := division_time L c0.vl c1.vl (1/2)
  let v : PointXY F :=
    { x := c0.v.x*(1 - q) + c1.v.x*q
      y := c0.v.y*(1 - q) + c1.v.y*q }
  let cc := sample_curve_middle L cparam c0 c1
  let eps := L.hypot (cc.v.x - v.x) (cc.v.y - v.y)
  decide (L.hypot (cc.z.x - z.x) (cc.z.y - z.y) ≤ cparam.max_dev)
    && vrdev_within eps ((c0.vl + c1.vl)/2) cparam.max_vrdev

/-- The condition of `sample_curve_recurse` under which the interval
`(c0, c1)` is emitted and not divided: nonzero depth and both tolerances. -/
def sample_curve_accept (L : Libm F) (cparam : GwySplineSampleParams F)
    (c0 c1 : GwySplineSampleItem F) : Bool :=
  decide (cparam.depth ≠ 0) && sample_curve_within L cparam c0 c1

/-- The pair `(t, l)` emitted for an accepted interval `(c0, c1)`. -/
def sample_curve_tl (L : Libm F) (cparam : GwySplineSampleParams F)
    (c0 c1 : GwySplineSampleItem F) : PointXY F :=
  let cc := sample_curve_middle L cparam c0 c1
  { x := c1.t
    y := L.hypot (c0.z.x - cc.z.x) (c0.z.y - cc.z.y)
      + L.hypot (cc.z.x - c1.z.x) (cc.z.y - c1.z.y) }

/-- Source `sample_curve_recurse`; returns `cparam` after the call (points
appended, depth restored), `none` when `fuel` nested calls do not suffice. -/
def sample_curve_recurse (L : Libm F) :
    Nat → GwySplineSampleParams F → GwySplineSampleItem F → GwySplineSampleItem F →
    Option (GwySplineSampleParams F)
  | 0, _, _, _ => none
  | fuel + 1, cparam, c0, c1 =>
    let cc := sample_curve_middle L cparam c0 c1
    if sample_curve_accept L cparam c0 c1 then
      match cparam.otype with
      | CURVE_RECURSE_OUTPUT_X_Y =>
        some { cparam with points := cparam.points ++ [c1.z] }
      | CURVE_RECURSE_OUTPUT_T_L =>
        let tl := sample_curve_tl L cparam c0 c1
        some { cparam with points := cparam.points ++ [tl] }
    else
      match sample_curve_recurse L fuel { cparam with depth := cparam.depth + 1 } c0 cc with
      | none => none
      | some cparam =>
        match sample_curve_recurse L fuel cparam cc c1 with
        | none => none
        | some cparam => some { cparam with depth := cparam.depth - 1 }

/-- The loop of `sample_curve` that turns the pairs of one segment into
cumulative ones (`for (j = start; j < points->len; j++)`). -/
def sample_curve_accumulate (i : Nat) :
    Nat → Nat → List (PointXY F) → List (PointXY F)
  | 0, _, points => points
  | rem + 1, j, points =>
    let prev := (point_at points (j - 1)).y
    let points := points.modify (fun xpt => { x := xpt.x + ((i : F) - 1), y := xpt.y + prev }) j
    sample_curve_accumulate i rem (j + 1) points

/-- The loop of `sample_curve` over the segments (`for (i = 1; i <= nseg; i++)`);
`pt` is the point the pointer `pt` points to. -/
def sample_curve_segments (L : Libm F) (fuel : Nat) (junk : Nat → ControlPoint F)
    (spline : GwySpline F) (max_dev max_vrdev : F) (otype : GwySplineRecurseOutputType) :
    Nat → Nat → PointXY F → List (PointXY F) → Option (List (PointXY F))
  | 0, _, _, points => some points
  | rem + 1, i, pt, points =>
    let start := points.length
    let ptm := pt
    let pt := if i = spline.points.length then point_at spline.points 0
      else point_at spline.points i
    let uv := g_array_index spline.control_points (i - 1) (junk (i - 1))
    let c0v : PointXY F := { x := 3*(uv.ux - ptm.x), y := 3*(uv.uy - ptm.y) }
    let c0 : GwySplineSampleItem F :=
      { t := 0, z := ptm, v := c0v, vl := L.hypot c0v.x c0v.y }
    let c1v : PointXY F := { x := 3*(pt.x - uv.vx), y := 3*(pt.y - uv.vy) }
    let c1 : GwySplineSampleItem F :=
      { t := 1, z := pt, v := c1v, vl := L.hypot c1v.x c1v.y }
    let cparam : GwySplineSampleParams F :=
      { pt0 := ptm, pt1 := pt, uv := uv, max_dev := max_dev, max_vrdev := max_vrdev
        points := points, otype := otype, depth := 0 }
    match sample_curve_recurse L fuel cparam c0 c1 with
    | none => none
    | some cparam =>
      let points := cparam.points
      let points :=
        if cparam.otype = CURVE_RECURSE_OUTPUT_T_L then
          sample_curve_accumulate i (points.length - start) start points
        else
          points
      sample_curve_segments L fuel junk spline max_dev max_vrdev otype rem (i + 1) pt points

/-- Source `sample_curve`: returns the spline (its `control_points` are
rewritten) and the array of samples; the count `*nsamples` is the length of
the array.  `fuel` bounds the nesting of `sample_curve_recurse`. -/
def sample_curve (L : Libm F) (fuel : Nat) (junk : Nat → ControlPoint F)
    (spline : GwySpline F) (max_dev max_vrdev : F) (otype : GwySplineRecurseOutputType) :
    Option (GwySpline F × List (PointXY F)) :=
  if spline.points.length = 0 then
    some (spline, [])
  else if spline.points.length = 1 then
    some (spline, [{ x := (point_at spline.points 0).x, y := (point_at spline.points 0).y }])
  else
    let nseg := spline.points.length - (if spline.closed then 0 else 1)
    let control_points := g_array_set_size spline.control_points nseg junk
    let control_points := calculate_control_points L ((spline.points.length : Int) - 1)
      spline.points spline.slackness spline.closed control_points
    let spline := { spline with control_points := control_points }
    let pt := point_at spline.points 0
    let points : List (PointXY F) :=
      match otype with
      | CURVE_RECURSE_OUTPUT_X_Y => [pt]
      | CURVE_RECURSE_OUTPUT_T_L => [{ x := 0, y := 0 }]
    match sample_curve_segments L fuel junk spline max_dev max_vrdev otype nseg 1 pt points with
    | none => none
    | some points => some (spline, points)

/-! ## Uniform sampling -/

/-- GLib `G_MAXDOUBLE`, the largest finite `double`. -/
def G_MAXDOUBLE : F := (2^53 - 1) * 2^971

/-- Target position of sample `i` in `sample_curve_uniformly`. -/
def sample_position (closed : Bool) (nsamples : Nat) (length : F) (i : Nat) : F :=
  if closed then
    (i : F)*length/(nsamples : F)
  else if nsamples > 1 then
    (i : F)*length/((nsamples : F) - 1)
  else
    (1/2)*length

/-- The scan `while (p[j].y < pos) j++`; the first argument bounds the number
of steps, a read past the end of `p` gives `none`. -/
def sample_scan (p : List (PointXY F)) (pos : F) : Nat → Nat → Option Nat
  | 0, j => if j < p.length ∧ ¬((point_at p j).y < pos) then some j else none
  | rem + 1, j =>
    if j < p.length then
      if (point_at p j).y < pos then sample_scan p pos rem (j + 1) else some j
    else
      none

/-- Segment index `(guint)floor(x)` with the correction `if (k == npts) k--`. -/
def segment_index [FloorRing F] (npts : Nat) (x : F) : Nat :=
  let k := (Int.floor x).toNat
  if k = npts then k - 1 else k

/-- The loop of `sample_curve_uniformly` for a single-point curve. -/
def sample_single_point (singlept zero : PointXY F) :
    Nat → Nat → Option (List (PointXY F)) → Option (List (PointXY F)) →
    Option (List (PointXY F)) × Option (List (PointXY F))
  | 0, _, coords, velocities => (coords, velocities)
  | rem + 1, i, coords, velocities =>
    let coords := coords.map (fun c => c.set i singlept)
    let velocities := velocities.map (fun c => c.set i zero)
    sample_single_point singlept zero rem (i + 1) coords velocities

/-- Body of the main loop of `sample_curve_uniformly` after the scan has
stopped at `j`: the segment index `k` and the curve parameter `t` at which
sample with target position `pos` is evaluated. -/
def sample_uniform_locate [FloorRing F] (L : Libm F) (junk : Nat → ControlPoint F)
    (spline : GwySpline F) (p : List (PointXY F)) (pos : F) (j : Nat) : Nat × F :=
  let npts := spline.points.length
  let k := segment_index npts (point_at p j).x
  let t0 := (point_at p (j - 1)).x
  let l0 := (point_at p (j - 1)).y
  let t1 := (point_at p j).x
  let l1 := (point_at p j).y
  let pt0 := point_at spline.points k
  let pt1 := point_at spline.points ((k + 1) % npts)
  let uv := g_array_index spline.control_points k (junk k)
  let v0 := interpolate_v pt0 pt1 uv t0
  let v0l := L.hypot v0.x v0.y
  let v1 := interpolate_v pt0 pt1 uv t1
  let v1l := L.hypot v1.x v1.y
  let q := if l0 = l1 then 1/2 else (pos - l0)/(l1 - l0)
  let q := division_time L v0l v1l q
  let t := q*t1 + (1 - q)*t0
  let k := if (Int.floor t).toNat ≠ k then segment_index npts t else k
  (k, t)

/-- Body of the main loop of `sample_curve_uniformly` after the scan has
stopped at `j`: the position and the velocity computed for the sample with
target position `pos` (the values stored to `coords[i]` and `velocities[i]`). -/
def sample_uniform_eval [FloorRing F] (L : Libm F) (junk : Nat → ControlPoint F)
    (spline : GwySpline F) (p : List (PointXY F)) (pos : F) (j : Nat) :
    PointXY F × PointXY F :=
  let npts := spline.points.length
  let kt := sample_uniform_locate L junk spline p pos j
  let k := kt.1
  let t := kt.2
  let pt0 := point_at spline.points k
  let pt1 := point_at spline.points ((k + 1) % npts)
  let uv := g_array_index spline.control_points k (junk k)
  (interpolate_z pt0 pt1 uv (t - (k : F)), interpolate_v pt0 pt1 uv (t - (k : F)))

/-- The main loop of `sample_curve_uniformly` (`for (i = 0; i < nsamples; i++)`)
over the natural sampling `p`; the first argument counts the remaining
iterations. -/
def sample_uniform_loop [FloorRing F] (L : Libm F) (junk : Nat → ControlPoint F)
    (spline : GwySpline F) (p : List (PointXY F)) (nsamples : Nat) :
    Nat → Nat → Nat → Option (List (PointXY F)) → Option (List (PointXY F)) →
    Option (Option (List (PointXY F)) × Option (List (PointXY F)))
  | 0, _, _, coords, velocities => some (coords, velocities)
  | rem + 1, i, j, coords, velocities =>
    let nseg := p.length
    let pos := sample_position spline.closed nsamples spline.length i
    match sample_scan p pos (nseg - j) j with
    | none => none
    | some j =>
      if ¬(j < nseg) then
        none
      else
        let zv := sample_uniform_eval L junk spline p pos j
        let coords := coords.map (fun c => c.set i zv.1)
        let velocities := velocities.map (fun c => c.set i zv.2)
        sample_uniform_loop L junk spline p nsamples rem (i + 1) j coords velocities

/-- Source `sample_curve_uniformly`: returns the spline and the buffers
`coords` and `velocities` after the call (`none` for a `NULL` buffer).  The
outer `none` is an abort or too little `fuel`. -/
def sample_curve_uniformly [FloorRing F] (L : Libm F) (fuel : Nat)
    (junk : Nat → ControlPoint F) (spline : GwySpline F) (nsamples : Nat)
    (coords velocities : Option (List (PointXY F))) :
    Option (GwySpline F × Option (List (PointXY F)) × Option (List (PointXY F))) :=
  let npts := spline.points.length
  if nsamples = 0 then
    some (spline, coords, velocities)
  else if npts = 0 then
    some (spline, coords, velocities)
  else if npts = 1 then
    let singlept := point_at spline.points 0
    let zero : PointXY F := { x := 0, y := 0 }
    some (spline, sample_single_point singlept zero nsamples 0 coords velocities)
  else
    match sample_curve L fuel junk spline G_MAXDOUBLE (1/100) CURVE_RECURSE_OUTPUT_T_L with
    | none => none
    | some (spline, p) =>
      let nseg := p.length
      let spline := { spline with length := (point_at p (nseg - 1)).y }
      match sample_uniform_loop L junk spline p nsamples nsamples 0 1 coords velocities with
      | none => none
      | some (coords, velocities) => some (spline, coords, velocities)

/-! ## Vocabulary of the theorems -/

/-- The library functions are exact: `hypot x y` is the non-negative root of
`x*x + y*y` and `sqrt x` the non-negative root of a non-negative `x`. -/
def Libm.Exact (L : Libm F) : Prop :=
  (∀ x y, 0 ≤ L.hypot x y ∧ L.hypot x y * L.hypot x y = x*x + y*y)
    ∧ (∀ x, 0 ≤ x → 0 ≤ L.sqrt x ∧ L.sqrt x * L.sqrt x = x)

/-- The item (position, velocity, time, speed) of the segment
`(pt0, pt1, uv)` at time `t`; `c0`, `c1` and `cc` of `sample_curve_recurse`
are of this form. -/
def segment_item (L : Libm F) (pt0 pt1 : PointXY F) (uv : ControlPoint F) (t : F) :
    GwySplineSampleItem F :=
  let z := interpolate_z pt0 pt1 uv t
  let v := interpolate_v pt0 pt1 uv t
  { z := z, v := v, t := t, vl := L.hypot v.x v.y }

/-- The interval `(ta, tb)` of a segment is emitted by `sample_curve_recurse`
with the pair `(tb, y)`: it passes both tolerance tests and `y` is the length
emitted for it. -/
def Leaf (L : Libm F) (cparam : GwySplineSampleParams F) (ta tb y : F) : Prop :=
  ta < tb
    ∧ sample_curve_within L cparam (segment_item L cparam.pt0 cparam.pt1 cparam.uv ta)
        (segment_item L cparam.pt0 cparam.pt1 cparam.uv tb) = true
    ∧ y = (sample_curve_tl L cparam (segment_item L cparam.pt0 cparam.pt1 cparam.uv ta)
        (segment_item L cparam.pt0 cparam.pt1 cparam.uv tb)).y

/-- The list of `(t, l)` pairs cuts the interval `(ta, tb)` into emitted
intervals, each pair carrying the end of its interval. -/
inductive Tiling (R : F → F → F → Prop) : F → F → List (PointXY F) → Prop
  | single (ta tb y : F) : R ta tb y → Tiling R ta tb [⟨tb, y⟩]
  | cons (ta tm tb y : F) (l : List (PointXY F)) :
      R ta tm y → Tiling R tm tb l → Tiling R ta tb (⟨tm, y⟩ :: l)

/-- What `sample_curve_accumulate` makes of the pairs of segment `i`
appended after a pair with cumulative length `y0`. -/
def accumulated (i : Nat) : F → List (PointXY F) → List (PointXY F)
  | _, [] => []
  | y0, a :: l => ⟨a.x + ((i : F) - 1), a.y + y0⟩ :: accumulated i (a.y + y0) l

/-- Number of segments of a curve with `npts >= 1` points. -/
def segment_count (npts : Nat) (closed : Bool) : Nat :=
  npts - (if closed then 0 else 1)

/-- Parameters of `sample_curve_recurse` for segment `k` of the spline (with
the control points stored in the spline). -/
def segment_params (junk : Nat → ControlPoint F) (spline : GwySpline F)
    (max_dev max_vrdev : F) (k : Nat) : GwySplineSampleParams F :=
  { pt0 := point_at spline.points k
    pt1 := point_at spline.points ((k + 1) % spline.points.length)
    uv := g_array_index spline.control_points k (junk k)
    max_dev := max_dev
    max_vrdev := max_vrdev
    points := []
    otype := CURVE_RECURSE_OUTPUT_T_L
    depth := 0 }

/-- Two consecutive pairs `a`, `b` of the natural sampling: they bound an
emitted interval `(ta, tb)` of some segment `k`, their `x` are the times
`k + ta` and `k + tb`, and the length of the interval is the increase of
`y`. -/
def NatStep (L : Libm F) (junk : Nat → ControlPoint F) (spline : GwySpline F)
    (max_dev max_vrdev : F) (a b : PointXY F) : Prop :=
  ∃ (k : Nat) (ta tb : F),
    k < segment_count spline.points.length spline.closed ∧ 0 ≤ ta ∧ tb ≤ 1
      ∧ a.x = (k : F) + ta ∧ b.x = (k : F) + tb
      ∧ Leaf L (segment_params junk spline max_dev max_vrdev k) ta tb (b.y - a.y)

/-- The list `p` is a natural sampling of the spline in `(t, l)` mode: it
starts with `(0, 0)`, consecutive pairs bound emitted intervals, it ends at
the time `nseg` and has at least two pairs for every segment. -/
def NaturalSampling (L : Libm F) (junk : Nat → ControlPoint F) (spline : GwySpline F)
    (max_dev max_vrdev : F) (p : List (PointXY F)) : Prop :=
  ∃ (new init : List (PointXY F)) (z : PointXY F),
    p = ⟨0, 0⟩ :: new
      ∧ List.Chain (NatStep L junk spline max_dev max_vrdev) ⟨0, 0⟩ new
      ∧ p = init ++ [z]
      ∧ z.x = (segment_count spline.points.length spline.closed : F)
      ∧ 2*segment_count spline.points.length spline.closed ≤ new.length

/-- Third difference of the control polygon `pt0, u, v, pt1` of a segment: the
coefficient of `t^3` in `interpolate_z` and a third of that of `t^2` in
`interpolate_v`. -/
def segment_w (pt0 pt1 : PointXY F) (uv : ControlPoint F) : PointXY F :=
  { x := (uv.ux - pt0.x) - 2*(uv.vx - uv.ux) + (pt1.x - uv.vx)
    y := (uv.uy - pt0.y) - 2*(uv.vy - uv.uy) + (pt1.y - uv.vy) }

/-- Derivative of `interpolate_v` with respect to the time `t` (the
acceleration on the segment). -/
def interpolate_a (pt0 pt1 : PointXY F) (uv : ControlPoint F) (t : F) : PointXY F :=
  { x := 6*((uv.vx - uv.ux) - (uv.ux - pt0.x) + t*(segment_w pt0 pt1 uv).x)
    y := 6*((uv.vy - uv.uy) - (uv.uy - pt0.y) + t*(segment_w pt0 pt1 uv).y) }

/-- Blend ratio `q` that the general path of `calculate_control_points`
computes at the knot `cur` with the neighbours `prev` and `next`. -/
def knot_ratio (L : Libm F) (prev cur next : PointXY F) : F :=
  let lenp := L.hypot (prev.x - cur.x) (prev.y - cur.y)
  let lenn := L.hypot (cur.x - next.x) (cur.y - next.y)
  if lenp + lenn = 0 then 1/2 else lenn/(lenp + lenn)

/-- What the general path of `calculate_control_points` does at the knot
`cur` to the control points of the segment before the knot: it sets `v`. -/
def knot_cv_prev (L : Libm F) (slackness : F) (prev cur next : PointXY F)
    (uv : ControlPoint F) : ControlPoint F :=
  interpolate_cv_prev cur
    { x := (prev.x + cur.x)/2, y := (prev.y + cur.y)/2 }
    { x := (cur.x + next.x)/2, y := (cur.y + next.y)/2 }
    (slackness*(1 - knot_ratio L prev cur next)) uv

/-- What the general path of `calculate_control_points` does at the knot
`cur` to the control points of the segment after the knot: it sets `u`. -/
def knot_cu_next (L : Libm F) (slackness : F) (prev cur next : PointXY F)
    (uv : ControlPoint F) : ControlPoint F :=
  interpolate_cu_next cur
    { x := (prev.x + cur.x)/2, y := (prev.y + cur.y)/2 }
    { x := (cur.x + next.x)/2, y := (cur.y + next.y)/2 }
    (slackness*knot_ratio L prev cur next) uv

/-- The control point `u` of the segment comes from an inner knot: it is at
most half the chord away from the start of the segment. -/
def SegmentInnerU (L : Libm F) (pt0 pt1 : PointXY F) (uv : ControlPoint F) : Prop :=
  2*L.hypot (uv.ux - pt0.x) (uv.uy - pt0.y) ≤ L.hypot (pt1.x - pt0.x) (pt1.y - pt0.y)

/-- The control point `v` of the segment comes from an inner knot: it is at
most half the chord away from the end of the segment. -/
def SegmentInnerV (L : Libm F) (pt0 pt1 : PointXY F) (uv : ControlPoint F) : Prop :=
  2*L.hypot (pt1.x - uv.vx) (pt1.y - uv.vy) ≤ L.hypot (pt1.x - pt0.x) (pt1.y - pt0.y)

/-- The control point `u` is the first `u` of an open curve:
`u = ((2 - slackness)*pt0 + slackness*v)/2`. -/
def SegmentFirstU (slackness : F) (pt0 : PointXY F) (uv : ControlPoint F) : Prop :=
  2*(uv.ux - pt0.x) = slackness*(uv.vx - pt0.x)
    ∧ 2*(uv.uy - pt0.y) = slackness*(uv.vy - pt0.y)

/-- The control point `v` is the last `v` of an open curve:
`v = ((2 - slackness)*pt1 + slackness*u)/2`. -/
def SegmentLastV (slackness : F) (pt1 : PointXY F) (uv : ControlPoint F) : Prop :=
  2*(pt1.x - uv.vx) = slackness*(pt1.x - uv.ux)
    ∧ 2*(pt1.y - uv.vy) = slackness*(pt1.y - uv.uy)

/-- The three kinds of segments the general path of
`calculate_control_points` makes: between inner knots, first of an open
curve, last of an open curve. -/
def SegmentShape (L : Libm F) (slackness : F) (pt0 pt1 : PointXY F) (uv : ControlPoint F) :
    Prop :=
  (SegmentInnerU L pt0 pt1 uv ∧ SegmentInnerV L pt0 pt1 uv)
    ∨ (SegmentFirstU slackness pt0 uv ∧ SegmentInnerV L pt0 pt1 uv)
    ∨ (SegmentInnerU L pt0 pt1 uv ∧ SegmentLastV slackness pt1 uv)

/-- The point `z` lies on the straight segment from knot `k` to the next knot
(the first knot after the last one) for some segment `k` of the curve. -/
def OnPolyline (points : List (PointXY F)) (closed : Bool) (z : PointXY F) : Prop :=
  ∃ (k : Nat) (tau : F), k < segment_count points.length closed ∧ 0 ≤ tau ∧ tau ≤ 1
    ∧ z.x = (1 - tau)*(point_at points k).x
        + tau*(point_at points ((k + 1) % points.length)).x
    ∧ z.y = (1 - tau)*(point_at points k).y
        + tau*(point_at points ((k + 1) % points.length)).y

end Model

end Gwy

namespace Gwy

open GwySplineRecurseOutputType

section Vocabulary

variable {F : Type} [LinearOrderedField F]

/-! ## Vocabulary of the theorems on lengths and divisors -/

/-- The velocity deviation `eps` of `sample_curve_recurse` as computed by
`eps = hypot(cc.v.x - v.x, cc.v.y - v.y)`, before `if (eps) eps /= ...`. -/
def sample_curve_eps (L : Libm F) (cparam : GwySplineSampleParams F)
    (c0 c1 : GwySplineSampleItem F) : F :=
  let q := division_time L c0.vl c1.vl (1/2)
  let v : PointXY F :=
    { x := c0.v.x*(1 - q) + c1.v.x*q
      y := c0.v.y*(1 - q) + c1.v.y*q }
  let cc := sample_curve_middle L cparam c0 c1
  L.hypot (cc.v.x - v.x) (cc.v.y - v.y)

/-- Sum of the Euclidean distances between consecutive knots, the distance
from the last knot to the first included when the curve is closed. -/
def polyline_length (L : Libm F) (points : List (PointXY F)) (closed : Bool) : F :=
  ((List.range (segment_count points.length closed)).map (fun k =>
    L.hypot ((point_at points ((k + 1) % points.length)).x - (point_at points k).x)
      ((point_at points ((k + 1) % points.length)).y - (point_at points k).y))).sum

end Vocabulary

end Gwy

namespace Gwy

open GwySplineRecurseOutputType

section Vocabulary2

variable {F : Type} [LinearOrderedField F]

/-! ## Vocabulary of the theorems on the brackets of uniform sampling -/

/-- The two speeds `v0l` and `v1l` that the body of the main loop of
`sample_curve_uniformly` passes to `division_time` for the bracket that ends
at index `j` of the natural sampling `p`. -/
def sample_uniform_speeds [FloorRing F] (L : Libm F) (junk : Nat → ControlPoint F)
    (spline : GwySpline F) (p : List (PointXY F)) (j : Nat) : F × F :=
  let npts := spline.points.length
  let k := segment_index npts (point_at p j).x
  let t0 := (point_at p (j - 1)).x
  let t1 := (point_at p j).x
  let pt0 := point_at spline.points k
  let pt1 := point_at spline.points ((k + 1) % npts)
  let uv := g_array_index spline.control_points k (junk k)
  let v0 := interpolate_v pt0 pt1 uv t0
  let v0l := L.hypot v0.x v0.y
  let v1 := interpolate_v pt0 pt1 uv t1
  let v1l := L.hypot v1.x v1.y
  (v0l, v1l)

end Vocabulary2

end Gwy

namespace Gwy

open GwySplineRecurseOutputType

section Rounded

variable {F : Type} [LinearOrderedField F]

/-! ## Double precision in the targets of `sample_curve_uniformly` -/

/-- Target position of sample `i` in `sample_curve_uniformly` with the result
of every floating point operation rounded by `fl`: the product
`i*spline->length`, the difference `nsamples - 1.0` and the quotient.  The
conversions of `i` and `nsamples` to `double` are exact. -/
def sample_position_rounded (fl : F → F) (closed : Bool) (nsamples : Nat) (length : F)
    (i : Nat) : F :=
  if closed then
    fl (fl ((i : F)*length)/(nsamples : F))
  else if nsamples > 1 then
    fl (fl ((i : F)*length)/fl ((nsamples : F) - 1))
  else
    fl ((1/2)*length)

/-- The main loop of `sample_curve_uniformly` with the target position of
sample `i` and the body that computes the two values of a sample from the
target and the bracket as parameters; the first argument counts the remaining
iterations. -/
def sample_uniform_loop_with (position : Nat → F)
    (eval : F → Nat → PointXY F × PointXY F) (p : List (PointXY F)) :
    Nat → Nat → Nat → Option (List (PointXY F)) → Option (List (PointXY F)) →
    Option (Option (List (PointXY F)) × Option (List (PointXY F)))
  | 0, _, _, coords, velocities => some (coords, velocities)
  | rem + 1, i, j, coords, velocities =>
    let nseg := p.length
    let pos := position i
    match sample_scan p pos (nseg - j) j with
    | none => none
    | some j =>
      if ¬(j < nseg) then
        none
      else
        let zv := eval pos j
        let coords := coords.map (fun c => c.set i zv.1)
        let velocities := velocities.map (fun c => c.set i zv.2)
        sample_uniform_loop_with position eval p rem (i + 1) j coords velocities

end Rounded

/-- Rounding of a rational number to the nearest IEEE 754 binary64 number,
ties to the even significand (the default rounding of C `double`
arithmetic); the exponent range is not bounded, so overflow and subnormal
numbers are not modelled. -/
def round_double (x : ℚ) : ℚ :=
  if x = 0 then
    0
  else
    let e : ℤ := Int.log 2 |x| - 52
    let s : ℚ := |x|/(2 : ℚ)^e
    let f : ℤ := ⌊s⌋
    let r : ℚ := s - (f : ℚ)
    let m : ℤ :=
      if r < 1/2 then f
      else if 1/2 < r then f + 1
      else if f % 2 = 0 then f
      else f + 1
    (if x < 0 then -1 else 1)*(m : ℚ)*(2 : ℚ)^e

end Gwy

namespace Gwy

open GwySplineRecurseOutputType

section Setters

variable {F : Type} [LinearOrderedField F]

/-! ## Setters and cache invalidation -/

/-- The two outcomes of `gwy_spline_set_points`. -/
theorem set_points_cases (s : GwySpline F) (xy : List (PointXY F)) (n : Nat)
    (same_bits : Bool) :
    (s.points.length = n ∧ xy.take n = s.points ∧ (n = 0 ∨ same_bits = true)
        ∧ gwy_spline_set_points s xy n same_bits = s)
      ∨ gwy_spline_set_points s xy n same_bits
          = gwy_spline_invalidate { s with points := xy.take n } := by
  by_cases h : s.points.length = n
      ∧ (xy.take n = s.points.take n ∧ (n = 0 ∨ same_bits = true))
  · left
    refine ⟨h.1, ?_, h.2.2, by simp only [gwy_spline_set_points, if_pos h]⟩
    rw [h.2.1, List.take_of_length_le (le_of_eq h.1)]
  · right
    simp only [gwy_spline_set_points, if_neg h, List.nil_append]

/-- The two outcomes of `gwy_spline_set_slackness`. -/
theorem set_slackness_cases (s : GwySpline F) (slackness : F) :
    gwy_spline_set_slackness s slackness = s
      ∨ (0 ≤ slackness ∧ slackness ≤ 1 ∧ gwy_spline_set_slackness s slackness
          = gwy_spline_invalidate { s with slackness := slackness }) := by
  unfold gwy_spline_set_slackness
  split
  · exact Or.inl rfl
  · split
    · exact Or.inl rfl
    · next h2 =>
      simp only [not_not, ge_iff_le] at h2
      exact Or.inr ⟨h2.1, h2.2, rfl⟩

/-- The two outcomes of `gwy_spline_set_closed`. -/
theorem set_closed_cases (s : GwySpline F) (closed : Bool) :
    gwy_spline_set_closed s closed = s
      ∨ gwy_spline_set_closed s closed
          = gwy_spline_invalidate { s with closed := closed } := by
  unfold gwy_spline_set_closed
  split
  · exact Or.inl rfl
  · right; simp

/-- C1 as the code has it: setting the points to an array that is
byte-identical to the current points (equal in length and in every
coordinate, with the same bit patterns), the slackness to the current
slackness, or the closed flag to the current flag, returns the state
unchanged (all fields, both cache-validity flags included). -/
theorem setters_same_value_noop (s : GwySpline F) (xy : List (PointXY F)) (n : Nat)
    (hlen : xy.length = n) (hxy : xy = s.points) :
    gwy_spline_set_points s xy n true = s
      ∧ gwy_spline_set_slackness s s.slackness = s
      ∧ gwy_spline_set_closed s s.closed = s := by
  subst hxy
  refine ⟨?_, ?_, ?_⟩
  · simp [gwy_spline_set_points, hlen]
  · simp [gwy_spline_set_slackness]
  · simp [gwy_spline_set_closed]

/-- Witness of C1 as the code has it, on a state whose two caches are valid. -/
theorem setters_same_value_noop_witness :
    let s : GwySpline ℚ :=
      { points := [⟨0, 0⟩, ⟨3, 4⟩], slackness := 1/2, closed := true,
        natural_sampling_valid := true, control_points := [], natural_points := [],
        length := 10, fixed_sampling_valid := true, nfixed := 2,
        fixed_samples := [⟨0, 0⟩, ⟨3, 4⟩] }
    gwy_spline_set_points s [⟨0, 0⟩, ⟨3, 4⟩] 2 true = s
      ∧ gwy_spline_set_slackness s s.slackness = s
      ∧ gwy_spline_set_closed s s.closed = s :=
  setters_same_value_noop _ [⟨0, 0⟩, ⟨3, 4⟩] 2 rfl rfl

/-- C1 as stated fails: the state has the points `(0.0, 0)`, `(3, 4)` and two
valid caches, the new array is `(-0.0, 0)`, `(3, 4)`.  It is equal to the
current points in length and in every coordinate, but not in its bytes
(`same_bits` is false), so `gwy_spline_set_points` stores it and clears both
flags. -/
theorem set_points_negative_zero :
    ([⟨0, 0⟩, ⟨3, 4⟩] : List (PointXY ℚ)).length = 2
      ∧ ([⟨0, 0⟩, ⟨3, 4⟩] : List (PointXY ℚ))
        = ({ points := [⟨0, 0⟩, ⟨3, 4⟩], slackness := 1/2, closed := true,
             natural_sampling_valid := true, control_points := [], natural_points := [],
             length := 10, fixed_sampling_valid := true, nfixed := 2,
             fixed_samples := [⟨0, 0⟩, ⟨3, 4⟩] } : GwySpline ℚ).points
      ∧ gwy_spline_set_points
          ({ points := [⟨0, 0⟩, ⟨3, 4⟩], slackness := 1/2, closed := true,
             natural_sampling_valid := true, control_points := [], natural_points := [],
             length := 10, fixed_sampling_valid := true, nfixed := 2,
             fixed_samples := [⟨0, 0⟩, ⟨3, 4⟩] } : GwySpline ℚ) [⟨0, 0⟩, ⟨3, 4⟩] 2 false
        = { points := [⟨0, 0⟩, ⟨3, 4⟩], slackness := 1/2, closed := true,
            natural_sampling_valid := false, control_points := [], natural_points := [],
            length := 10, fixed_sampling_valid := false, nfixed := 2,
            fixed_samples := [⟨0, 0⟩, ⟨3, 4⟩] }
      ∧ gwy_spline_set_points
          ({ points := [⟨0, 0⟩, ⟨3, 4⟩], slackness := 1/2, closed := true,
             natural_sampling_valid := true, control_points := [], natural_points := [],
             length := 10, fixed_sampling_valid := true, nfixed := 2,
             fixed_samples := [⟨0, 0⟩, ⟨3, 4⟩] } : GwySpline ℚ) [⟨0, 0⟩, ⟨3, 4⟩] 2 false
        ≠ { points := [⟨0, 0⟩, ⟨3, 4⟩], slackness := 1/2, closed := true,
            natural_sampling_valid := true, control_points := [], natural_points := [],
            length := 10, fixed_sampling_valid := true, nfixed := 2,
            fixed_samples := [⟨0, 0⟩, ⟨3, 4⟩] } := by
  have h : gwy_spline_set_points
      ({ points := [⟨0, 0⟩, ⟨3, 4⟩], slackness := 1/2, closed := true,
         natural_sampling_valid := true, control_points := [], natural_points := [],
         length := 10, fixed_sampling_valid := true, nfixed := 2,
         fixed_samples := [⟨0, 0⟩, ⟨3, 4⟩] } : GwySpline ℚ) [⟨0, 0⟩, ⟨3, 4⟩] 2 false
      = { points := [⟨0, 0⟩, ⟨3, 4⟩], slackness := 1/2, closed := true,
          natural_sampling_valid := false, control_points := [], natural_points := [],
          length := 10, fixed_sampling_valid := false, nfixed := 2,
          fixed_samples := [⟨0, 0⟩, ⟨3, 4⟩] } := by
    simp [gwy_spline_set_points, gwy_spline_invalidate]
  refine ⟨rfl, rfl, h, ?_⟩
  rw [h]
  intro hc
  have := congrArg GwySpline.natural_sampling_valid hc
  simp at this

/-- Either outcome of a setter: the state as it was, or both flags cleared. -/
theorem same_or_invalidated_of_cases (s s2 : GwySpline F)
    (h : s2 = s ∨ (s2.natural_sampling_valid = false ∧ s2.fixed_sampling_valid = false)) :
    (s2.points ≠ s.points ∨ s2.slackness ≠ s.slackness ∨ s2.closed ≠ s.closed
        ∨ s2.natural_sampling_valid ≠ s.natural_sampling_valid
        ∨ s2.fixed_sampling_valid ≠ s.fixed_sampling_valid) →
      s2.natural_sampling_valid = false ∧ s2.fixed_sampling_valid = false := by
  intro hch
  rcases h with h | h
  · subst h; simp at hch
  · exact h

/-- C2: each setter either returns the state as it was or returns a state with
both cache flags cleared.  So a call that changes the points, the slackness or
the closed flag clears both flags, and no call changes one flag without
clearing both. -/
theorem setters_invalidate_both (s : GwySpline F) (xy : List (PointXY F)) (n : Nat)
    (same_bits : Bool) (slackness : F) (closed : Bool) :
    (gwy_spline_set_points s xy n same_bits = s
        ∨ ((gwy_spline_set_points s xy n same_bits).natural_sampling_valid = false
          ∧ (gwy_spline_set_points s xy n same_bits).fixed_sampling_valid = false))
      ∧ (gwy_spline_set_slackness s slackness = s
        ∨ ((gwy_spline_set_slackness s slackness).natural_sampling_valid = false
          ∧ (gwy_spline_set_slackness s slackness).fixed_sampling_valid = false))
      ∧ (gwy_spline_set_closed s closed = s
        ∨ ((gwy_spline_set_closed s closed).natural_sampling_valid = false
          ∧ (gwy_spline_set_closed s closed).fixed_sampling_valid = false))
      ∧ ∀ s2 : GwySpline F,
          ¬(s2 = gwy_spline_set_points s xy n same_bits
              ∨ s2 = gwy_spline_set_slackness s slackness
              ∨ s2 = gwy_spline_set_closed s closed)
          ∨ ¬(s2.points ≠ s.points ∨ s2.slackness ≠ s.slackness ∨ s2.closed ≠ s.closed
              ∨ s2.natural_sampling_valid ≠ s.natural_sampling_valid
              ∨ s2.fixed_sampling_valid ≠ s.fixed_sampling_valid)
          ∨ (s2.natural_sampling_valid = false ∧ s2.fixed_sampling_valid = false) := by
  have h1 : gwy_spline_set_points s xy n same_bits = s
      ∨ ((gwy_spline_set_points s xy n same_bits).natural_sampling_valid = false
        ∧ (gwy_spline_set_points s xy n same_bits).fixed_sampling_valid = false) := by
    rcases set_points_cases s xy n same_bits with h | h
    · exact Or.inl h.2.2.2
    · rw [h]; exact Or.inr ⟨rfl, rfl⟩
  have h2 : gwy_spline_set_slackness s slackness = s
      ∨ ((gwy_spline_set_slackness s slackness).natural_sampling_valid = false
        ∧ (gwy_spline_set_slackness s slackness).fixed_sampling_valid = false) := by
    rcases set_slackness_cases s slackness with h | h
    · exact Or.inl h
    · rw [h.2.2]; exact Or.inr ⟨rfl, rfl⟩
  have h3 : gwy_spline_set_closed s closed = s
      ∨ ((gwy_spline_set_closed s closed).natural_sampling_valid = false
        ∧ (gwy_spline_set_closed s closed).fixed_sampling_valid = false) := by
    rcases set_closed_cases s closed with h | h
    · exact Or.inl h
    · rw [h]; exact Or.inr ⟨rfl, rfl⟩
  refine ⟨h1, h2, h3, fun s2 => ?_⟩
  by_cases hs : s2 = gwy_spline_set_points s xy n same_bits
      ∨ s2 = gwy_spline_set_slackness s slackness ∨ s2 = gwy_spline_set_closed s closed
  · by_cases hch : s2.points ≠ s.points ∨ s2.slackness ≠ s.slackness ∨ s2.closed ≠ s.closed
        ∨ s2.natural_sampling_valid ≠ s.natural_sampling_valid
        ∨ s2.fixed_sampling_valid ≠ s.fixed_sampling_valid
    · right; right
      refine same_or_invalidated_of_cases s s2 ?_ hch
      rcases hs with h | h | h <;> subst h
      · exact h1
      · exact h2
      · exact h3
    · exact Or.inr (Or.inl hch)
  · exact Or.inl hs

/-- C3: a slackness outside `[0, 1]` is rejected: the state, and so the
slackness read back, the points, the closed flag and both cache flags, is
unchanged. -/
theorem set_slackness_out_of_range (s : GwySpline F) (slackness : F)
    (h : ¬(0 ≤ slackness ∧ slackness ≤ 1)) :
    gwy_spline_set_slackness s slackness = s
      ∧ gwy_spline_get_slackness (gwy_spline_set_slackness s slackness)
          = gwy_spline_get_slackness s := by
  have h1 : gwy_spline_set_slackness s slackness = s := by
    rcases set_slackness_cases s slackness with h2 | h2
    · exact h2
    · exact absurd ⟨h2.1, h2.2.1⟩ h
  exact ⟨h1, by rw [h1]⟩

/-- Witness of C3: slackness `3/2` on a state with valid caches. -/
theorem set_slackness_out_of_range_witness :
    let s : GwySpline ℚ :=
      { points := [⟨0, 0⟩, ⟨3, 4⟩], slackness := 1/2, closed := true,
        natural_sampling_valid := true, control_points := [], natural_points := [],
        length := 10, fixed_sampling_valid := true, nfixed := 2,
        fixed_samples := [⟨0, 0⟩, ⟨3, 4⟩] }
    gwy_spline_set_slackness s (3/2) = s
      ∧ gwy_spline_get_slackness (gwy_spline_set_slackness s (3/2))
          = gwy_spline_get_slackness s :=
  set_slackness_out_of_range _ (3/2) (by norm_num)

/-- C4: after `gwy_spline_set_points(spline, xy, n)`, whatever the outcome of
the byte comparison, the getters return `n` and the points of `xy` in order,
slackness and closed flag are unchanged; `n = 0` empties the curve;
`gwy_spline_from_points` gives the same points with slackness 1 on an open
curve. -/
theorem set_points_stores (s : GwySpline F) (xy : List (PointXY F)) (n : Nat)
    (same_bits : Bool) (hlen : xy.length = n) :
    gwy_spline_get_npoints (gwy_spline_set_points s xy n same_bits) = n
      ∧ gwy_spline_get_points (gwy_spline_set_points s xy n same_bits) = xy
      ∧ gwy_spline_get_slackness (gwy_spline_set_points s xy n same_bits)
          = gwy_spline_get_slackness s
      ∧ gwy_spline_get_closed (gwy_spline_set_points s xy n same_bits)
          = gwy_spline_get_closed s
      ∧ gwy_spline_get_npoints (gwy_spline_set_points s xy 0 same_bits) = 0
      ∧ gwy_spline_get_points (gwy_spline_set_points s xy 0 same_bits) = []
      ∧ gwy_spline_get_npoints (gwy_spline_from_points xy n) = n
      ∧ gwy_spline_get_points (gwy_spline_from_points xy n) = xy
      ∧ gwy_spline_get_slackness (gwy_spline_from_points xy n) = 1
      ∧ gwy_spline_get_closed (gwy_spline_from_points xy n) = false := by
  have hp : ∀ (s : GwySpline F) (m : Nat) (b : Bool), m ≤ xy.length →
      (gwy_spline_set_points s xy m b).points = xy.take m
        ∧ (gwy_spline_set_points s xy m b).slackness = s.slackness
        ∧ (gwy_spline_set_points s xy m b).closed = s.closed := by
    intro s m b _
    rcases set_points_cases s xy m b with h | h
    · rw [h.2.2.2]; exact ⟨h.2.1.symm, rfl, rfl⟩
    · rw [h]; exact ⟨rfl, rfl, rfl⟩
  obtain ⟨h1, h2, h3⟩ := hp s n same_bits (le_of_eq hlen.symm)
  obtain ⟨h4, -, -⟩ := hp s 0 same_bits (Nat.zero_le _)
  obtain ⟨h5, h6, h7⟩ := hp (gwy_spline_new : GwySpline F) n true (le_of_eq hlen.symm)
  have ht : xy.take n = xy := List.take_of_length_le (le_of_eq hlen)
  simp only [gwy_spline_get_npoints, gwy_spline_get_points, gwy_spline_get_slackness,
    gwy_spline_get_closed, gwy_spline_from_points]
  rw [h1, h2, h3, h4, h5, h6, h7, ht]
  simp [hlen, gwy_spline_new]

/-- Witness of C4. -/
theorem set_points_stores_witness :
    gwy_spline_get_npoints (gwy_spline_set_points (gwy_spline_new : GwySpline ℚ)
        [⟨1, 2⟩, ⟨3, 4⟩, ⟨5, 6⟩] 3 false) = 3
      ∧ gwy_spline_get_points (gwy_spline_set_points (gwy_spline_new : GwySpline ℚ)
        [⟨1, 2⟩, ⟨3, 4⟩, ⟨5, 6⟩] 3 false) = [⟨1, 2⟩, ⟨3, 4⟩, ⟨5, 6⟩] :=
  have h := set_points_stores (gwy_spline_new : GwySpline ℚ) [⟨1, 2⟩, ⟨3, 4⟩, ⟨5, 6⟩] 3
    false rfl
  ⟨h.1, h.2.1⟩

/-- C5: in every state reachable from `gwy_spline_new` by the three setters
the stored slackness lies in `[0, 1]`. -/
theorem reachable_slackness_in_unit_interval (s : GwySpline F) (h : Reachable s) :
    0 ≤ s.slackness ∧ s.slackness ≤ 1 := by
  induction h with
  | new => simp [gwy_spline_new]
  | set_points s xy n b _ ih =>
    rcases set_points_cases s xy n b with h | h
    · rw [h.2.2.2]; exact ih
    · rw [h]; exact ih
  | set_slackness s x _ ih =>
    rcases set_slackness_cases s x with h | h
    · rw [h]; exact ih
    · rw [h.2.2]; exact ⟨h.1, h.2.1⟩
  | set_closed s c _ ih =>
    rcases set_closed_cases s c with h | h
    · rw [h]; exact ih
    · rw [h]; exact ih

/-- Witness of C5: the state after three setter calls, one of them rejected. -/
theorem reachable_slackness_in_unit_interval_witness :
    0 ≤ (gwy_spline_set_slackness (gwy_spline_set_slackness (gwy_spline_set_closed
          (gwy_spline_new : GwySpline ℚ) true) (1/4)) 7).slackness
      ∧ (gwy_spline_set_slackness (gwy_spline_set_slackness (gwy_spline_set_closed
          (gwy_spline_new : GwySpline ℚ) true) (1/4)) 7).slackness ≤ 1 :=
  reachable_slackness_in_unit_interval _
    (Reachable.set_slackness _ 7 (Reachable.set_slackness _ (1/4)
      (Reachable.set_closed _ true Reachable.new)))

end Setters

end Gwy

namespace Gwy

open GwySplineRecurseOutputType

section Degenerate

variable {F : Type} [LinearOrderedField F]

/-! ## Degenerate curves and sample positions -/

/-- The single-point loop started at index `i` overwrites the cells
`i, ..., i + rem - 1` of a buffer and keeps the others. -/
theorem sample_single_point_spec (P Z : PointXY F) (rem : Nat) :
    ∀ (i : Nat) (coords velocities : Option (List (PointXY F))),
      ∃ f g : List (PointXY F) → List (PointXY F),
        sample_single_point P Z rem i coords velocities = (coords.map f, velocities.map g)
        ∧ (∀ b : List (PointXY F), (f b).length = b.length ∧ (g b).length = b.length)
        ∧ (∀ (b : List (PointXY F)) k, i ≤ k → k < i + rem → k < b.length →
            (f b)[k]? = some P ∧ (g b)[k]? = some Z)
        ∧ (∀ (b : List (PointXY F)) k, ¬(i ≤ k ∧ k < i + rem) → (f b)[k]? = b[k]? ∧ (g b)[k]? = b[k]?) := by
  induction rem with
  | zero =>
    intro i coords velocities
    refine ⟨id, id, by simp [sample_single_point], by simp, ?_, by simp⟩
    intro b k h1 h2 _
    omega
  | succ rem ih =>
    intro i coords velocities
    obtain ⟨f, g, hfg, hlen, hin, hout⟩ :=
      ih (i + 1) (coords.map (fun b => b.set i P)) (velocities.map (fun b => b.set i Z))
    refine ⟨fun b => f (b.set i P), fun b => g (b.set i Z), ?_, ?_, ?_, ?_⟩
    · simp only [sample_single_point]
      rw [hfg]
      simp [Option.map_map, Function.comp_def]
    · intro b
      simp [hlen]
    · intro b k h1 h2 h3
      by_cases hk : k = i
      · subst hk
        have h4 := hout (b.set k P) k (by omega)
        have h5 := hout (b.set k Z) k (by omega)
        simp only []
        rw [h4.1, h5.2]
        simp [h3]
      · have h4 := hin (b.set i P) k (by omega) (by omega) (by simpa using h3)
        have h5 := hin (b.set i Z) k (by omega) (by omega) (by simpa using h3)
        exact ⟨h4.1, h5.2⟩
    · intro b k hk
      have hki : i ≠ k := by omega
      have h4 := hout (b.set i P) k (by omega)
      have h5 := hout (b.set i Z) k (by omega)
      simp only []
      rw [h4.1, h5.2]
      simp [List.getElem?_set_ne hki]

/-- C8: on a spline with exactly one point `P` (any closed flag, any
slackness) uniform sampling with `n >= 1` returns normally, leaves the spline
as it is and writes `coords[i] = P` and `velocities[i] = (0, 0)` for every
`i < n`; cells from `n` on are not touched and a `NULL` buffer stays `NULL`. -/
theorem single_point_sampling [FloorRing F] (L : Libm F) (fuel : Nat)
    (junk : Nat → ControlPoint F) (s : GwySpline F) (P : PointXY F) (n : Nat)
    (coords velocities : Option (List (PointXY F)))
    (hP : s.points = [P]) (hn : 1 ≤ n) :
    ∃ f g : List (PointXY F) → List (PointXY F),
      sample_curve_uniformly L fuel junk s n coords velocities
          = some (s, coords.map f, velocities.map g)
        ∧ (∀ b : List (PointXY F), (f b).length = b.length ∧ (g b).length = b.length)
        ∧ (∀ (b : List (PointXY F)) i, i < n → i < b.length → (f b)[i]? = some P ∧ (g b)[i]? = some ⟨0, 0⟩)
        ∧ (∀ (b : List (PointXY F)) i, n ≤ i → (f b)[i]? = b[i]? ∧ (g b)[i]? = b[i]?) := by
  obtain ⟨f, g, hfg, hlen, hin, hout⟩ :=
    sample_single_point_spec P (⟨0, 0⟩ : PointXY F) n 0 coords velocities
  refine ⟨f, g, ?_, hlen, ?_, ?_⟩
  · have h0 : n ≠ 0 := by omega
    simp [sample_curve_uniformly, hP, h0, point_at, g_array_index, hfg]
  · intro b i h1 h2
    exact hin b i (Nat.zero_le _) (by omega) h2
  · intro b i h1
    exact hout b i (by omega)

/-- Witness of C8: the point `(5, 5)` sampled four times. -/
theorem single_point_sampling_witness :
    ∃ f g : List (PointXY ℚ) → List (PointXY ℚ),
      sample_curve_uniformly (⟨fun x y => |x| + |y|, fun x => x⟩ : Libm ℚ) 0
          (fun _ => ⟨0, 0, 0, 0⟩)
          (gwy_spline_from_points [⟨5, 5⟩] 1) 4
          (some [⟨1, 2⟩, ⟨3, 4⟩, ⟨5, 6⟩, ⟨7, 8⟩]) (some [⟨1, 2⟩, ⟨3, 4⟩, ⟨5, 6⟩, ⟨7, 8⟩])
        = some (gwy_spline_from_points [⟨5, 5⟩] 1,
            (some [⟨1, 2⟩, ⟨3, 4⟩, ⟨5, 6⟩, ⟨7, 8⟩]).map f,
            (some [⟨1, 2⟩, ⟨3, 4⟩, ⟨5, 6⟩, ⟨7, 8⟩]).map g)
        ∧ (∀ b : List (PointXY ℚ), (f b).length = b.length ∧ (g b).length = b.length)
        ∧ (∀ (b : List (PointXY ℚ)) i, i < 4 → i < b.length → (f b)[i]? = some ⟨5, 5⟩ ∧ (g b)[i]? = some ⟨0, 0⟩)
        ∧ (∀ (b : List (PointXY ℚ)) i, 4 ≤ i → (f b)[i]? = b[i]? ∧ (g b)[i]? = b[i]?) :=
  single_point_sampling _ 0 _ (gwy_spline_from_points [⟨5, 5⟩] 1) ⟨5, 5⟩ 4 _ _
    (by simp [gwy_spline_from_points, gwy_spline_set_points, gwy_spline_new,
      gwy_spline_invalidate])
    (by decide)

/-- C9: on a spline without points `sample_curve` returns no samples and
`sample_curve_uniformly` returns with the spline and both buffers as they
were, whatever the fuel; on any spline a request for zero samples does the
same. -/
theorem empty_sampling_noop [FloorRing F] (L : Libm F) (fuel : Nat)
    (junk : Nat → ControlPoint F) (s s2 : GwySpline F) (n : Nat)
    (max_dev max_vrdev : F) (otype : GwySplineRecurseOutputType)
    (coords velocities : Option (List (PointXY F)))
    (hs : s.points = []) :
    sample_curve L fuel junk s max_dev max_vrdev otype = some (s, [])
      ∧ sample_curve_uniformly L fuel junk s n coords velocities = some (s, coords, velocities)
      ∧ sample_curve_uniformly L fuel junk s2 0 coords velocities
          = some (s2, coords, velocities) := by
  refine ⟨?_, ?_, ?_⟩
  · simp [sample_curve, hs]
  · by_cases h0 : n = 0 <;> simp [sample_curve_uniformly, hs, h0]
  · simp [sample_curve_uniformly]

/-- Witness of C9: the new spline, sampled without fuel. -/
theorem empty_sampling_noop_witness :
    sample_curve (⟨fun x y => |x| + |y|, fun x => x⟩ : Libm ℚ) 0 (fun _ => ⟨0, 0, 0, 0⟩)
        gwy_spline_new G_MAXDOUBLE (1/100) CURVE_RECURSE_OUTPUT_T_L
        = some (gwy_spline_new, [])
      ∧ sample_curve_uniformly (⟨fun x y => |x| + |y|, fun x => x⟩ : Libm ℚ) 0
          (fun _ => ⟨0, 0, 0, 0⟩) gwy_spline_new 3 (some [⟨1, 2⟩]) none
        = some (gwy_spline_new, some [⟨1, 2⟩], none)
      ∧ sample_curve_uniformly (⟨fun x y => |x| + |y|, fun x => x⟩ : Libm ℚ) 0
          (fun _ => ⟨0, 0, 0, 0⟩) (gwy_spline_from_points [⟨1, 1⟩, ⟨2, 3⟩] 2) 0
          (some [⟨1, 2⟩]) none
        = some (gwy_spline_from_points [⟨1, 1⟩, ⟨2, 3⟩] 2, some [⟨1, 2⟩], none) :=
  empty_sampling_noop _ 0 _ gwy_spline_new _ 3 _ _ _ _ _ rfl

/-- The target positions of `sample_curve_uniformly` in exact arithmetic:
their values for closed and open curves, their range and the first and last
of them. -/
theorem sample_position_facts (L : F) (n i : Nat) (hL : 0 ≤ L) (hi : i < n) :
    sample_position true n L i = (i : F)*L/(n : F)
      ∧ (2 ≤ n → sample_position false n L i = (i : F)*L/((n : F) - 1))
      ∧ (n = 1 → sample_position false n L i = L/2)
      ∧ (∀ closed : Bool,
          0 ≤ sample_position closed n L i ∧ sample_position closed n L i ≤ L)
      ∧ (2 ≤ n → sample_position false n L 0 = 0 ∧ sample_position false n L (n - 1) = L)
      ∧ (0 < L → sample_position true n L (n - 1) = L - L/(n : F)
          ∧ sample_position true n L (n - 1) < L) := by
  have hn0 : (0 : F) < (n : F) := by exact_mod_cast (by omega : 0 < n)
  have hiF : (i : F) ≤ (n : F) - 1 := by
    have : ((i + 1 : ℕ) : F) ≤ (n : F) := by exact_mod_cast hi
    push_cast at this
    linarith
  have hi0 : (0 : F) ≤ (i : F) := Nat.cast_nonneg i
  have hcast : ((n - 1 : ℕ) : F) = (n : F) - 1 := by
    rw [Nat.cast_sub (by omega : 1 ≤ n)]; simp
  have hclosed : sample_position true n L i = (i : F)*L/(n : F) := by
    simp [sample_position]
  have hopen : 2 ≤ n → sample_position false n L i = (i : F)*L/((n : F) - 1) := by
    intro h2
    have : n > 1 := by omega
    simp [sample_position, this]
  have hone : n = 1 → sample_position false n L i = L/2 := by
    intro h1
    subst h1
    simp [sample_position]
    ring
  refine ⟨hclosed, hopen, hone, ?_, ?_, ?_⟩
  · intro closed
    cases closed
    · by_cases h2 : 2 ≤ n
      · rw [hopen h2]
        have hn1 : (0 : F) < (n : F) - 1 := by
          have : ((2 : ℕ) : F) ≤ (n : F) := by exact_mod_cast h2
          push_cast at this
          linarith
        refine ⟨div_nonneg (mul_nonneg hi0 hL) hn1.le, ?_⟩
        rw [div_le_iff₀ hn1]
        nlinarith
      · rw [hone (by omega)]
        constructor <;> linarith
    · rw [hclosed]
      refine ⟨div_nonneg (mul_nonneg hi0 hL) hn0.le, ?_⟩
      rw [div_le_iff₀ hn0]
      nlinarith
  · intro h2
    have hgt : n > 1 := by omega
    have hn1 : (n : F) - 1 ≠ 0 := by
      have : ((2 : ℕ) : F) ≤ (n : F) := by exact_mod_cast h2
      push_cast at this
      intro h
      linarith
    constructor
    · simp [sample_position, hgt]
    · simp only [sample_position, hgt, hcast]
      simp
      field_simp
  · intro hLpos
    have hval : sample_position true n L (n - 1) = L - L/(n : F) := by
      simp only [sample_position, hcast]
      simp
      field_simp
      ring
    refine ⟨hval, ?_⟩
    rw [hval]
    have : 0 < L/(n : F) := div_pos hLpos hn0
    linarith

end Degenerate

end Gwy

namespace Gwy

open GwySplineRecurseOutputType

section LibmFacts

variable {F : Type} [LinearOrderedField F]

/-! ## The library functions and `division_time` -/

theorem Libm.Exact.hypot_nonneg {L : Libm F} (hL : L.Exact) (x y : F) : 0 ≤ L.hypot x y :=
  (hL.1 x y).1

theorem Libm.Exact.hypot_mul_self {L : Libm F} (hL : L.Exact) (x y : F) :
    L.hypot x y * L.hypot x y = x*x + y*y :=
  (hL.1 x y).2

theorem Libm.Exact.hypot_eq_zero_iff {L : Libm F} (hL : L.Exact) (x y : F) :
    L.hypot x y = 0 ↔ x = 0 ∧ y = 0 := by
  constructor
  · intro h
    have h2 := hL.hypot_mul_self x y
    rw [h] at h2
    constructor <;> nlinarith [mul_self_nonneg x, mul_self_nonneg y]
  · rintro ⟨rfl, rfl⟩
    have h2 := hL.hypot_mul_self (0 : F) 0
    simp only [mul_zero, add_zero] at h2
    exact mul_self_eq_zero.mp h2

theorem Libm.Exact.hypot_zero {L : Libm F} (hL : L.Exact) : L.hypot 0 0 = 0 :=
  (hL.hypot_eq_zero_iff 0 0).mpr ⟨rfl, rfl⟩

/-- The ratio `eps` of `division_time` lies in `[-1, 1]` for non-negative
speeds. -/
theorem division_eps_bounds (v0 v1 : F) (h0 : 0 ≤ v0) (h1 : 0 ≤ v1) (hne : v0 ≠ v1) :
    0 < v1 + v0 ∧ -1 ≤ (v1 - v0)/(v1 + v0) ∧ (v1 - v0)/(v1 + v0) ≤ 1 := by
  have hpos : 0 < v1 + v0 := by
    rcases lt_or_eq_of_le h0 with h | h
    · linarith
    · rcases lt_or_eq_of_le h1 with h' | h'
      · linarith
      · exact absurd (h.symm.trans h') hne
  refine ⟨hpos, ?_, ?_⟩
  · rw [le_div_iff₀ hpos]; linarith
  · rw [div_le_iff₀ hpos]; linarith

/-- The time fraction of half the distance lies in `[1/4, 3/4]`. -/
theorem division_time_half_bounds {L : Libm F} (hL : L.Exact) (v0 v1 : F)
    (h0 : 0 ≤ v0) (h1 : 0 ≤ v1) :
    1/4 ≤ division_time L v0 v1 (1/2) ∧ division_time L v0 v1 (1/2) ≤ 3/4 := by
  unfold division_time
  split
  · constructor <;> norm_num
  · next hne =>
    obtain ⟨_, hlo, hhi⟩ := division_eps_bounds v0 v1 h0 h1 hne
    generalize (v1 - v0)/(v1 + v0) = eps at hlo hhi
    simp only []
    split
    · next hlt =>
      constructor <;> nlinarith
    · next hge =>
      have he : (1 : F)/1000000 ≤ eps := not_lt.mp hge
      have hepos : 0 < eps := lt_of_lt_of_le (by norm_num) he
      have harg : 0 ≤ 4*(1/2)*eps + (1 - eps)*(1 - eps) := by nlinarith
      obtain ⟨hr0, hr2⟩ := hL.2 _ harg
      generalize L.sqrt (4*(1/2)*eps + (1 - eps)*(1 - eps)) = r at hr0 hr2
      have h2e : 0 < 2*eps := by linarith
      have hr1 : 1 ≤ r := by
        by_contra hcon
        push_neg at hcon
        have h5 := mul_self_lt_mul_self hr0 hcon
        linarith [mul_self_nonneg eps]
      have hr3 : r ≤ 1 + eps/2 := by
        by_contra hcon
        push_neg at hcon
        have h5 := mul_self_lt_mul_self (by linarith : (0 : F) ≤ 1 + eps/2) hcon
        have h6 : eps*eps ≤ eps := by nlinarith
        linarith
      constructor
      · rw [le_div_iff₀ h2e]; linarith
      · rw [div_le_iff₀ h2e]; linarith

/-- `division_time` maps the unit interval into itself. -/
theorem division_time_unit {L : Libm F} (hL : L.Exact) (v0 v1 x : F)
    (h0 : 0 ≤ v0) (h1 : 0 ≤ v1) (hx0 : 0 ≤ x) (hx1 : x ≤ 1) :
    0 ≤ division_time L v0 v1 x ∧ division_time L v0 v1 x ≤ 1 := by
  unfold division_time
  split
  · exact ⟨hx0, hx1⟩
  · next hne =>
    obtain ⟨_, hlo, hhi⟩ := division_eps_bounds v0 v1 h0 h1 hne
    generalize (v1 - v0)/(v1 + v0) = eps at hlo hhi
    simp only []
    split
    · next hlt =>
      constructor
      · apply mul_nonneg hx0
        nlinarith
      · nlinarith [mul_nonneg hx0 (sub_nonneg.mpr hx1)]
    · next hge =>
      have he : (1 : F)/1000000 ≤ eps := not_lt.mp hge
      have hepos : 0 < eps := lt_of_lt_of_le (by norm_num) he
      have harg : 0 ≤ 4*x*eps + (1 - eps)*(1 - eps) := by
        have := mul_nonneg hx0 hepos.le
        nlinarith [mul_self_nonneg (1 - eps)]
      obtain ⟨hr0, hr2⟩ := hL.2 _ harg
      generalize L.sqrt (4*x*eps + (1 - eps)*(1 - eps)) = r at hr0 hr2
      have h2e : 0 < 2*eps := by linarith
      have hxe : 0 ≤ x*eps := mul_nonneg hx0 hepos.le
      have hxe1 : x*eps ≤ eps := by nlinarith
      have hr1 : 1 - eps ≤ r := by
        by_contra hcon
        push_neg at hcon
        have h5 := mul_self_lt_mul_self hr0 hcon
        linarith
      have hr3 : r ≤ 1 + eps := by
        by_contra hcon
        push_neg at hcon
        have h5 := mul_self_lt_mul_self (by linarith : (0 : F) ≤ 1 + eps) hcon
        linarith
      constructor
      · apply div_nonneg _ h2e.le; linarith
      · rw [div_le_iff₀ h2e]; linarith

/-- `division_time` fixes the distance fraction 0. -/
theorem division_time_zero {L : Libm F} (hL : L.Exact) (v0 v1 : F)
    (h0 : 0 ≤ v0) (h1 : 0 ≤ v1) : division_time L v0 v1 0 = 0 := by
  unfold division_time
  split
  · rfl
  · next hne =>
    obtain ⟨_, hlo, hhi⟩ := division_eps_bounds v0 v1 h0 h1 hne
    generalize (v1 - v0)/(v1 + v0) = eps at hlo hhi
    simp only []
    split
    · simp
    · next hge =>
      have harg : 0 ≤ 4*0*eps + (1 - eps)*(1 - eps) := by nlinarith [mul_self_nonneg (1 - eps)]
      obtain ⟨hr0, hr2⟩ := hL.2 _ harg
      generalize L.sqrt (4*0*eps + (1 - eps)*(1 - eps)) = r at hr0 hr2
      have hr : r = 1 - eps := by
        have h3 : (r - (1 - eps))*(r + (1 - eps)) = 0 := by nlinarith
        rcases mul_eq_zero.mp h3 with h | h
        · linarith
        · have : r = 0 ∧ 1 - eps = 0 := by constructor <;> linarith
          linarith
      rw [hr]; simp

/-- `division_time` fixes the distance fraction 1. -/
theorem division_time_one {L : Libm F} (hL : L.Exact) (v0 v1 : F)
    (h0 : 0 ≤ v0) (h1 : 0 ≤ v1) : division_time L v0 v1 1 = 1 := by
  unfold division_time
  split
  · rfl
  · next hne =>
    obtain ⟨_, hlo, hhi⟩ := division_eps_bounds v0 v1 h0 h1 hne
    generalize (v1 - v0)/(v1 + v0) = eps at hlo hhi
    simp only []
    split
    · simp
    · next hge =>
      have he : (1 : F)/1000000 ≤ eps := not_lt.mp hge
      have hepos : 0 < eps := lt_of_lt_of_le (by norm_num) he
      have harg : 0 ≤ 4*1*eps + (1 - eps)*(1 - eps) := by nlinarith [mul_self_nonneg (1 - eps)]
      obtain ⟨hr0, hr2⟩ := hL.2 _ harg
      generalize L.sqrt (4*1*eps + (1 - eps)*(1 - eps)) = r at hr0 hr2
      have hr : r = 1 + eps := by
        have h3 : (r - (1 + eps))*(r + (1 + eps)) = 0 := by nlinarith
        rcases mul_eq_zero.mp h3 with h | h
        · linarith
        · linarith
      rw [hr]
      field_simp
      ring

/-! ## Interpolation in one segment -/

theorem interpolate_z_zero (pt0 pt1 : PointXY F) (uv : ControlPoint F) :
    interpolate_z pt0 pt1 uv 0 = pt0 := by
  simp [interpolate_z]

theorem interpolate_z_one (pt0 pt1 : PointXY F) (uv : ControlPoint F) :
    interpolate_z pt0 pt1 uv 1 = pt1 := by
  simp [interpolate_z]

theorem interpolate_v_zero (pt0 pt1 : PointXY F) (uv : ControlPoint F) :
    interpolate_v pt0 pt1 uv 0 = ⟨3*(uv.ux - pt0.x), 3*(uv.uy - pt0.y)⟩ := by
  simp only [interpolate_v, PointXY.mk.injEq]
  constructor <;> ring

theorem interpolate_v_one (pt0 pt1 : PointXY F) (uv : ControlPoint F) :
    interpolate_v pt0 pt1 uv 1 = ⟨3*(pt1.x - uv.vx), 3*(pt1.y - uv.vy)⟩ := by
  simp only [interpolate_v, PointXY.mk.injEq]
  constructor <;> ring

/-- Position on a segment with straight-line control points. -/
theorem interpolate_z_straight (p0 p1 : PointXY F) (c : ControlPoint F) (t : F) :
    interpolate_z p0 p1 (interpolate_straight_line p0 p1 c) t
      = ⟨(1 - t)*p0.x + t*p1.x, (1 - t)*p0.y + t*p1.y⟩ := by
  simp only [interpolate_z, interpolate_straight_line, PointXY.mk.injEq]
  constructor <;> ring

/-- Velocity on a segment with straight-line control points. -/
theorem interpolate_v_straight (p0 p1 : PointXY F) (c : ControlPoint F) (t : F) :
    interpolate_v p0 p1 (interpolate_straight_line p0 p1 c) t
      = ⟨p1.x - p0.x, p1.y - p0.y⟩ := by
  simp only [interpolate_v, interpolate_straight_line, PointXY.mk.injEq]
  constructor <;> ring

end LibmFacts

end Gwy

namespace Gwy

open GwySplineRecurseOutputType

section Natural

variable {F : Type} [LinearOrderedField F]

/-! ## Structure of the natural sampling -/

theorem sample_curve_middle_eq (L : Libm F) (cparam : GwySplineSampleParams F)
    (c0 c1 : GwySplineSampleItem F) :
    sample_curve_middle L cparam c0 c1
      = segment_item L cparam.pt0 cparam.pt1 cparam.uv
          (c0.t*(1 - division_time L c0.vl c1.vl (1/2))
            + c1.t*division_time L c0.vl c1.vl (1/2)) :=
  rfl

/-- `Leaf` looks only at the segment and the tolerances of `cparam`. -/
theorem leaf_congr (L : Libm F) (cp cp2 : GwySplineSampleParams F)
    (h0 : cp.pt0 = cp2.pt0) (h1 : cp.pt1 = cp2.pt1) (h2 : cp.uv = cp2.uv)
    (h3 : cp.max_dev = cp2.max_dev) (h4 : cp.max_vrdev = cp2.max_vrdev) :
    Leaf L cp = Leaf L cp2 := by
  cases cp
  cases cp2
  simp only at h0 h1 h2 h3 h4
  subst h0 h1 h2 h3 h4
  rfl

theorem tiling_append {R : F → F → F → Prop} {ta tm tb : F} {l1 l2 : List (PointXY F)}
    (h1 : Tiling R ta tm l1) (h2 : Tiling R tm tb l2) : Tiling R ta tb (l1 ++ l2) := by
  induction h1 with
  | single ta tm y hr => exact Tiling.cons ta tm tb y l2 hr h2
  | cons ta tm' tm y l hr _ ih => exact Tiling.cons ta tm' tb y (l ++ l2) hr (ih h2)

theorem tiling_length_pos {R : F → F → F → Prop} {ta tb : F} {l : List (PointXY F)}
    (h : Tiling R ta tb l) : 1 ≤ l.length := by
  cases h <;> simp

/-- The time of the middle item lies strictly inside the interval. -/
theorem middle_time_between {L : Libm F} (hL : L.Exact) (v0 v1 ta tb : F)
    (h0 : 0 ≤ v0) (h1 : 0 ≤ v1) (hlt : ta < tb) :
    ta < ta*(1 - division_time L v0 v1 (1/2)) + tb*division_time L v0 v1 (1/2)
      ∧ ta*(1 - division_time L v0 v1 (1/2)) + tb*division_time L v0 v1 (1/2) < tb := by
  obtain ⟨hq0, hq1⟩ := division_time_half_bounds hL v0 v1 h0 h1
  generalize division_time L v0 v1 (1/2) = q at hq0 hq1
  constructor <;> nlinarith

/-- What a returning call of `sample_curve_recurse` on the interval
`(ta, tb)` does in `(t, l)` mode: it appends a tiling of the interval and
changes nothing else; at depth 0 the tiling has at least two pairs. -/
theorem recurse_spec {L : Libm F} (hL : L.Exact) :
    ∀ (fuel : Nat) (cparam r : GwySplineSampleParams F) (ta tb : F),
      cparam.otype = CURVE_RECURSE_OUTPUT_T_L → ta < tb →
      sample_curve_recurse L fuel cparam
        (segment_item L cparam.pt0 cparam.pt1 cparam.uv ta)
        (segment_item L cparam.pt0 cparam.pt1 cparam.uv tb) = some r →
      ∃ new : List (PointXY F),
        r = { cparam with points := cparam.points ++ new }
          ∧ Tiling (Leaf L cparam) ta tb new
          ∧ (cparam.depth = 0 → 2 ≤ new.length) := by
  intro fuel
  induction fuel with
  | zero =>
    intro cparam r ta tb _ _ h
    simp [sample_curve_recurse] at h
  | succ fuel ih =>
    intro cparam r ta tb hot hlt h
    rw [sample_curve_recurse] at h
    by_cases hacc : sample_curve_accept L cparam
        (segment_item L cparam.pt0 cparam.pt1 cparam.uv ta)
        (segment_item L cparam.pt0 cparam.pt1 cparam.uv tb) = true
    · simp only [hacc, if_true, hot] at h
      refine ⟨[sample_curve_tl L cparam (segment_item L cparam.pt0 cparam.pt1 cparam.uv ta)
        (segment_item L cparam.pt0 cparam.pt1 cparam.uv tb)], ?_, ?_, ?_⟩
      · rw [hot]; exact (Option.some.inj h).symm
      · simp only [sample_curve_accept, Bool.and_eq_true] at hacc
        exact Tiling.single ta tb _ ⟨hlt, hacc.2, rfl⟩
      · intro hd
        simp [sample_curve_accept, hd] at hacc
    · simp only [hacc] at h
      rw [sample_curve_middle_eq] at h
      have hv0 : 0 ≤ (segment_item L cparam.pt0 cparam.pt1 cparam.uv ta).vl :=
        hL.hypot_nonneg _ _
      have hv1 : 0 ≤ (segment_item L cparam.pt0 cparam.pt1 cparam.uv tb).vl :=
        hL.hypot_nonneg _ _
      obtain ⟨hm0, hm1⟩ := middle_time_between hL _ _ ta tb hv0 hv1 hlt
      have hta : (segment_item L cparam.pt0 cparam.pt1 cparam.uv ta).t = ta := rfl
      have htb : (segment_item L cparam.pt0 cparam.pt1 cparam.uv tb).t = tb := rfl
      rw [hta, htb] at h
      generalize hq : division_time L (segment_item L cparam.pt0 cparam.pt1 cparam.uv ta).vl
        (segment_item L cparam.pt0 cparam.pt1 cparam.uv tb).vl (1/2) = q at h hm0 hm1
      cases h1 : sample_curve_recurse L fuel { cparam with depth := cparam.depth + 1 }
          (segment_item L cparam.pt0 cparam.pt1 cparam.uv ta)
          (segment_item L cparam.pt0 cparam.pt1 cparam.uv (ta*(1 - q) + tb*q)) with
      | none => simp [h1] at h
      | some r1 =>
        obtain ⟨new1, hr1, ht1, _⟩ :=
          ih { cparam with depth := cparam.depth + 1 } r1 ta (ta*(1 - q) + tb*q) hot hm0 h1
        simp only [h1] at h
        cases h2 : sample_curve_recurse L fuel r1
            (segment_item L cparam.pt0 cparam.pt1 cparam.uv (ta*(1 - q) + tb*q))
            (segment_item L cparam.pt0 cparam.pt1 cparam.uv tb) with
        | none => simp [h2] at h
        | some r2 =>
          have h2b := h2
          rw [hr1] at h2b
          obtain ⟨new2, hr2, ht2, _⟩ :=
            ih { cparam with depth := cparam.depth + 1, points := cparam.points ++ new1 } r2
              (ta*(1 - q) + tb*q) tb hot hm1 h2b
          simp only [h2] at h
          refine ⟨new1 ++ new2, ?_, ?_, ?_⟩
          · rw [← Option.some.inj h, hr2]
            simp
          · exact tiling_append ht1 ht2
          · intro _
            have := tiling_length_pos ht1
            have := tiling_length_pos ht2
            simp only [List.length_append]
            omega

/-- A returning call of `sample_curve_recurse` changes only the points. -/
theorem recurse_frame (L : Libm F) :
    ∀ (fuel : Nat) (cparam r : GwySplineSampleParams F) (c0 c1 : GwySplineSampleItem F),
      sample_curve_recurse L fuel cparam c0 c1 = some r →
      r.pt0 = cparam.pt0 ∧ r.pt1 = cparam.pt1 ∧ r.uv = cparam.uv
        ∧ r.max_dev = cparam.max_dev ∧ r.max_vrdev = cparam.max_vrdev
        ∧ r.otype = cparam.otype ∧ r.depth = cparam.depth := by
  intro fuel
  induction fuel with
  | zero =>
    intro cparam r c0 c1 h
    simp [sample_curve_recurse] at h
  | succ fuel ih =>
    intro cparam r c0 c1 h
    rw [sample_curve_recurse] at h
    by_cases hacc : sample_curve_accept L cparam c0 c1 = true
    · simp only [hacc, if_true] at h
      cases hot : cparam.otype <;> simp only [hot] at h <;>
        · rw [← Option.some.inj h]
          simp [hot]
    · simp only [hacc] at h
      cases h1 : sample_curve_recurse L fuel { cparam with depth := cparam.depth + 1 } c0
          (sample_curve_middle L cparam c0 c1) with
      | none => simp [h1] at h
      | some r1 =>
        simp only [h1] at h
        cases h2 : sample_curve_recurse L fuel r1 (sample_curve_middle L cparam c0 c1) c1 with
        | none => simp [h2] at h
        | some r2 =>
          simp only [h2] at h
          obtain ⟨a1, a2, a3, a4, a5, a6, a7⟩ := ih _ _ _ _ h1
          obtain ⟨b1, b2, b3, b4, b5, b6, b7⟩ := ih _ _ _ _ h2
          rw [← Option.some.inj h]
          simp only []
          refine ⟨b1.trans a1, b2.trans a2, b3.trans a3, b4.trans a4, b5.trans a5,
            b6.trans a6, ?_⟩
          rw [b7, a7]
          simp

/-- More fuel does not change a result. -/
theorem recurse_fuel_succ (L : Libm F) :
    ∀ (fuel : Nat) (cparam r : GwySplineSampleParams F) (c0 c1 : GwySplineSampleItem F),
      sample_curve_recurse L fuel cparam c0 c1 = some r →
      sample_curve_recurse L (fuel + 1) cparam c0 c1 = some r := by
  intro fuel
  induction fuel with
  | zero =>
    intro cparam r c0 c1 h
    simp [sample_curve_recurse] at h
  | succ fuel ih =>
    intro cparam r c0 c1 h
    rw [sample_curve_recurse] at h ⊢
    by_cases hacc : sample_curve_accept L cparam c0 c1 = true
    · simpa only [hacc, if_true] using h
    · simp only [hacc] at h ⊢
      cases h1 : sample_curve_recurse L fuel { cparam with depth := cparam.depth + 1 } c0
          (sample_curve_middle L cparam c0 c1) with
      | none => simp [h1] at h
      | some r1 =>
        simp only [h1] at h
        rw [ih _ _ _ _ h1]
        cases h2 : sample_curve_recurse L fuel r1 (sample_curve_middle L cparam c0 c1) c1 with
        | none => simp [h2] at h
        | some r2 =>
          simp only [h2] at h
          simp only []
          rw [ih _ _ _ _ h2]
          exact h

theorem recurse_fuel_mono (L : Libm F) (fuel fuel2 : Nat) (hle : fuel ≤ fuel2)
    (cparam r : GwySplineSampleParams F) (c0 c1 : GwySplineSampleItem F)
    (h : sample_curve_recurse L fuel cparam c0 c1 = some r) :
    sample_curve_recurse L fuel2 cparam c0 c1 = some r := by
  induction hle with
  | refl => exact h
  | step _ ih => exact recurse_fuel_succ L _ _ _ _ _ ih

theorem tiling_lt {R : F → F → F → Prop} (hR : ∀ a b y, R a b y → a < b) {ta tb : F}
    {l : List (PointXY F)} (h : Tiling R ta tb l) : ta < tb := by
  induction h with
  | single ta tb y hr => exact hR _ _ _ hr
  | cons ta tm tb y l hr _ ih => exact lt_trans (hR _ _ _ hr) ih

theorem modify_append_cons {α : Type} (f : α → α) (l1 : List α) (b : α) (l2 : List α) :
    (l1 ++ b :: l2).modify f l1.length = l1 ++ f b :: l2 := by
  induction l1 with
  | nil => rfl
  | cons a l1 ih => simp [List.modify_succ_cons, ih]

theorem point_at_append_length (l1 : List (PointXY F)) (b : PointXY F)
    (l2 : List (PointXY F)) : point_at (l1 ++ b :: l2) l1.length = b := by
  induction l1 with
  | nil => rfl
  | cons a l1 ih => simpa [point_at, g_array_index] using ih

/-- The accumulation loop of `sample_curve`, started behind the pair `a`. -/
theorem accumulate_spec (i : Nat) :
    ∀ (post pre : List (PointXY F)) (a : PointXY F),
      sample_curve_accumulate i post.length (pre.length + 1) ((pre ++ [a]) ++ post)
        = (pre ++ [a]) ++ accumulated i a.y post := by
  intro post
  induction post with
  | nil => intro pre a; simp [sample_curve_accumulate, accumulated]
  | cons b post ih =>
    intro pre a
    simp only [List.length_cons, sample_curve_accumulate, accumulated]
    have h1 : point_at (pre ++ [a] ++ b :: post) (pre.length + 1 - 1) = a := by
      have := point_at_append_length pre a (b :: post)
      simpa using this
    have h2 : (pre ++ [a] ++ b :: post).modify
        (fun xpt => ({ x := xpt.x + ((i : F) - 1), y := xpt.y + a.y } : PointXY F))
        (pre.length + 1)
        = (pre ++ [a]) ++ (⟨b.x + ((i : F) - 1), b.y + a.y⟩ : PointXY F) :: post := by
      have := modify_append_cons
        (fun xpt => ({ x := xpt.x + ((i : F) - 1), y := xpt.y + a.y } : PointXY F))
        (pre ++ [a]) b post
      simpa using this
    rw [h1, h2]
    have h3 := ih (pre ++ [a]) (⟨b.x + ((i : F) - 1), b.y + a.y⟩ : PointXY F)
    simpa using h3

theorem accumulated_length (i : Nat) :
    ∀ (l : List (PointXY F)) (y0 : F), (accumulated i y0 l).length = l.length := by
  intro l
  induction l with
  | nil => intro y0; rfl
  | cons a l ih => intro y0; simp [accumulated, ih]

/-- The pairs of one segment, made cumulative, continue the chain of the
natural sampling and end at the time `k + tb`. -/
theorem accumulated_chain {L : Libm F} (junk : Nat → ControlPoint F) (spline : GwySpline F)
    (max_dev max_vrdev : F) (cp : GwySplineSampleParams F) (i k : Nat)
    (hik : (i : F) - 1 = (k : F))
    (hk : k < segment_count spline.points.length spline.closed)
    (hleaf : Leaf L cp = Leaf L (segment_params junk spline max_dev max_vrdev k))
    {ta tb : F} {new : List (PointXY F)} (ht : Tiling (Leaf L cp) ta tb new) :
    ∀ a : PointXY F, 0 ≤ ta → tb ≤ 1 → a.x = (k : F) + ta →
      List.Chain (NatStep L junk spline max_dev max_vrdev) a (accumulated i a.y new)
        ∧ ∃ (init : List (PointXY F)) (z : PointXY F),
            accumulated i a.y new = init ++ [z] ∧ z.x = (k : F) + tb := by
  induction ht with
  | single ta tb y hr =>
    intro a h0 h1 ha
    simp only [accumulated, List.chain_cons, List.Chain.nil, and_true]
    refine ⟨⟨k, ta, tb, hk, h0, h1, ha, ?_, ?_⟩, [], _, rfl, ?_⟩
    · simp only []; rw [hik]; ring
    · rw [← hleaf]; simpa using hr
    · simp only []; rw [hik]; ring
  | cons ta tm tb y l hr ht ih =>
    intro a h0 h1 ha
    have hlt : tm < tb := tiling_lt (fun a b y h => h.1) ht
    have hlt0 : ta < tm := hr.1
    obtain ⟨hc, init, z, hz, hzx⟩ := ih (⟨tm + ((i : F) - 1), y + a.y⟩ : PointXY F)
      (by linarith) h1 (by simp only []; rw [hik]; ring)
    simp only [accumulated, List.chain_cons]
    refine ⟨⟨⟨k, ta, tm, hk, h0, by linarith, ha, ?_, ?_⟩, hc⟩,
      (⟨tm + ((i : F) - 1), y + a.y⟩ : PointXY F) :: init, z, ?_, hzx⟩
    · simp only []; rw [hik]; ring
    · rw [← hleaf]; simpa using hr
    · rw [hz]; rfl

/-- The items `c0` and `c1` that `sample_curve` builds for a segment are the
items of the segment at the times 0 and 1. -/
theorem segment_item_ends (L : Libm F) (pt0 pt1 : PointXY F) (uv : ControlPoint F) :
    segment_item L pt0 pt1 uv 0
        = { t := 0, z := pt0, v := ⟨3*(uv.ux - pt0.x), 3*(uv.uy - pt0.y)⟩,
            vl := L.hypot (3*(uv.ux - pt0.x)) (3*(uv.uy - pt0.y)) }
      ∧ segment_item L pt0 pt1 uv 1
        = { t := 1, z := pt1, v := ⟨3*(pt1.x - uv.vx), 3*(pt1.y - uv.vy)⟩,
            vl := L.hypot (3*(pt1.x - uv.vx)) (3*(pt1.y - uv.vy)) } := by
  simp only [segment_item, interpolate_z_zero, interpolate_z_one, interpolate_v_zero,
    interpolate_v_one, and_self]

/-- One iteration of the loop of `sample_curve` over the segments. -/
theorem segments_unfold (L : Libm F) (fuel : Nat) (junk : Nat → ControlPoint F)
    (spline : GwySpline F) (max_dev max_vrdev : F) (otype : GwySplineRecurseOutputType)
    (rem i : Nat) (ptm : PointXY F) (points : List (PointXY F)) :
    sample_curve_segments L fuel junk spline max_dev max_vrdev otype (rem + 1) i ptm points
      = match sample_curve_recurse L fuel
          { pt0 := ptm
            pt1 := if i = spline.points.length then point_at spline.points 0
              else point_at spline.points i
            uv := g_array_index spline.control_points (i - 1) (junk (i - 1))
            max_dev := max_dev, max_vrdev := max_vrdev, points := points, otype := otype
            depth := 0 }
          (segment_item L ptm
            (if i = spline.points.length then point_at spline.points 0
              else point_at spline.points i)
            (g_array_index spline.control_points (i - 1) (junk (i - 1))) 0)
          (segment_item L ptm
            (if i = spline.points.length then point_at spline.points 0
              else point_at spline.points i)
            (g_array_index spline.control_points (i - 1) (junk (i - 1))) 1) with
        | none => none
        | some cparam =>
          sample_curve_segments L fuel junk spline max_dev max_vrdev otype rem (i + 1)
            (if i = spline.points.length then point_at spline.points 0
              else point_at spline.points i)
            (if cparam.otype = CURVE_RECURSE_OUTPUT_T_L then
              sample_curve_accumulate i (cparam.points.length - points.length) points.length
                cparam.points
            else cparam.points) := by
  rw [sample_curve_segments]
  simp only [(segment_item_ends L _ _ _).1, (segment_item_ends L _ _ _).2] <;> rfl

/-- The next point of segment `k` is the point `(k + 1) % npts`. -/
theorem next_point_index (npts i : Nat) (h1 : 1 ≤ i) (h2 : i ≤ npts) :
    (if i = npts then 0 else i) = (i - 1 + 1) % npts := by
  have h3 : i - 1 + 1 = i := by omega
  rw [h3]
  split
  · next h => rw [h, Nat.mod_self]
  · next h => rw [Nat.mod_eq_of_lt (by omega)]

theorem chain_append_last {α : Type} {R : α → α → Prop} :
    ∀ (init : List α) (a z : α) (l2 : List α),
      List.Chain R a (init ++ [z]) → List.Chain R z l2 →
      List.Chain R a (init ++ [z] ++ l2) := by
  intro init
  induction init with
  | nil =>
    intro a z l2 h1 h2
    simp only [List.nil_append, List.chain_cons, List.Chain.nil, and_true] at h1
    exact List.Chain.cons h1 h2
  | cons b init ih =>
    intro a z l2 h1 h2
    simp only [List.cons_append, List.chain_cons] at h1 ⊢
    exact ⟨h1.1, by simpa using ih b z l2 h1.2 h2⟩

theorem segment_count_le (npts : Nat) (closed : Bool) : segment_count npts closed ≤ npts := by
  unfold segment_count
  omega

/-- What the loop of `sample_curve` over the segments appends in `(t, l)`
mode when it returns: a chain of emitted intervals that ends at the time
`nseg`, with at least two pairs for every segment. -/
theorem segments_spec {L : Libm F} (hL : L.Exact) (fuel : Nat) (junk : Nat → ControlPoint F)
    (spline : GwySpline F) (max_dev max_vrdev : F) :
    ∀ (rem i : Nat) (pt : PointXY F) (pre : List (PointXY F)) (a : PointXY F)
      (p2 : List (PointXY F)),
      1 ≤ i → i + rem = segment_count spline.points.length spline.closed + 1 →
      (rem ≠ 0 → pt = point_at spline.points (i - 1)) →
      a.x = (i : F) - 1 →
      sample_curve_segments L fuel junk spline max_dev max_vrdev CURVE_RECURSE_OUTPUT_T_L
        rem i pt (pre ++ [a]) = some p2 →
      ∃ (new init : List (PointXY F)) (z : PointXY F),
        p2 = (pre ++ [a]) ++ new
          ∧ List.Chain (NatStep L junk spline max_dev max_vrdev) a new
          ∧ a :: new = init ++ [z]
          ∧ z.x = (segment_count spline.points.length spline.closed : F)
          ∧ 2*rem ≤ new.length := by
  intro rem
  induction rem with
  | zero =>
    intro i pt pre a p2 hi hrem _ ha h
    simp only [sample_curve_segments, Option.some.injEq] at h
    refine ⟨[], [], a, by simp [h], List.Chain.nil, rfl, ?_, by simp⟩
    rw [ha]
    have : i = segment_count spline.points.length spline.closed + 1 := by omega
    rw [this]
    push_cast
    ring
  | succ rem ih =>
    intro i pt pre a p2 hi hrem hpt ha h
    have hpt2 := hpt (by omega)
    subst hpt2
    rw [segments_unfold] at h
    have hle := segment_count_le spline.points.length spline.closed
    have hidx := next_point_index spline.points.length i hi (by omega)
    have hpt1 : (if i = spline.points.length then point_at spline.points 0
        else point_at spline.points i)
        = point_at spline.points ((i - 1 + 1) % spline.points.length) := by
      rw [← hidx]
      split <;> rfl
    rw [hpt1] at h
    cases hrec : sample_curve_recurse L fuel
        { pt0 := point_at spline.points (i - 1)
          pt1 := point_at spline.points ((i - 1 + 1) % spline.points.length)
          uv := g_array_index spline.control_points (i - 1) (junk (i - 1))
          max_dev := max_dev, max_vrdev := max_vrdev, points := pre ++ [a]
          otype := CURVE_RECURSE_OUTPUT_T_L, depth := 0 }
        (segment_item L (point_at spline.points (i - 1))
          (point_at spline.points ((i - 1 + 1) % spline.points.length))
          (g_array_index spline.control_points (i - 1) (junk (i - 1))) 0)
        (segment_item L (point_at spline.points (i - 1))
          (point_at spline.points ((i - 1 + 1) % spline.points.length))
          (g_array_index spline.control_points (i - 1) (junk (i - 1))) 1) with
    | none => simp [hrec] at h
    | some r =>
      simp only [hrec] at h
      obtain ⟨new, hr, htil, hlen⟩ := recurse_spec hL fuel _ r 0 1 rfl (by norm_num) hrec
      have hlen2 : 2 ≤ new.length := hlen rfl
      subst hr
      simp only [if_true] at h
      have hacc := accumulate_spec (F := F) i new pre a
      have hl1 : (pre ++ [a] ++ new).length - (pre ++ [a]).length = new.length := by
        simp only [List.length_append, List.length_singleton]
        omega
      have hl2 : (pre ++ [a]).length = pre.length + 1 := by simp
      rw [hl1, hl2, hacc] at h
      have hik : (i : F) - 1 = ((i - 1 : ℕ) : F) := by
        rw [Nat.cast_sub hi]; simp
      obtain ⟨hchain, init, z, hz, hzx⟩ := accumulated_chain junk spline max_dev max_vrdev _ i
        (i - 1) hik (by omega) (leaf_congr L _ _ rfl rfl rfl rfl rfl) htil a (le_refl 0)
        (le_refl 1) (by rw [ha, hik]; ring)
      rw [hz, ← List.append_assoc] at h
      obtain ⟨new2, init2, z2, hp2, hchain2, hlast2, hz2, hlen3⟩ :=
        ih (i + 1) _ (pre ++ [a] ++ init) z p2 (by omega) (by omega)
          (fun _ => by
            have h5 : (i - 1 + 1) % spline.points.length = i := by
              rw [Nat.sub_add_cancel hi, Nat.mod_eq_of_lt (by omega)]
            simp [h5])
          (by rw [hzx, ← hik]; push_cast; ring) h
      refine ⟨accumulated i a.y new ++ new2, a :: init ++ init2, z2, ?_, ?_, ?_, hz2, ?_⟩
      · rw [hp2, hz]; simp
      · rw [hz] at hchain ⊢
        exact chain_append_last init a z new2 hchain hchain2
      · rw [hz]
        simp only [List.cons_append, List.append_assoc, List.singleton_append]
        rw [← hlast2]
        simp
      · rw [List.length_append, accumulated_length]
        omega

/-- What a returning `sample_curve` gives in `(t, l)` mode on a spline with at
least two points: the spline with recomputed control points and a natural
sampling of it. -/
theorem sample_curve_spec {L : Libm F} (hL : L.Exact) (fuel : Nat)
    (junk : Nat → ControlPoint F) (spline s2 : GwySpline F) (max_dev max_vrdev : F)
    (p : List (PointXY F)) (hn : 2 ≤ spline.points.length)
    (h : sample_curve L fuel junk spline max_dev max_vrdev CURVE_RECURSE_OUTPUT_T_L
      = some (s2, p)) :
    s2 = { spline with control_points :=
        (calculate_control_points L ((spline.points.length : Int) - 1) spline.points
          spline.slackness spline.closed
          (g_array_set_size spline.control_points
            (segment_count spline.points.length spline.closed) junk)) }
      ∧ NaturalSampling L junk s2 max_dev max_vrdev p := by
  unfold sample_curve at h
  have h0 : spline.points.length ≠ 0 := by omega
  have h1 : spline.points.length ≠ 1 := by omega
  simp only [h0, h1, if_false] at h
  cases hseg : sample_curve_segments L fuel junk
      { spline with control_points :=
        (calculate_control_points L ((spline.points.length : Int) - 1) spline.points
          spline.slackness spline.closed
          (g_array_set_size spline.control_points
            (spline.points.length - (if spline.closed then 0 else 1)) junk)) }
      max_dev max_vrdev CURVE_RECURSE_OUTPUT_T_L
      (spline.points.length - (if spline.closed then 0 else 1)) 1
      (point_at spline.points 0) [⟨0, 0⟩] with
  | none => simp [hseg] at h
  | some p2 =>
    simp only [hseg, Option.some.injEq, Prod.mk.injEq] at h
    obtain ⟨hs2, hp⟩ := h
    subst hp
    refine ⟨by rw [← hs2]; rfl, ?_⟩
    have hspec := segments_spec hL fuel junk s2 max_dev max_vrdev
      (segment_count spline.points.length spline.closed) 1 (point_at spline.points 0) []
      ⟨0, 0⟩ p2 (le_refl 1)
    rw [← hs2] at hspec
    obtain ⟨new, init, z, hp2, hchain, hlast, hz, hlen⟩ :=
      hspec (by simp only []; omega) (fun _ => rfl) (by simp) hseg
    rw [← hs2]
    exact ⟨new, init, z, by simpa using hp2, hchain, by rw [← hlast]; simpa using hp2, hz, hlen⟩

/-- Index form of a natural sampling. -/
theorem natural_sampling_index {L : Libm F} {junk : Nat → ControlPoint F}
    {spline : GwySpline F} {max_dev max_vrdev : F} {p : List (PointXY F)}
    (h : NaturalSampling L junk spline max_dev max_vrdev p) :
    2*segment_count spline.points.length spline.closed + 1 ≤ p.length
      ∧ point_at p 0 = ⟨0, 0⟩
      ∧ (∀ j, 1 ≤ j → j < p.length →
          NatStep L junk spline max_dev max_vrdev (point_at p (j - 1)) (point_at p j))
      ∧ (point_at p (p.length - 1)).x
          = (segment_count spline.points.length spline.closed : F) := by
  obtain ⟨new, init, z, hp, hchain, hlast, hz, hlen⟩ := h
  refine ⟨?_, ?_, ?_, ?_⟩
  · rw [hp]; simp only [List.length_cons]; omega
  · rw [hp]; rfl
  · intro j hj1 hj2
    rw [hp] at hj2 ⊢
    simp only [List.length_cons] at hj2
    have hget := List.chain_iff_get.mp hchain
    obtain ⟨j, rfl⟩ : ∃ m, j = m + 1 := ⟨j - 1, by omega⟩
    have hjn : j < new.length := by omega
    have e2 : point_at (⟨0, 0⟩ :: new) (j + 1) = new.get ⟨j, hjn⟩ := by
      simp [point_at, g_array_index, List.getD_eq_getElem?_getD, hjn]
    rw [e2]
    cases j with
    | zero =>
      have := hget.1 hjn
      simpa [point_at, g_array_index] using this
    | succ j =>
      have e1 : point_at (⟨0, 0⟩ :: new) (j + 1 + 1 - 1) = new.get ⟨j, by omega⟩ := by
        simp [point_at, g_array_index, List.getD_eq_getElem?_getD,
          (by omega : j < new.length)]
      rw [e1]
      exact hget.2 j (by omega)
  · rw [hlast]
    have : (init ++ [z]).length - 1 = init.length := by simp
    rw [this, point_at_append_length]
    exact hz

end Natural

end Gwy

namespace Gwy

open GwySplineRecurseOutputType

section Uniform

variable {F : Type} [LinearOrderedField F]

/-! ## The scan and the main loop of uniform sampling -/

/-- The scan stops at the first index from `j` on whose cumulative length is
not below `pos`, provided there is one. -/
theorem sample_scan_spec (p : List (PointXY F)) (pos : F) :
    ∀ (fuel j j0 : Nat), j ≤ j0 → j0 < p.length → ¬((point_at p j0).y < pos) →
      j0 - j ≤ fuel →
      ∃ j2, sample_scan p pos fuel j = some j2 ∧ j ≤ j2 ∧ j2 ≤ j0
        ∧ ¬((point_at p j2).y < pos)
        ∧ ∀ m, j ≤ m → m < j2 → (point_at p m).y < pos := by
  intro fuel
  induction fuel with
  | zero =>
    intro j j0 h1 h2 h3 h4
    have hj : j = j0 := by omega
    subst hj
    refine ⟨j, ?_, le_refl _, le_refl _, h3, fun m hm1 hm2 => by omega⟩
    simp [sample_scan, h2, h3]
  | succ fuel ih =>
    intro j j0 h1 h2 h3 h4
    have hj : j < p.length := by omega
    by_cases hlt : (point_at p j).y < pos
    · have hne : j ≠ j0 := by
        rintro rfl
        exact h3 hlt
      obtain ⟨j2, hs, hle1, hle2, hnot, hall⟩ := ih (j + 1) j0 (by omega) h2 h3 (by omega)
      refine ⟨j2, ?_, by omega, hle2, hnot, ?_⟩
      · simp [sample_scan, hj, hlt, hs]
      · intro m hm1 hm2
        by_cases hmj : m = j
        · subst hmj; exact hlt
        · exact hall m (by omega) hm2
    · exact ⟨j, by simp [sample_scan, hj, hlt], le_refl _, h1, hlt, fun m hm1 hm2 => by omega⟩

/-- The main loop of `sample_curve_uniformly`.  When the cumulative length at
some index `jl` is not below any target position and the targets do not
decrease, the loop returns; cell `k` of each buffer receives the value
computed at a bracket `j2` of the target of sample `k`, the other cells are
not touched. -/
theorem uniform_loop_spec [FloorRing F] (L : Libm F) (junk : Nat → ControlPoint F)
    (spline : GwySpline F) (p : List (PointXY F)) (nsamples jl : Nat)
    (hjl : jl < p.length)
    (hlast : ∀ i, i < nsamples →
      ¬((point_at p jl).y < sample_position spline.closed nsamples spline.length i))
    (hmono : ∀ i, i + 1 < nsamples →
      sample_position spline.closed nsamples spline.length i
        ≤ sample_position spline.closed nsamples spline.length (i + 1)) :
    ∀ (rem i j : Nat) (coords velocities : Option (List (PointXY F))),
      i + rem = nsamples → 1 ≤ j → j ≤ jl →
      (rem ≠ 0 →
        (point_at p (j - 1)).y ≤ sample_position spline.closed nsamples spline.length i) →
      (j = 1 ∨ (1 ≤ i ∧ (point_at p (j - 1)).y
        ≤ sample_position spline.closed nsamples spline.length (i - 1))) →
      ∃ (f g : List (PointXY F) → List (PointXY F)) (J : Nat → Nat),
        sample_uniform_loop L junk spline p nsamples rem i j coords velocities
            = some (coords.map f, velocities.map g)
          ∧ (∀ b : List (PointXY F), (f b).length = b.length ∧ (g b).length = b.length)
          ∧ (∀ k, i ≤ k → k < i + rem →
              (1 ≤ J k ∧ J k < p.length
                ∧ ¬((point_at p (J k)).y
                    < sample_position spline.closed nsamples spline.length k)
                ∧ (point_at p (J k - 1)).y
                    ≤ sample_position spline.closed nsamples spline.length k
                ∧ (J k = 1
                  ∨ (point_at p (J k - 1)).y
                      < sample_position spline.closed nsamples spline.length k
                  ∨ (1 ≤ k ∧ (point_at p (J k - 1)).y
                      ≤ sample_position spline.closed nsamples spline.length (k - 1))))
              ∧ ∀ b : List (PointXY F), k < b.length →
                  (f b)[k]? = some (sample_uniform_eval L junk spline p
                    (sample_position spline.closed nsamples spline.length k) (J k)).1
                  ∧ (g b)[k]? = some (sample_uniform_eval L junk spline p
                    (sample_position spline.closed nsamples spline.length k) (J k)).2)
          ∧ (∀ (b : List (PointXY F)) k, ¬(i ≤ k ∧ k < i + rem) →
              (f b)[k]? = b[k]? ∧ (g b)[k]? = b[k]?) := by
  intro rem
  induction rem with
  | zero =>
    intro i j coords velocities _ _ _ _ _
    refine ⟨id, id, fun _ => 0, by simp [sample_uniform_loop], by simp, ?_, by simp⟩
    intro k h1 h2
    omega
  | succ rem ih =>
    intro i j coords velocities hi hj1 hjl2 hinv1 hinv2
    have hinv1 := hinv1 (by omega)
    obtain ⟨j2, hs, hle1, hle2, hnot, hall⟩ :=
      sample_scan_spec p (sample_position spline.closed nsamples spline.length i)
        (p.length - j) j jl hjl2 hjl (hlast i (by omega)) (by omega)
    have hj2len : j2 < p.length := by omega
    have hlow : (point_at p (j2 - 1)).y
        ≤ sample_position spline.closed nsamples spline.length i := by
      by_cases hjj : j2 = j
      · rw [hjj]; exact hinv1
      · exact le_of_lt (hall (j2 - 1) (by omega) (by omega))
    have hthird : j2 = 1
        ∨ (point_at p (j2 - 1)).y < sample_position spline.closed nsamples spline.length i
        ∨ (1 ≤ i ∧ (point_at p (j2 - 1)).y
            ≤ sample_position spline.closed nsamples spline.length (i - 1)) := by
      by_cases hjj : j2 = j
      · rw [hjj]
        rcases hinv2 with h | h
        · exact Or.inl h
        · exact Or.inr (Or.inr h)
      · exact Or.inr (Or.inl (hall (j2 - 1) (by omega) (by omega)))
    obtain ⟨f, g, J, hfg, hlen, hin, hout⟩ := ih (i + 1) j2
      (coords.map (fun b => b.set i (sample_uniform_eval L junk spline p
        (sample_position spline.closed nsamples spline.length i) j2).1))
      (velocities.map (fun b => b.set i (sample_uniform_eval L junk spline p
        (sample_position spline.closed nsamples spline.length i) j2).2))
      (by omega) (by omega) hle2
      (fun hr => le_trans hlow (hmono i (by omega)))
      (Or.inr ⟨by omega, by simpa using hlow⟩)
    refine ⟨fun b => f (b.set i (sample_uniform_eval L junk spline p
        (sample_position spline.closed nsamples spline.length i) j2).1),
      fun b => g (b.set i (sample_uniform_eval L junk spline p
        (sample_position spline.closed nsamples spline.length i) j2).2),
      fun k => if k = i then j2 else J k, ?_, ?_, ?_, ?_⟩
    · rw [sample_uniform_loop]
      simp only [hs, hj2len, not_true_eq_false, if_false]
      rw [hfg]
      simp [Option.map_map, Function.comp_def]
    · intro b
      simp [hlen]
    · intro k h1 h2
      by_cases hk : k = i
      · subst hk
        simp only [if_true]
        refine ⟨⟨by omega, hj2len, hnot, hlow, hthird⟩, fun b h3 => ?_⟩
        have h4 := hout (b.set k (sample_uniform_eval L junk spline p
          (sample_position spline.closed nsamples spline.length k) j2).1) k (by omega)
        have h5 := hout (b.set k (sample_uniform_eval L junk spline p
          (sample_position spline.closed nsamples spline.length k) j2).2) k (by omega)
        rw [h4.1, h5.2]
        simp [h3]
      · simp only [hk, if_false]
        obtain ⟨hbr, hval⟩ := hin k (by omega) (by omega)
        refine ⟨hbr, fun b h3 => ?_⟩
        exact ⟨(hval _ (by simpa using h3)).1, (hval _ (by simpa using h3)).2⟩
    · intro b k hk
      have hki : i ≠ k := by omega
      have h4 := hout (b.set i (sample_uniform_eval L junk spline p
        (sample_position spline.closed nsamples spline.length i) j2).1) k (by omega)
      have h5 := hout (b.set i (sample_uniform_eval L junk spline p
        (sample_position spline.closed nsamples spline.length i) j2).2) k (by omega)
      simp only []
      rw [h4.1, h5.2]
      simp [List.getElem?_set_ne hki]

end Uniform

end Gwy

namespace Gwy

open GwySplineRecurseOutputType

section Straight

variable {F : Type} [LinearOrderedField F]

/-! ## Straight segments (slackness 0) -/

/-- The straight-line loop of `calculate_control_points` writes the
straight-line control points of segment `k` to every cell `k` it visits. -/
theorem control_points_straight_loop (n : Nat) (xy : List (PointXY F)) :
    ∀ (rem i : Nat) (uv : List (ControlPoint F)), i + rem ≤ n + 1 →
      (calculate_control_points_straight n xy rem i i uv).length = uv.length
        ∧ ∀ k, k < uv.length →
          (calculate_control_points_straight n xy rem i i uv)[k]?
            = if i ≤ k ∧ k < i + rem then
                some (interpolate_straight_line (point_at xy k)
                  (point_at xy ((k + 1) % (n + 1))) ⟨0, 0, 0, 0⟩)
              else uv[k]? := by
  intro rem
  induction rem with
  | zero =>
    intro i uv _
    refine ⟨rfl, fun k _ => ?_⟩
    have : ¬(i ≤ k ∧ k < i + 0) := by omega
    rw [if_neg this]
    rfl
  | succ rem ih =>
    intro i uv hi
    rw [calculate_control_points_straight]
    have hnext : (if i = n then 0 else i + 1) = (i + 1) % (n + 1) := by
      split
      · next h => rw [h, Nat.mod_self]
      · next h => rw [Nat.mod_eq_of_lt (by omega)]
    by_cases hin : i = n
    · -- last iteration: the loop ends here
      have hrem : rem = 0 := by omega
      subst hrem
      simp only [calculate_control_points_straight, List.length_modify, true_and]
      intro k hk
      rw [List.getElem?_modify]
      by_cases hki : i = k
      · subst hki
        have h2 : i ≤ i ∧ i < i + (0 + 1) := by omega
        simp only [h2, and_self, if_true, if_pos, hnext]
        simp [List.getElem?_eq_getElem hk, interpolate_straight_line]
      · have h2 : ¬(i ≤ k ∧ k < i + (0 + 1)) := by omega
        simp [hki, h2]
    · simp only [hin, if_false]
      obtain ⟨hlen, hget⟩ := ih (i + 1)
        (uv.modify (interpolate_straight_line (point_at xy i) (point_at xy (i + 1))) i)
        (by omega)
      refine ⟨by rw [hlen, List.length_modify], fun k hk => ?_⟩
      rw [hget k (by rw [List.length_modify]; exact hk), List.getElem?_modify]
      have hmod : (i + 1) % (n + 1) = i + 1 := Nat.mod_eq_of_lt (by omega)
      by_cases hki : i = k
      · subst hki
        have h1 : ¬(i + 1 ≤ i ∧ i < i + 1 + rem) := by omega
        have h2 : i ≤ i ∧ i < i + (rem + 1) := by omega
        simp only [h1, h2, and_self, if_true, if_false, hmod]
        simp [List.getElem?_eq_getElem hk, interpolate_straight_line]
      · by_cases hr : i + 1 ≤ k ∧ k < i + 1 + rem
        · have h2 : i ≤ k ∧ k < i + (rem + 1) := by omega
          simp [hr, h2]
        · have h2 : ¬(i ≤ k ∧ k < i + (rem + 1)) := by omega
          simp [hr, h2, hki]

theorem g_array_set_size_length {α : Type} (a : List α) (n : Nat) (junk : Nat → α) :
    (g_array_set_size a n junk).length = n := by
  simp only [g_array_set_size, List.length_append, List.length_take, List.length_map,
    List.length_range']
  omega

/-- With slackness 0 (or two points) `calculate_control_points` as called by
`sample_curve` stores the straight-line control points of every segment. -/
theorem control_points_straight (L : Libm F) (junk : Nat → ControlPoint F)
    (xy : List (PointXY F)) (slackness : F) (closed : Bool) (old : List (ControlPoint F))
    (hn : 2 ≤ xy.length) (hs : slackness = 0 ∨ xy.length = 2)
    (hs2 : 0 ≤ slackness ∧ slackness ≤ 1) (k : Nat)
    (hk : k < segment_count xy.length closed) :
    g_array_index (calculate_control_points L ((xy.length : Int) - 1) xy slackness closed
        (g_array_set_size old (segment_count xy.length closed) junk)) k (junk k)
      = interpolate_straight_line (point_at xy k) (point_at xy ((k + 1) % xy.length))
          ⟨0, 0, 0, 0⟩ := by
  obtain ⟨n, hn2⟩ : ∃ n, xy.length = n + 1 := ⟨xy.length - 1, by omega⟩
  have hn1 : 1 ≤ n := by omega
  have hint : ((xy.length : Int) - 1) = (n : Int) := by rw [hn2]; push_cast; ring
  have hcond : n = 1 ∨ slackness = 0 := by
    rcases hs with h | h
    · exact Or.inr h
    · left; omega
  have hge : ((n : Int) ≥ 1) := by exact_mod_cast hn1
  unfold calculate_control_points
  rw [hint]
  simp only [hge, not_true_eq_false, if_false, hs2.1, hs2.2, ge_iff_le, and_self,
    Int.toNat_ofNat, hcond, if_true]
  have hcount : segment_count xy.length closed = if closed then n + 1 else n := by
    unfold segment_count
    rw [hn2]
    cases closed <;> simp
  rw [hcount] at hk ⊢
  obtain ⟨hlen, hget⟩ := control_points_straight_loop n xy (if closed then n + 1 else n) 0
    (g_array_set_size old (if closed then n + 1 else n) junk)
    (by cases closed <;> simp)
  have hlen0 := g_array_set_size_length old (if closed then n + 1 else n) junk
  have hk2 := hget k (by rw [hlen0]; exact hk)
  have hcond2 : 0 ≤ k ∧ k < 0 + (if closed then n + 1 else n) := by omega
  rw [if_pos hcond2] at hk2
  simp only [g_array_index, List.getD_eq_getElem?_getD, hk2, Option.getD_some, hn2]

/-- The item of a straight segment at time `t`. -/
theorem segment_item_straight (L : Libm F) (p0 p1 : PointXY F) (c : ControlPoint F) (t : F) :
    segment_item L p0 p1 (interpolate_straight_line p0 p1 c) t
      = { z := ⟨(1 - t)*p0.x + t*p1.x, (1 - t)*p0.y + t*p1.y⟩
          v := ⟨p1.x - p0.x, p1.y - p0.y⟩
          t := t
          vl := L.hypot (p1.x - p0.x) (p1.y - p0.y) } := by
  simp only [segment_item, interpolate_z_straight, interpolate_v_straight]

/-- On a straight segment every interval passes both tolerance tests. -/
theorem straight_within {L : Libm F} (hL : L.Exact) (cparam : GwySplineSampleParams F)
    (c : ControlPoint F) (huv : cparam.uv = interpolate_straight_line cparam.pt0 cparam.pt1 c)
    (hdev : 0 ≤ cparam.max_dev) (hvr : 0 ≤ cparam.max_vrdev) (ta tb : F) :
    sample_curve_within L cparam (segment_item L cparam.pt0 cparam.pt1 cparam.uv ta)
      (segment_item L cparam.pt0 cparam.pt1 cparam.uv tb) = true := by
  unfold sample_curve_within
  rw [sample_curve_middle_eq]
  simp only [huv, segment_item_straight, division_time, if_true]
  have e1 : ∀ a b : F, a - (a*(1 - 1/2) + a*(1/2)) = 0 := by intro a b; ring
  have e2 : ∀ a b : F, (1 - (ta*(1 - 1/2) + tb*(1/2)))*a + (ta*(1 - 1/2) + tb*(1/2))*b
      - ((1 - ta)*a + ta*b + ((1 - tb)*a + tb*b))/2 = 0 := by intro a b; ring
  rw [e1 _ 0, e1 _ 0, e2, e2, hL.hypot_zero]
  simp [vrdev_within, hdev, hvr]

/-- On a straight segment `sample_curve_recurse` returns with two levels of
fuel. -/
theorem recurse_straight_returns {L : Libm F} (hL : L.Exact)
    (cparam : GwySplineSampleParams F) (c : ControlPoint F)
    (huv : cparam.uv = interpolate_straight_line cparam.pt0 cparam.pt1 c)
    (hdev : 0 ≤ cparam.max_dev) (hvr : 0 ≤ cparam.max_vrdev) (hot : cparam.otype
      = CURVE_RECURSE_OUTPUT_T_L) (fuel : Nat) (hfuel : 2 ≤ fuel) (ta tb : F) :
    ∃ r, sample_curve_recurse L fuel cparam
      (segment_item L cparam.pt0 cparam.pt1 cparam.uv ta)
      (segment_item L cparam.pt0 cparam.pt1 cparam.uv tb) = some r := by
  have hleaf : ∀ (cp : GwySplineSampleParams F), cp.uv = interpolate_straight_line cp.pt0 cp.pt1 c →
      0 ≤ cp.max_dev → 0 ≤ cp.max_vrdev → cp.otype = CURVE_RECURSE_OUTPUT_T_L →
      cp.depth ≠ 0 → ∀ (f : Nat) (ta tb : F), ∃ r, sample_curve_recurse L (f + 1) cp
        (segment_item L cp.pt0 cp.pt1 cp.uv ta)
        (segment_item L cp.pt0 cp.pt1 cp.uv tb) = some r := by
    intro cp h1 h2 h3 h4 h5 f ta tb
    rw [sample_curve_recurse]
    have hacc : sample_curve_accept L cp (segment_item L cp.pt0 cp.pt1 cp.uv ta)
        (segment_item L cp.pt0 cp.pt1 cp.uv tb) = true := by
      simp [sample_curve_accept, h5, straight_within hL cp c h1 h2 h3]
    simp [hacc, h4]
  obtain ⟨f, rfl⟩ : ∃ f, fuel = f + 2 := ⟨fuel - 2, by omega⟩
  by_cases hd : cparam.depth = 0
  · rw [sample_curve_recurse]
    have hacc : sample_curve_accept L cparam
        (segment_item L cparam.pt0 cparam.pt1 cparam.uv ta)
        (segment_item L cparam.pt0 cparam.pt1 cparam.uv tb) = false := by
      simp [sample_curve_accept, hd]
    simp only [hacc, Bool.false_eq_true, if_false]
    rw [sample_curve_middle_eq]
    obtain ⟨r1, hr1⟩ := hleaf { cparam with depth := cparam.depth + 1 } huv hdev hvr hot
      (by simp [hd]) f ta
      ((segment_item L cparam.pt0 cparam.pt1 cparam.uv ta).t
          *(1 - division_time L (segment_item L cparam.pt0 cparam.pt1 cparam.uv ta).vl
            (segment_item L cparam.pt0 cparam.pt1 cparam.uv tb).vl (1/2))
        + (segment_item L cparam.pt0 cparam.pt1 cparam.uv tb).t
          *division_time L (segment_item L cparam.pt0 cparam.pt1 cparam.uv ta).vl
            (segment_item L cparam.pt0 cparam.pt1 cparam.uv tb).vl (1/2))
    rw [hr1]
    simp only []
    obtain ⟨a1, a2, a3, a4, a5, a6, a7⟩ := recurse_frame L _ _ _ _ _ hr1
    simp only [] at a1 a2 a3 a4 a5 a6 a7
    obtain ⟨r2, hr2⟩ := hleaf r1 (by rw [a1, a2, a3]; exact huv) (by rw [a4]; exact hdev)
      (by rw [a5]; exact hvr) (by rw [a6]; exact hot) (by rw [a7]; simp [hd]) f
      ((segment_item L cparam.pt0 cparam.pt1 cparam.uv ta).t
          *(1 - division_time L (segment_item L cparam.pt0 cparam.pt1 cparam.uv ta).vl
            (segment_item L cparam.pt0 cparam.pt1 cparam.uv tb).vl (1/2))
        + (segment_item L cparam.pt0 cparam.pt1 cparam.uv tb).t
          *division_time L (segment_item L cparam.pt0 cparam.pt1 cparam.uv ta).vl
            (segment_item L cparam.pt0 cparam.pt1 cparam.uv tb).vl (1/2)) tb
    rw [a1, a2, a3] at hr2
    rw [hr2]
    exact ⟨_, rfl⟩
  · exact hleaf cparam huv hdev hvr hot hd (f + 1) ta tb

end Straight

end Gwy

namespace Gwy

open GwySplineRecurseOutputType

section Eval

variable {F : Type} [LinearOrderedField F]

/-! ## Termination of `sample_curve` from termination on the segments -/

/-- If the recursion returns on every segment, the loop over the segments
returns. -/
theorem segments_returns (L : Libm F) (fuel : Nat) (junk : Nat → ControlPoint F)
    (spline : GwySpline F) (max_dev max_vrdev : F)
    (hseg : ∀ k, k < segment_count spline.points.length spline.closed →
      ∀ pts : List (PointXY F), ∃ r, sample_curve_recurse L fuel
        { segment_params junk spline max_dev max_vrdev k with points := pts }
        (segment_item L (point_at spline.points k)
          (point_at spline.points ((k + 1) % spline.points.length))
          (g_array_index spline.control_points k (junk k)) 0)
        (segment_item L (point_at spline.points k)
          (point_at spline.points ((k + 1) % spline.points.length))
          (g_array_index spline.control_points k (junk k)) 1) = some r) :
    ∀ (rem i : Nat) (pt : PointXY F) (pts : List (PointXY F)),
      1 ≤ i → i + rem = segment_count spline.points.length spline.closed + 1 →
      (rem ≠ 0 → pt = point_at spline.points (i - 1)) →
      ∃ p2, sample_curve_segments L fuel junk spline max_dev max_vrdev
        CURVE_RECURSE_OUTPUT_T_L rem i pt pts = some p2 := by
  intro rem
  induction rem with
  | zero =>
    intro i pt pts _ _ _
    exact ⟨pts, rfl⟩
  | succ rem ih =>
    intro i pt pts hi hrem hpt
    have hpt2 := hpt (by omega)
    subst hpt2
    rw [segments_unfold]
    have hle := segment_count_le spline.points.length spline.closed
    have hidx := next_point_index spline.points.length i hi (by omega)
    have hpt1 : (if i = spline.points.length then point_at spline.points 0
        else point_at spline.points i)
        = point_at spline.points ((i - 1 + 1) % spline.points.length) := by
      rw [← hidx]
      split <;> rfl
    rw [hpt1]
    obtain ⟨r, hr⟩ := hseg (i - 1) (by omega) pts
    simp only [segment_params] at hr
    rw [hr]
    simp only []
    apply ih (i + 1) _ _ (by omega) (by omega)
    intro _
    have h5 : (i - 1 + 1) % spline.points.length = i := by
      rw [Nat.sub_add_cancel hi, Nat.mod_eq_of_lt (by omega)]
    simp [h5]

/-- If the recursion returns on every segment of the spline with recomputed
control points, `sample_curve` returns. -/
theorem sample_curve_returns (L : Libm F) (fuel : Nat) (junk : Nat → ControlPoint F)
    (spline s2 : GwySpline F) (max_dev max_vrdev : F) (hn : 2 ≤ spline.points.length)
    (hs2 : s2 = { spline with control_points :=
        (calculate_control_points L ((spline.points.length : Int) - 1) spline.points
          spline.slackness spline.closed
          (g_array_set_size spline.control_points
            (segment_count spline.points.length spline.closed) junk)) })
    (hseg : ∀ k, k < segment_count s2.points.length s2.closed →
      ∀ pts : List (PointXY F), ∃ r, sample_curve_recurse L fuel
        { segment_params junk s2 max_dev max_vrdev k with points := pts }
        (segment_item L (point_at s2.points k)
          (point_at s2.points ((k + 1) % s2.points.length))
          (g_array_index s2.control_points k (junk k)) 0)
        (segment_item L (point_at s2.points k)
          (point_at s2.points ((k + 1) % s2.points.length))
          (g_array_index s2.control_points k (junk k)) 1) = some r) :
    ∃ p, sample_curve L fuel junk spline max_dev max_vrdev CURVE_RECURSE_OUTPUT_T_L
      = some (s2, p) := by
  obtain ⟨p2, hp2⟩ := segments_returns L fuel junk s2 max_dev max_vrdev hseg
    (segment_count s2.points.length s2.closed) 1 (point_at s2.points 0) [⟨0, 0⟩]
    (le_refl 1) (by omega) (fun _ => rfl)
  refine ⟨p2, ?_⟩
  unfold sample_curve
  have h0 : spline.points.length ≠ 0 := by omega
  have h1 : spline.points.length ≠ 1 := by omega
  simp only [h0, h1, if_false]
  subst hs2
  simp only [segment_count] at hp2 ⊢
  rw [hp2]

/-! ## Monotone lengths -/

theorem leaf_length_nonneg {L : Libm F} (hL : L.Exact) (cp : GwySplineSampleParams F)
    (ta tb y : F) (h : Leaf L cp ta tb y) : 0 ≤ y := by
  rw [h.2.2]
  simp only [sample_curve_tl]
  exact add_nonneg (hL.hypot_nonneg _ _) (hL.hypot_nonneg _ _)

/-- Cumulative lengths of a natural sampling do not decrease. -/
theorem natural_length_mono {L : Libm F} (hL : L.Exact) {junk : Nat → ControlPoint F}
    {spline : GwySpline F} {max_dev max_vrdev : F} {p : List (PointXY F)}
    (h : NaturalSampling L junk spline max_dev max_vrdev p) :
    ∀ (d j : Nat), j + d < p.length → (point_at p j).y ≤ (point_at p (j + d)).y := by
  obtain ⟨_, _, hstep, _⟩ := natural_sampling_index h
  intro d
  induction d with
  | zero => intro j _; exact le_refl _
  | succ d ih =>
    intro j hj
    have h1 := ih j (by omega)
    obtain ⟨k, ta, tb, _, _, _, _, _, hleaf⟩ := hstep (j + d + 1) (by omega) (by omega)
    have h2 := leaf_length_nonneg hL _ _ _ _ hleaf
    have h3 : j + d + 1 - 1 = j + d := by omega
    rw [h3] at h2
    have h4 : j + (d + 1) = j + d + 1 := by omega
    rw [h4]
    linarith

/-! ## The value computed for one sample -/

theorem segment_index_ne [FloorRing F] (npts : Nat) (x : F) (h : 1 ≤ npts) :
    segment_index npts x ≠ npts := by
  unfold segment_index
  simp only []
  split <;> omega

/-- The parameter `t` of `sample_uniform_locate` divides the bracket
`(t0, t1)` in a ratio `q` of the unit interval, which is 0 or 1 when the
target is the lower or upper end of a bracket of positive length; the segment
index is that of `t`. -/
theorem locate_spec [FloorRing F] {L : Libm F} (hL : L.Exact) (junk : Nat → ControlPoint F)
    (spline : GwySpline F) (p : List (PointXY F)) (pos : F) (j : Nat)
    (hnp : 1 ≤ spline.points.length)
    (hlo : (point_at p (j - 1)).y ≤ pos) (hhi : ¬((point_at p j).y < pos)) :
    ∃ q : F, 0 ≤ q ∧ q ≤ 1
      ∧ ((point_at p (j - 1)).y ≠ (point_at p j).y → pos = (point_at p (j - 1)).y → q = 0)
      ∧ ((point_at p (j - 1)).y ≠ (point_at p j).y → pos = (point_at p j).y → q = 1)
      ∧ ((point_at p (j - 1)).y = (point_at p j).y → 1/4 ≤ q ∧ q ≤ 3/4)
      ∧ (sample_uniform_locate L junk spline p pos j).2
          = q*(point_at p j).x + (1 - q)*(point_at p (j - 1)).x
      ∧ (sample_uniform_locate L junk spline p pos j).1
          = segment_index spline.points.length (sample_uniform_locate L junk spline p pos j).2 := by
  have hhi2 : pos ≤ (point_at p j).y := not_lt.mp hhi
  simp only [sample_uniform_locate]
  generalize hv0 : L.hypot _ _ = v0l
  generalize hv1 : L.hypot _ _ = v1l
  have h0 : 0 ≤ v0l := by rw [← hv0]; exact hL.hypot_nonneg _ _
  have h1 : 0 ≤ v1l := by rw [← hv1]; exact hL.hypot_nonneg _ _
  refine ⟨division_time L v0l v1l (if (point_at p (j - 1)).y = (point_at p j).y then 1/2
    else (pos - (point_at p (j - 1)).y)/((point_at p j).y - (point_at p (j - 1)).y)),
    ?_, ?_, ?_, ?_, ?_, rfl, ?_⟩
  · by_cases he : (point_at p (j - 1)).y = (point_at p j).y
    · rw [if_pos he]
      exact (division_time_unit hL _ _ _ h0 h1 (by norm_num) (by norm_num)).1
    · rw [if_neg he]
      have hlt : 0 < (point_at p j).y - (point_at p (j - 1)).y := by
        rcases lt_or_eq_of_le (le_trans hlo hhi2) with h | h
        · linarith
        · exact absurd h he
      exact (division_time_unit hL _ _ _ h0 h1 (div_nonneg (by linarith) hlt.le)
        (by rw [div_le_iff₀ hlt]; linarith)).1
  · by_cases he : (point_at p (j - 1)).y = (point_at p j).y
    · rw [if_pos he]
      exact (division_time_unit hL _ _ _ h0 h1 (by norm_num) (by norm_num)).2
    · rw [if_neg he]
      have hlt : 0 < (point_at p j).y - (point_at p (j - 1)).y := by
        rcases lt_or_eq_of_le (le_trans hlo hhi2) with h | h
        · linarith
        · exact absurd h he
      exact (division_time_unit hL _ _ _ h0 h1 (div_nonneg (by linarith) hlt.le)
        (by rw [div_le_iff₀ hlt]; linarith)).2
  · intro he hp
    rw [if_neg he, hp, sub_self, zero_div]
    exact division_time_zero hL _ _ h0 h1
  · intro he hp
    have hne : (point_at p j).y - (point_at p (j - 1)).y ≠ 0 := by
      intro h
      exact he (by linarith)
    rw [if_neg he, hp, div_self hne]
    exact division_time_one hL _ _ h0 h1
  · intro he
    rw [if_pos he]
    exact division_time_half_bounds hL _ _ h0 h1
  · generalize division_time L v0l v1l _ * (point_at p j).x + _ = t
    by_cases h : (Int.floor t).toNat ≠ segment_index spline.points.length (point_at p j).x
    · rw [if_pos h]
    · rw [if_neg h]
      simp only [not_not] at h
      have hne := segment_index_ne spline.points.length (point_at p j).x hnp
      rw [← h] at hne
      simp only [segment_index]
      rw [if_neg hne, h]
      rfl

theorem floor_nat_add [FloorRing F] (k : Nat) (tau : F) (h0 : 0 ≤ tau) (h1 : tau < 1) :
    (Int.floor ((k : F) + tau)).toNat = k := by
  have : Int.floor ((k : F) + tau) = (k : Int) := by
    rw [Int.floor_eq_iff]
    push_cast
    constructor <;> linarith
  rw [this]
  simp

theorem floor_nat_succ [FloorRing F] (k : Nat) : (Int.floor ((k : F) + 1)).toNat = k + 1 := by
  have : Int.floor ((k : F) + 1) = ((k + 1 : Nat) : Int) := by
    rw [Int.floor_eq_iff]
    push_cast
    constructor <;> linarith
  rw [this]
  simp

/-- The position computed for a sample whose target lies in the bracket
`(j - 1, j)` of a natural sampling is the position of the curve on the
segment `k` of that bracket, at a time `q*tb + (1 - q)*ta` of the emitted
interval `(ta, tb)` the bracket stands for. -/
theorem uniform_eval_position [FloorRing F] {L : Libm F} (hL : L.Exact)
    (junk : Nat → ControlPoint F) (spline : GwySpline F) (max_dev max_vrdev : F)
    (p : List (PointXY F)) (hnat : NaturalSampling L junk spline max_dev max_vrdev p)
    (pos : F) (j : Nat) (hj1 : 1 ≤ j) (hj2 : j < p.length)
    (hlo : (point_at p (j - 1)).y ≤ pos) (hhi : ¬((point_at p j).y < pos)) :
    ∃ (k : Nat) (ta tb q : F),
      k < segment_count spline.points.length spline.closed
        ∧ 0 ≤ ta ∧ ta < tb ∧ tb ≤ 1
        ∧ (point_at p (j - 1)).x = (k : F) + ta ∧ (point_at p j).x = (k : F) + tb
        ∧ Leaf L (segment_params junk spline max_dev max_vrdev k) ta tb
            ((point_at p j).y - (point_at p (j - 1)).y)
        ∧ 0 ≤ q ∧ q ≤ 1
        ∧ ((point_at p (j - 1)).y ≠ (point_at p j).y → pos = (point_at p (j - 1)).y → q = 0)
        ∧ ((point_at p (j - 1)).y ≠ (point_at p j).y → pos = (point_at p j).y → q = 1)
        ∧ ((point_at p (j - 1)).y = (point_at p j).y → 1/4 ≤ q ∧ q ≤ 3/4)
        ∧ (sample_uniform_eval L junk spline p pos j).1
            = interpolate_z (point_at spline.points k)
                (point_at spline.points ((k + 1) % spline.points.length))
                (g_array_index spline.control_points k (junk k)) (q*tb + (1 - q)*ta) := by
  obtain ⟨_, _, hstep, _⟩ := natural_sampling_index hnat
  obtain ⟨k, ta, tb, hk, hta, htb, hx0, hx1, hleaf⟩ := hstep j hj1 hj2
  have hle := segment_count_le spline.points.length spline.closed
  have hnp : 1 ≤ spline.points.length := by omega
  obtain ⟨q, hq0, hq1, hqa, hqb, hqc, ht, hkk⟩ := locate_spec hL junk spline p pos j hnp hlo hhi
  refine ⟨k, ta, tb, q, hk, hta, hleaf.1, htb, hx0, hx1, hleaf, hq0, hq1, hqa, hqb, hqc, ?_⟩
  have hlt : ta < tb := hleaf.1
  have htau0 : 0 ≤ q*tb + (1 - q)*ta := by nlinarith
  have htau1 : q*tb + (1 - q)*ta ≤ 1 := by nlinarith
  have htform : (sample_uniform_locate L junk spline p pos j).2
      = (k : F) + (q*tb + (1 - q)*ta) := by
    rw [ht, hx0, hx1]; ring
  simp only [sample_uniform_eval]
  rw [hkk, htform]
  rcases lt_or_eq_of_le htau1 with hlt1 | heq1
  · have hfl := floor_nat_add k _ htau0 hlt1
    have hseg : segment_index spline.points.length ((k : F) + (q*tb + (1 - q)*ta)) = k := by
      simp only [segment_index, hfl]
      rw [if_neg (by omega)]
    rw [hseg]
    congr 1
    ring
  · rw [heq1]
    have hfl := floor_nat_succ (F := F) k
    by_cases hkn : k + 1 = spline.points.length
    · have hseg : segment_index spline.points.length ((k : F) + 1) = k := by
        simp only [segment_index, hfl]
        rw [if_pos hkn]
        omega
      rw [hseg]
      congr 1
      ring
    · have hseg : segment_index spline.points.length ((k : F) + 1) = k + 1 := by
        simp only [segment_index, hfl]
        rw [if_neg hkn]
      rw [hseg]
      have e1 : (k : F) + 1 - ((k + 1 : Nat) : F) = 0 := by push_cast; ring
      rw [e1, interpolate_z_zero, interpolate_z_one, Nat.mod_eq_of_lt (by omega)]

end Eval

end Gwy

namespace Gwy

open GwySplineRecurseOutputType

section Polyline

variable {F : Type} [LinearOrderedField F]

/-! ## Uniform sampling on top of a natural sampling -/

theorem sample_position_mono (closed : Bool) (n i : Nat) (L : F) (hL : 0 ≤ L)
    (hi : i + 1 < n) :
    sample_position closed n L i ≤ sample_position closed n L (i + 1) := by
  have hn0 : (0 : F) < (n : F) := by exact_mod_cast (by omega : 0 < n)
  have hn1 : (0 : F) < (n : F) - 1 := by
    have : ((2 : ℕ) : F) ≤ (n : F) := by exact_mod_cast (by omega : 2 ≤ n)
    push_cast at this
    linarith
  have hgt : n > 1 := by omega
  cases closed
  · simp only [sample_position, hgt, if_true, Bool.false_eq_true, if_false]
    apply div_le_div_of_nonneg_right _ hn1.le
    push_cast
    nlinarith
  · simp only [sample_position, if_true]
    apply div_le_div_of_nonneg_right _ hn0.le
    push_cast
    nlinarith

theorem G_MAXDOUBLE_nonneg : (0 : F) ≤ G_MAXDOUBLE := by
  unfold G_MAXDOUBLE
  apply mul_nonneg
  · have : (1 : F) ≤ 2^53 := one_le_pow₀ (by norm_num)
    linarith
  · positivity

/-- Uniform sampling of a spline with at least two points, for a fuel with
which the recursion returns on every segment: the call returns, the spline
gets its control points and its length, and sample `k` is the value computed
at a bracket of its target position in a natural sampling `p`. -/
theorem uniformly_spec [FloorRing F] {L : Libm F} (hL : L.Exact)
    (junk : Nat → ControlPoint F) (s s2 : GwySpline F) (n fuel : Nat)
    (coords velocities : Option (List (PointXY F)))
    (hpts : 2 ≤ s.points.length) (hn : 1 ≤ n)
    (hs2 : s2 = { s with control_points :=
        (calculate_control_points L ((s.points.length : Int) - 1) s.points
          s.slackness s.closed
          (g_array_set_size s.control_points
            (segment_count s.points.length s.closed) junk)) })
    (hseg : ∀ k, k < segment_count s2.points.length s2.closed →
      ∀ pts : List (PointXY F), ∃ r, sample_curve_recurse L fuel
        { segment_params junk s2 G_MAXDOUBLE (1/100) k with points := pts }
        (segment_item L (point_at s2.points k)
          (point_at s2.points ((k + 1) % s2.points.length))
          (g_array_index s2.control_points k (junk k)) 0)
        (segment_item L (point_at s2.points k)
          (point_at s2.points ((k + 1) % s2.points.length))
          (g_array_index s2.control_points k (junk k)) 1) = some r) :
    ∃ (p : List (PointXY F)) (f g : List (PointXY F) → List (PointXY F)) (J : Nat → Nat),
      NaturalSampling L junk { s2 with length := (point_at p (p.length - 1)).y }
          G_MAXDOUBLE (1/100) p
        ∧ sample_curve_uniformly L fuel junk s n coords velocities
            = some ({ s2 with length := (point_at p (p.length - 1)).y },
                coords.map f, velocities.map g)
        ∧ (∀ b : List (PointXY F), (f b).length = b.length ∧ (g b).length = b.length)
        ∧ (∀ k, k < n →
            (1 ≤ J k ∧ J k < p.length
              ∧ ¬((point_at p (J k)).y
                  < sample_position s2.closed n (point_at p (p.length - 1)).y k)
              ∧ (point_at p (J k - 1)).y
                  ≤ sample_position s2.closed n (point_at p (p.length - 1)).y k
              ∧ (J k = 1
                ∨ (point_at p (J k - 1)).y
                    < sample_position s2.closed n (point_at p (p.length - 1)).y k
                ∨ (1 ≤ k ∧ (point_at p (J k - 1)).y
                    ≤ sample_position s2.closed n (point_at p (p.length - 1)).y (k - 1))))
            ∧ ∀ b : List (PointXY F), k < b.length →
                (f b)[k]? = some (sample_uniform_eval L junk
                  { s2 with length := (point_at p (p.length - 1)).y } p
                  (sample_position s2.closed n (point_at p (p.length - 1)).y k) (J k)).1
                ∧ (g b)[k]? = some (sample_uniform_eval L junk
                  { s2 with length := (point_at p (p.length - 1)).y } p
                  (sample_position s2.closed n (point_at p (p.length - 1)).y k) (J k)).2)
        ∧ (∀ (b : List (PointXY F)) k, n ≤ k → (f b)[k]? = b[k]? ∧ (g b)[k]? = b[k]?) := by
  obtain ⟨p, hp⟩ := sample_curve_returns L fuel junk s s2 G_MAXDOUBLE (1/100) hpts hs2 hseg
  obtain ⟨_, hnat⟩ := sample_curve_spec hL fuel junk s s2 G_MAXDOUBLE (1/100) p hpts hp
  obtain ⟨hlen, hp0, hstep, hlastx⟩ := natural_sampling_index hnat
  have hmono := natural_length_mono hL hnat
  have hclosed : s2.closed = s.closed := by rw [hs2]
  have hsc : 1 ≤ segment_count s2.points.length s2.closed := by
    rw [hs2]
    simp only [segment_count]
    split <;> omega
  have hLnn : 0 ≤ (point_at p (p.length - 1)).y := by
    have := hmono (p.length - 1) 0 (by omega)
    rw [hp0] at this
    simpa using this
  obtain ⟨f, g, J, hloop, hlens, hin, hout⟩ := uniform_loop_spec L junk
    { s2 with length := (point_at p (p.length - 1)).y } p n (p.length - 1) (by omega)
    (fun i hi => not_lt.mpr
      ((sample_position_facts (point_at p (p.length - 1)).y n i hLnn hi).2.2.2.1 _).2)
    (fun i hi => sample_position_mono _ n i _ hLnn hi)
    n 0 1 coords velocities (by omega) (le_refl 1) (by omega)
    (fun _ => by
      simp only [Nat.sub_self, hp0]
      exact ((sample_position_facts (point_at p (p.length - 1)).y n 0 hLnn
        (by omega)).2.2.2.1 _).1)
    (Or.inl rfl)
  refine ⟨p, f, g, J, hnat, ?_, hlens, ?_, ?_⟩
  · unfold sample_curve_uniformly
    have h0 : n ≠ 0 := by omega
    have h1 : s.points.length ≠ 0 := by omega
    have h2 : s.points.length ≠ 1 := by omega
    simp only [h0, h1, h2, if_false, hp]
    rw [hloop]
  · intro k hk
    exact hin k (Nat.zero_le _) (by omega)
  · intro b k hk
    exact hout b k (by omega)

/-! ## Slackness 0: the samples lie on the polyline through the knots -/

/-- In exact arithmetic, and with a number in the cell past the end of
`control_points` that the last sample of an open curve reads: on a spline
with at least two points and slackness 0, open or closed, uniform sampling of
`n >= 1` points returns (two levels of fuel suffice) and every point it
writes to `coords` lies on a straight segment joining two consecutive knots,
the segment from the last knot to the first included when the curve is
closed.  In doubles the last target of an open curve can be rounded above the
length, and then the loop aborts. -/
theorem slackness_zero_on_polyline [FloorRing F] {L : Libm F} (hL : L.Exact)
    (junk : Nat → ControlPoint F) (s : GwySpline F) (n fuel : Nat)
    (coords velocities : Option (List (PointXY F)))
    (hpts : 2 ≤ s.points.length) (hs : s.slackness = 0) (hn : 1 ≤ n) (hfuel : 2 ≤ fuel) :
    ∃ (s2 : GwySpline F) (f g : List (PointXY F) → List (PointXY F)),
      sample_curve_uniformly L fuel junk s n coords velocities
          = some (s2, coords.map f, velocities.map g)
        ∧ (∀ b : List (PointXY F), (f b).length = b.length ∧ (g b).length = b.length)
        ∧ (∀ (b : List (PointXY F)) i, i < n → i < b.length →
            ∃ z, (f b)[i]? = some z ∧ OnPolyline s.points s.closed z)
        ∧ (∀ (b : List (PointXY F)) i, n ≤ i → (f b)[i]? = b[i]? ∧ (g b)[i]? = b[i]?) := by
  have hcp : ∀ k, k < segment_count s.points.length s.closed →
      g_array_index (calculate_control_points L ((s.points.length : Int) - 1) s.points
        s.slackness s.closed
        (g_array_set_size s.control_points (segment_count s.points.length s.closed) junk))
        k (junk k)
      = interpolate_straight_line (point_at s.points k)
          (point_at s.points ((k + 1) % s.points.length)) ⟨0, 0, 0, 0⟩ :=
    fun k hk => control_points_straight L junk s.points s.slackness s.closed s.control_points
      hpts (Or.inl hs) (by rw [hs]; exact ⟨le_refl 0, zero_le_one⟩) k hk
  obtain ⟨s2, hs2⟩ : ∃ s2 : GwySpline F, s2 = { s with control_points :=
      (calculate_control_points L ((s.points.length : Int) - 1) s.points
        s.slackness s.closed
        (g_array_set_size s.control_points
          (segment_count s.points.length s.closed) junk)) } := ⟨_, rfl⟩
  have hp2 : s2.points = s.points := by rw [hs2]
  have hc2 : s2.closed = s.closed := by rw [hs2]
  have hcp2 : ∀ k, k < segment_count s.points.length s.closed →
      g_array_index s2.control_points k (junk k)
        = interpolate_straight_line (point_at s.points k)
            (point_at s.points ((k + 1) % s.points.length)) ⟨0, 0, 0, 0⟩ := by
    intro k hk
    rw [hs2]
    exact hcp k hk
  obtain ⟨p, f, g, J, hnat, hres, hlens, hin, hout⟩ := uniformly_spec hL junk s s2 n fuel
    coords velocities hpts hn hs2 (by
      intro k hk pts
      rw [hp2, hc2] at hk
      exact recurse_straight_returns hL _ ⟨0, 0, 0, 0⟩
        (by simp only [segment_params]; rw [hp2]; exact hcp2 k hk) G_MAXDOUBLE_nonneg
        (by simp only [segment_params]; norm_num) rfl fuel hfuel 0 1)
  refine ⟨_, f, g, hres, hlens, ?_, hout⟩
  intro b i hi hib
  obtain ⟨⟨hJ1, hJ2, hhi, hlo, _⟩, hval⟩ := hin i hi
  refine ⟨_, (hval b hib).1, ?_⟩
  obtain ⟨k, ta, tb, q, hk, hta, hlt, htb, _, _, _, hq0, hq1, _, _, _, hz⟩ :=
    uniform_eval_position hL junk { s2 with length := (point_at p (p.length - 1)).y }
      G_MAXDOUBLE (1/100) p hnat _ (J i) hJ1 hJ2 hlo hhi
  rw [hz]
  simp only [] at hk ⊢
  rw [hp2, hc2] at hk
  rw [hp2, hcp2 k hk, interpolate_z_straight]
  exact ⟨k, q*tb + (1 - q)*ta, hk, by nlinarith, by nlinarith, rfl, rfl⟩

/-- The square root of the real numbers and the `hypot` built on it are
exact. -/
theorem real_libm_exact :
    (⟨fun x y => Real.sqrt (x*x + y*y), Real.sqrt⟩ : Libm ℝ).Exact :=
  ⟨fun x y => ⟨Real.sqrt_nonneg _,
      Real.mul_self_sqrt (add_nonneg (mul_self_nonneg x) (mul_self_nonneg y))⟩,
    fun x hx => ⟨Real.sqrt_nonneg x, Real.mul_self_sqrt hx⟩⟩

/-- An instance: a closed triangle with slackness 0 sampled at six points. -/
theorem slackness_zero_on_polyline_witness :
    ∃ (s2 : GwySpline ℝ) (f g : List (PointXY ℝ) → List (PointXY ℝ)),
      sample_curve_uniformly (⟨fun x y => Real.sqrt (x*x + y*y), Real.sqrt⟩ : Libm ℝ) 2
          (fun _ => ⟨7, 7, 7, 7⟩)
          { points := [⟨0, 0⟩, ⟨1, 0⟩, ⟨1, 1⟩], slackness := 0, closed := true,
            natural_sampling_valid := false, control_points := [], natural_points := [],
            length := 0, fixed_sampling_valid := false, nfixed := 0, fixed_samples := [] }
          6 (some (List.replicate 6 ⟨0, 0⟩)) none
          = some (s2, (some (List.replicate 6 ⟨0, 0⟩)).map f, (none : Option _).map g)
        ∧ (∀ b : List (PointXY ℝ), (f b).length = b.length ∧ (g b).length = b.length)
        ∧ (∀ (b : List (PointXY ℝ)) i, i < 6 → i < b.length →
            ∃ z, (f b)[i]? = some z ∧ OnPolyline [⟨0, 0⟩, ⟨1, 0⟩, ⟨1, 1⟩] true z)
        ∧ (∀ (b : List (PointXY ℝ)) i, 6 ≤ i → (f b)[i]? = b[i]? ∧ (g b)[i]? = b[i]?) :=
  slackness_zero_on_polyline real_libm_exact (fun _ => ⟨7, 7, 7, 7⟩)
    { points := [⟨0, 0⟩, ⟨1, 0⟩, ⟨1, 1⟩], slackness := 0, closed := true,
      natural_sampling_valid := false, control_points := [], natural_points := [],
      length := 0, fixed_sampling_valid := false, nfixed := 0, fixed_samples := [] }
    6 2 (some (List.replicate 6 ⟨0, 0⟩)) none (by simp) rfl (by norm_num) (le_refl 2)

end Polyline

end Gwy

namespace Gwy

open GwySplineRecurseOutputType

section Hypot

variable {F : Type} [LinearOrderedField F]

/-! ## The Euclidean norm behind an exact `hypot` -/

/-- The exact `hypot` is the only non-negative root of `x*x + y*y`. -/
theorem Libm.Exact.hypot_unique {L : Libm F} (hL : L.Exact) (x y r : F) (hr : 0 ≤ r)
    (h : r*r = x*x + y*y) : L.hypot x y = r := by
  have h1 := hL.hypot_nonneg x y
  have h2 := hL.hypot_mul_self x y
  have h3 : L.hypot x y * L.hypot x y = r*r := by rw [h2, h]
  exact (mul_self_inj h1 hr).mp h3

theorem Libm.Exact.hypot_neg {L : Libm F} (hL : L.Exact) (x y : F) :
    L.hypot (-x) (-y) = L.hypot x y :=
  hL.hypot_unique _ _ _ (hL.hypot_nonneg x y) (by rw [hL.hypot_mul_self]; ring)

theorem Libm.Exact.hypot_sub_comm {L : Libm F} (hL : L.Exact) (a b c d : F) :
    L.hypot (a - c) (b - d) = L.hypot (c - a) (d - b) := by
  rw [← hL.hypot_neg (c - a) (d - b)]
  congr 1 <;> ring

theorem Libm.Exact.hypot_smul {L : Libm F} (hL : L.Exact) (c x y : F) (hc : 0 ≤ c) :
    L.hypot (c*x) (c*y) = c*L.hypot x y :=
  hL.hypot_unique _ _ _ (mul_nonneg hc (hL.hypot_nonneg x y)) (by
    have := hL.hypot_mul_self x y
    calc c*L.hypot x y*(c*L.hypot x y) = c*c*(L.hypot x y*L.hypot x y) := by ring
      _ = c*x*(c*x) + c*y*(c*y) := by rw [this]; ring)

/-- Triangle inequality. -/
theorem Libm.Exact.hypot_add_le {L : Libm F} (hL : L.Exact) (a b c d : F) :
    L.hypot (a + c) (b + d) ≤ L.hypot a b + L.hypot c d := by
  have h1 := hL.hypot_nonneg a b
  have h2 := hL.hypot_nonneg c d
  have h3 := hL.hypot_nonneg (a + c) (b + d)
  have e1 := hL.hypot_mul_self a b
  have e2 := hL.hypot_mul_self c d
  have e3 := hL.hypot_mul_self (a + c) (b + d)
  generalize L.hypot a b = r1 at h1 e1
  generalize L.hypot c d = r2 at h2 e2
  generalize L.hypot (a + c) (b + d) = r3 at h3 e3
  -- Cauchy-Schwarz: a*c + b*d ≤ r1*r2
  have hcs : a*c + b*d ≤ r1*r2 := by
    have hsq : (a*c + b*d)*(a*c + b*d) ≤ (r1*r2)*(r1*r2) := by
      have : (r1*r2)*(r1*r2) = (a*a + b*b)*(c*c + d*d) := by
        rw [← e1, ← e2]; ring
      rw [this]
      nlinarith [mul_self_nonneg (a*d - b*c)]
    have h12 : 0 ≤ r1*r2 := mul_nonneg h1 h2
    by_contra hcon
    push_neg at hcon
    have := mul_self_lt_mul_self h12 hcon
    linarith
  by_contra hcon
  push_neg at hcon
  have := mul_self_lt_mul_self (add_nonneg h1 h2) hcon
  nlinarith

/-- Reverse triangle inequality. -/
theorem Libm.Exact.hypot_sub_ge {L : Libm F} (hL : L.Exact) (a b c d : F) :
    L.hypot a b - L.hypot c d ≤ L.hypot (a + c) (b + d) := by
  have h := hL.hypot_add_le (a + c) (b + d) (-c) (-d)
  rw [hL.hypot_neg] at h
  have e : L.hypot (a + c + -c) (b + d + -d) = L.hypot a b := by
    congr 1 <;> ring
  rw [e] at h
  linarith

end Hypot

end Gwy

namespace Gwy

open GwySplineRecurseOutputType

section Poly

variable {F : Type} [LinearOrderedField F]

/-! ## The cubic of one segment -/

/-- Error of the linear interpolation of the velocity between `ta` and `tb`
at the time `ta*(1 - q) + tb*q`. -/
theorem interpolate_v_lerp (pt0 pt1 : PointXY F) (uv : ControlPoint F) (ta tb q : F) :
    (interpolate_v pt0 pt1 uv (ta*(1 - q) + tb*q)).x
        - ((interpolate_v pt0 pt1 uv ta).x*(1 - q) + (interpolate_v pt0 pt1 uv tb).x*q)
        = 3*(q*(1 - q)*((tb - ta)*(tb - ta)))*(-(segment_w pt0 pt1 uv).x)
      ∧ (interpolate_v pt0 pt1 uv (ta*(1 - q) + tb*q)).y
        - ((interpolate_v pt0 pt1 uv ta).y*(1 - q) + (interpolate_v pt0 pt1 uv tb).y*q)
        = 3*(q*(1 - q)*((tb - ta)*(tb - ta)))*(-(segment_w pt0 pt1 uv).y) := by
  simp only [interpolate_v, segment_w]
  constructor <;> ring

/-- The velocity difference over an interval is the length of the interval
times the acceleration at its middle. -/
theorem interpolate_v_sub (pt0 pt1 : PointXY F) (uv : ControlPoint F) (ta tb : F) :
    (interpolate_v pt0 pt1 uv tb).x + -(interpolate_v pt0 pt1 uv ta).x
        = (tb - ta)*(interpolate_a pt0 pt1 uv ((ta + tb)/2)).x
      ∧ (interpolate_v pt0 pt1 uv tb).y + -(interpolate_v pt0 pt1 uv ta).y
        = (tb - ta)*(interpolate_a pt0 pt1 uv ((ta + tb)/2)).y := by
  simp only [interpolate_v, interpolate_a, segment_w]
  constructor <;> ring

/-- The sum of the velocities at the ends of an interval. -/
theorem interpolate_v_add (pt0 pt1 : PointXY F) (uv : ControlPoint F) (ta tb : F) :
    (interpolate_v pt0 pt1 uv ta).x + (interpolate_v pt0 pt1 uv tb).x
        = 2*(interpolate_v pt0 pt1 uv ((ta + tb)/2)).x
          + 3/2*((tb - ta)*(tb - ta))*(segment_w pt0 pt1 uv).x
      ∧ (interpolate_v pt0 pt1 uv ta).y + (interpolate_v pt0 pt1 uv tb).y
        = 2*(interpolate_v pt0 pt1 uv ((ta + tb)/2)).y
          + 3/2*((tb - ta)*(tb - ta))*(segment_w pt0 pt1 uv).y := by
  simp only [interpolate_v, segment_w]
  constructor <;> ring

/-- The position difference between two times, as the time difference times
a combination of the sides of the control polygon. -/
theorem interpolate_z_sub (pt0 pt1 : PointXY F) (uv : ControlPoint F) (t t2 : F) :
    (interpolate_z pt0 pt1 uv t).x - (interpolate_z pt0 pt1 uv t2).x
        = (t - t2)*(((1 - t)*(1 - t) + (1 - t)*(1 - t2) + (1 - t2)*(1 - t2))*(uv.ux - pt0.x)
            + (2*t*(1 - t) + 2*t2*(1 - t2) + t*(1 - t2) + t2*(1 - t))*(uv.vx - uv.ux)
            + (t*t + t*t2 + t2*t2)*(pt1.x - uv.vx))
      ∧ (interpolate_z pt0 pt1 uv t).y - (interpolate_z pt0 pt1 uv t2).y
        = (t - t2)*(((1 - t)*(1 - t) + (1 - t)*(1 - t2) + (1 - t2)*(1 - t2))*(uv.uy - pt0.y)
            + (2*t*(1 - t) + 2*t2*(1 - t2) + t*(1 - t2) + t2*(1 - t))*(uv.vy - uv.uy)
            + (t*t + t*t2 + t2*t2)*(pt1.y - uv.vy)) := by
  simp only [interpolate_z]
  constructor <;> ring

/-- The velocity test passes when a hundred times the velocity deviation is
at most the mean speed. -/
theorem vrdev_within_of_le (eps d : F) (h0 : 0 ≤ eps) (h : 100*eps ≤ d) :
    vrdev_within eps d (1/100) = true := by
  unfold vrdev_within
  by_cases he : eps = 0
  · simp [he]
  · have hpos : 0 < eps := lt_of_le_of_ne h0 (Ne.symm he)
    have hd : 0 < d := by linarith
    simp only [he, ne_eq, not_false_eq_true, if_true, Bool.and_eq_true, decide_eq_true_eq]
    refine ⟨hd.ne', ?_⟩
    rw [div_le_iff₀ hd]
    linarith

/-- The velocity deviation measured by `sample_curve_recurse` on the interval
`(ta, tb)` divided at the ratio `q`. -/
theorem velocity_deviation {L : Libm F} (hL : L.Exact) (pt0 pt1 : PointXY F)
    (uv : ControlPoint F) (ta tb q : F) (hq0 : 0 ≤ q) (hq1 : q ≤ 1) :
    L.hypot ((interpolate_v pt0 pt1 uv (ta*(1 - q) + tb*q)).x
        - ((interpolate_v pt0 pt1 uv ta).x*(1 - q) + (interpolate_v pt0 pt1 uv tb).x*q))
      ((interpolate_v pt0 pt1 uv (ta*(1 - q) + tb*q)).y
        - ((interpolate_v pt0 pt1 uv ta).y*(1 - q) + (interpolate_v pt0 pt1 uv tb).y*q))
      = 3*(q*(1 - q)*((tb - ta)*(tb - ta)))
          *L.hypot (segment_w pt0 pt1 uv).x (segment_w pt0 pt1 uv).y := by
  rw [(interpolate_v_lerp pt0 pt1 uv ta tb q).1, (interpolate_v_lerp pt0 pt1 uv ta tb q).2,
    hL.hypot_smul _ _ _ (by
      have := mul_nonneg (mul_nonneg hq0 (sub_nonneg.mpr hq1)) (mul_self_nonneg (tb - ta))
      linarith), hL.hypot_neg]

/-- The two tolerance tests on the interval `(ta, tb)` of a segment, written
out. -/
theorem within_unfold (L : Libm F) (cp : GwySplineSampleParams F) (ta tb : F) :
    sample_curve_within L cp (segment_item L cp.pt0 cp.pt1 cp.uv ta)
        (segment_item L cp.pt0 cp.pt1 cp.uv tb)
      = (decide (L.hypot
            ((interpolate_z cp.pt0 cp.pt1 cp.uv
                (ta*(1 - division_time L (segment_item L cp.pt0 cp.pt1 cp.uv ta).vl
                    (segment_item L cp.pt0 cp.pt1 cp.uv tb).vl (1/2))
                  + tb*division_time L (segment_item L cp.pt0 cp.pt1 cp.uv ta).vl
                    (segment_item L cp.pt0 cp.pt1 cp.uv tb).vl (1/2))).x
              - ((interpolate_z cp.pt0 cp.pt1 cp.uv ta).x
                  + (interpolate_z cp.pt0 cp.pt1 cp.uv tb).x)/2)
            ((interpolate_z cp.pt0 cp.pt1 cp.uv
                (ta*(1 - division_time L (segment_item L cp.pt0 cp.pt1 cp.uv ta).vl
                    (segment_item L cp.pt0 cp.pt1 cp.uv tb).vl (1/2))
                  + tb*division_time L (segment_item L cp.pt0 cp.pt1 cp.uv ta).vl
                    (segment_item L cp.pt0 cp.pt1 cp.uv tb).vl (1/2))).y
              - ((interpolate_z cp.pt0 cp.pt1 cp.uv ta).y
                  + (interpolate_z cp.pt0 cp.pt1 cp.uv tb).y)/2) ≤ cp.max_dev)
        && vrdev_within
          (L.hypot
            ((interpolate_v cp.pt0 cp.pt1 cp.uv
                (ta*(1 - division_time L (segment_item L cp.pt0 cp.pt1 cp.uv ta).vl
                    (segment_item L cp.pt0 cp.pt1 cp.uv tb).vl (1/2))
                  + tb*division_time L (segment_item L cp.pt0 cp.pt1 cp.uv ta).vl
                    (segment_item L cp.pt0 cp.pt1 cp.uv tb).vl (1/2))).x
              - ((interpolate_v cp.pt0 cp.pt1 cp.uv ta).x
                    *(1 - division_time L (segment_item L cp.pt0 cp.pt1 cp.uv ta).vl
                      (segment_item L cp.pt0 cp.pt1 cp.uv tb).vl (1/2))
                  + (interpolate_v cp.pt0 cp.pt1 cp.uv tb).x
                    *division_time L (segment_item L cp.pt0 cp.pt1 cp.uv ta).vl
                      (segment_item L cp.pt0 cp.pt1 cp.uv tb).vl (1/2)))
            ((interpolate_v cp.pt0 cp.pt1 cp.uv
                (ta*(1 - division_time L (segment_item L cp.pt0 cp.pt1 cp.uv ta).vl
                    (segment_item L cp.pt0 cp.pt1 cp.uv tb).vl (1/2))
                  + tb*division_time L (segment_item L cp.pt0 cp.pt1 cp.uv ta).vl
                    (segment_item L cp.pt0 cp.pt1 cp.uv tb).vl (1/2))).y
              - ((interpolate_v cp.pt0 cp.pt1 cp.uv ta).y
                    *(1 - division_time L (segment_item L cp.pt0 cp.pt1 cp.uv ta).vl
                      (segment_item L cp.pt0 cp.pt1 cp.uv tb).vl (1/2))
                  + (interpolate_v cp.pt0 cp.pt1 cp.uv tb).y
                    *division_time L (segment_item L cp.pt0 cp.pt1 cp.uv ta).vl
                      (segment_item L cp.pt0 cp.pt1 cp.uv tb).vl (1/2))))
          (((segment_item L cp.pt0 cp.pt1 cp.uv ta).vl
            + (segment_item L cp.pt0 cp.pt1 cp.uv tb).vl)/2) cp.max_vrdev) :=
  rfl

/-- A combination of the three sides of the control polygon with
non-negative weights is at most as long as the weighted sum of the lengths. -/
theorem hypot_combination_le {L : Libm F} (hL : L.Exact) (al be ka ax ay bx by_ cx cy : F)
    (h1 : 0 ≤ al) (h2 : 0 ≤ be) (h3 : 0 ≤ ka) :
    L.hypot (al*ax + be*bx + ka*cx) (al*ay + be*by_ + ka*cy)
      ≤ al*L.hypot ax ay + be*L.hypot bx by_ + ka*L.hypot cx cy := by
  have t1 := hL.hypot_add_le (al*ax + be*bx) (al*ay + be*by_) (ka*cx) (ka*cy)
  have t2 := hL.hypot_add_le (al*ax) (al*ay) (be*bx) (be*by_)
  rw [hL.hypot_smul _ _ _ h3] at t1
  rw [hL.hypot_smul _ _ _ h1, hL.hypot_smul _ _ _ h2] at t2
  linarith

/-- The curve of a segment is Lipschitz in the time, with the constant three
times the length of the control polygon. -/
theorem interpolate_z_lipschitz {L : Libm F} (hL : L.Exact) (pt0 pt1 : PointXY F)
    (uv : ControlPoint F) (t t2 : F) (h0 : 0 ≤ t2) (hle : t2 ≤ t) (h1 : t ≤ 1) :
    L.hypot ((interpolate_z pt0 pt1 uv t).x - (interpolate_z pt0 pt1 uv t2).x)
        ((interpolate_z pt0 pt1 uv t).y - (interpolate_z pt0 pt1 uv t2).y)
      ≤ (t - t2)*(3*(L.hypot (uv.ux - pt0.x) (uv.uy - pt0.y)
          + L.hypot (uv.vx - uv.ux) (uv.vy - uv.uy)
          + L.hypot (pt1.x - uv.vx) (pt1.y - uv.vy))) := by
  rw [(interpolate_z_sub pt0 pt1 uv t t2).1, (interpolate_z_sub pt0 pt1 uv t t2).2,
    hL.hypot_smul _ _ _ (sub_nonneg.mpr hle)]
  apply mul_le_mul_of_nonneg_left _ (sub_nonneg.mpr hle)
  have ht0 : 0 ≤ t := le_trans h0 hle
  have ht21 : t2 ≤ 1 := le_trans hle h1
  have ha := hL.hypot_nonneg (uv.ux - pt0.x) (uv.uy - pt0.y)
  have hb := hL.hypot_nonneg (uv.vx - uv.ux) (uv.vy - uv.uy)
  have hc := hL.hypot_nonneg (pt1.x - uv.vx) (pt1.y - uv.vy)
  have s1 : 0 ≤ 1 - t := sub_nonneg.mpr h1
  have s2 : 0 ≤ 1 - t2 := sub_nonneg.mpr ht21
  have al0 : 0 ≤ (1 - t)*(1 - t) + (1 - t)*(1 - t2) + (1 - t2)*(1 - t2) := by positivity
  have be0 : 0 ≤ 2*t*(1 - t) + 2*t2*(1 - t2) + t*(1 - t2) + t2*(1 - t) := by positivity
  have ka0 : 0 ≤ t*t + t*t2 + t2*t2 := by positivity
  have al3 : (1 - t)*(1 - t) + (1 - t)*(1 - t2) + (1 - t2)*(1 - t2) ≤ 3 := by nlinarith
  have be3 : 2*t*(1 - t) + 2*t2*(1 - t2) + t*(1 - t2) + t2*(1 - t) ≤ 3 := by nlinarith
  have ka3 : t*t + t*t2 + t2*t2 ≤ 3 := by nlinarith
  have hcomb := hypot_combination_le hL _ _ _ (uv.ux - pt0.x) (uv.uy - pt0.y)
    (uv.vx - uv.ux) (uv.vy - uv.uy) (pt1.x - uv.vx) (pt1.y - uv.vy) al0 be0 ka0
  have m1 := mul_le_mul_of_nonneg_right al3 ha
  have m2 := mul_le_mul_of_nonneg_right be3 hb
  have m3 := mul_le_mul_of_nonneg_right ka3 hc
  linarith

/-- An interval of a segment passes both tolerance tests when it is short
against the position tolerance and the speeds at its ends are large against
its squared length. -/
theorem within_of_small {L : Libm F} (hL : L.Exact) (cp : GwySplineSampleParams F)
    (hvr : cp.max_vrdev = 1/100) (ta tb : F) (h0 : 0 ≤ ta) (hlt : ta < tb) (h1 : tb ≤ 1)
    (hdev : (tb - ta)*(3*(L.hypot (cp.uv.ux - cp.pt0.x) (cp.uv.uy - cp.pt0.y)
        + L.hypot (cp.uv.vx - cp.uv.ux) (cp.uv.vy - cp.uv.uy)
        + L.hypot (cp.pt1.x - cp.uv.vx) (cp.pt1.y - cp.uv.vy))) ≤ 2*cp.max_dev)
    (hvel : 150*((tb - ta)*(tb - ta))
        *L.hypot (segment_w cp.pt0 cp.pt1 cp.uv).x (segment_w cp.pt0 cp.pt1 cp.uv).y
      ≤ (segment_item L cp.pt0 cp.pt1 cp.uv ta).vl
        + (segment_item L cp.pt0 cp.pt1 cp.uv tb).vl) :
    sample_curve_within L cp (segment_item L cp.pt0 cp.pt1 cp.uv ta)
      (segment_item L cp.pt0 cp.pt1 cp.uv tb) = true := by
  rw [within_unfold]
  have hva : 0 ≤ (segment_item L cp.pt0 cp.pt1 cp.uv ta).vl := hL.hypot_nonneg _ _
  have hvb : 0 ≤ (segment_item L cp.pt0 cp.pt1 cp.uv tb).vl := hL.hypot_nonneg _ _
  obtain ⟨hq0, hq1⟩ := division_time_half_bounds hL _ _ hva hvb
  generalize (segment_item L cp.pt0 cp.pt1 cp.uv ta).vl = va at hva hq0 hq1 hvel
  generalize (segment_item L cp.pt0 cp.pt1 cp.uv tb).vl = vb at hvb hq0 hq1 hvel
  generalize division_time L va vb (1/2) = q at hq0 hq1
  have hq0' : 0 ≤ q := by linarith
  have hq1' : q ≤ 1 := by linarith
  have htm0 : ta ≤ ta*(1 - q) + tb*q := by nlinarith
  have htm1 : ta*(1 - q) + tb*q ≤ tb := by nlinarith
  rw [velocity_deviation hL _ _ _ ta tb q hq0' hq1', hvr]
  simp only [Bool.and_eq_true, decide_eq_true_eq]
  have hw := hL.hypot_nonneg (segment_w cp.pt0 cp.pt1 cp.uv).x (segment_w cp.pt0 cp.pt1 cp.uv).y
  generalize L.hypot (segment_w cp.pt0 cp.pt1 cp.uv).x (segment_w cp.pt0 cp.pt1 cp.uv).y = w
    at hw hvel
  have hh : 0 ≤ (tb - ta)*(tb - ta) := mul_self_nonneg _
  have hqq : q*(1 - q) ≤ 1/4 := by nlinarith [mul_self_nonneg (q - 1/2)]
  have hqq0 : 0 ≤ q*(1 - q) := mul_nonneg hq0' (sub_nonneg.mpr hq1')
  constructor
  · -- position
    have l1 := interpolate_z_lipschitz hL cp.pt0 cp.pt1 cp.uv (ta*(1 - q) + tb*q) ta h0 htm0
      (le_trans htm1 h1)
    have l2 := interpolate_z_lipschitz hL cp.pt0 cp.pt1 cp.uv tb (ta*(1 - q) + tb*q)
      (le_trans h0 htm0) htm1 h1
    rw [hL.hypot_sub_comm] at l2
    generalize (3*(L.hypot (cp.uv.ux - cp.pt0.x) (cp.uv.uy - cp.pt0.y)
        + L.hypot (cp.uv.vx - cp.uv.ux) (cp.uv.vy - cp.uv.uy)
        + L.hypot (cp.pt1.x - cp.uv.vx) (cp.pt1.y - cp.uv.vy))) = M at hdev l1 l2
    have tri := hL.hypot_add_le
      (1/2*((interpolate_z cp.pt0 cp.pt1 cp.uv (ta*(1 - q) + tb*q)).x
        - (interpolate_z cp.pt0 cp.pt1 cp.uv ta).x))
      (1/2*((interpolate_z cp.pt0 cp.pt1 cp.uv (ta*(1 - q) + tb*q)).y
        - (interpolate_z cp.pt0 cp.pt1 cp.uv ta).y))
      (1/2*((interpolate_z cp.pt0 cp.pt1 cp.uv (ta*(1 - q) + tb*q)).x
        - (interpolate_z cp.pt0 cp.pt1 cp.uv tb).x))
      (1/2*((interpolate_z cp.pt0 cp.pt1 cp.uv (ta*(1 - q) + tb*q)).y
        - (interpolate_z cp.pt0 cp.pt1 cp.uv tb).y))
    rw [hL.hypot_smul _ _ _ (by norm_num), hL.hypot_smul _ _ _ (by norm_num)] at tri
    have e : ∀ a b c : F, 1/2*(a - b) + 1/2*(a - c) = a - (b + c)/2 := by intro a b c; ring
    rw [e, e] at tri
    have l3 : (ta*(1 - q) + tb*q - ta)*M + (tb - (ta*(1 - q) + tb*q))*M = (tb - ta)*M := by ring
    linarith
  · -- velocity
    apply vrdev_within_of_le
    · exact mul_nonneg (mul_nonneg (by norm_num) (mul_nonneg hqq0 hh)) hw
    · have m1 : q*(1 - q)*((tb - ta)*(tb - ta))*w ≤ 1/4*((tb - ta)*(tb - ta))*w :=
        mul_le_mul_of_nonneg_right (mul_le_mul_of_nonneg_right hqq hh) hw
      linarith

/-- The speeds at the ends of an interval are large against its squared
length once the interval is short and, at its middle, the speed or the
acceleration is at least `delta`. -/
theorem end_speeds_large {L : Libm F} (hL : L.Exact) (pt0 pt1 : PointXY F)
    (uv : ControlPoint F) (ta tb delta : F) (hlt : ta < tb) (hh1 : tb - ta ≤ 1)
    (hsmall : 153*L.hypot (segment_w pt0 pt1 uv).x (segment_w pt0 pt1 uv).y*(tb - ta) ≤ delta)
    (hmid : delta ≤ L.hypot (interpolate_v pt0 pt1 uv ((ta + tb)/2)).x
          (interpolate_v pt0 pt1 uv ((ta + tb)/2)).y
      ∨ delta ≤ L.hypot (interpolate_a pt0 pt1 uv ((ta + tb)/2)).x
          (interpolate_a pt0 pt1 uv ((ta + tb)/2)).y) :
    150*((tb - ta)*(tb - ta))*L.hypot (segment_w pt0 pt1 uv).x (segment_w pt0 pt1 uv).y
      ≤ (segment_item L pt0 pt1 uv ta).vl + (segment_item L pt0 pt1 uv tb).vl := by
  have hh : 0 < tb - ta := sub_pos.mpr hlt
  have hw := hL.hypot_nonneg (segment_w pt0 pt1 uv).x (segment_w pt0 pt1 uv).y
  simp only [segment_item]
  have hhw : 0 ≤ (tb - ta)*L.hypot (segment_w pt0 pt1 uv).x (segment_w pt0 pt1 uv).y :=
    mul_nonneg hh.le hw
  have hhh : (tb - ta)*(tb - ta)*L.hypot (segment_w pt0 pt1 uv).x (segment_w pt0 pt1 uv).y
      ≤ (tb - ta)*L.hypot (segment_w pt0 pt1 uv).x (segment_w pt0 pt1 uv).y := by
    have := mul_le_mul_of_nonneg_right hh1 hhw
    linarith
  rcases hmid with hv | ha
  · have tri := hL.hypot_sub_ge
      (2*(interpolate_v pt0 pt1 uv ((ta + tb)/2)).x)
      (2*(interpolate_v pt0 pt1 uv ((ta + tb)/2)).y)
      (3/2*((tb - ta)*(tb - ta))*(segment_w pt0 pt1 uv).x)
      (3/2*((tb - ta)*(tb - ta))*(segment_w pt0 pt1 uv).y)
    rw [← (interpolate_v_add pt0 pt1 uv ta tb).1, ← (interpolate_v_add pt0 pt1 uv ta tb).2,
      hL.hypot_smul _ _ _ (by norm_num),
      hL.hypot_smul _ _ _ (by nlinarith [mul_self_nonneg (tb - ta)])] at tri
    have tri2 := hL.hypot_add_le (interpolate_v pt0 pt1 uv ta).x (interpolate_v pt0 pt1 uv ta).y
      (interpolate_v pt0 pt1 uv tb).x (interpolate_v pt0 pt1 uv tb).y
    nlinarith
  · have tri := hL.hypot_add_le (interpolate_v pt0 pt1 uv tb).x (interpolate_v pt0 pt1 uv tb).y
      (-(interpolate_v pt0 pt1 uv ta).x) (-(interpolate_v pt0 pt1 uv ta).y)
    rw [(interpolate_v_sub pt0 pt1 uv ta tb).1, (interpolate_v_sub pt0 pt1 uv ta tb).2,
      hL.hypot_smul _ _ _ hh.le, hL.hypot_neg] at tri
    have m1 := mul_le_mul_of_nonneg_left ha hh.le
    have m2 := mul_le_mul_of_nonneg_left hsmall hh.le
    nlinarith

end Poly

end Gwy

namespace Gwy

open GwySplineRecurseOutputType

section Depth

variable {F : Type} [LinearOrderedField F]

/-! ## Bounded depth of the recursion -/

/-- The tolerance tests look only at the segment and the tolerances of
`cparam`. -/
theorem within_congr (L : Libm F) (cp cp2 : GwySplineSampleParams F)
    (h0 : cp.pt0 = cp2.pt0) (h1 : cp.pt1 = cp2.pt1) (h2 : cp.uv = cp2.uv)
    (h3 : cp.max_dev = cp2.max_dev) (h4 : cp.max_vrdev = cp2.max_vrdev)
    (c0 c1 : GwySplineSampleItem F) :
    sample_curve_within L cp c0 c1 = sample_curve_within L cp2 c0 c1 := by
  cases cp
  cases cp2
  simp only at h0 h1 h2 h3 h4
  subst h0 h1 h2 h3 h4
  rfl

/-- When every interval of length at most `h0` passes the tolerance tests, a
call at a positive depth on an interval of length at most `h0*(4/3)^m`
returns with `m + 1` levels of fuel. -/
theorem recurse_returns_deep {L : Libm F} (hL : L.Exact) (cp0 : GwySplineSampleParams F)
    (h0 : F)
    (hsmall : ∀ ta tb, 0 ≤ ta → ta < tb → tb ≤ 1 → tb - ta ≤ h0 →
      sample_curve_within L cp0 (segment_item L cp0.pt0 cp0.pt1 cp0.uv ta)
        (segment_item L cp0.pt0 cp0.pt1 cp0.uv tb) = true) :
    ∀ (m : Nat) (cp : GwySplineSampleParams F) (ta tb : F),
      cp.pt0 = cp0.pt0 → cp.pt1 = cp0.pt1 → cp.uv = cp0.uv → cp.max_dev = cp0.max_dev →
      cp.max_vrdev = cp0.max_vrdev → cp.otype = CURVE_RECURSE_OUTPUT_T_L → 1 ≤ cp.depth →
      0 ≤ ta → ta < tb → tb ≤ 1 → (tb - ta)*(3/4)^m ≤ h0 →
      ∃ r, sample_curve_recurse L (m + 1) cp (segment_item L cp0.pt0 cp0.pt1 cp0.uv ta)
        (segment_item L cp0.pt0 cp0.pt1 cp0.uv tb) = some r := by
  intro m
  induction m with
  | zero =>
    intro cp ta tb e0 e1 e2 e3 e4 hot hd hta hlt htb hlen
    rw [sample_curve_recurse]
    have hw := hsmall ta tb hta hlt htb (by simpa using hlen)
    rw [← within_congr L cp cp0 e0 e1 e2 e3 e4] at hw
    have hd0 : cp.depth ≠ 0 := by omega
    have hacc : sample_curve_accept L cp (segment_item L cp0.pt0 cp0.pt1 cp0.uv ta)
        (segment_item L cp0.pt0 cp0.pt1 cp0.uv tb) = true := by
      simp [sample_curve_accept, hd0, hw]
    simp [hacc, hot]
  | succ m ih =>
    intro cp ta tb e0 e1 e2 e3 e4 hot hd hta hlt htb hlen
    rw [sample_curve_recurse]
    by_cases hacc : sample_curve_accept L cp (segment_item L cp0.pt0 cp0.pt1 cp0.uv ta)
        (segment_item L cp0.pt0 cp0.pt1 cp0.uv tb) = true
    · simp [hacc, hot]
    · simp only [hacc, Bool.false_eq_true, if_false]
      have hmid : sample_curve_middle L cp (segment_item L cp0.pt0 cp0.pt1 cp0.uv ta)
          (segment_item L cp0.pt0 cp0.pt1 cp0.uv tb)
          = segment_item L cp0.pt0 cp0.pt1 cp0.uv
              (ta*(1 - division_time L (segment_item L cp0.pt0 cp0.pt1 cp0.uv ta).vl
                  (segment_item L cp0.pt0 cp0.pt1 cp0.uv tb).vl (1/2))
                + tb*division_time L (segment_item L cp0.pt0 cp0.pt1 cp0.uv ta).vl
                  (segment_item L cp0.pt0 cp0.pt1 cp0.uv tb).vl (1/2)) := by
        rw [sample_curve_middle_eq, e0, e1, e2]
        rfl
      rw [hmid]
      have hv0 : 0 ≤ (segment_item L cp0.pt0 cp0.pt1 cp0.uv ta).vl := hL.hypot_nonneg _ _
      have hv1 : 0 ≤ (segment_item L cp0.pt0 cp0.pt1 cp0.uv tb).vl := hL.hypot_nonneg _ _
      obtain ⟨hq0, hq1⟩ := division_time_half_bounds hL _ _ hv0 hv1
      generalize division_time L (segment_item L cp0.pt0 cp0.pt1 cp0.uv ta).vl
        (segment_item L cp0.pt0 cp0.pt1 cp0.uv tb).vl (1/2) = q at hq0 hq1
      have hpow : (0 : F) ≤ (3/4)^m := by positivity
      have hpow2 : (3/4 : F)^(m + 1) = 3/4*(3/4)^m := by rw [pow_succ]; ring
      rw [hpow2] at hlen
      have hm0 : ta < ta*(1 - q) + tb*q := by nlinarith
      have hm1 : ta*(1 - q) + tb*q < tb := by nlinarith
      have hl1 : (ta*(1 - q) + tb*q - ta)*(3/4)^m ≤ h0 := by
        have : ta*(1 - q) + tb*q - ta ≤ 3/4*(tb - ta) := by nlinarith
        have := mul_le_mul_of_nonneg_right this hpow
        linarith
      have hl2 : (tb - (ta*(1 - q) + tb*q))*(3/4)^m ≤ h0 := by
        have : tb - (ta*(1 - q) + tb*q) ≤ 3/4*(tb - ta) := by nlinarith
        have := mul_le_mul_of_nonneg_right this hpow
        linarith
      obtain ⟨r1, hr1⟩ := ih { cp with depth := cp.depth + 1 } ta (ta*(1 - q) + tb*q)
        e0 e1 e2 e3 e4 hot (by simp only []; omega) hta hm0 (by linarith) hl1
      rw [hr1]
      simp only []
      obtain ⟨a1, a2, a3, a4, a5, a6, a7⟩ := recurse_frame L _ _ _ _ _ hr1
      simp only [] at a1 a2 a3 a4 a5 a6 a7
      obtain ⟨r2, hr2⟩ := ih r1 (ta*(1 - q) + tb*q) tb (a1.trans e0) (a2.trans e1)
        (a3.trans e2) (a4.trans e3) (a5.trans e4) (a6.trans hot) (by rw [a7]; omega)
        (by linarith) hm1 htb hl2
      rw [hr2]
      exact ⟨_, rfl⟩

/-- When every interval of length at most `h0` passes the tolerance tests,
the call `sample_curve` makes for the segment (depth 0, interval `(0, 1)`)
returns with `m + 2` levels of fuel, `m` such that `(3/4)^(m+1) <= h0`. -/
theorem recurse_returns_top {L : Libm F} (hL : L.Exact) (cp0 : GwySplineSampleParams F)
    (h0 : F)
    (hsmall : ∀ ta tb, 0 ≤ ta → ta < tb → tb ≤ 1 → tb - ta ≤ h0 →
      sample_curve_within L cp0 (segment_item L cp0.pt0 cp0.pt1 cp0.uv ta)
        (segment_item L cp0.pt0 cp0.pt1 cp0.uv tb) = true)
    (m : Nat) (hm : (3/4 : F)^(m + 1) ≤ h0) (cp : GwySplineSampleParams F)
    (e0 : cp.pt0 = cp0.pt0) (e1 : cp.pt1 = cp0.pt1) (e2 : cp.uv = cp0.uv)
    (e3 : cp.max_dev = cp0.max_dev) (e4 : cp.max_vrdev = cp0.max_vrdev)
    (hot : cp.otype = CURVE_RECURSE_OUTPUT_T_L) (hd : cp.depth = 0) :
    ∃ r, sample_curve_recurse L (m + 2) cp (segment_item L cp0.pt0 cp0.pt1 cp0.uv 0)
      (segment_item L cp0.pt0 cp0.pt1 cp0.uv 1) = some r := by
  rw [sample_curve_recurse]
  have hacc : sample_curve_accept L cp (segment_item L cp0.pt0 cp0.pt1 cp0.uv 0)
      (segment_item L cp0.pt0 cp0.pt1 cp0.uv 1) = false := by
    simp [sample_curve_accept, hd]
  simp only [hacc, Bool.false_eq_true, if_false]
  have hmid : sample_curve_middle L cp (segment_item L cp0.pt0 cp0.pt1 cp0.uv 0)
      (segment_item L cp0.pt0 cp0.pt1 cp0.uv 1)
      = segment_item L cp0.pt0 cp0.pt1 cp0.uv
          (0*(1 - division_time L (segment_item L cp0.pt0 cp0.pt1 cp0.uv 0).vl
              (segment_item L cp0.pt0 cp0.pt1 cp0.uv 1).vl (1/2))
            + 1*division_time L (segment_item L cp0.pt0 cp0.pt1 cp0.uv 0).vl
              (segment_item L cp0.pt0 cp0.pt1 cp0.uv 1).vl (1/2)) := by
    rw [sample_curve_middle_eq, e0, e1, e2]
    rfl
  rw [hmid]
  have hv0 : 0 ≤ (segment_item L cp0.pt0 cp0.pt1 cp0.uv 0).vl := hL.hypot_nonneg _ _
  have hv1 : 0 ≤ (segment_item L cp0.pt0 cp0.pt1 cp0.uv 1).vl := hL.hypot_nonneg _ _
  obtain ⟨hq0, hq1⟩ := division_time_half_bounds hL _ _ hv0 hv1
  generalize division_time L (segment_item L cp0.pt0 cp0.pt1 cp0.uv 0).vl
    (segment_item L cp0.pt0 cp0.pt1 cp0.uv 1).vl (1/2) = q at hq0 hq1
  have hpow : (0 : F) ≤ (3/4)^m := by positivity
  have hpow2 : (3/4 : F)^(m + 1) = 3/4*(3/4)^m := by rw [pow_succ]; ring
  rw [hpow2] at hm
  have hl1 : (0*(1 - q) + 1*q - 0)*(3/4)^m ≤ h0 := by
    have : 0*(1 - q) + 1*q - 0 ≤ (3/4 : F) := by linarith
    have := mul_le_mul_of_nonneg_right this hpow
    linarith
  have hl2 : (1 - (0*(1 - q) + 1*q))*(3/4)^m ≤ h0 := by
    have : 1 - (0*(1 - q) + 1*q) ≤ (3/4 : F) := by linarith
    have := mul_le_mul_of_nonneg_right this hpow
    linarith
  obtain ⟨r1, hr1⟩ := recurse_returns_deep hL cp0 h0 hsmall m { cp with depth := cp.depth + 1 }
    0 (0*(1 - q) + 1*q) e0 e1 e2 e3 e4 hot (by simp only []; omega) (le_refl 0)
    (by linarith) (by linarith) hl1
  rw [hr1]
  simp only []
  obtain ⟨a1, a2, a3, a4, a5, a6, a7⟩ := recurse_frame L _ _ _ _ _ hr1
  simp only [] at a1 a2 a3 a4 a5 a6 a7
  obtain ⟨r2, hr2⟩ := recurse_returns_deep hL cp0 h0 hsmall m r1 (0*(1 - q) + 1*q) 1
    (a1.trans e0) (a2.trans e1) (a3.trans e2) (a4.trans e3) (a5.trans e4) (a6.trans hot)
    (by rw [a7]; omega) (by linarith) (by linarith) (le_refl 1) hl2
  rw [hr2]
  exact ⟨_, rfl⟩

end Depth

end Gwy

namespace Gwy

open GwySplineRecurseOutputType

section Terminate

variable {F : Type} [LinearOrderedField F]

/-! ## No point of a segment has both zero velocity and zero acceleration -/

/-- At a time where velocity and acceleration both vanish the sides of the
control polygon are multiples of the third difference. -/
theorem double_zero_sides (pt0 pt1 : PointXY F) (uv : ControlPoint F) (t : F)
    (hv : (interpolate_v pt0 pt1 uv t).x = 0 ∧ (interpolate_v pt0 pt1 uv t).y = 0)
    (ha : (interpolate_a pt0 pt1 uv t).x = 0 ∧ (interpolate_a pt0 pt1 uv t).y = 0) :
    (uv.ux - pt0.x = t*t*(segment_w pt0 pt1 uv).x
        ∧ uv.uy - pt0.y = t*t*(segment_w pt0 pt1 uv).y)
      ∧ (uv.vx - uv.ux = -(t*(1 - t))*(segment_w pt0 pt1 uv).x
        ∧ uv.vy - uv.uy = -(t*(1 - t))*(segment_w pt0 pt1 uv).y)
      ∧ (pt1.x - uv.vx = (1 - t)*(1 - t)*(segment_w pt0 pt1 uv).x
        ∧ pt1.y - uv.vy = (1 - t)*(1 - t)*(segment_w pt0 pt1 uv).y)
      ∧ (pt1.x - pt0.x = (1 - 3*t + 3*(t*t))*(segment_w pt0 pt1 uv).x
        ∧ pt1.y - pt0.y = (1 - 3*t + 3*(t*t))*(segment_w pt0 pt1 uv).y) := by
  obtain ⟨hvx, hvy⟩ := hv
  obtain ⟨hax, hay⟩ := ha
  simp only [interpolate_v, interpolate_a, segment_w] at hvx hvy hax hay ⊢
  refine ⟨⟨?_, ?_⟩, ⟨?_, ?_⟩, ⟨?_, ?_⟩, ⟨?_, ?_⟩⟩
  · linear_combination (1/3)*hvx - (t/3)*hax
  · linear_combination (1/3)*hvy - (t/3)*hay
  · linear_combination (1/3)*hvx + ((1 - 2*t)/6)*hax
  · linear_combination (1/3)*hvy + ((1 - 2*t)/6)*hay
  · linear_combination (1/3)*hvx + ((1 - t)/3)*hax
  · linear_combination (1/3)*hvy + ((1 - t)/3)*hay
  · linear_combination hvx + ((1 - 2*t)/2)*hax
  · linear_combination hvy + ((1 - 2*t)/2)*hay

/-- On a segment made by the general path of `calculate_control_points`
whose third difference is not zero, velocity and acceleration do not vanish
at the same time. -/
theorem no_double_zero {L : Libm F} (hL : L.Exact) (slackness : F) (pt0 pt1 : PointXY F)
    (uv : ControlPoint F) (hs0 : 0 < slackness) (hs1 : slackness ≤ 1)
    (hshape : SegmentShape L slackness pt0 pt1 uv)
    (hw : L.hypot (segment_w pt0 pt1 uv).x (segment_w pt0 pt1 uv).y ≠ 0)
    (t : F) (ht0 : 0 ≤ t) (ht1 : t ≤ 1) :
    ¬(((interpolate_v pt0 pt1 uv t).x = 0 ∧ (interpolate_v pt0 pt1 uv t).y = 0)
      ∧ ((interpolate_a pt0 pt1 uv t).x = 0 ∧ (interpolate_a pt0 pt1 uv t).y = 0)) := by
  rintro ⟨hv, ha⟩
  obtain ⟨⟨eax, eay⟩, ⟨ebx, eby⟩, ⟨ecx, ecy⟩, ⟨edx, edy⟩⟩ := double_zero_sides pt0 pt1 uv t hv ha
  have hW0 := hL.hypot_nonneg (segment_w pt0 pt1 uv).x (segment_w pt0 pt1 uv).y
  have hWpos : 0 < L.hypot (segment_w pt0 pt1 uv).x (segment_w pt0 pt1 uv).y :=
    lt_of_le_of_ne hW0 (Ne.symm hw)
  have hwne : ¬((segment_w pt0 pt1 uv).x = 0 ∧ (segment_w pt0 pt1 uv).y = 0) := by
    intro h
    exact hw ((hL.hypot_eq_zero_iff _ _).mpr h)
  have hd0 : 0 ≤ 1 - 3*t + 3*(t*t) := by nlinarith [mul_self_nonneg (t - 1/2)]
  have nA : L.hypot (uv.ux - pt0.x) (uv.uy - pt0.y)
      = t*t*L.hypot (segment_w pt0 pt1 uv).x (segment_w pt0 pt1 uv).y := by
    rw [eax, eay, hL.hypot_smul _ _ _ (mul_self_nonneg t)]
  have nC : L.hypot (pt1.x - uv.vx) (pt1.y - uv.vy)
      = (1 - t)*(1 - t)*L.hypot (segment_w pt0 pt1 uv).x (segment_w pt0 pt1 uv).y := by
    rw [ecx, ecy, hL.hypot_smul _ _ _ (mul_self_nonneg (1 - t))]
  have nD : L.hypot (pt1.x - pt0.x) (pt1.y - pt0.y)
      = (1 - 3*t + 3*(t*t))*L.hypot (segment_w pt0 pt1 uv).x (segment_w pt0 pt1 uv).y := by
    rw [edx, edy, hL.hypot_smul _ _ _ hd0]
  generalize L.hypot (segment_w pt0 pt1 uv).x (segment_w pt0 pt1 uv).y = W at hWpos nA nC nD
  have innerU : SegmentInnerU L pt0 pt1 uv → 2*(t*t) ≤ 1 - 3*t + 3*(t*t) := by
    intro h
    unfold SegmentInnerU at h
    rw [nA, nD] at h
    by_contra hcon
    push_neg at hcon
    have := mul_lt_mul_of_pos_right hcon hWpos
    linarith
  have innerV : SegmentInnerV L pt0 pt1 uv → 2*((1 - t)*(1 - t)) ≤ 1 - 3*t + 3*(t*t) := by
    intro h
    unfold SegmentInnerV at h
    rw [nC, nD] at h
    by_contra hcon
    push_neg at hcon
    have := mul_lt_mul_of_pos_right hcon hWpos
    linarith
  rcases hshape with ⟨hu, hv2⟩ | ⟨hu, hv2⟩ | ⟨hu, hv2⟩
  · have h1 := innerU hu
    have h2 := innerV hv2
    have h3 : t*(1 - t) = 0 := by
      have : 0 ≤ t*(1 - t) := mul_nonneg ht0 (sub_nonneg.mpr ht1)
      linarith
    rcases mul_eq_zero.mp h3 with h | h
    · rw [h] at h2; norm_num at h2
    · have : t = 1 := by linarith
      rw [this] at h1; norm_num at h1
  · have h2 := innerV hv2
    obtain ⟨fx, fy⟩ := hu
    have hfac : 0 < 2*t*(1 - slackness) + slackness := by
      have := mul_nonneg ht0 (sub_nonneg.mpr hs1)
      linarith
    have gx : t*(segment_w pt0 pt1 uv).x = 0 := by
      have e : (2*t*(1 - slackness) + slackness)*(t*(segment_w pt0 pt1 uv).x) = 0 := by
        have h5 : uv.vx - pt0.x = (uv.ux - pt0.x) + (uv.vx - uv.ux) := by ring
        rw [h5, eax, ebx] at fx
        linear_combination fx
      rcases mul_eq_zero.mp e with h | h
      · exact absurd h hfac.ne'
      · exact h
    have gy : t*(segment_w pt0 pt1 uv).y = 0 := by
      have e : (2*t*(1 - slackness) + slackness)*(t*(segment_w pt0 pt1 uv).y) = 0 := by
        have h5 : uv.vy - pt0.y = (uv.uy - pt0.y) + (uv.vy - uv.uy) := by ring
        rw [h5, eay, eby] at fy
        linear_combination fy
      rcases mul_eq_zero.mp e with h | h
      · exact absurd h hfac.ne'
      · exact h
    have ht : t = 0 := by
      by_contra hne
      apply hwne
      exact ⟨(mul_eq_zero.mp gx).resolve_left hne, (mul_eq_zero.mp gy).resolve_left hne⟩
    rw [ht] at h2; norm_num at h2
  · have h1 := innerU hu
    obtain ⟨fx, fy⟩ := hv2
    have hfac : 0 < 2*(1 - t)*(1 - slackness) + slackness := by
      have := mul_nonneg (sub_nonneg.mpr ht1) (sub_nonneg.mpr hs1)
      linarith
    have gx : (1 - t)*(segment_w pt0 pt1 uv).x = 0 := by
      have e : (2*(1 - t)*(1 - slackness) + slackness)*((1 - t)*(segment_w pt0 pt1 uv).x)
          = 0 := by
        have h5 : pt1.x - uv.ux = (uv.vx - uv.ux) + (pt1.x - uv.vx) := by ring
        rw [h5, ebx, ecx] at fx
        linear_combination fx
      rcases mul_eq_zero.mp e with h | h
      · exact absurd h hfac.ne'
      · exact h
    have gy : (1 - t)*(segment_w pt0 pt1 uv).y = 0 := by
      have e : (2*(1 - t)*(1 - slackness) + slackness)*((1 - t)*(segment_w pt0 pt1 uv).y)
          = 0 := by
        have h5 : pt1.y - uv.uy = (uv.vy - uv.uy) + (pt1.y - uv.vy) := by ring
        rw [h5, eby, ecy] at fy
        linear_combination fy
      rcases mul_eq_zero.mp e with h | h
      · exact absurd h hfac.ne'
      · exact h
    have ht : 1 - t = 0 := by
      by_contra hne
      apply hwne
      exact ⟨(mul_eq_zero.mp gx).resolve_left hne, (mul_eq_zero.mp gy).resolve_left hne⟩
    have ht' : t = 1 := by linarith
    rw [ht'] at h1; norm_num at h1

/-! ## Termination of the recursion over the real numbers -/

/-- Over the real numbers the speed or the acceleration stays above some
positive bound on the whole segment when they never vanish together. -/
theorem exists_speed_bound {L : Libm ℝ} (hL : L.Exact) (pt0 pt1 : PointXY ℝ)
    (uv : ControlPoint ℝ)
    (hnz : ∀ t : ℝ, 0 ≤ t → t ≤ 1 →
      ¬(((interpolate_v pt0 pt1 uv t).x = 0 ∧ (interpolate_v pt0 pt1 uv t).y = 0)
        ∧ ((interpolate_a pt0 pt1 uv t).x = 0 ∧ (interpolate_a pt0 pt1 uv t).y = 0))) :
    ∃ delta : ℝ, 0 < delta ∧ ∀ t : ℝ, 0 ≤ t → t ≤ 1 →
      delta ≤ L.hypot (interpolate_v pt0 pt1 uv t).x (interpolate_v pt0 pt1 uv t).y
        ∨ delta ≤ L.hypot (interpolate_a pt0 pt1 uv t).x (interpolate_a pt0 pt1 uv t).y := by
  have hsqrt : ∀ x y : ℝ, L.hypot x y = Real.sqrt (x*x + y*y) := fun x y =>
    hL.hypot_unique x y _ (Real.sqrt_nonneg _)
      (Real.mul_self_sqrt (add_nonneg (mul_self_nonneg x) (mul_self_nonneg y)))
  have hcont : Continuous (fun t : ℝ =>
      L.hypot (interpolate_v pt0 pt1 uv t).x (interpolate_v pt0 pt1 uv t).y
        + L.hypot (interpolate_a pt0 pt1 uv t).x (interpolate_a pt0 pt1 uv t).y) := by
    simp only [hsqrt, interpolate_v, interpolate_a, segment_w]
    fun_prop
  obtain ⟨t0, ht0, hmin⟩ := isCompact_Icc.exists_isMinOn
    (Set.nonempty_Icc.mpr (zero_le_one : (0 : ℝ) ≤ 1)) hcont.continuousOn
  have hv0 := hL.hypot_nonneg (interpolate_v pt0 pt1 uv t0).x (interpolate_v pt0 pt1 uv t0).y
  have ha0 := hL.hypot_nonneg (interpolate_a pt0 pt1 uv t0).x (interpolate_a pt0 pt1 uv t0).y
  have hpos : 0 < L.hypot (interpolate_v pt0 pt1 uv t0).x (interpolate_v pt0 pt1 uv t0).y
      + L.hypot (interpolate_a pt0 pt1 uv t0).x (interpolate_a pt0 pt1 uv t0).y := by
    rcases lt_or_eq_of_le (add_nonneg hv0 ha0) with h | h
    · exact h
    · exfalso
      apply hnz t0 ht0.1 ht0.2
      have h1 : L.hypot (interpolate_v pt0 pt1 uv t0).x (interpolate_v pt0 pt1 uv t0).y = 0 := by
        linarith
      have h2 : L.hypot (interpolate_a pt0 pt1 uv t0).x (interpolate_a pt0 pt1 uv t0).y = 0 := by
        linarith
      exact ⟨(hL.hypot_eq_zero_iff _ _).mp h1, (hL.hypot_eq_zero_iff _ _).mp h2⟩
  refine ⟨(L.hypot (interpolate_v pt0 pt1 uv t0).x (interpolate_v pt0 pt1 uv t0).y
      + L.hypot (interpolate_a pt0 pt1 uv t0).x (interpolate_a pt0 pt1 uv t0).y)/2,
    by linarith, fun t h0 h1 => ?_⟩
  have hle := hmin (Set.mem_Icc.mpr ⟨h0, h1⟩)
  simp only [Set.mem_setOf_eq] at hle
  by_contra hcon
  push_neg at hcon
  linarith [hcon.1, hcon.2]

/-- Over the real numbers, on a segment made by the general path of
`calculate_control_points` all sufficiently short intervals pass the
tolerance tests of `sample_curve_uniformly`. -/
theorem exists_small_within {L : Libm ℝ} (hL : L.Exact) (slackness : ℝ)
    (cp0 : GwySplineSampleParams ℝ) (hs0 : 0 < slackness) (hs1 : slackness ≤ 1)
    (hshape : SegmentShape L slackness cp0.pt0 cp0.pt1 cp0.uv)
    (hdev : 0 < cp0.max_dev) (hvr : cp0.max_vrdev = 1/100) :
    ∃ h0 : ℝ, 0 < h0 ∧ ∀ ta tb : ℝ, 0 ≤ ta → ta < tb → tb ≤ 1 → tb - ta ≤ h0 →
      sample_curve_within L cp0 (segment_item L cp0.pt0 cp0.pt1 cp0.uv ta)
        (segment_item L cp0.pt0 cp0.pt1 cp0.uv tb) = true := by
  have hM : 0 ≤ 3*(L.hypot (cp0.uv.ux - cp0.pt0.x) (cp0.uv.uy - cp0.pt0.y)
      + L.hypot (cp0.uv.vx - cp0.uv.ux) (cp0.uv.vy - cp0.uv.uy)
      + L.hypot (cp0.pt1.x - cp0.uv.vx) (cp0.pt1.y - cp0.uv.vy)) := by
    have := hL.hypot_nonneg (cp0.uv.ux - cp0.pt0.x) (cp0.uv.uy - cp0.pt0.y)
    have := hL.hypot_nonneg (cp0.uv.vx - cp0.uv.ux) (cp0.uv.vy - cp0.uv.uy)
    have := hL.hypot_nonneg (cp0.pt1.x - cp0.uv.vx) (cp0.pt1.y - cp0.uv.vy)
    linarith
  have hW := hL.hypot_nonneg (segment_w cp0.pt0 cp0.pt1 cp0.uv).x
    (segment_w cp0.pt0 cp0.pt1 cp0.uv).y
  -- the bound from the position tolerance
  have hposdev : ∀ ta tb : ℝ, ta < tb →
      tb - ta ≤ cp0.max_dev/(3*(L.hypot (cp0.uv.ux - cp0.pt0.x) (cp0.uv.uy - cp0.pt0.y)
        + L.hypot (cp0.uv.vx - cp0.uv.ux) (cp0.uv.vy - cp0.uv.uy)
        + L.hypot (cp0.pt1.x - cp0.uv.vx) (cp0.pt1.y - cp0.uv.vy)) + 1) →
      (tb - ta)*(3*(L.hypot (cp0.uv.ux - cp0.pt0.x) (cp0.uv.uy - cp0.pt0.y)
        + L.hypot (cp0.uv.vx - cp0.uv.ux) (cp0.uv.vy - cp0.uv.uy)
        + L.hypot (cp0.pt1.x - cp0.uv.vx) (cp0.pt1.y - cp0.uv.vy))) ≤ 2*cp0.max_dev := by
    intro ta tb hlt hle
    generalize 3*(L.hypot (cp0.uv.ux - cp0.pt0.x) (cp0.uv.uy - cp0.pt0.y)
      + L.hypot (cp0.uv.vx - cp0.uv.ux) (cp0.uv.vy - cp0.uv.uy)
      + L.hypot (cp0.pt1.x - cp0.uv.vx) (cp0.pt1.y - cp0.uv.vy)) = M at hM hle
    have hM1 : 0 < M + 1 := by linarith
    rw [le_div_iff₀ hM1] at hle
    have : 0 ≤ tb - ta := by linarith
    nlinarith
  by_cases hw : L.hypot (segment_w cp0.pt0 cp0.pt1 cp0.uv).x
      (segment_w cp0.pt0 cp0.pt1 cp0.uv).y = 0
  · refine ⟨cp0.max_dev/(3*(L.hypot (cp0.uv.ux - cp0.pt0.x) (cp0.uv.uy - cp0.pt0.y)
        + L.hypot (cp0.uv.vx - cp0.uv.ux) (cp0.uv.vy - cp0.uv.uy)
        + L.hypot (cp0.pt1.x - cp0.uv.vx) (cp0.pt1.y - cp0.uv.vy)) + 1),
      div_pos hdev (by linarith), fun ta tb h0 hlt h1 hle => ?_⟩
    apply within_of_small hL cp0 hvr ta tb h0 hlt h1 (hposdev ta tb hlt hle)
    rw [hw, mul_zero]
    exact add_nonneg (hL.hypot_nonneg _ _) (hL.hypot_nonneg _ _)
  · obtain ⟨delta, hdpos, hdelta⟩ := exists_speed_bound hL cp0.pt0 cp0.pt1 cp0.uv
      (no_double_zero hL slackness cp0.pt0 cp0.pt1 cp0.uv hs0 hs1 hshape hw)
    have hWpos : 0 < L.hypot (segment_w cp0.pt0 cp0.pt1 cp0.uv).x
        (segment_w cp0.pt0 cp0.pt1 cp0.uv).y := lt_of_le_of_ne hW (Ne.symm hw)
    refine ⟨min (cp0.max_dev/(3*(L.hypot (cp0.uv.ux - cp0.pt0.x) (cp0.uv.uy - cp0.pt0.y)
        + L.hypot (cp0.uv.vx - cp0.uv.ux) (cp0.uv.vy - cp0.uv.uy)
        + L.hypot (cp0.pt1.x - cp0.uv.vx) (cp0.pt1.y - cp0.uv.vy)) + 1))
      (delta/(153*L.hypot (segment_w cp0.pt0 cp0.pt1 cp0.uv).x
        (segment_w cp0.pt0 cp0.pt1 cp0.uv).y)),
      lt_min (div_pos hdev (by linarith)) (div_pos hdpos (by linarith)),
      fun ta tb h0 hlt h1 hle => ?_⟩
    have hle1 := le_trans hle (min_le_left _ _)
    have hle2 := le_trans hle (min_le_right _ _)
    apply within_of_small hL cp0 hvr ta tb h0 hlt h1 (hposdev ta tb hlt hle1)
    apply end_speeds_large hL cp0.pt0 cp0.pt1 cp0.uv ta tb delta hlt (by linarith)
    · rw [le_div_iff₀ (by linarith)] at hle2
      linarith
    · exact hdelta ((ta + tb)/2) (by linarith) (by linarith)

/-- Over the real numbers the call `sample_curve` makes for a segment made by
the general path of `calculate_control_points` returns, given enough fuel. -/
theorem recurse_terminates {L : Libm ℝ} (hL : L.Exact) (slackness : ℝ)
    (cp0 : GwySplineSampleParams ℝ) (hs0 : 0 < slackness) (hs1 : slackness ≤ 1)
    (hshape : SegmentShape L slackness cp0.pt0 cp0.pt1 cp0.uv)
    (hdev : 0 < cp0.max_dev) (hvr : cp0.max_vrdev = 1/100) :
    ∃ N : Nat, ∀ fuel, N ≤ fuel → ∀ cp : GwySplineSampleParams ℝ,
      cp.pt0 = cp0.pt0 → cp.pt1 = cp0.pt1 → cp.uv = cp0.uv → cp.max_dev = cp0.max_dev →
      cp.max_vrdev = cp0.max_vrdev → cp.otype = CURVE_RECURSE_OUTPUT_T_L → cp.depth = 0 →
      ∃ r, sample_curve_recurse L fuel cp (segment_item L cp0.pt0 cp0.pt1 cp0.uv 0)
        (segment_item L cp0.pt0 cp0.pt1 cp0.uv 1) = some r := by
  obtain ⟨h0, hpos, hsmall⟩ := exists_small_within hL slackness cp0 hs0 hs1 hshape hdev hvr
  obtain ⟨m, hm⟩ := exists_pow_lt_of_lt_one hpos (by norm_num : (3/4 : ℝ) < 1)
  have hm2 : (3/4 : ℝ)^(m + 1) ≤ h0 := by
    rw [pow_succ]
    have : (0 : ℝ) ≤ (3/4)^m := by positivity
    nlinarith
  refine ⟨m + 2, fun fuel hfuel cp e0 e1 e2 e3 e4 hot hd => ?_⟩
  obtain ⟨r, hr⟩ := recurse_returns_top hL cp0 h0 hsmall m hm2 cp e0 e1 e2 e3 e4 hot hd
  exact ⟨r, recurse_fuel_mono L (m + 2) fuel hfuel cp r _ _ hr⟩

end Terminate

end Gwy

namespace Gwy

open GwySplineRecurseOutputType

section Control

variable {F : Type} [LinearOrderedField F]

/-! ## The general path of `calculate_control_points` -/

theorem knot_ratio_bounds {L : Libm F} (hL : L.Exact) (prev cur next : PointXY F) :
    0 ≤ knot_ratio L prev cur next ∧ knot_ratio L prev cur next ≤ 1 := by
  unfold knot_ratio
  have h1 := hL.hypot_nonneg (prev.x - cur.x) (prev.y - cur.y)
  have h2 := hL.hypot_nonneg (cur.x - next.x) (cur.y - next.y)
  simp only []
  split
  · constructor <;> norm_num
  · next hne =>
    have hpos : 0 < L.hypot (prev.x - cur.x) (prev.y - cur.y)
        + L.hypot (cur.x - next.x) (cur.y - next.y) :=
      lt_of_le_of_ne (add_nonneg h1 h2) (Ne.symm hne)
    constructor
    · exact div_nonneg h2 hpos.le
    · rw [div_le_iff₀ hpos]; linarith

/-- The ratio times the distance of the neighbours is at most the length of
the next chord, and the complementary ratio times that distance at most the
length of the previous chord. -/
theorem knot_ratio_chord {L : Libm F} (hL : L.Exact) (prev cur next : PointXY F) :
    knot_ratio L prev cur next*L.hypot (next.x - prev.x) (next.y - prev.y)
        ≤ L.hypot (cur.x - next.x) (cur.y - next.y)
      ∧ (1 - knot_ratio L prev cur next)*L.hypot (next.x - prev.x) (next.y - prev.y)
        ≤ L.hypot (prev.x - cur.x) (prev.y - cur.y) := by
  have h1 := hL.hypot_nonneg (prev.x - cur.x) (prev.y - cur.y)
  have h2 := hL.hypot_nonneg (cur.x - next.x) (cur.y - next.y)
  have h3 := hL.hypot_nonneg (next.x - prev.x) (next.y - prev.y)
  have tri : L.hypot (next.x - prev.x) (next.y - prev.y)
      ≤ L.hypot (prev.x - cur.x) (prev.y - cur.y)
        + L.hypot (cur.x - next.x) (cur.y - next.y) := by
    have := hL.hypot_add_le (cur.x - prev.x) (cur.y - prev.y) (next.x - cur.x)
      (next.y - cur.y)
    rw [hL.hypot_sub_comm cur.x cur.y prev.x prev.y,
      hL.hypot_sub_comm next.x next.y cur.x cur.y] at this
    have e : L.hypot (cur.x - prev.x + (next.x - cur.x)) (cur.y - prev.y + (next.y - cur.y))
        = L.hypot (next.x - prev.x) (next.y - prev.y) := by
      congr 1 <;> ring
    rw [e] at this
    exact this
  unfold knot_ratio
  simp only []
  generalize L.hypot (prev.x - cur.x) (prev.y - cur.y) = lp at h1 tri
  generalize L.hypot (cur.x - next.x) (cur.y - next.y) = ln at h2 tri
  generalize L.hypot (next.x - prev.x) (next.y - prev.y) = D at h3 tri
  split
  · next h0 =>
    have : D = 0 := by linarith
    have : lp = 0 := by linarith
    have : ln = 0 := by linarith
    subst_vars
    constructor <;> norm_num
  · next hne =>
    have hpos : 0 < lp + ln := lt_of_le_of_ne (add_nonneg h1 h2) (Ne.symm hne)
    have e1 : 1 - ln/(lp + ln) = lp/(lp + ln) := by field_simp
    rw [e1]
    constructor
    · rw [div_mul_eq_mul_div, div_le_iff₀ hpos]
      nlinarith
    · rw [div_mul_eq_mul_div, div_le_iff₀ hpos]
      nlinarith

/-- The `u` set at an inner knot is at most half the next chord away from the
knot. -/
theorem knot_cu_next_inner {L : Libm F} (hL : L.Exact) (slackness : F)
    (hs0 : 0 ≤ slackness) (hs1 : slackness ≤ 1) (prev cur next : PointXY F)
    (c : ControlPoint F) :
    2*L.hypot ((knot_cu_next L slackness prev cur next c).ux - cur.x)
        ((knot_cu_next L slackness prev cur next c).uy - cur.y)
      ≤ L.hypot (next.x - cur.x) (next.y - cur.y) := by
  obtain ⟨hq0, hq1⟩ := knot_ratio_bounds hL prev cur next
  obtain ⟨hc, _⟩ := knot_ratio_chord hL prev cur next
  simp only [knot_cu_next, interpolate_cu_next]
  generalize knot_ratio L prev cur next = q at hq0 hq1 hc
  have e : L.hypot (cur.x + slackness*q*((cur.x + next.x)/2 - (prev.x + cur.x)/2) - cur.x)
      (cur.y + slackness*q*((cur.y + next.y)/2 - (prev.y + cur.y)/2) - cur.y)
      = slackness*q/2*L.hypot (next.x - prev.x) (next.y - prev.y) := by
    rw [← hL.hypot_smul _ _ _ (by positivity)]
    congr 1 <;> ring
  rw [e, hL.hypot_sub_comm next.x next.y cur.x cur.y]
  have hD := hL.hypot_nonneg (next.x - prev.x) (next.y - prev.y)
  have hqD : 0 ≤ q*L.hypot (next.x - prev.x) (next.y - prev.y) := mul_nonneg hq0 hD
  nlinarith

/-- The `v` set at an inner knot is at most half the previous chord away from
the knot. -/
theorem knot_cv_prev_inner {L : Libm F} (hL : L.Exact) (slackness : F)
    (hs0 : 0 ≤ slackness) (hs1 : slackness ≤ 1) (prev cur next : PointXY F)
    (c : ControlPoint F) :
    2*L.hypot (cur.x - (knot_cv_prev L slackness prev cur next c).vx)
        (cur.y - (knot_cv_prev L slackness prev cur next c).vy)
      ≤ L.hypot (cur.x - prev.x) (cur.y - prev.y) := by
  obtain ⟨hq0, hq1⟩ := knot_ratio_bounds hL prev cur next
  obtain ⟨_, hc⟩ := knot_ratio_chord hL prev cur next
  simp only [knot_cv_prev, interpolate_cv_prev]
  generalize knot_ratio L prev cur next = q at hq0 hq1 hc
  have e : L.hypot
      (cur.x - (cur.x + slackness*(1 - q)*((prev.x + cur.x)/2 - (cur.x + next.x)/2)))
      (cur.y - (cur.y + slackness*(1 - q)*((prev.y + cur.y)/2 - (cur.y + next.y)/2)))
      = slackness*(1 - q)/2*L.hypot (next.x - prev.x) (next.y - prev.y) := by
    rw [← hL.hypot_smul _ _ _ (by
      have : 0 ≤ 1 - q := sub_nonneg.mpr hq1
      positivity)]
    congr 1 <;> ring
  rw [e, hL.hypot_sub_comm cur.x cur.y prev.x prev.y]
  have hD := hL.hypot_nonneg (next.x - prev.x) (next.y - prev.y)
  have hq1' : 0 ≤ 1 - q := sub_nonneg.mpr hq1
  have hqD : 0 ≤ (1 - q)*L.hypot (next.x - prev.x) (next.y - prev.y) := mul_nonneg hq1' hD
  nlinarith

theorem knot_cv_cu_comm (L : Libm F) (slackness : F) (a b c a2 b2 c2 : PointXY F)
    (x : ControlPoint F) :
    knot_cu_next L slackness a b c (knot_cv_prev L slackness a2 b2 c2 x)
      = knot_cv_prev L slackness a2 b2 c2 (knot_cu_next L slackness a b c x) := rfl

/-- One iteration of the loop over the inner knots, in terms of the knot
functions. -/
theorem control_points_inner_step (L : Libm F) (n : Nat) (xy : List (PointXY F))
    (slackness : F) (rem i cur prev : Nat) (uv : List (ControlPoint F)) :
    calculate_control_points_inner L n xy slackness (rem + 1) i cur
        { x := ((point_at xy prev).x + (point_at xy cur).x)/2
          y := ((point_at xy prev).y + (point_at xy cur).y)/2 }
        (L.hypot ((point_at xy prev).x - (point_at xy cur).x)
          ((point_at xy prev).y - (point_at xy cur).y)) uv
      = calculate_control_points_inner L n xy slackness rem (i + 1)
          (if i = n then 0 else cur + 1)
          { x := ((point_at xy cur).x + (point_at xy (if i = n then 0 else cur + 1)).x)/2
            y := ((point_at xy cur).y + (point_at xy (if i = n then 0 else cur + 1)).y)/2 }
          (L.hypot ((point_at xy cur).x - (point_at xy (if i = n then 0 else cur + 1)).x)
            ((point_at xy cur).y - (point_at xy (if i = n then 0 else cur + 1)).y))
          ((uv.modify (knot_cv_prev L slackness (point_at xy prev) (point_at xy cur)
              (point_at xy (if i = n then 0 else cur + 1))) (i - 1)).modify
            (knot_cu_next L slackness (point_at xy prev) (point_at xy cur)
              (point_at xy (if i = n then 0 else cur + 1))) (if i = n + 1 then 0 else i)) := by
  rw [calculate_control_points_inner]
  rfl

/-- The loop over the inner knots of `calculate_control_points`: every cell
`k` whose end knot the loop visits gets the `v` of that knot, every cell whose
start knot the loop visits gets the `u` of that knot, and nothing else
changes. -/
theorem control_points_inner_loop (L : Libm F) (n : Nat) (hn : 1 ≤ n)
    (xy : List (PointXY F)) (slackness : F) :
    ∀ (rem i : Nat) (uv : List (ControlPoint F)), 1 ≤ i → i + rem ≤ n + 2 →
      (calculate_control_points_inner L n xy slackness rem i (i % (n + 1))
          { x := ((point_at xy ((i - 1) % (n + 1))).x + (point_at xy (i % (n + 1))).x)/2
            y := ((point_at xy ((i - 1) % (n + 1))).y + (point_at xy (i % (n + 1))).y)/2 }
          (L.hypot ((point_at xy ((i - 1) % (n + 1))).x - (point_at xy (i % (n + 1))).x)
            ((point_at xy ((i - 1) % (n + 1))).y - (point_at xy (i % (n + 1))).y))
          uv).length = uv.length
      ∧ ∀ k, k < uv.length →
          (calculate_control_points_inner L n xy slackness rem i (i % (n + 1))
            { x := ((point_at xy ((i - 1) % (n + 1))).x + (point_at xy (i % (n + 1))).x)/2
              y := ((point_at xy ((i - 1) % (n + 1))).y + (point_at xy (i % (n + 1))).y)/2 }
            (L.hypot ((point_at xy ((i - 1) % (n + 1))).x - (point_at xy (i % (n + 1))).x)
              ((point_at xy ((i - 1) % (n + 1))).y - (point_at xy (i % (n + 1))).y))
            uv)[k]?
          = (uv[k]?).map (fun b =>
              (if i ≤ k + 1 ∧ k + 1 < i + rem then
                knot_cv_prev L slackness (point_at xy k) (point_at xy ((k + 1) % (n + 1)))
                  (point_at xy ((k + 2) % (n + 1)))
               else id)
              ((if (i ≤ k ∧ k < i + rem ∧ k ≤ n) ∨ (k = 0 ∧ i ≤ n + 1 ∧ n + 1 < i + rem) then
                knot_cu_next L slackness (point_at xy ((k + n) % (n + 1))) (point_at xy k)
                  (point_at xy ((k + 1) % (n + 1)))
               else id) b)) := by
  have m1 : ∀ j, j ≤ n → j % (n + 1) = j := fun j hj => Nat.mod_eq_of_lt (by omega)
  have m2 : (n + 1) % (n + 1) = 0 := Nat.mod_self _
  have m3 : (n + 2) % (n + 1) = 1 := by
    rw [show n + 2 = 1 + (n + 1) by ring, Nat.add_mod_right]
    exact Nat.mod_eq_of_lt (by omega)
  have m4 : ∀ j, 1 ≤ j → j ≤ n → (j + n) % (n + 1) = j - 1 := by
    intro j h1 h2
    rw [show j + n = (j - 1) + (n + 1) by omega, Nat.add_mod_right]
    exact Nat.mod_eq_of_lt (by omega)
  intro rem
  induction rem with
  | zero =>
    intro i uv _ _
    refine ⟨rfl, fun k hk => ?_⟩
    have h1 : ¬(i ≤ k + 1 ∧ k + 1 < i + 0) := by omega
    have h2 : ¬((i ≤ k ∧ k < i + 0 ∧ k ≤ n) ∨ (k = 0 ∧ i ≤ n + 1 ∧ n + 1 < i + 0)) := by omega
    simp only [calculate_control_points_inner, h1, h2, if_false, id]
    simp
  | succ rem ih =>
    intro i uv hi1 hi
    rw [control_points_inner_step]
    have hprev : (i - 1) % (n + 1) = i - 1 := m1 _ (by omega)
    have hnext : (if i = n then 0 else i % (n + 1) + 1) = (i + 1) % (n + 1) := by
      by_cases h1 : i = n
      · rw [if_pos h1, h1, m2]
      · rw [if_neg h1]
        by_cases h2 : i = n + 1
        · rw [h2, m2, m3]
        · rw [m1 i (by omega), m1 (i + 1) (by omega)]
    have hcur : (if i = n + 1 then 0 else i) = i % (n + 1) := by
      by_cases h2 : i = n + 1
      · rw [if_pos h2, h2, m2]
      · rw [if_neg h2, m1 i (by omega)]
    rw [hnext, hcur]
    have ih2 := ih (i + 1)
      ((uv.modify (knot_cv_prev L slackness (point_at xy ((i - 1) % (n + 1)))
          (point_at xy (i % (n + 1))) (point_at xy ((i + 1) % (n + 1)))) (i - 1)).modify
        (knot_cu_next L slackness (point_at xy ((i - 1) % (n + 1)))
          (point_at xy (i % (n + 1))) (point_at xy ((i + 1) % (n + 1)))) (i % (n + 1)))
      (by omega) (by omega)
    rw [Nat.add_sub_cancel] at ih2
    obtain ⟨hlen, hget⟩ := ih2
    refine ⟨by rw [hlen, List.length_modify, List.length_modify], fun k hk => ?_⟩
    rw [hget k (by rw [List.length_modify, List.length_modify]; exact hk),
      List.getElem?_modify, List.getElem?_modify, List.getElem?_eq_getElem hk]
    simp only [Option.map_some', Functor.map]
    congr 1
    by_cases hA : i - 1 = k
    · -- the cell before the knot
      have hne : ¬(i % (n + 1) = k) := by
        by_cases h2 : i = n + 1
        · rw [h2, m2]; omega
        · rw [m1 i (by omega)]; omega
      have hV : i ≤ k + 1 ∧ k + 1 < i + (rem + 1) := by omega
      have hV2 : ¬(i + 1 ≤ k + 1 ∧ k + 1 < i + 1 + rem) := by omega
      have e1 : k + 1 = i := by omega
      have e2 : k + 2 = i + 1 := by omega
      rw [if_pos hA, if_neg hne, if_pos hV, if_neg hV2, hprev, hA, e1, e2]
      by_cases hU : (i ≤ k ∧ k < i + (rem + 1) ∧ k ≤ n) ∨ (k = 0 ∧ i ≤ n + 1 ∧ n + 1 < i + (rem + 1))
      · have hU2 : (i + 1 ≤ k ∧ k < i + 1 + rem ∧ k ≤ n)
            ∨ (k = 0 ∧ i + 1 ≤ n + 1 ∧ n + 1 < i + 1 + rem) := by omega
        rw [if_pos hU, if_pos hU2]
        rfl
      · have hU2 : ¬((i + 1 ≤ k ∧ k < i + 1 + rem ∧ k ≤ n)
            ∨ (k = 0 ∧ i + 1 ≤ n + 1 ∧ n + 1 < i + 1 + rem)) := by omega
        rw [if_neg hU, if_neg hU2]
        rfl
    · rw [if_neg hA]
      have hVV : (i + 1 ≤ k + 1 ∧ k + 1 < i + 1 + rem) ↔ (i ≤ k + 1 ∧ k + 1 < i + (rem + 1)) := by
        omega
      by_cases hB : i % (n + 1) = k
      · -- the cell after the knot
        have hU : (i ≤ k ∧ k < i + (rem + 1) ∧ k ≤ n)
            ∨ (k = 0 ∧ i ≤ n + 1 ∧ n + 1 < i + (rem + 1)) := by
          by_cases h2 : i = n + 1
          · rw [h2, m2] at hB; omega
          · rw [m1 i (by omega)] at hB; omega
        have hU2 : ¬((i + 1 ≤ k ∧ k < i + 1 + rem ∧ k ≤ n)
            ∨ (k = 0 ∧ i + 1 ≤ n + 1 ∧ n + 1 < i + 1 + rem)) := by
          by_cases h2 : i = n + 1
          · rw [h2, m2] at hB; omega
          · rw [m1 i (by omega)] at hB; omega
        have e1 : (k + n) % (n + 1) = i - 1 := by
          by_cases h2 : i = n + 1
          · rw [h2, m2] at hB
            rw [← hB, h2, Nat.zero_add, m1 n (le_refl _)]
            omega
          · rw [m1 i (by omega)] at hB
            rw [← hB, m4 i hi1 (by omega)]
        have e2 : (k + 1) % (n + 1) = (i + 1) % (n + 1) := by
          by_cases h2 : i = n + 1
          · rw [h2, m2] at hB
            rw [← hB, h2, m3]
            exact m1 1 hn
          · rw [m1 i (by omega)] at hB
            rw [hB]
        rw [if_pos hB, if_pos hU, if_neg hU2, e1, e2, hprev, hB]
        by_cases hV : i ≤ k + 1 ∧ k + 1 < i + (rem + 1)
        · rw [if_pos hV, if_pos (hVV.mpr hV)]
          rfl
        · rw [if_neg hV, if_neg (fun h => hV (hVV.mp h))]
          rfl
      · rw [if_neg hB]
        have hUU : ((i + 1 ≤ k ∧ k < i + 1 + rem ∧ k ≤ n)
            ∨ (k = 0 ∧ i + 1 ≤ n + 1 ∧ n + 1 < i + 1 + rem))
            ↔ ((i ≤ k ∧ k < i + (rem + 1) ∧ k ≤ n)
              ∨ (k = 0 ∧ i ≤ n + 1 ∧ n + 1 < i + (rem + 1))) := by
          by_cases h2 : i = n + 1
          · rw [h2, m2] at hB; omega
          · rw [m1 i (by omega)] at hB; omega
        simp only [hUU, hVV]

theorem segment_inner_u_knot {L : Libm F} (hL : L.Exact) (slackness : F)
    (hs0 : 0 ≤ slackness) (hs1 : slackness ≤ 1) (prev cur next : PointXY F)
    (c : ControlPoint F) :
    SegmentInnerU L cur next (knot_cu_next L slackness prev cur next c) :=
  knot_cu_next_inner hL slackness hs0 hs1 prev cur next c

theorem segment_inner_v_knot {L : Libm F} (hL : L.Exact) (slackness : F)
    (hs0 : 0 ≤ slackness) (hs1 : slackness ≤ 1) (prev cur next : PointXY F)
    (c : ControlPoint F) :
    SegmentInnerV L prev cur (knot_cv_prev L slackness prev cur next c) :=
  knot_cv_prev_inner hL slackness hs0 hs1 prev cur next c

/-- With at least three points and a positive slackness
`calculate_control_points` as called by `sample_curve` gives every segment one
of the three shapes. -/
theorem control_points_shape {L : Libm F} (hL : L.Exact) (junk : Nat → ControlPoint F)
    (xy : List (PointXY F)) (slackness : F) (closed : Bool) (old : List (ControlPoint F))
    (hn : 3 ≤ xy.length) (hs0 : 0 < slackness) (hs1 : slackness ≤ 1) (k : Nat)
    (hk : k < segment_count xy.length closed) :
    SegmentShape L slackness (point_at xy k) (point_at xy ((k + 1) % xy.length))
      (g_array_index (calculate_control_points L ((xy.length : Int) - 1) xy slackness closed
        (g_array_set_size old (segment_count xy.length closed) junk)) k (junk k)) := by
  obtain ⟨n, hn2⟩ : ∃ n, xy.length = n + 1 := ⟨xy.length - 1, by omega⟩
  have hn1 : 2 ≤ n := by omega
  have hint : ((xy.length : Int) - 1) = (n : Int) := by rw [hn2]; push_cast; ring
  have hcond : ¬(n = 1 ∨ slackness = 0) := by
    rintro (h | h)
    · omega
    · exact absurd h (ne_of_gt hs0)
  have hge : ((n : Int) ≥ 1) := by
    have : 1 ≤ n := by omega
    exact_mod_cast this
  have hcount : segment_count xy.length closed = if closed then n + 1 else n := by
    unfold segment_count
    rw [hn2]
    cases closed <;> simp
  rw [hcount] at hk ⊢
  have hlen0 := g_array_set_size_length old (if closed then n + 1 else n) junk
  generalize g_array_set_size old (if closed then n + 1 else n) junk = uv0 at hlen0
  have hloop := control_points_inner_loop L n (by omega) xy slackness
    ((if closed then n + 2 else n) - 1) 1 uv0 (le_refl _) (by cases closed <;> simp <;> omega)
  have m0 : (1 - 1) % (n + 1) = 0 := by simp
  have m1 : 1 % (n + 1) = 1 := Nat.mod_eq_of_lt (by omega)
  rw [m0, m1] at hloop
  unfold calculate_control_points
  rw [hint]
  simp only [hge, not_true_eq_false, if_false, hs0.le, hs1, ge_iff_le, and_self,
    Int.toNat_ofNat, hcond, hn2]
  generalize calculate_control_points_inner L n xy slackness
    ((if closed then n + 2 else n) - 1) 1 1
    { x := ((point_at xy 0).x + (point_at xy 1).x)/2
      y := ((point_at xy 0).y + (point_at xy 1).y)/2 }
    (L.hypot ((point_at xy 0).x - (point_at xy 1).x)
      ((point_at xy 0).y - (point_at xy 1).y)) uv0 = R at hloop ⊢
  obtain ⟨hlenR, hget⟩ := hloop
  have hklen : k < uv0.length := by rw [hlen0]; exact hk
  obtain ⟨b, hb⟩ : ∃ b, uv0[k]? = some b := ⟨uv0[k], List.getElem?_eq_getElem hklen⟩
  have hRk := hget k hklen
  rw [hb, Option.map_some'] at hRk
  cases closed with
  | true =>
    simp only [if_true] at hRk hk ⊢
    have hV : 1 ≤ k + 1 ∧ k + 1 < 1 + (n + 2 - 1) := by omega
    have hU : (1 ≤ k ∧ k < 1 + (n + 2 - 1) ∧ k ≤ n)
        ∨ (k = 0 ∧ 1 ≤ n + 1 ∧ n + 1 < 1 + (n + 2 - 1)) := by omega
    rw [if_pos hV, if_pos hU] at hRk
    simp only [g_array_index, List.getD_eq_getElem?_getD, hRk, Option.getD_some]
    left
    exact ⟨segment_inner_u_knot hL slackness hs0.le hs1 (point_at xy ((k + n) % (n + 1)))
        (point_at xy k) (point_at xy ((k + 1) % (n + 1))) b,
      segment_inner_v_knot hL slackness hs0.le hs1 _ _ _ _⟩
  | false =>
    simp only [Bool.false_eq_true, if_false] at hRk hk ⊢
    have hlast : (k + 1) % (n + 1) = k + 1 := Nat.mod_eq_of_lt (by omega)
    simp only [g_array_index, List.getD_eq_getElem?_getD, List.getElem?_modify, hRk,
      Option.map_some', Functor.map, Option.getD_some]
    by_cases hk0 : k = 0
    · -- the first segment
      subst hk0
      have hV : 1 ≤ 0 + 1 ∧ 0 + 1 < 1 + (n - 1) := by omega
      have hne : ¬(n - 1 = 0) := by omega
      have hU : ¬((1 ≤ 0 ∧ 0 < 1 + (n - 1) ∧ 0 ≤ n)
          ∨ (0 = 0 ∧ 1 ≤ n + 1 ∧ n + 1 < 1 + (n - 1))) := by omega
      rw [if_pos hV, if_neg hU] at hRk ⊢
      simp only [hne, if_false, if_true, id, hRk, Option.getD_some]
      right; left
      refine ⟨?_, segment_inner_v_knot hL slackness hs0.le hs1 (point_at xy 0)
        (point_at xy ((0 + 1) % (n + 1))) (point_at xy ((0 + 2) % (n + 1))) b⟩
      constructor
      · show 2*(((2 - slackness)*(point_at xy 0).x + slackness*_)/2 - (point_at xy 0).x)
          = slackness*(_ - (point_at xy 0).x)
        ring
      · show 2*(((2 - slackness)*(point_at xy 0).y + slackness*_)/2 - (point_at xy 0).y)
          = slackness*(_ - (point_at xy 0).y)
        ring
    · have hU : (1 ≤ k ∧ k < 1 + (n - 1) ∧ k ≤ n)
          ∨ (k = 0 ∧ 1 ≤ n + 1 ∧ n + 1 < 1 + (n - 1)) := by omega
      have hne : ¬(0 = k) := by omega
      rw [if_pos hU] at hRk ⊢
      simp only [hne, if_false]
      by_cases hkn : n - 1 = k
      · -- the last segment
        have hmod : (k + 1) % (n + 1) = n := by omega
        have hV : ¬(1 ≤ k + 1 ∧ k + 1 < 1 + (n - 1)) := by omega
        have hV2 : ¬(1 ≤ k + 1 ∧ k + 1 < 1 + k) := by omega
        rw [if_neg hV] at hRk
        simp only [hkn, if_true, hmod, if_neg hV, if_neg hV2, id, hRk, Option.map_some',
          Option.getD_some, hne, if_false]
        right; right
        refine ⟨?_, ?_⟩
        · have := segment_inner_u_knot hL slackness hs0.le hs1 (point_at xy ((k + n) % (n + 1)))
            (point_at xy k) (point_at xy ((k + 1) % (n + 1))) b
          rw [hmod] at this
          exact this
        · constructor
          · show 2*((point_at xy n).x - ((2 - slackness)*(point_at xy n).x + slackness*_)/2)
              = slackness*((point_at xy n).x - _)
            ring
          · show 2*((point_at xy n).y - ((2 - slackness)*(point_at xy n).y + slackness*_)/2)
              = slackness*((point_at xy n).y - _)
            ring
      · have hV : 1 ≤ k + 1 ∧ k + 1 < 1 + (n - 1) := by omega
        simp only [hkn, if_false, if_pos hV]
        left
        exact ⟨segment_inner_u_knot hL slackness hs0.le hs1 (point_at xy ((k + n) % (n + 1)))
            (point_at xy k) (point_at xy ((k + 1) % (n + 1))) b,
          segment_inner_v_knot hL slackness hs0.le hs1 _ _ _ _⟩

end Control

end Gwy

namespace Gwy

open GwySplineRecurseOutputType

section Constant

variable {F : Type} [LinearOrderedField F]

/-! ## Emitted intervals of length zero -/

theorem point_ext (a b : PointXY F) (hx : a.x = b.x) (hy : a.y = b.y) : a = b := by
  cases a
  cases b
  simp only [PointXY.mk.injEq]
  exact ⟨hx, hy⟩

/-- A segment that takes the same position at three times `ta < tm < tb` is
the product of its third difference and the cubic with these roots; so are
its velocities at `ta` and `tb`. -/
theorem cubic_three_equal (pt0 pt1 : PointXY F) (uv : ControlPoint F) (ta tm tb : F)
    (h1 : ta < tm) (h2 : tm < tb)
    (hm : interpolate_z pt0 pt1 uv tm = interpolate_z pt0 pt1 uv ta)
    (hb : interpolate_z pt0 pt1 uv tb = interpolate_z pt0 pt1 uv ta) :
    (∀ t, (interpolate_z pt0 pt1 uv t).x - (interpolate_z pt0 pt1 uv ta).x
          = (t - ta)*(t - tm)*(t - tb)*(segment_w pt0 pt1 uv).x
        ∧ (interpolate_z pt0 pt1 uv t).y - (interpolate_z pt0 pt1 uv ta).y
          = (t - ta)*(t - tm)*(t - tb)*(segment_w pt0 pt1 uv).y)
      ∧ (interpolate_v pt0 pt1 uv ta).x = (tm - ta)*(tb - ta)*(segment_w pt0 pt1 uv).x
      ∧ (interpolate_v pt0 pt1 uv ta).y = (tm - ta)*(tb - ta)*(segment_w pt0 pt1 uv).y
      ∧ (interpolate_v pt0 pt1 uv tb).x = (tb - ta)*(tb - tm)*(segment_w pt0 pt1 uv).x
      ∧ (interpolate_v pt0 pt1 uv tb).y = (tb - ta)*(tb - tm)*(segment_w pt0 pt1 uv).y := by
  have hD : (tm - ta)*(tm - tb)*(tb - ta) ≠ 0 := by
    apply mul_ne_zero (mul_ne_zero _ _) _
    · exact ne_of_gt (sub_pos.mpr h1)
    · exact ne_of_lt (sub_neg.mpr h2)
    · exact ne_of_gt (sub_pos.mpr (h1.trans h2))
  have hmx := congrArg PointXY.x hm
  have hmy := congrArg PointXY.y hm
  have hbx := congrArg PointXY.x hb
  have hby := congrArg PointXY.y hb
  simp only [interpolate_z] at hmx hmy hbx hby
  refine ⟨fun t => ⟨?_, ?_⟩, ?_, ?_, ?_, ?_⟩
  · apply mul_left_cancel₀ hD
    simp only [interpolate_z, segment_w]
    linear_combination ((t - ta)*(t - tb)*(tb - ta))*hmx - ((t - ta)*(t - tm)*(tm - ta))*hbx
  · apply mul_left_cancel₀ hD
    simp only [interpolate_z, segment_w]
    linear_combination ((t - ta)*(t - tb)*(tb - ta))*hmy - ((t - ta)*(t - tm)*(tm - ta))*hby
  · apply mul_left_cancel₀ hD
    simp only [interpolate_v, segment_w]
    linear_combination (-((tb - ta)*(tb - ta)))*hmx + ((tm - ta)*(tm - ta))*hbx
  · apply mul_left_cancel₀ hD
    simp only [interpolate_v, segment_w]
    linear_combination (-((tb - ta)*(tb - ta)))*hmy + ((tm - ta)*(tm - ta))*hby
  · apply mul_left_cancel₀ hD
    simp only [interpolate_v, segment_w]
    linear_combination ((tb - ta)*(tb - ta))*hmx - ((2*tb - tm - ta)*(tm - ta))*hbx
  · apply mul_left_cancel₀ hD
    simp only [interpolate_v, segment_w]
    linear_combination ((tb - ta)*(tb - ta))*hmy - ((2*tb - tm - ta)*(tm - ta))*hby

/-- An emitted interval of length zero: the segment is constant.  The
position is the same at the ends and at the middle of the interval, and the
velocity test with `max_vrdev = 1/100` then passes only if the third
difference of the control polygon is zero. -/
theorem zero_leaf_constant {L : Libm F} (hL : L.Exact) (cp : GwySplineSampleParams F)
    (hvr : cp.max_vrdev = 1/100) (ta tb : F) (hleaf : Leaf L cp ta tb 0) :
    ∀ t, interpolate_z cp.pt0 cp.pt1 cp.uv t = interpolate_z cp.pt0 cp.pt1 cp.uv ta := by
  obtain ⟨hlt, hw, hy⟩ := hleaf
  have hq := division_time_half_bounds hL (segment_item L cp.pt0 cp.pt1 cp.uv ta).vl
    (segment_item L cp.pt0 cp.pt1 cp.uv tb).vl (hL.hypot_nonneg _ _) (hL.hypot_nonneg _ _)
  rw [within_unfold, Bool.and_eq_true] at hw
  have hv := hw.2
  have hy2 : L.hypot
      ((interpolate_z cp.pt0 cp.pt1 cp.uv ta).x
        - (interpolate_z cp.pt0 cp.pt1 cp.uv
            (ta*(1 - division_time L (segment_item L cp.pt0 cp.pt1 cp.uv ta).vl
                (segment_item L cp.pt0 cp.pt1 cp.uv tb).vl (1/2))
              + tb*division_time L (segment_item L cp.pt0 cp.pt1 cp.uv ta).vl
                (segment_item L cp.pt0 cp.pt1 cp.uv tb).vl (1/2))).x)
      ((interpolate_z cp.pt0 cp.pt1 cp.uv ta).y
        - (interpolate_z cp.pt0 cp.pt1 cp.uv
            (ta*(1 - division_time L (segment_item L cp.pt0 cp.pt1 cp.uv ta).vl
                (segment_item L cp.pt0 cp.pt1 cp.uv tb).vl (1/2))
              + tb*division_time L (segment_item L cp.pt0 cp.pt1 cp.uv ta).vl
                (segment_item L cp.pt0 cp.pt1 cp.uv tb).vl (1/2))).y)
      + L.hypot
        ((interpolate_z cp.pt0 cp.pt1 cp.uv
            (ta*(1 - division_time L (segment_item L cp.pt0 cp.pt1 cp.uv ta).vl
                (segment_item L cp.pt0 cp.pt1 cp.uv tb).vl (1/2))
              + tb*division_time L (segment_item L cp.pt0 cp.pt1 cp.uv ta).vl
                (segment_item L cp.pt0 cp.pt1 cp.uv tb).vl (1/2))).x
          - (interpolate_z cp.pt0 cp.pt1 cp.uv tb).x)
        ((interpolate_z cp.pt0 cp.pt1 cp.uv
            (ta*(1 - division_time L (segment_item L cp.pt0 cp.pt1 cp.uv ta).vl
                (segment_item L cp.pt0 cp.pt1 cp.uv tb).vl (1/2))
              + tb*division_time L (segment_item L cp.pt0 cp.pt1 cp.uv ta).vl
                (segment_item L cp.pt0 cp.pt1 cp.uv tb).vl (1/2))).y
          - (interpolate_z cp.pt0 cp.pt1 cp.uv tb).y) = 0 := hy.symm
  rw [velocity_deviation hL _ _ _ _ _ _ (by linarith [hq.1]) (by linarith [hq.2]), hvr] at hv
  have hva : (segment_item L cp.pt0 cp.pt1 cp.uv ta).vl
      = L.hypot (interpolate_v cp.pt0 cp.pt1 cp.uv ta).x
          (interpolate_v cp.pt0 cp.pt1 cp.uv ta).y := rfl
  have hvb : (segment_item L cp.pt0 cp.pt1 cp.uv tb).vl
      = L.hypot (interpolate_v cp.pt0 cp.pt1 cp.uv tb).x
          (interpolate_v cp.pt0 cp.pt1 cp.uv tb).y := rfl
  generalize division_time L (segment_item L cp.pt0 cp.pt1 cp.uv ta).vl
    (segment_item L cp.pt0 cp.pt1 cp.uv tb).vl (1/2) = q at hq hv hy2
  have hq0 : 0 < q := by linarith [hq.1]
  have hq1 : 0 < 1 - q := by linarith [hq.2]
  have hsub : 0 < tb - ta := sub_pos.mpr hlt
  have e1 : ta*(1 - q) + tb*q - ta = q*(tb - ta) := by ring
  have e2 : tb - (ta*(1 - q) + tb*q) = (1 - q)*(tb - ta) := by ring
  have h1 : ta < ta*(1 - q) + tb*q := by
    have := mul_pos hq0 hsub
    linarith
  have h2 : ta*(1 - q) + tb*q < tb := by
    have := mul_pos hq1 hsub
    linarith
  have hn1 := hL.hypot_nonneg
    ((interpolate_z cp.pt0 cp.pt1 cp.uv ta).x
      - (interpolate_z cp.pt0 cp.pt1 cp.uv (ta*(1 - q) + tb*q)).x)
    ((interpolate_z cp.pt0 cp.pt1 cp.uv ta).y
      - (interpolate_z cp.pt0 cp.pt1 cp.uv (ta*(1 - q) + tb*q)).y)
  have hn2 := hL.hypot_nonneg
    ((interpolate_z cp.pt0 cp.pt1 cp.uv (ta*(1 - q) + tb*q)).x
      - (interpolate_z cp.pt0 cp.pt1 cp.uv tb).x)
    ((interpolate_z cp.pt0 cp.pt1 cp.uv (ta*(1 - q) + tb*q)).y
      - (interpolate_z cp.pt0 cp.pt1 cp.uv tb).y)
  have hz1 := (hL.hypot_eq_zero_iff _ _).mp (le_antisymm (by linarith) hn1)
  have hz2 := (hL.hypot_eq_zero_iff _ _).mp (le_antisymm (by linarith) hn2)
  have hm : interpolate_z cp.pt0 cp.pt1 cp.uv (ta*(1 - q) + tb*q)
      = interpolate_z cp.pt0 cp.pt1 cp.uv ta :=
    point_ext _ _ (by linarith [hz1.1]) (by linarith [hz1.2])
  have hb : interpolate_z cp.pt0 cp.pt1 cp.uv tb = interpolate_z cp.pt0 cp.pt1 cp.uv ta :=
    point_ext _ _ (by linarith [hz1.1, hz2.1]) (by linarith [hz1.2, hz2.2])
  obtain ⟨hz, hax, hay, hbx, hby⟩ := cubic_three_equal cp.pt0 cp.pt1 cp.uv ta _ tb h1 h2 hm hb
  have hca : 0 ≤ (ta*(1 - q) + tb*q - ta)*(tb - ta) := by
    rw [e1]
    exact (mul_pos (mul_pos hq0 hsub) hsub).le
  have hcb : 0 ≤ (tb - ta)*(tb - (ta*(1 - q) + tb*q)) := by
    rw [e2]
    exact (mul_pos hsub (mul_pos hq1 hsub)).le
  rw [hva, hvb, hax, hay, hbx, hby, hL.hypot_smul _ _ _ hca, hL.hypot_smul _ _ _ hcb] at hv
  have hWn := hL.hypot_nonneg (segment_w cp.pt0 cp.pt1 cp.uv).x (segment_w cp.pt0 cp.pt1 cp.uv).y
  have hW0 : L.hypot (segment_w cp.pt0 cp.pt1 cp.uv).x (segment_w cp.pt0 cp.pt1 cp.uv).y = 0 := by
    by_contra hne
    have hWpos : 0 < L.hypot (segment_w cp.pt0 cp.pt1 cp.uv).x
        (segment_w cp.pt0 cp.pt1 cp.uv).y := lt_of_le_of_ne hWn (Ne.symm hne)
    generalize L.hypot (segment_w cp.pt0 cp.pt1 cp.uv).x (segment_w cp.pt0 cp.pt1 cp.uv).y
      = W at hv hWpos
    have hh : 0 < (tb - ta)*(tb - ta) := mul_pos (sub_pos.mpr hlt) (sub_pos.mpr hlt)
    have hqq : 3/16 ≤ q*(1 - q) := by
      have := mul_nonneg (by linarith [hq.1] : 0 ≤ q - 1/4) (by linarith [hq.2] : 0 ≤ 3/4 - q)
      linarith
    have hhW : 0 < (tb - ta)*(tb - ta)*W := mul_pos hh hWpos
    have heps : 0 < 3*(q*(1 - q)*((tb - ta)*(tb - ta)))*W := by
      have : 0 < q*(1 - q) := by linarith
      positivity
    have hd : ((ta*(1 - q) + tb*q - ta)*(tb - ta)*W
        + (tb - ta)*(tb - (ta*(1 - q) + tb*q))*W)/2 = (tb - ta)*(tb - ta)*W/2 := by ring
    rw [hd] at hv
    simp only [vrdev_within, ne_eq, ne_of_gt heps, not_false_eq_true, if_true,
      Bool.and_eq_true, decide_eq_true_eq] at hv
    have hle := hv.2
    rw [div_le_iff₀ (by linarith)] at hle
    have hmul := mul_le_mul_of_nonneg_right hqq hhW.le
    linarith
  obtain ⟨hwx, hwy⟩ := (hL.hypot_eq_zero_iff _ _).mp hW0
  intro t
  obtain ⟨hx, hy3⟩ := hz t
  rw [hwx] at hx
  rw [hwy] at hy3
  exact point_ext _ _ (by linarith) (by linarith)

/-- The curve at a global time that two neighbouring segments share: the end
of segment `k` is the start of segment `k + 1`. -/
theorem curve_joint (points : List (PointXY F)) (uv uv2 : ControlPoint F) (k k2 : Nat)
    (t t2 : F) (hk2 : k2 < points.length) (hk : k < points.length)
    (h0 : 0 ≤ t) (h1 : t ≤ 1) (h02 : 0 ≤ t2) (h12 : t2 ≤ 1)
    (huv : k = k2 → uv = uv2)
    (he : (k : F) + t = (k2 : F) + t2) :
    interpolate_z (point_at points k) (point_at points ((k + 1) % points.length)) uv t
      = interpolate_z (point_at points k2) (point_at points ((k2 + 1) % points.length))
          uv2 t2 := by
  rcases Nat.lt_trichotomy k k2 with hlt | heq | hgt
  · have hc : (k : F) + 1 ≤ (k2 : F) := by exact_mod_cast hlt
    have ht : t = 1 := by linarith
    have ht2 : t2 = 0 := by linarith
    have hkk : (k2 : F) = (k : F) + 1 := by linarith
    have hkk2 : k2 = k + 1 := by exact_mod_cast hkk
    rw [ht, ht2, interpolate_z_one, interpolate_z_zero, hkk2,
      Nat.mod_eq_of_lt (by omega)]
  · subst heq
    have : t = t2 := by linarith
    rw [this, huv rfl]
  · have hc : (k2 : F) + 1 ≤ (k : F) := by exact_mod_cast hgt
    have ht : t = 0 := by linarith
    have ht2 : t2 = 1 := by linarith
    have hkk : (k : F) = (k2 : F) + 1 := by linarith
    have hkk2 : k = k2 + 1 := by exact_mod_cast hkk
    rw [ht, ht2, interpolate_z_one, interpolate_z_zero, hkk2,
      Nat.mod_eq_of_lt (by omega)]

end Constant

end Gwy

namespace Gwy

open GwySplineRecurseOutputType

section Endpoints

variable {F : Type} [LinearOrderedField F]

/-! ## The first and the last sample of an open curve -/

/-- The segment of an emitted interval of length zero is constant. -/
theorem zero_step_constant {L : Libm F} (hL : L.Exact) (junk : Nat → ControlPoint F)
    (spline : GwySpline F) (max_dev : F) (k : Nat) (ta tb y : F) (hy : y = 0)
    (hleaf : Leaf L (segment_params junk spline max_dev (1/100) k) ta tb y) (t t2 : F) :
    interpolate_z (point_at spline.points k)
        (point_at spline.points ((k + 1) % spline.points.length))
        (g_array_index spline.control_points k (junk k)) t
      = interpolate_z (point_at spline.points k)
          (point_at spline.points ((k + 1) % spline.points.length))
          (g_array_index spline.control_points k (junk k)) t2 := by
  subst hy
  have h := zero_leaf_constant hL (segment_params junk spline max_dev (1/100) k) rfl ta tb hleaf
  exact (h t).trans (h t2).symm

/-- The sample with target position 0 is the first knot. -/
theorem first_sample_at_first_knot [FloorRing F] {L : Libm F} (hL : L.Exact)
    (junk : Nat → ControlPoint F) (spline : GwySpline F) (max_dev : F)
    (p : List (PointXY F)) (hnat : NaturalSampling L junk spline max_dev (1/100) p)
    (j : Nat) (hj1 : 1 ≤ j) (hj2 : j < p.length)
    (hhi : ¬((point_at p j).y < 0)) (hlo : (point_at p (j - 1)).y ≤ 0)
    (hJ : j = 1 ∨ (point_at p (j - 1)).y < 0) :
    (sample_uniform_eval L junk spline p 0 j).1 = point_at spline.points 0 := by
  obtain ⟨_, hp0, _, _⟩ := natural_sampling_index hnat
  have hmono := natural_length_mono hL hnat (j - 1) 0 (by omega)
  rw [hp0] at hmono
  simp only [Nat.zero_add] at hmono
  have hj : j = 1 := by
    rcases hJ with h | h
    · exact h
    · exact absurd h (not_lt.mpr hmono)
  subst hj
  obtain ⟨k, ta, tb, q, hk, hta, hlt, htb, hx0, _, hleaf, hq0, hq1, hqa, _, _, hz⟩ :=
    uniform_eval_position hL junk spline max_dev (1/100) p hnat 0 1 hj1 hj2 hlo hhi
  simp only [Nat.sub_self, hp0] at hx0 hqa hleaf
  have hk0 : (k : F) = 0 := by
    have : (0 : F) ≤ (k : F) := Nat.cast_nonneg k
    linarith
  have hk00 : k = 0 := by exact_mod_cast hk0
  subst hk00
  rw [hz]
  by_cases hy : (0 : F) = (point_at p 1).y
  · rw [zero_step_constant hL junk spline max_dev 0 ta tb _ (by rw [← hy]; ring) hleaf _ 0,
      interpolate_z_zero]
  · have hq : q = 0 := hqa hy trivial
    have hta0 : ta = 0 := by
      simp only [Nat.cast_zero, zero_add] at hx0
      exact hx0.symm
    rw [hq, hta0]
    simp only [zero_mul, mul_zero, add_zero, interpolate_z_zero]

/-- Every pair of the natural sampling that carries the whole length stands
for the end of the curve. -/
theorem tail_positions {L : Libm F} (hL : L.Exact) (junk : Nat → ControlPoint F)
    (spline : GwySpline F) (max_dev : F) (p : List (PointXY F))
    (hnat : NaturalSampling L junk spline max_dev (1/100) p) :
    ∀ (d j : Nat), j + d = p.length - 1 →
      (point_at p j).y = (point_at p (p.length - 1)).y →
      ∀ (k : Nat) (tb : F), k < segment_count spline.points.length spline.closed →
        0 ≤ tb → tb ≤ 1 → (point_at p j).x = (k : F) + tb →
        interpolate_z (point_at spline.points k)
            (point_at spline.points ((k + 1) % spline.points.length))
            (g_array_index spline.control_points k (junk k)) tb
          = point_at spline.points
              (segment_count spline.points.length spline.closed % spline.points.length) := by
  obtain ⟨hlen, _, hstep, hlastx⟩ := natural_sampling_index hnat
  have hle := segment_count_le spline.points.length spline.closed
  intro d
  induction d with
  | zero =>
    intro j hj _ k tb hk h0 h1 hx
    simp only [Nat.add_zero] at hj
    rw [hj, hlastx] at hx
    have hcast : ((segment_count spline.points.length spline.closed : ℕ) : F)
        = ((segment_count spline.points.length spline.closed - 1 : ℕ) : F) + 1 := by
      rw [Nat.cast_sub (by omega)]
      simp
    have := curve_joint spline.points (g_array_index spline.control_points k (junk k))
      (g_array_index spline.control_points
        (segment_count spline.points.length spline.closed - 1)
        (junk (segment_count spline.points.length spline.closed - 1)))
      k (segment_count spline.points.length spline.closed - 1) tb 1
      (by omega) (by omega) h0 h1 zero_le_one (le_refl 1) (fun h => by rw [h])
      (by rw [← hx, hcast])
    rw [this, interpolate_z_one]
    congr 2
    omega
  | succ d ih =>
    intro j hj hy k tb hk h0 h1 hx
    have hm1 := natural_length_mono hL hnat 1 j (by omega)
    have hm2 := natural_length_mono hL hnat d (j + 1) (by omega)
    have hjd : j + 1 + d = p.length - 1 := by omega
    rw [hjd] at hm2
    have hy1 : (point_at p (j + 1)).y = (point_at p (p.length - 1)).y :=
      le_antisymm hm2 (by rw [← hy]; exact hm1)
    obtain ⟨k2, ta2, tb2, hk2, hta2, htb2, hx0, hx1, hleaf⟩ := hstep (j + 1) (by omega) (by omega)
    simp only [Nat.add_sub_cancel] at hx0 hleaf
    have hlt2 : ta2 < tb2 := hleaf.1
    have hend := ih (j + 1) hjd hy1 k2 tb2 hk2 (by linarith) htb2 hx1
    rw [zero_step_constant hL junk spline max_dev k2 ta2 tb2 _ (by rw [hy1, hy]; ring) hleaf
      tb2 ta2] at hend
    rw [← hend]
    exact curve_joint spline.points _ _ k k2 tb ta2 (by omega) (by omega) h0 h1 hta2
      (by linarith) (fun h => by rw [h]) (by rw [← hx, hx0])

/-- The sample whose target position is the whole length is the end of the
curve. -/
theorem last_sample_at_end [FloorRing F] {L : Libm F} (hL : L.Exact)
    (junk : Nat → ControlPoint F) (spline : GwySpline F) (max_dev : F)
    (p : List (PointXY F)) (hnat : NaturalSampling L junk spline max_dev (1/100) p)
    (j : Nat) (hj1 : 1 ≤ j) (hj2 : j < p.length)
    (hhi : ¬((point_at p j).y < (point_at p (p.length - 1)).y))
    (hlo : (point_at p (j - 1)).y ≤ (point_at p (p.length - 1)).y) :
    (sample_uniform_eval L junk spline p (point_at p (p.length - 1)).y j).1
      = point_at spline.points
          (segment_count spline.points.length spline.closed % spline.points.length) := by
  have hm := natural_length_mono hL hnat (p.length - 1 - j) j (by omega)
  have hjl : j + (p.length - 1 - j) = p.length - 1 := by omega
  rw [hjl] at hm
  have hy : (point_at p j).y = (point_at p (p.length - 1)).y :=
    le_antisymm hm (not_lt.mp hhi)
  obtain ⟨k, ta, tb, q, hk, hta, hlt, htb, _, hx1, hleaf, hq0, hq1, _, hqb, _, hz⟩ :=
    uniform_eval_position hL junk spline max_dev (1/100) p hnat _ j hj1 hj2 hlo hhi
  rw [hz]
  have htail := tail_positions hL junk spline max_dev p hnat (p.length - 1 - j) j hjl hy k tb hk
    (by linarith) htb hx1
  by_cases hyy : (point_at p (j - 1)).y = (point_at p j).y
  · rw [zero_step_constant hL junk spline max_dev k ta tb _ (by rw [hyy]; ring) hleaf _ tb]
    exact htail
  · have hq : q = 1 := hqb hyy hy.symm
    rw [hq]
    simp only [one_mul, sub_self, zero_mul, add_zero]
    exact htail

end Endpoints

end Gwy

namespace Gwy

open GwySplineRecurseOutputType

section OpenEnds

/-! ## Termination on every segment and the ends of an open curve -/

theorem G_MAXDOUBLE_pos {F : Type} [LinearOrderedField F] : (0 : F) < G_MAXDOUBLE := by
  unfold G_MAXDOUBLE
  apply mul_pos
  · have : (2 : F) ≤ 2^53 := by norm_num
    linarith
  · positivity

/-- Finitely many thresholds have a common one. -/
theorem exists_common_threshold (P : Nat → Nat → Prop) :
    ∀ n : Nat, (∀ k, k < n → ∃ N, ∀ fuel, N ≤ fuel → P k fuel) →
      ∃ N, ∀ fuel, N ≤ fuel → ∀ k, k < n → P k fuel := by
  intro n
  induction n with
  | zero =>
    intro _
    exact ⟨0, fun _ _ k hk => absurd hk (Nat.not_lt_zero k)⟩
  | succ n ih =>
    intro h
    obtain ⟨N1, h1⟩ := ih (fun k hk => h k (by omega))
    obtain ⟨N2, h2⟩ := h n (by omega)
    refine ⟨max N1 N2, fun fuel hf k hk => ?_⟩
    by_cases hkn : k = n
    · subst hkn
      exact h2 fuel (le_trans (le_max_right _ _) hf)
    · exact h1 fuel (le_trans (le_max_left _ _) hf) k (by omega)

/-- With enough fuel the recursion of `sample_curve` returns on every segment
of a spline with at least two points and a slackness in `[0, 1]`. -/
theorem segments_terminate {L : Libm ℝ} (hL : L.Exact) (junk : Nat → ControlPoint ℝ)
    (s s2 : GwySpline ℝ) (hpts : 2 ≤ s.points.length)
    (hs0 : 0 ≤ s.slackness) (hs1 : s.slackness ≤ 1)
    (hs2 : s2 = { s with control_points :=
        (calculate_control_points L ((s.points.length : Int) - 1) s.points
          s.slackness s.closed
          (g_array_set_size s.control_points
            (segment_count s.points.length s.closed) junk)) }) :
    ∃ N : Nat, ∀ fuel, N ≤ fuel →
      ∀ k, k < segment_count s2.points.length s2.closed →
        ∀ pts : List (PointXY ℝ), ∃ r, sample_curve_recurse L fuel
          { segment_params junk s2 G_MAXDOUBLE (1/100) k with points := pts }
          (segment_item L (point_at s2.points k)
            (point_at s2.points ((k + 1) % s2.points.length))
            (g_array_index s2.control_points k (junk k)) 0)
          (segment_item L (point_at s2.points k)
            (point_at s2.points ((k + 1) % s2.points.length))
            (g_array_index s2.control_points k (junk k)) 1) = some r := by
  have hp2 : s2.points = s.points := by rw [hs2]
  have hc2 : s2.closed = s.closed := by rw [hs2]
  by_cases hstr : s.slackness = 0 ∨ s.points.length = 2
  · refine ⟨2, fun fuel hfuel k hk pts => ?_⟩
    rw [hp2, hc2] at hk
    have hcp := control_points_straight L junk s.points s.slackness s.closed s.control_points
      hpts hstr ⟨hs0, hs1⟩ k hk
    exact recurse_straight_returns hL _ ⟨0, 0, 0, 0⟩
      (by simp only [segment_params]; rw [hp2, hs2]; exact hcp) G_MAXDOUBLE_nonneg
      (by simp only [segment_params]; norm_num) rfl fuel hfuel 0 1
  · have hpos : 0 < s.slackness :=
      lt_of_le_of_ne hs0 (fun h => hstr (Or.inl h.symm))
    have hlen : 3 ≤ s.points.length := by
      rcases Nat.lt_or_ge s.points.length 3 with h | h
      · exact absurd (Or.inr (by omega)) hstr
      · exact h
    apply exists_common_threshold (fun k fuel => ∀ pts : List (PointXY ℝ),
      ∃ r, sample_curve_recurse L fuel
        { segment_params junk s2 G_MAXDOUBLE (1/100) k with points := pts }
        (segment_item L (point_at s2.points k)
          (point_at s2.points ((k + 1) % s2.points.length))
          (g_array_index s2.control_points k (junk k)) 0)
        (segment_item L (point_at s2.points k)
          (point_at s2.points ((k + 1) % s2.points.length))
          (g_array_index s2.control_points k (junk k)) 1) = some r)
    intro k hk
    rw [hp2, hc2] at hk
    have hshape := control_points_shape hL junk s.points s.slackness s.closed s.control_points
      hlen hpos hs1 k hk
    obtain ⟨N, hN⟩ := recurse_terminates hL s.slackness
      (segment_params junk s2 G_MAXDOUBLE (1/100) k) hpos hs1
      (by simp only [segment_params]; rw [hp2, hs2]; exact hshape)
      G_MAXDOUBLE_pos rfl
    exact ⟨N, fun fuel hf pts => hN fuel hf
      { segment_params junk s2 G_MAXDOUBLE (1/100) k with points := pts }
      rfl rfl rfl rfl rfl rfl rfl⟩

theorem head_eq_point_at {F : Type} [LinearOrderedField F] (a : List (PointXY F))
    (h : 1 ≤ a.length) : a.head? = some (point_at a 0) := by
  cases a with
  | nil => simp at h
  | cons x l => rfl

theorem getLast_eq_point_at {F : Type} [LinearOrderedField F] (a : List (PointXY F))
    (h : 1 ≤ a.length) : a.getLast? = some (point_at a (a.length - 1)) := by
  rw [List.getLast?_eq_getElem?]
  simp only [point_at, g_array_index, List.getD_eq_getElem?_getD]
  rw [List.getElem?_eq_getElem (by omega)]
  rfl

/-- In exact arithmetic (that of the real numbers), and with a number in the
cell past the end of `control_points` that the last sample reads: on an open
curve with at least one knot and a slackness in `[0, 1]`, uniform sampling of
`m >= 2` points returns (given enough fuel for the recursion of the natural
sampling) and writes the first knot to `coords[0]` and the last knot to
`coords[m - 1]`.  In doubles the last target can be rounded above the length,
and then the loop aborts before the last sample is stored. -/
theorem open_curve_endpoints {L : Libm ℝ} (hL : L.Exact) (junk : Nat → ControlPoint ℝ)
    (s : GwySpline ℝ) (m : Nat) (coords velocities : Option (List (PointXY ℝ)))
    (hpts : 1 ≤ s.points.length) (hopen : s.closed = false)
    (hs0 : 0 ≤ s.slackness) (hs1 : s.slackness ≤ 1) (hm : 2 ≤ m) :
    ∃ N : Nat, ∀ fuel, N ≤ fuel →
      ∃ (s2 : GwySpline ℝ) (f g : List (PointXY ℝ) → List (PointXY ℝ)),
        sample_curve_uniformly L fuel junk s m coords velocities
            = some (s2, coords.map f, velocities.map g)
          ∧ (∀ b : List (PointXY ℝ), (f b).length = b.length ∧ (g b).length = b.length)
          ∧ (∀ b : List (PointXY ℝ), m ≤ b.length →
              (f b)[0]? = s.points.head? ∧ (f b)[m - 1]? = s.points.getLast?) := by
  rw [head_eq_point_at s.points hpts, getLast_eq_point_at s.points hpts]
  by_cases h1 : s.points.length = 1
  · -- a single point
    refine ⟨0, fun fuel _ => ?_⟩
    obtain ⟨f, g, hfg, hlen, hin, _⟩ := sample_single_point_spec (point_at s.points 0)
      (⟨0, 0⟩ : PointXY ℝ) m 0 coords velocities
    refine ⟨s, f, g, ?_, hlen, fun b hb => ?_⟩
    · unfold sample_curve_uniformly
      have hm0 : m ≠ 0 := by omega
      have hp0 : s.points.length ≠ 0 := by omega
      have h10 : ¬((1 : Nat) = 0) := by decide
      simp only [hm0, hp0, h1, h10, if_false, if_true]
      rw [hfg]
    · rw [h1]
      exact ⟨(hin b 0 (le_refl 0) (by omega) (by omega)).1,
        (hin b (m - 1) (Nat.zero_le _) (by omega) (by omega)).1⟩
  · have hpts2 : 2 ≤ s.points.length := by omega
    obtain ⟨s2, hs2⟩ : ∃ s2 : GwySpline ℝ, s2 = { s with control_points :=
        (calculate_control_points L ((s.points.length : Int) - 1) s.points
          s.slackness s.closed
          (g_array_set_size s.control_points
            (segment_count s.points.length s.closed) junk)) } := ⟨_, rfl⟩
    have hp2 : s2.points = s.points := by rw [hs2]
    have hc2 : s2.closed = false := by rw [hs2]; exact hopen
    obtain ⟨N, hN⟩ := segments_terminate hL junk s s2 hpts2 hs0 hs1 hs2
    refine ⟨N, fun fuel hfuel => ?_⟩
    obtain ⟨p, f, g, J, hnat, hres, hlens, hin, _⟩ := uniformly_spec hL junk s s2 m fuel
      coords velocities hpts2 (by omega) hs2 (hN fuel hfuel)
    refine ⟨_, f, g, hres, hlens, fun b hb => ?_⟩
    obtain ⟨hlen, hp0, _, _⟩ := natural_sampling_index hnat
    have hLnn : 0 ≤ (point_at p (p.length - 1)).y := by
      have := natural_length_mono hL hnat (p.length - 1) 0 (by omega)
      rw [hp0] at this
      simpa using this
    obtain ⟨hfirst, hlast⟩ := (sample_position_facts (point_at p (p.length - 1)).y m 0 hLnn
      (by omega)).2.2.2.2.1 hm
    rw [← hc2] at hfirst hlast
    constructor
    · obtain ⟨⟨hJ1, hJ2, hhi, hlo, hJ⟩, hval⟩ := hin 0 (by omega)
      rw [(hval b (by omega)).1]
      rw [hfirst] at hhi hlo hJ ⊢
      have := first_sample_at_first_knot hL junk
        { s2 with length := (point_at p (p.length - 1)).y } G_MAXDOUBLE p hnat (J 0) hJ1 hJ2
        hhi hlo (by
          rcases hJ with h | h | h
          · exact Or.inl h
          · exact Or.inr h
          · exact absurd h.1 (by omega))
      rw [this]
      simp only [hp2]
    · obtain ⟨⟨hJ1, hJ2, hhi, hlo, _⟩, hval⟩ := hin (m - 1) (by omega)
      rw [(hval b (by omega)).1]
      rw [hlast] at hhi hlo ⊢
      have := last_sample_at_end hL junk
        { s2 with length := (point_at p (p.length - 1)).y } G_MAXDOUBLE p hnat (J (m - 1))
        hJ1 hJ2 hhi hlo
      rw [this]
      simp only [hp2, hc2, segment_count, Bool.false_eq_true, if_false]
      rw [Nat.mod_eq_of_lt (by omega)]

/-- An instance: an open curve through three knots with slackness 1/2
sampled at three points. -/
theorem open_curve_endpoints_witness :
    ∃ N : Nat, ∀ fuel, N ≤ fuel →
      ∃ (s2 : GwySpline ℝ) (f g : List (PointXY ℝ) → List (PointXY ℝ)),
        sample_curve_uniformly (⟨fun x y => Real.sqrt (x*x + y*y), Real.sqrt⟩ : Libm ℝ) fuel
            (fun _ => ⟨7, 7, 7, 7⟩)
            { points := [⟨0, 0⟩, ⟨1, 0⟩, ⟨1, 1⟩], slackness := 1/2, closed := false,
              natural_sampling_valid := false, control_points := [], natural_points := [],
              length := 0, fixed_sampling_valid := false, nfixed := 0, fixed_samples := [] }
            3 (some (List.replicate 3 ⟨0, 0⟩)) none
            = some (s2, (some (List.replicate 3 ⟨0, 0⟩)).map f, (none : Option _).map g)
          ∧ (∀ b : List (PointXY ℝ), (f b).length = b.length ∧ (g b).length = b.length)
          ∧ (∀ b : List (PointXY ℝ), 3 ≤ b.length →
              (f b)[0]? = some ⟨0, 0⟩ ∧ (f b)[3 - 1]? = some ⟨1, 1⟩) :=
  open_curve_endpoints real_libm_exact (fun _ => ⟨7, 7, 7, 7⟩)
    { points := [⟨0, 0⟩, ⟨1, 0⟩, ⟨1, 1⟩], slackness := 1/2, closed := false,
      natural_sampling_valid := false, control_points := [], natural_points := [],
      length := 0, fixed_sampling_valid := false, nfixed := 0, fixed_samples := [] }
    3 (some (List.replicate 3 ⟨0, 0⟩)) none (by simp) rfl (by norm_num) (by norm_num)
    (by norm_num)

end OpenEnds

end Gwy

namespace Gwy

open GwySplineRecurseOutputType

section Basic

variable {F : Type} [LinearOrderedField F]

/-! ## Knots, straight control points and the blend ratio -/

/-- C12: the curve passes through the knots of every segment: whatever the
control points `uv` (hence whatever the slackness and the closed flag they
were computed from), `interpolate_z` gives `pt0` at `t = 0` and `pt1` at
`t = 1`. -/
theorem curve_through_knots (pt0 pt1 : PointXY F) (uv : ControlPoint F) :
    interpolate_z pt0 pt1 uv 0 = pt0 ∧ interpolate_z pt0 pt1 uv 1 = pt1 := by
  constructor
  · exact interpolate_z_zero pt0 pt1 uv
  · exact interpolate_z_one pt0 pt1 uv

/-- C18: the control points `interpolate_straight_line` stores are
`u = (2*p0 + p1)/3` and `v = (p0 + 2*p1)/3`, and with them `interpolate_z` is
`(1 - t)*p0 + t*p1` and `interpolate_v` the constant `p1 - p0`, at every
`t`. -/
theorem straight_line_reproduced (p0 p1 : PointXY F) (c : ControlPoint F) (t : F) :
    interpolate_straight_line p0 p1 c
        = ⟨(2*p0.x + p1.x)/3, (2*p0.y + p1.y)/3, (p0.x + 2*p1.x)/3, (p0.y + 2*p1.y)/3⟩
      ∧ interpolate_z p0 p1 ⟨(2*p0.x + p1.x)/3, (2*p0.y + p1.y)/3, (p0.x + 2*p1.x)/3,
          (p0.y + 2*p1.y)/3⟩ t
        = ⟨(1 - t)*p0.x + t*p1.x, (1 - t)*p0.y + t*p1.y⟩
      ∧ interpolate_v p0 p1 ⟨(2*p0.x + p1.x)/3, (2*p0.y + p1.y)/3, (p0.x + 2*p1.x)/3,
          (p0.y + 2*p1.y)/3⟩ t
        = ⟨p1.x - p0.x, p1.y - p0.y⟩ := by
  refine ⟨rfl, ?_, ?_⟩
  · exact interpolate_z_straight p0 p1 c t
  · exact interpolate_v_straight p0 p1 c t

/-- C17: with `n = 1` or `slackness = 0` (and a slackness in `[0, 1]`)
`calculate_control_points` stores `u = (2*p0 + p1)/3`, `v = (p0 + 2*p1)/3` for
every segment: `n` pairs on an open curve, `n + 1` on a closed one, the last
from the last knot back to the first; the other cells of `uv` are kept. -/
theorem straight_path_control_points (L : Libm F) (n : Nat) (xy : List (PointXY F))
    (slackness : F) (closed : Bool) (uv : List (ControlPoint F))
    (hn : 1 ≤ n) (hxy : xy.length = n + 1)
    (hs : 0 ≤ slackness ∧ slackness ≤ 1) (hcond : n = 1 ∨ slackness = 0)
    (hlen : (if closed then n + 1 else n) ≤ uv.length) :
    (calculate_control_points L (n : Int) xy slackness closed uv).length = uv.length
      ∧ (∀ k, k < (if closed then n + 1 else n) →
          (calculate_control_points L (n : Int) xy slackness closed uv)[k]?
            = some ⟨(2*(point_at xy k).x + (point_at xy ((k + 1) % xy.length)).x)/3,
                (2*(point_at xy k).y + (point_at xy ((k + 1) % xy.length)).y)/3,
                ((point_at xy k).x + 2*(point_at xy ((k + 1) % xy.length)).x)/3,
                ((point_at xy k).y + 2*(point_at xy ((k + 1) % xy.length)).y)/3⟩)
      ∧ (∀ k, (if closed then n + 1 else n) ≤ k →
          (calculate_control_points L (n : Int) xy slackness closed uv)[k]? = uv[k]?) := by
  have hge : ((n : Int) ≥ 1) := by exact_mod_cast hn
  unfold calculate_control_points
  simp only [hge, not_true_eq_false, if_false, hs.1, hs.2, ge_iff_le, and_self,
    Int.toNat_ofNat, hcond, if_true]
  obtain ⟨hl, hget⟩ := control_points_straight_loop n xy (if closed then n + 1 else n) 0 uv
    (by cases closed <;> simp)
  refine ⟨hl, fun k hk => ?_, fun k hk => ?_⟩
  · rw [hget k (by omega), if_pos (by omega), hxy]
    rfl
  · by_cases hku : k < uv.length
    · rw [hget k hku, if_neg (by omega)]
    · rw [List.getElem?_eq_none (by omega), List.getElem?_eq_none (by omega)]

/-- Witness of C17: the closed two-point curve with slackness 1. -/
theorem straight_path_control_points_witness :
    (calculate_control_points (⟨fun x y => |x| + |y|, fun x => x⟩ : Libm ℚ) ((1 : ℕ) : Int)
        [⟨0, 0⟩, ⟨3, 6⟩] 1 true [⟨7, 7, 7, 7⟩, ⟨7, 7, 7, 7⟩, ⟨7, 7, 7, 7⟩]).length
        = [(⟨7, 7, 7, 7⟩ : ControlPoint ℚ), ⟨7, 7, 7, 7⟩, ⟨7, 7, 7, 7⟩].length
      ∧ (∀ k, k < (if true = true then 1 + 1 else 1) →
          (calculate_control_points (⟨fun x y => |x| + |y|, fun x => x⟩ : Libm ℚ)
              ((1 : ℕ) : Int) [⟨0, 0⟩, ⟨3, 6⟩] 1 true
              [⟨7, 7, 7, 7⟩, ⟨7, 7, 7, 7⟩, ⟨7, 7, 7, 7⟩])[k]?
            = some ⟨(2*(point_at [(⟨0, 0⟩ : PointXY ℚ), ⟨3, 6⟩] k).x
                  + (point_at [(⟨0, 0⟩ : PointXY ℚ), ⟨3, 6⟩]
                      ((k + 1) % [(⟨0, 0⟩ : PointXY ℚ), ⟨3, 6⟩].length)).x)/3,
                (2*(point_at [(⟨0, 0⟩ : PointXY ℚ), ⟨3, 6⟩] k).y
                  + (point_at [(⟨0, 0⟩ : PointXY ℚ), ⟨3, 6⟩]
                      ((k + 1) % [(⟨0, 0⟩ : PointXY ℚ), ⟨3, 6⟩].length)).y)/3,
                ((point_at [(⟨0, 0⟩ : PointXY ℚ), ⟨3, 6⟩] k).x
                  + 2*(point_at [(⟨0, 0⟩ : PointXY ℚ), ⟨3, 6⟩]
                      ((k + 1) % [(⟨0, 0⟩ : PointXY ℚ), ⟨3, 6⟩].length)).x)/3,
                ((point_at [(⟨0, 0⟩ : PointXY ℚ), ⟨3, 6⟩] k).y
                  + 2*(point_at [(⟨0, 0⟩ : PointXY ℚ), ⟨3, 6⟩]
                      ((k + 1) % [(⟨0, 0⟩ : PointXY ℚ), ⟨3, 6⟩].length)).y)/3⟩)
      ∧ (∀ k, (if true = true then 1 + 1 else 1) ≤ k →
          (calculate_control_points (⟨fun x y => |x| + |y|, fun x => x⟩ : Libm ℚ)
              ((1 : ℕ) : Int) [⟨0, 0⟩, ⟨3, 6⟩] 1 true
              [⟨7, 7, 7, 7⟩, ⟨7, 7, 7, 7⟩, ⟨7, 7, 7, 7⟩])[k]?
            = [(⟨7, 7, 7, 7⟩ : ControlPoint ℚ), ⟨7, 7, 7, 7⟩, ⟨7, 7, 7, 7⟩][k]?) :=
  straight_path_control_points _ 1 [⟨0, 0⟩, ⟨3, 6⟩] 1 true
    [⟨7, 7, 7, 7⟩, ⟨7, 7, 7, 7⟩, ⟨7, 7, 7, 7⟩] (le_refl 1) rfl
    ⟨by norm_num, by norm_num⟩ (Or.inl rfl) (by decide)

/-- C20: the blend ratio the general path of `calculate_control_points` uses
at a knot (one iteration of its loop applies `knot_cv_prev` and
`knot_cu_next`, which hold this `q`): it is `1/2` when the two chord lengths
add up to zero and `lenn/(lenp + lenn)` otherwise, so the division is made
with a nonzero denominator only, and it lies in `[0, 1]`. -/
theorem blend_ratio_safe {L : Libm F} (hL : L.Exact) (n : Nat) (xy : List (PointXY F))
    (slackness : F) (rem i cur prev : Nat) (uv : List (ControlPoint F))
    (p c x : PointXY F) :
    calculate_control_points_inner L n xy slackness (rem + 1) i cur
        { x := ((point_at xy prev).x + (point_at xy cur).x)/2
          y := ((point_at xy prev).y + (point_at xy cur).y)/2 }
        (L.hypot ((point_at xy prev).x - (point_at xy cur).x)
          ((point_at xy prev).y - (point_at xy cur).y)) uv
      = calculate_control_points_inner L n xy slackness rem (i + 1)
          (if i = n then 0 else cur + 1)
          { x := ((point_at xy cur).x + (point_at xy (if i = n then 0 else cur + 1)).x)/2
            y := ((point_at xy cur).y + (point_at xy (if i = n then 0 else cur + 1)).y)/2 }
          (L.hypot ((point_at xy cur).x - (point_at xy (if i = n then 0 else cur + 1)).x)
            ((point_at xy cur).y - (point_at xy (if i = n then 0 else cur + 1)).y))
          ((uv.modify (knot_cv_prev L slackness (point_at xy prev) (point_at xy cur)
              (point_at xy (if i = n then 0 else cur + 1))) (i - 1)).modify
            (knot_cu_next L slackness (point_at xy prev) (point_at xy cur)
              (point_at xy (if i = n then 0 else cur + 1))) (if i = n + 1 then 0 else i))
      ∧ (L.hypot (p.x - c.x) (p.y - c.y) + L.hypot (c.x - x.x) (c.y - x.y) = 0 →
          knot_ratio L p c x = 1/2)
      ∧ (L.hypot (p.x - c.x) (p.y - c.y) + L.hypot (c.x - x.x) (c.y - x.y) ≠ 0 →
          knot_ratio L p c x
            = L.hypot (c.x - x.x) (c.y - x.y)
                /(L.hypot (p.x - c.x) (p.y - c.y) + L.hypot (c.x - x.x) (c.y - x.y)))
      ∧ 0 ≤ knot_ratio L p c x ∧ knot_ratio L p c x ≤ 1 := by
  refine ⟨control_points_inner_step L n xy slackness rem i cur prev uv, ?_, ?_,
    knot_ratio_bounds hL p c x⟩
  · intro h
    simp only [knot_ratio, h, if_true]
  · intro h
    simp only [knot_ratio, h, if_false]

/-- Witness of C20: the knot `(1, 0)` between `(0, 0)` and `(3, 0)`, with the
exact `hypot` of the real numbers. -/
theorem blend_ratio_safe_witness :
    ((⟨fun x y => Real.sqrt (x*x + y*y), Real.sqrt⟩ : Libm ℝ).hypot
          ((⟨0, 0⟩ : PointXY ℝ).x - (⟨1, 0⟩ : PointXY ℝ).x)
          ((⟨0, 0⟩ : PointXY ℝ).y - (⟨1, 0⟩ : PointXY ℝ).y)
        + (⟨fun x y => Real.sqrt (x*x + y*y), Real.sqrt⟩ : Libm ℝ).hypot
          ((⟨1, 0⟩ : PointXY ℝ).x - (⟨3, 0⟩ : PointXY ℝ).x)
          ((⟨1, 0⟩ : PointXY ℝ).y - (⟨3, 0⟩ : PointXY ℝ).y) = 0 →
        knot_ratio (⟨fun x y => Real.sqrt (x*x + y*y), Real.sqrt⟩ : Libm ℝ)
          ⟨0, 0⟩ ⟨1, 0⟩ ⟨3, 0⟩ = 1/2)
      ∧ ((⟨fun x y => Real.sqrt (x*x + y*y), Real.sqrt⟩ : Libm ℝ).hypot
          ((⟨0, 0⟩ : PointXY ℝ).x - (⟨1, 0⟩ : PointXY ℝ).x)
          ((⟨0, 0⟩ : PointXY ℝ).y - (⟨1, 0⟩ : PointXY ℝ).y)
        + (⟨fun x y => Real.sqrt (x*x + y*y), Real.sqrt⟩ : Libm ℝ).hypot
          ((⟨1, 0⟩ : PointXY ℝ).x - (⟨3, 0⟩ : PointXY ℝ).x)
          ((⟨1, 0⟩ : PointXY ℝ).y - (⟨3, 0⟩ : PointXY ℝ).y) ≠ 0 →
        knot_ratio (⟨fun x y => Real.sqrt (x*x + y*y), Real.sqrt⟩ : Libm ℝ)
            ⟨0, 0⟩ ⟨1, 0⟩ ⟨3, 0⟩
          = (⟨fun x y => Real.sqrt (x*x + y*y), Real.sqrt⟩ : Libm ℝ).hypot
              ((⟨1, 0⟩ : PointXY ℝ).x - (⟨3, 0⟩ : PointXY ℝ).x)
              ((⟨1, 0⟩ : PointXY ℝ).y - (⟨3, 0⟩ : PointXY ℝ).y)
            /((⟨fun x y => Real.sqrt (x*x + y*y), Real.sqrt⟩ : Libm ℝ).hypot
                ((⟨0, 0⟩ : PointXY ℝ).x - (⟨1, 0⟩ : PointXY ℝ).x)
                ((⟨0, 0⟩ : PointXY ℝ).y - (⟨1, 0⟩ : PointXY ℝ).y)
              + (⟨fun x y => Real.sqrt (x*x + y*y), Real.sqrt⟩ : Libm ℝ).hypot
                ((⟨1, 0⟩ : PointXY ℝ).x - (⟨3, 0⟩ : PointXY ℝ).x)
                ((⟨1, 0⟩ : PointXY ℝ).y - (⟨3, 0⟩ : PointXY ℝ).y)))
      ∧ 0 ≤ knot_ratio (⟨fun x y => Real.sqrt (x*x + y*y), Real.sqrt⟩ : Libm ℝ)
          ⟨0, 0⟩ ⟨1, 0⟩ ⟨3, 0⟩
      ∧ knot_ratio (⟨fun x y => Real.sqrt (x*x + y*y), Real.sqrt⟩ : Libm ℝ)
          ⟨0, 0⟩ ⟨1, 0⟩ ⟨3, 0⟩ ≤ 1 :=
  (blend_ratio_safe real_libm_exact 2 [⟨0, 0⟩, ⟨1, 0⟩, ⟨3, 0⟩] 1 0 1 1 0 []
    ⟨0, 0⟩ ⟨1, 0⟩ ⟨3, 0⟩).2

/-- C14 on the code: on a two-point spline with an invalid natural sampling
`gwy_spline_length` returns 0 (the distance of the points is 5) and the
natural sampling stays invalid. -/
theorem gwy_spline_length_stub :
    gwy_spline_length (gwy_spline_from_points [(⟨0, 0⟩ : PointXY ℚ), ⟨3, 4⟩] 2) = 0
      ∧ (gwy_spline_from_points [(⟨0, 0⟩ : PointXY ℚ), ⟨3, 4⟩] 2).natural_sampling_valid
          = false
      ∧ (gwy_spline_from_points [(⟨0, 0⟩ : PointXY ℚ), ⟨3, 4⟩] 2).points
          = [⟨0, 0⟩, ⟨3, 4⟩] := by
  refine ⟨?_, ?_, ?_⟩
  · simp [gwy_spline_length, gwy_spline_from_points, gwy_spline_set_points,
      gwy_spline_invalidate, gwy_spline_new]
  · simp [gwy_spline_from_points, gwy_spline_set_points, gwy_spline_invalidate,
      gwy_spline_new]
  · simp [gwy_spline_from_points, gwy_spline_set_points, gwy_spline_invalidate,
      gwy_spline_new]

/-- C15 on the code: on a two-point spline with an invalid fixed sampling
`gwy_spline_sample` with `n = 2` leaves the buffer `xy` as it was and returns
0, and the fixed sampling of the spline stays invalid. -/
theorem gwy_spline_sample_stub :
    gwy_spline_sample (gwy_spline_from_points [(⟨0, 0⟩ : PointXY ℚ), ⟨3, 4⟩] 2)
        [⟨9, 9⟩, ⟨9, 9⟩] 2 = ([⟨9, 9⟩, ⟨9, 9⟩], 0)
      ∧ (gwy_spline_from_points [(⟨0, 0⟩ : PointXY ℚ), ⟨3, 4⟩] 2).fixed_sampling_valid
          = false := by
  refine ⟨?_, ?_⟩
  · simp [gwy_spline_sample, gwy_spline_from_points, gwy_spline_set_points,
      gwy_spline_invalidate, gwy_spline_new]
  · simp [gwy_spline_from_points, gwy_spline_set_points, gwy_spline_invalidate,
      gwy_spline_new]

end Basic

end Gwy

namespace Gwy

open GwySplineRecurseOutputType

section General

variable {F : Type} [LinearOrderedField F]

/-! ## The control points of the general path -/

/-- With at least three points and a positive slackness: what
`calculate_control_points`, as called by `sample_curve`, stores for segment
`k`.  The `v` comes from the knot at the end of the segment and the `u` from
the knot at its start; on an open curve the first `u` and the last `v` are the
weighted means of the end knot and the other control point. -/
theorem control_points_general (L : Libm F) (junk : Nat → ControlPoint F)
    (xy : List (PointXY F)) (slackness : F) (closed : Bool) (old : List (ControlPoint F))
    (hn : 3 ≤ xy.length) (hs0 : 0 < slackness) (hs1 : slackness ≤ 1) (k : Nat)
    (hk : k < segment_count xy.length closed) (cell : ControlPoint F)
    (hcell : cell = g_array_index (calculate_control_points L ((xy.length : Int) - 1) xy
      slackness closed (g_array_set_size old (segment_count xy.length closed) junk))
      k (junk k)) :
    ((closed = true ∨ k + 2 < xy.length) →
        cell.vx = (knot_cv_prev L slackness (point_at xy k)
            (point_at xy ((k + 1) % xy.length)) (point_at xy ((k + 2) % xy.length))
            ⟨0, 0, 0, 0⟩).vx
          ∧ cell.vy = (knot_cv_prev L slackness (point_at xy k)
            (point_at xy ((k + 1) % xy.length)) (point_at xy ((k + 2) % xy.length))
            ⟨0, 0, 0, 0⟩).vy)
      ∧ ((closed = true ∨ 1 ≤ k) →
        cell.ux = (knot_cu_next L slackness
            (point_at xy ((k + (xy.length - 1)) % xy.length)) (point_at xy k)
            (point_at xy ((k + 1) % xy.length)) ⟨0, 0, 0, 0⟩).ux
          ∧ cell.uy = (knot_cu_next L slackness
            (point_at xy ((k + (xy.length - 1)) % xy.length)) (point_at xy k)
            (point_at xy ((k + 1) % xy.length)) ⟨0, 0, 0, 0⟩).uy)
      ∧ (closed = false → k = 0 → SegmentFirstU slackness (point_at xy 0) cell)
      ∧ (closed = false → k + 2 = xy.length →
          SegmentLastV slackness (point_at xy (k + 1)) cell) := by
  subst hcell
  obtain ⟨n, hn2⟩ : ∃ n, xy.length = n + 1 := ⟨xy.length - 1, by omega⟩
  have hn1 : 2 ≤ n := by omega
  have hint : ((xy.length : Int) - 1) = (n : Int) := by rw [hn2]; push_cast; ring
  have hcond : ¬(n = 1 ∨ slackness = 0) := by
    rintro (h | h)
    · omega
    · exact absurd h (ne_of_gt hs0)
  have hge : ((n : Int) ≥ 1) := by
    have : 1 ≤ n := by omega
    exact_mod_cast this
  have hcount : segment_count xy.length closed = if closed then n + 1 else n := by
    unfold segment_count
    rw [hn2]
    cases closed <;> simp
  rw [hcount] at hk ⊢
  have hlen0 := g_array_set_size_length old (if closed then n + 1 else n) junk
  generalize g_array_set_size old (if closed then n + 1 else n) junk = uv0 at hlen0
  have hloop := control_points_inner_loop L n (by omega) xy slackness
    ((if closed then n + 2 else n) - 1) 1 uv0 (le_refl _) (by cases closed <;> simp <;> omega)
  have m0 : (1 - 1) % (n + 1) = 0 := by simp
  have m1 : 1 % (n + 1) = 1 := Nat.mod_eq_of_lt (by omega)
  rw [m0, m1] at hloop
  unfold calculate_control_points
  rw [hint]
  simp only [hge, not_true_eq_false, if_false, hs0.le, hs1, ge_iff_le, and_self,
    Int.toNat_ofNat, hcond, hn2, Nat.add_sub_cancel]
  generalize calculate_control_points_inner L n xy slackness
    ((if closed then n + 2 else n) - 1) 1 1
    { x := ((point_at xy 0).x + (point_at xy 1).x)/2
      y := ((point_at xy 0).y + (point_at xy 1).y)/2 }
    (L.hypot ((point_at xy 0).x - (point_at xy 1).x)
      ((point_at xy 0).y - (point_at xy 1).y)) uv0 = R at hloop ⊢
  obtain ⟨hlenR, hget⟩ := hloop
  have hklen : k < uv0.length := by rw [hlen0]; exact hk
  obtain ⟨b, hb⟩ : ∃ b, uv0[k]? = some b := ⟨uv0[k], List.getElem?_eq_getElem hklen⟩
  have hRk := hget k hklen
  rw [hb, Option.map_some'] at hRk
  cases closed with
  | true =>
    simp only [if_true] at hRk hk ⊢
    have hV : 1 ≤ k + 1 ∧ k + 1 < 1 + (n + 2 - 1) := by omega
    have hU : (1 ≤ k ∧ k < 1 + (n + 2 - 1) ∧ k ≤ n)
        ∨ (k = 0 ∧ 1 ≤ n + 1 ∧ n + 1 < 1 + (n + 2 - 1)) := by omega
    rw [if_pos hV, if_pos hU] at hRk
    simp only [g_array_index, List.getD_eq_getElem?_getD, hRk, Option.getD_some]
    exact ⟨fun _ => ⟨rfl, rfl⟩, fun _ => ⟨rfl, rfl⟩, fun h => absurd h (by decide),
      fun h => absurd h (by decide)⟩
  | false =>
    simp only [Bool.false_eq_true, if_false] at hRk hk ⊢
    simp only [g_array_index, List.getD_eq_getElem?_getD, List.getElem?_modify, hRk,
      Option.map_some', Functor.map, Option.getD_some]
    by_cases hk0 : k = 0
    · -- the first segment
      subst hk0
      have hV : 1 ≤ 0 + 1 ∧ 0 + 1 < 1 + (n - 1) := by omega
      have hne : ¬(n - 1 = 0) := by omega
      have hU : ¬((1 ≤ 0 ∧ 0 < 1 + (n - 1) ∧ 0 ≤ n)
          ∨ (0 = 0 ∧ 1 ≤ n + 1 ∧ n + 1 < 1 + (n - 1))) := by omega
      rw [if_pos hV, if_neg hU] at hRk ⊢
      simp only [hne, if_false, if_true, id, hRk, Option.getD_some]
      refine ⟨fun _ => ⟨rfl, rfl⟩, fun h => ?_, fun _ _ => ?_, fun _ h => ?_⟩
      · rcases h with h | h
        · exact absurd h (by decide)
        · omega
      · constructor
        · show 2*(((2 - slackness)*(point_at xy 0).x + slackness*_)/2 - (point_at xy 0).x)
            = slackness*(_ - (point_at xy 0).x)
          ring
        · show 2*(((2 - slackness)*(point_at xy 0).y + slackness*_)/2 - (point_at xy 0).y)
            = slackness*(_ - (point_at xy 0).y)
          ring
      · omega
    · have hU : (1 ≤ k ∧ k < 1 + (n - 1) ∧ k ≤ n)
          ∨ (k = 0 ∧ 1 ≤ n + 1 ∧ n + 1 < 1 + (n - 1)) := by omega
      have hne : ¬(0 = k) := by omega
      rw [if_pos hU] at hRk ⊢
      simp only [hne, if_false]
      by_cases hkn : n - 1 = k
      · -- the last segment
        have hkn2 : k + 1 = n := by omega
        have hV : ¬(1 ≤ k + 1 ∧ k + 1 < 1 + (n - 1)) := by omega
        have hV2 : ¬(1 ≤ k + 1 ∧ k + 1 < 1 + k) := by omega
        rw [if_neg hV] at hRk
        simp only [hkn, if_true, if_neg hV, if_neg hV2, id, hRk, Option.map_some',
          Option.getD_some, hne, if_false]
        refine ⟨fun h => ?_, fun _ => ⟨rfl, rfl⟩, fun _ h => absurd h hk0, fun _ _ => ?_⟩
        · rcases h with h | h
          · exact absurd h (by decide)
          · omega
        · rw [hkn2]
          constructor
          · show 2*((point_at xy n).x - ((2 - slackness)*(point_at xy n).x + slackness*_)/2)
              = slackness*((point_at xy n).x - _)
            ring
          · show 2*((point_at xy n).y - ((2 - slackness)*(point_at xy n).y + slackness*_)/2)
              = slackness*((point_at xy n).y - _)
            ring
      · have hV : 1 ≤ k + 1 ∧ k + 1 < 1 + (n - 1) := by omega
        simp only [hkn, if_false, if_pos hV]
        exact ⟨fun _ => ⟨rfl, rfl⟩, fun _ => ⟨rfl, rfl⟩, fun _ h => absurd h hk0,
          fun _ h => absurd h (by omega)⟩

/-- C13: on an open curve with at least two points and a slackness in
`[0, 1]`, with the control points `calculate_control_points` stores (`c0` for
the first segment, `cl` for the last): at the first knot the velocity is
`3*(u0 - p0)` and the second derivative `6*(p0 - 2*u0 + v0)`, at the last knot
they are `3*(p_last - v_last)` and `6*(u_last - 2*v_last + p_last)`, and at
both knots their cross product is zero. -/
theorem open_ends_zero_curvature (L : Libm F) (junk : Nat → ControlPoint F)
    (xy : List (PointXY F)) (slackness : F) (old : List (ControlPoint F))
    (c0 cl : ControlPoint F)
    (hn : 2 ≤ xy.length) (hs0 : 0 ≤ slackness) (hs1 : slackness ≤ 1)
    (hc0 : c0 = g_array_index (calculate_control_points L ((xy.length : Int) - 1) xy
      slackness false (g_array_set_size old (segment_count xy.length false) junk))
      0 (junk 0))
    (hcl : cl = g_array_index (calculate_control_points L ((xy.length : Int) - 1) xy
      slackness false (g_array_set_size old (segment_count xy.length false) junk))
      (xy.length - 2) (junk (xy.length - 2))) :
    interpolate_v (point_at xy 0) (point_at xy 1) c0 0
        = ⟨3*(c0.ux - (point_at xy 0).x), 3*(c0.uy - (point_at xy 0).y)⟩
      ∧ interpolate_a (point_at xy 0) (point_at xy 1) c0 0
        = ⟨6*((point_at xy 0).x - 2*c0.ux + c0.vx), 6*((point_at xy 0).y - 2*c0.uy + c0.vy)⟩
      ∧ 6*((point_at xy 0).x - 2*c0.ux + c0.vx)*(3*(c0.uy - (point_at xy 0).y))
          - 6*((point_at xy 0).y - 2*c0.uy + c0.vy)*(3*(c0.ux - (point_at xy 0).x)) = 0
      ∧ interpolate_v (point_at xy (xy.length - 2)) (point_at xy (xy.length - 1)) cl 1
        = ⟨3*((point_at xy (xy.length - 1)).x - cl.vx),
            3*((point_at xy (xy.length - 1)).y - cl.vy)⟩
      ∧ interpolate_a (point_at xy (xy.length - 2)) (point_at xy (xy.length - 1)) cl 1
        = ⟨6*(cl.ux - 2*cl.vx + (point_at xy (xy.length - 1)).x),
            6*(cl.uy - 2*cl.vy + (point_at xy (xy.length - 1)).y)⟩
      ∧ 6*(cl.ux - 2*cl.vx + (point_at xy (xy.length - 1)).x)
            *(3*((point_at xy (xy.length - 1)).y - cl.vy))
          - 6*(cl.uy - 2*cl.vy + (point_at xy (xy.length - 1)).y)
            *(3*((point_at xy (xy.length - 1)).x - cl.vx)) = 0 := by
  have hseg : segment_count xy.length false = xy.length - 1 := by
    simp [segment_count]
  have hmod : (xy.length - 2 + 1) % xy.length = xy.length - 1 := by
    rw [show xy.length - 2 + 1 = xy.length - 1 by omega]
    exact Nat.mod_eq_of_lt (by omega)
  have hmod0 : (0 + 1) % xy.length = 1 := Nat.mod_eq_of_lt (by omega)
  refine ⟨interpolate_v_zero _ _ _, ?_, ?_, interpolate_v_one _ _ _, ?_, ?_⟩
  · simp only [interpolate_a, segment_w, PointXY.mk.injEq]
    constructor <;> ring
  · by_cases hstr : slackness = 0 ∨ xy.length = 2
    · have h := control_points_straight L junk xy slackness false old hn hstr ⟨hs0, hs1⟩ 0
        (by rw [hseg]; omega)
      rw [← hc0] at h
      rw [h]
      simp only [interpolate_straight_line]
      ring
    · have hpos : 0 < slackness := lt_of_le_of_ne hs0 (fun h => hstr (Or.inl h.symm))
      have hlen : 3 ≤ xy.length := by
        rcases Nat.lt_or_ge xy.length 3 with h | h
        · exact absurd (Or.inr (by omega)) hstr
        · exact h
      obtain ⟨_, _, hfirst, _⟩ := control_points_general L junk xy slackness false old hlen
        hpos hs1 0 (by rw [hseg]; omega) c0 hc0
      obtain ⟨h1, h2⟩ := hfirst rfl rfl
      linear_combination 9*(c0.vx - (point_at xy 0).x)*h2 - 9*(c0.vy - (point_at xy 0).y)*h1
  · simp only [interpolate_a, segment_w, PointXY.mk.injEq]
    constructor <;> ring
  · by_cases hstr : slackness = 0 ∨ xy.length = 2
    · have h := control_points_straight L junk xy slackness false old hn hstr ⟨hs0, hs1⟩
        (xy.length - 2) (by rw [hseg]; omega)
      rw [← hcl, hmod] at h
      rw [h]
      simp only [interpolate_straight_line]
      ring
    · have hpos : 0 < slackness := lt_of_le_of_ne hs0 (fun h => hstr (Or.inl h.symm))
      have hlen : 3 ≤ xy.length := by
        rcases Nat.lt_or_ge xy.length 3 with h | h
        · exact absurd (Or.inr (by omega)) hstr
        · exact h
      obtain ⟨_, _, _, hlast⟩ := control_points_general L junk xy slackness false old hlen
        hpos hs1 (xy.length - 2) (by rw [hseg]; omega) cl hcl
      have hl := hlast rfl (by omega)
      rw [show xy.length - 2 + 1 = xy.length - 1 by omega] at hl
      obtain ⟨h1, h2⟩ := hl
      linear_combination 9*((point_at xy (xy.length - 1)).y - cl.uy)*h1
        - 9*((point_at xy (xy.length - 1)).x - cl.ux)*h2

/-- Witness of C13: the open curve through `(0,0)`, `(1,0)`, `(1,1)` with
slackness 1. -/
theorem open_ends_zero_curvature_witness :
    ∃ c0 cl : ControlPoint ℚ,
      c0 = g_array_index (calculate_control_points
          (⟨fun x y => |x| + |y|, fun x => x⟩ : Libm ℚ)
          ((([⟨0, 0⟩, ⟨1, 0⟩, ⟨1, 1⟩] : List (PointXY ℚ)).length : Int) - 1)
          [⟨0, 0⟩, ⟨1, 0⟩, ⟨1, 1⟩] 1 false
          (g_array_set_size [] (segment_count
            ([⟨0, 0⟩, ⟨1, 0⟩, ⟨1, 1⟩] : List (PointXY ℚ)).length false)
            (fun _ => ⟨7, 7, 7, 7⟩))) 0 ⟨7, 7, 7, 7⟩
      ∧ 6*((0 : ℚ) - 2*c0.ux + c0.vx)*(3*(c0.uy - 0)) - 6*(0 - 2*c0.uy + c0.vy)*(3*(c0.ux - 0))
          = 0
      ∧ 6*(cl.ux - 2*cl.vx + (1 : ℚ))*(3*(1 - cl.vy)) - 6*(cl.uy - 2*cl.vy + 1)*(3*(1 - cl.vx))
          = 0 :=
  ⟨_, _, rfl,
    (open_ends_zero_curvature (⟨fun x y => |x| + |y|, fun x => x⟩ : Libm ℚ)
      (fun _ => ⟨7, 7, 7, 7⟩) [⟨0, 0⟩, ⟨1, 0⟩, ⟨1, 1⟩] 1 [] _ _ (by decide) (by norm_num)
      (by norm_num) rfl rfl).2.2.1,
    (open_ends_zero_curvature (⟨fun x y => |x| + |y|, fun x => x⟩ : Libm ℚ)
      (fun _ => ⟨7, 7, 7, 7⟩) [⟨0, 0⟩, ⟨1, 0⟩, ⟨1, 1⟩] 1 [] _ _ (by decide) (by norm_num)
      (by norm_num) rfl rfl).2.2.2.2.2⟩

/-- C19 as the code has it: at an interior knot `P = xy[j]` of a curve with at
least three points and a positive slackness, with the chord midpoints `cp`
and `cn` and the blend ratio `q` of the knot, the `v` stored for the segment
before the knot is `P - slackness*(1 - q)*(cn - cp)` and the `u` stored for
the segment after it is `P + slackness*q*(cn - cp)`; `q` is
`lenn/(lenp + lenn)` unless `lenp + lenn = 0`. -/
theorem interior_knot_control_points (L : Libm F) (junk : Nat → ControlPoint F)
    (xy : List (PointXY F)) (slackness : F) (closed : Bool) (old : List (ControlPoint F))
    (j : Nat) (cv cu : ControlPoint F)
    (hn : 3 ≤ xy.length) (hs0 : 0 < slackness) (hs1 : slackness ≤ 1)
    (hj1 : 1 ≤ j) (hj2 : j + 1 < xy.length)
    (hcv : cv = g_array_index (calculate_control_points L ((xy.length : Int) - 1) xy
      slackness closed (g_array_set_size old (segment_count xy.length closed) junk))
      (j - 1) (junk (j - 1)))
    (hcu : cu = g_array_index (calculate_control_points L ((xy.length : Int) - 1) xy
      slackness closed (g_array_set_size old (segment_count xy.length closed) junk))
      j (junk j)) :
    cv.vx = (point_at xy j).x
        - slackness*(1 - knot_ratio L (point_at xy (j - 1)) (point_at xy j)
            (point_at xy (j + 1)))
          *(((point_at xy j).x + (point_at xy (j + 1)).x)/2
            - ((point_at xy (j - 1)).x + (point_at xy j).x)/2)
      ∧ cv.vy = (point_at xy j).y
        - slackness*(1 - knot_ratio L (point_at xy (j - 1)) (point_at xy j)
            (point_at xy (j + 1)))
          *(((point_at xy j).y + (point_at xy (j + 1)).y)/2
            - ((point_at xy (j - 1)).y + (point_at xy j).y)/2)
      ∧ cu.ux = (point_at xy j).x
        + slackness*knot_ratio L (point_at xy (j - 1)) (point_at xy j) (point_at xy (j + 1))
          *(((point_at xy j).x + (point_at xy (j + 1)).x)/2
            - ((point_at xy (j - 1)).x + (point_at xy j).x)/2)
      ∧ cu.uy = (point_at xy j).y
        + slackness*knot_ratio L (point_at xy (j - 1)) (point_at xy j) (point_at xy (j + 1))
          *(((point_at xy j).y + (point_at xy (j + 1)).y)/2
            - ((point_at xy (j - 1)).y + (point_at xy j).y)/2)
      ∧ (L.hypot ((point_at xy (j - 1)).x - (point_at xy j).x)
            ((point_at xy (j - 1)).y - (point_at xy j).y)
          + L.hypot ((point_at xy j).x - (point_at xy (j + 1)).x)
            ((point_at xy j).y - (point_at xy (j + 1)).y) ≠ 0 →
        knot_ratio L (point_at xy (j - 1)) (point_at xy j) (point_at xy (j + 1))
          = L.hypot ((point_at xy j).x - (point_at xy (j + 1)).x)
              ((point_at xy j).y - (point_at xy (j + 1)).y)
            /(L.hypot ((point_at xy (j - 1)).x - (point_at xy j).x)
                ((point_at xy (j - 1)).y - (point_at xy j).y)
              + L.hypot ((point_at xy j).x - (point_at xy (j + 1)).x)
                ((point_at xy j).y - (point_at xy (j + 1)).y))) := by
  have hseg : xy.length - 1 ≤ segment_count xy.length closed := by
    unfold segment_count
    split <;> omega
  obtain ⟨hv, _, _, _⟩ := control_points_general L junk xy slackness closed old hn hs0 hs1
    (j - 1) (by omega) cv hcv
  obtain ⟨_, hu, _, _⟩ := control_points_general L junk xy slackness closed old hn hs0 hs1
    j (by omega) cu hcu
  have e1 : j - 1 + 1 = j := by omega
  have e2 : j - 1 + 2 = j + 1 := by omega
  have m1 : j % xy.length = j := Nat.mod_eq_of_lt (by omega)
  have m2 : (j + 1) % xy.length = j + 1 := Nat.mod_eq_of_lt hj2
  have m3 : (j + (xy.length - 1)) % xy.length = j - 1 := by
    rw [show j + (xy.length - 1) = (j - 1) + xy.length by omega, Nat.add_mod_right]
    exact Nat.mod_eq_of_lt (by omega)
  have hv2 := hv (Or.inr (by omega))
  have hu2 := hu (Or.inr hj1)
  rw [e1, e2, m1, m2] at hv2
  rw [m2, m3] at hu2
  refine ⟨?_, ?_, ?_, ?_, ?_⟩
  · rw [hv2.1]
    simp only [knot_cv_prev, interpolate_cv_prev]
    ring
  · rw [hv2.2]
    simp only [knot_cv_prev, interpolate_cv_prev]
    ring
  · rw [hu2.1]
    simp only [knot_cu_next, interpolate_cu_next]
  · rw [hu2.2]
    simp only [knot_cu_next, interpolate_cu_next]
  · intro h
    simp only [knot_ratio, h, if_false]

/-- The blend ratio at the knot `(1,0)` between `(0,0)` and `(3,0)`. -/
theorem real_knot_ratio_example :
    knot_ratio (⟨fun x y => Real.sqrt (x*x + y*y), Real.sqrt⟩ : Libm ℝ)
      ⟨0, 0⟩ ⟨1, 0⟩ ⟨3, 0⟩ = 2/3 := by
  have h4 : Real.sqrt 4 = 2 := by
    rw [show (4 : ℝ) = 2^2 by norm_num]
    exact Real.sqrt_sq (by norm_num)
  simp only [knot_ratio]
  norm_num [h4]

/-- C19 as stated fails: on the open curve through `(0,0)`, `(1,0)`, `(3,0)`
with slackness 1 the knot `(1,0)` has `q = 2/3`; the `v` stored for the first
segment is not `P - slackness*q*(cn - cp)` and the `u` stored for the second
is not `P + slackness*(1 - q)*(cn - cp)`. -/
theorem knot_scales_counterexample :
    (g_array_index (calculate_control_points
        (⟨fun x y => Real.sqrt (x*x + y*y), Real.sqrt⟩ : Libm ℝ)
        ((([⟨0, 0⟩, ⟨1, 0⟩, ⟨3, 0⟩] : List (PointXY ℝ)).length : Int) - 1)
        [⟨0, 0⟩, ⟨1, 0⟩, ⟨3, 0⟩] 1 false
        (g_array_set_size [] (segment_count
          ([⟨0, 0⟩, ⟨1, 0⟩, ⟨3, 0⟩] : List (PointXY ℝ)).length false)
          (fun _ => ⟨7, 7, 7, 7⟩))) 0 ⟨7, 7, 7, 7⟩).vx
      ≠ 1 - 1*knot_ratio (⟨fun x y => Real.sqrt (x*x + y*y), Real.sqrt⟩ : Libm ℝ)
            ⟨0, 0⟩ ⟨1, 0⟩ ⟨3, 0⟩*((1 + 3)/2 - (0 + 1)/2)
    ∧ (g_array_index (calculate_control_points
        (⟨fun x y => Real.sqrt (x*x + y*y), Real.sqrt⟩ : Libm ℝ)
        ((([⟨0, 0⟩, ⟨1, 0⟩, ⟨3, 0⟩] : List (PointXY ℝ)).length : Int) - 1)
        [⟨0, 0⟩, ⟨1, 0⟩, ⟨3, 0⟩] 1 false
        (g_array_set_size [] (segment_count
          ([⟨0, 0⟩, ⟨1, 0⟩, ⟨3, 0⟩] : List (PointXY ℝ)).length false)
          (fun _ => ⟨7, 7, 7, 7⟩))) 1 ⟨7, 7, 7, 7⟩).ux
      ≠ 1 + 1*(1 - knot_ratio (⟨fun x y => Real.sqrt (x*x + y*y), Real.sqrt⟩ : Libm ℝ)
            ⟨0, 0⟩ ⟨1, 0⟩ ⟨3, 0⟩)*((1 + 3)/2 - (0 + 1)/2) := by
  obtain ⟨hv, _, _, _⟩ := control_points_general
    (⟨fun x y => Real.sqrt (x*x + y*y), Real.sqrt⟩ : Libm ℝ) (fun _ => ⟨7, 7, 7, 7⟩)
    [⟨0, 0⟩, ⟨1, 0⟩, ⟨3, 0⟩] 1 false [] (by decide) (by norm_num) (by norm_num) 0
    (by decide) _ rfl
  obtain ⟨_, hu, _, _⟩ := control_points_general
    (⟨fun x y => Real.sqrt (x*x + y*y), Real.sqrt⟩ : Libm ℝ) (fun _ => ⟨7, 7, 7, 7⟩)
    [⟨0, 0⟩, ⟨1, 0⟩, ⟨3, 0⟩] 1 false [] (by decide) (by norm_num) (by norm_num) 1
    (by decide) _ rfl
  have hv2 := (hv (Or.inr (by decide))).1
  have hu2 := (hu (Or.inr (by decide))).1
  have hq := real_knot_ratio_example
  constructor
  · rw [hv2]
    simp only [knot_cv_prev, interpolate_cv_prev, point_at, g_array_index, List.length_cons,
      List.length_nil]
    norm_num [hq]
  · rw [hu2]
    simp only [knot_cu_next, interpolate_cu_next, point_at, g_array_index, List.length_cons,
      List.length_nil]
    norm_num [hq]

/-- Witness of C19 as the code has it: the same curve; the stored values are
`v = 1/2` and `u = 2`. -/
theorem interior_knot_control_points_witness :
    ∃ cv cu : ControlPoint ℝ,
      cv = g_array_index (calculate_control_points
          (⟨fun x y => Real.sqrt (x*x + y*y), Real.sqrt⟩ : Libm ℝ)
          ((([⟨0, 0⟩, ⟨1, 0⟩, ⟨3, 0⟩] : List (PointXY ℝ)).length : Int) - 1)
          [⟨0, 0⟩, ⟨1, 0⟩, ⟨3, 0⟩] 1 false
          (g_array_set_size [] (segment_count
            ([⟨0, 0⟩, ⟨1, 0⟩, ⟨3, 0⟩] : List (PointXY ℝ)).length false)
            (fun _ => ⟨7, 7, 7, 7⟩))) 0 ⟨7, 7, 7, 7⟩
      ∧ cu = g_array_index (calculate_control_points
          (⟨fun x y => Real.sqrt (x*x + y*y), Real.sqrt⟩ : Libm ℝ)
          ((([⟨0, 0⟩, ⟨1, 0⟩, ⟨3, 0⟩] : List (PointXY ℝ)).length : Int) - 1)
          [⟨0, 0⟩, ⟨1, 0⟩, ⟨3, 0⟩] 1 false
          (g_array_set_size [] (segment_count
            ([⟨0, 0⟩, ⟨1, 0⟩, ⟨3, 0⟩] : List (PointXY ℝ)).length false)
            (fun _ => ⟨7, 7, 7, 7⟩))) 1 ⟨7, 7, 7, 7⟩
      ∧ cv.vx = 1/2 ∧ cu.ux = 2 := by
  refine ⟨_, _, rfl, rfl, ?_, ?_⟩
  · rw [(interior_knot_control_points
      (⟨fun x y => Real.sqrt (x*x + y*y), Real.sqrt⟩ : Libm ℝ) (fun _ => ⟨7, 7, 7, 7⟩)
      [⟨0, 0⟩, ⟨1, 0⟩, ⟨3, 0⟩] 1 false [] 1 _ _ (by decide) (by norm_num) (by norm_num)
      (by decide) (by decide) rfl rfl).1]
    simp only [point_at, g_array_index]
    norm_num [real_knot_ratio_example]
  · rw [(interior_knot_control_points
      (⟨fun x y => Real.sqrt (x*x + y*y), Real.sqrt⟩ : Libm ℝ) (fun _ => ⟨7, 7, 7, 7⟩)
      [⟨0, 0⟩, ⟨1, 0⟩, ⟨3, 0⟩] 1 false [] 1 _ _ (by decide) (by norm_num) (by norm_num)
      (by decide) (by decide) rfl rfl).2.2.1]
    simp only [point_at, g_array_index]
    norm_num [real_knot_ratio_example]

end General

end Gwy

namespace Gwy

open GwySplineRecurseOutputType

section Length

variable {F : Type} [LinearOrderedField F]

/-! ## The length of a curve of straight segments -/

/-- On a straight segment the length emitted for an interval is the length
of the chord times the duration of the interval. -/
theorem straight_leaf_length {L : Libm F} (hL : L.Exact) (cp : GwySplineSampleParams F)
    (c : ControlPoint F) (huv : cp.uv = interpolate_straight_line cp.pt0 cp.pt1 c)
    (ta tb y : F) (h : Leaf L cp ta tb y) :
    y = (tb - ta)*L.hypot (cp.pt1.x - cp.pt0.x) (cp.pt1.y - cp.pt0.y) := by
  obtain ⟨hlt, _, hy⟩ := h
  have key : ∀ X Y : F, X = (tb - ta)/2*(-(cp.pt1.x - cp.pt0.x)) →
      Y = (tb - ta)/2*(-(cp.pt1.y - cp.pt0.y)) →
      L.hypot X Y = (tb - ta)/2*L.hypot (cp.pt1.x - cp.pt0.x) (cp.pt1.y - cp.pt0.y) := by
    intro X Y hX hY
    rw [hX, hY, hL.hypot_smul _ _ _ (by linarith), hL.hypot_neg]
  rw [hy]
  simp only [sample_curve_tl, sample_curve_middle_eq, huv, segment_item_straight,
    division_time, if_true]
  refine Eq.trans (congrArg₂ (fun a b => a + b) (key _ _ ?_ ?_) (key _ _ ?_ ?_)) ?_
  all_goals ring

/-- In a natural sampling of a spline whose segments are all straight the
cumulative length at the time `k + tau` is the length of the first `k` chords
plus the fraction `tau` of chord `k`. -/
theorem straight_cumulative {L : Libm F} (hL : L.Exact) (junk : Nat → ControlPoint F)
    (spline : GwySpline F) (max_dev max_vrdev : F) (p : List (PointXY F))
    (hnat : NaturalSampling L junk spline max_dev max_vrdev p)
    (hcp : ∀ k, k < segment_count spline.points.length spline.closed →
      g_array_index spline.control_points k (junk k)
        = interpolate_straight_line (point_at spline.points k)
            (point_at spline.points ((k + 1) % spline.points.length)) ⟨0, 0, 0, 0⟩) :
    ∀ j, j < p.length → ∀ (k : Nat) (tau : F),
      k < segment_count spline.points.length spline.closed → 0 ≤ tau → tau ≤ 1 →
      (point_at p j).x = (k : F) + tau →
      (point_at p j).y
        = ((List.range k).map (fun i =>
            L.hypot ((point_at spline.points ((i + 1) % spline.points.length)).x
                - (point_at spline.points i).x)
              ((point_at spline.points ((i + 1) % spline.points.length)).y
                - (point_at spline.points i).y))).sum
          + tau*L.hypot ((point_at spline.points ((k + 1) % spline.points.length)).x
                - (point_at spline.points k).x)
              ((point_at spline.points ((k + 1) % spline.points.length)).y
                - (point_at spline.points k).y) := by
  obtain ⟨_, hp0, hstep, _⟩ := natural_sampling_index hnat
  intro j
  induction j with
  | zero =>
    intro _ k tau _ h0 _ hx
    rw [hp0] at hx ⊢
    have hk0 : (0 : F) ≤ (k : F) := Nat.cast_nonneg k
    have hkz : (k : F) = 0 := by
      simp only [] at hx
      linarith
    have hk : k = 0 := by exact_mod_cast hkz
    have ht : tau = 0 := by
      simp only [] at hx
      linarith
    subst hk
    rw [ht]
    simp
  | succ j ih =>
    intro hj k tau hk h0 h1 hx
    obtain ⟨k2, ta, tb, hk2, hta, htb, hx0, hx1, hleaf⟩ := hstep (j + 1) (by omega) hj
    simp only [Nat.add_sub_cancel] at hx0 hleaf
    have hlt : ta < tb := hleaf.1
    have hprev := ih (by omega) k2 ta hk2 hta (by linarith) hx0
    have hlen := straight_leaf_length hL (segment_params junk spline max_dev max_vrdev k2)
      ⟨0, 0, 0, 0⟩ (hcp k2 hk2) ta tb _ hleaf
    simp only [segment_params] at hlen
    rw [hx1] at hx
    rcases Nat.lt_trichotomy k k2 with hlt2 | heq | hgt
    · have hc : (k : F) + 1 ≤ (k2 : F) := by exact_mod_cast hlt2
      linarith
    · subst heq
      have : tau = tb := by linarith
      rw [this]
      linarith
    · have hc : (k2 : F) + 1 ≤ (k : F) := by exact_mod_cast hgt
      have htb1 : tb = 1 := by linarith
      have ht0 : tau = 0 := by linarith
      have hkk : (k : F) = (k2 : F) + 1 := by linarith
      have hkk2 : k = k2 + 1 := by exact_mod_cast hkk
      rw [hkk2, ht0, List.range_succ, List.map_append, List.sum_append]
      simp only [List.map_cons, List.map_nil, List.sum_cons, List.sum_nil, add_zero, zero_mul]
      rw [htb1] at hlen
      linarith

/-- The last cumulative length of a natural sampling of a spline whose
segments are all straight is the length of the polyline through the knots. -/
theorem straight_total_length {L : Libm F} (hL : L.Exact) (junk : Nat → ControlPoint F)
    (spline : GwySpline F) (max_dev max_vrdev : F) (p : List (PointXY F))
    (hnat : NaturalSampling L junk spline max_dev max_vrdev p)
    (hpts : 2 ≤ spline.points.length)
    (hcp : ∀ k, k < segment_count spline.points.length spline.closed →
      g_array_index spline.control_points k (junk k)
        = interpolate_straight_line (point_at spline.points k)
            (point_at spline.points ((k + 1) % spline.points.length)) ⟨0, 0, 0, 0⟩) :
    (point_at p (p.length - 1)).y = polyline_length L spline.points spline.closed := by
  obtain ⟨hlen, _, _, hlastx⟩ := natural_sampling_index hnat
  have hseg : 1 ≤ segment_count spline.points.length spline.closed := by
    unfold segment_count
    split <;> omega
  obtain ⟨m, hm⟩ : ∃ m, segment_count spline.points.length spline.closed = m + 1 :=
    ⟨segment_count spline.points.length spline.closed - 1, by omega⟩
  have h := straight_cumulative hL junk spline max_dev max_vrdev p hnat hcp (p.length - 1)
    (by omega) m 1 (by omega) zero_le_one (le_refl 1) (by rw [hlastx, hm]; push_cast; ring)
  rw [h]
  unfold polyline_length
  rw [hm, List.range_succ, List.map_append, List.sum_append]
  simp only [List.map_cons, List.map_nil, List.sum_cons, List.sum_nil, add_zero, one_mul]

/-- C11: on a spline with at least two points, open or closed, with slackness
0 or with exactly two points (the slackness of a spline lies in `[0, 1]`),
the natural sampling returns with two levels of fuel and its last cumulative
length is the sum of the distances between consecutive knots, the distance
from the last knot to the first included when the curve is closed;
`sample_curve_uniformly` stores that sum in the field `length`. -/
theorem straight_curve_length [FloorRing F] {L : Libm F} (hL : L.Exact)
    (junk : Nat → ControlPoint F) (s : GwySpline F) (n fuel : Nat)
    (coords velocities : Option (List (PointXY F)))
    (hpts : 2 ≤ s.points.length) (hstr : s.slackness = 0 ∨ s.points.length = 2)
    (hs : 0 ≤ s.slackness ∧ s.slackness ≤ 1) (hn : 1 ≤ n) (hfuel : 2 ≤ fuel) :
    ∃ (s2 : GwySpline F) (p : List (PointXY F)) (c v : Option (List (PointXY F))),
      sample_curve L fuel junk s G_MAXDOUBLE (1/100) CURVE_RECURSE_OUTPUT_T_L = some (s2, p)
        ∧ (point_at p (p.length - 1)).y = polyline_length L s.points s.closed
        ∧ sample_curve_uniformly L fuel junk s n coords velocities
            = some ({ s2 with length := polyline_length L s.points s.closed }, c, v) := by
  obtain ⟨s2, hs2⟩ : ∃ s2 : GwySpline F, s2 = { s with control_points :=
      (calculate_control_points L ((s.points.length : Int) - 1) s.points
        s.slackness s.closed
        (g_array_set_size s.control_points
          (segment_count s.points.length s.closed) junk)) } := ⟨_, rfl⟩
  have hp2 : s2.points = s.points := by rw [hs2]
  have hc2 : s2.closed = s.closed := by rw [hs2]
  have hcp2 : ∀ k, k < segment_count s2.points.length s2.closed →
      g_array_index s2.control_points k (junk k)
        = interpolate_straight_line (point_at s2.points k)
            (point_at s2.points ((k + 1) % s2.points.length)) ⟨0, 0, 0, 0⟩ := by
    intro k hk
    rw [hp2, hc2] at hk
    rw [hp2, hs2]
    exact control_points_straight L junk s.points s.slackness s.closed s.control_points
      hpts hstr hs k hk
  have hseg : ∀ k, k < segment_count s2.points.length s2.closed →
      ∀ pts : List (PointXY F), ∃ r, sample_curve_recurse L fuel
        { segment_params junk s2 G_MAXDOUBLE (1/100) k with points := pts }
        (segment_item L (point_at s2.points k)
          (point_at s2.points ((k + 1) % s2.points.length))
          (g_array_index s2.control_points k (junk k)) 0)
        (segment_item L (point_at s2.points k)
          (point_at s2.points ((k + 1) % s2.points.length))
          (g_array_index s2.control_points k (junk k)) 1) = some r := by
    intro k hk pts
    exact recurse_straight_returns hL _ ⟨0, 0, 0, 0⟩
      (by simp only [segment_params]; exact hcp2 k hk) G_MAXDOUBLE_nonneg
      (by simp only [segment_params]; norm_num) rfl fuel hfuel 0 1
  obtain ⟨p, hp⟩ := sample_curve_returns L fuel junk s s2 G_MAXDOUBLE (1/100) hpts hs2 hseg
  obtain ⟨_, hnat⟩ := sample_curve_spec hL fuel junk s s2 G_MAXDOUBLE (1/100) p hpts hp
  have hlen := straight_total_length hL junk s2 G_MAXDOUBLE (1/100) p hnat
    (by rw [hp2]; exact hpts) hcp2
  rw [hp2, hc2] at hlen
  obtain ⟨p3, f, g, _, hnat3, hres, _, _, _⟩ := uniformly_spec hL junk s s2 n fuel
    coords velocities hpts hn hs2 hseg
  have hlen3 := straight_total_length hL junk
    { s2 with length := (point_at p3 (p3.length - 1)).y } G_MAXDOUBLE (1/100) p3 hnat3
    (by simp only [hp2]; exact hpts) hcp2
  simp only [hp2, hc2] at hlen3
  rw [hlen3] at hres
  exact ⟨s2, p, _, _, hp, hlen, hres⟩

/-- Witness of C11: the closed triangle `(0,0)`, `(1,0)`, `(1,1)` with
slackness 0, sampled at six points. -/
theorem straight_curve_length_witness :
    ∃ (s2 : GwySpline ℝ) (p : List (PointXY ℝ)) (c v : Option (List (PointXY ℝ))),
      sample_curve (⟨fun x y => Real.sqrt (x*x + y*y), Real.sqrt⟩ : Libm ℝ) 2
          (fun _ => ⟨7, 7, 7, 7⟩)
          { points := [⟨0, 0⟩, ⟨1, 0⟩, ⟨1, 1⟩], slackness := 0, closed := true,
            natural_sampling_valid := false, control_points := [], natural_points := [],
            length := 0, fixed_sampling_valid := false, nfixed := 0, fixed_samples := [] }
          G_MAXDOUBLE (1/100) CURVE_RECURSE_OUTPUT_T_L = some (s2, p)
        ∧ (point_at p (p.length - 1)).y
            = polyline_length (⟨fun x y => Real.sqrt (x*x + y*y), Real.sqrt⟩ : Libm ℝ)
                [⟨0, 0⟩, ⟨1, 0⟩, ⟨1, 1⟩] true
        ∧ sample_curve_uniformly (⟨fun x y => Real.sqrt (x*x + y*y), Real.sqrt⟩ : Libm ℝ) 2
            (fun _ => ⟨7, 7, 7, 7⟩)
            { points := [⟨0, 0⟩, ⟨1, 0⟩, ⟨1, 1⟩], slackness := 0, closed := true,
              natural_sampling_valid := false, control_points := [], natural_points := [],
              length := 0, fixed_sampling_valid := false, nfixed := 0, fixed_samples := [] }
            6 (some (List.replicate 6 ⟨0, 0⟩)) none
            = some ({ s2 with length :=
                (polyline_length (⟨fun x y => Real.sqrt (x*x + y*y), Real.sqrt⟩ : Libm ℝ)
                  [⟨0, 0⟩, ⟨1, 0⟩, ⟨1, 1⟩] true) }, c, v) :=
  straight_curve_length real_libm_exact (fun _ => ⟨7, 7, 7, 7⟩)
    { points := [⟨0, 0⟩, ⟨1, 0⟩, ⟨1, 1⟩], slackness := 0, closed := true,
      natural_sampling_valid := false, control_points := [], natural_points := [],
      length := 0, fixed_sampling_valid := false, nfixed := 0, fixed_samples := [] }
    6 2 (some (List.replicate 6 ⟨0, 0⟩)) none (by simp) (Or.inl rfl)
    ⟨le_refl 0, zero_le_one⟩ (by norm_num) (le_refl 2)

end Length

end Gwy

namespace Gwy

open GwySplineRecurseOutputType

section Divisors

variable {F : Type} [LinearOrderedField F]

/-! ## Divisors of the natural sampling -/

theorem control_point_ext (a b : ControlPoint F) (h1 : a.ux = b.ux) (h2 : a.uy = b.uy)
    (h3 : a.vx = b.vx) (h4 : a.vy = b.vy) : a = b := by
  cases a
  cases b
  simp only [ControlPoint.mk.injEq]
  exact ⟨h1, h2, h3, h4⟩

/-- The control points of the first segment of the closed curve through
`(0,0)`, `(1,0)`, `(0,0)`, `(1,0)` with slackness 1: `u` is the start and `v`
the end of the segment. -/
theorem back_and_forth_control_points :
    g_array_index (calculate_control_points
        (⟨fun x y => Real.sqrt (x*x + y*y), Real.sqrt⟩ : Libm ℝ)
        ((([⟨0, 0⟩, ⟨1, 0⟩, ⟨0, 0⟩, ⟨1, 0⟩] : List (PointXY ℝ)).length : Int) - 1)
        [⟨0, 0⟩, ⟨1, 0⟩, ⟨0, 0⟩, ⟨1, 0⟩] 1 true
        (g_array_set_size [] (segment_count
          ([⟨0, 0⟩, ⟨1, 0⟩, ⟨0, 0⟩, ⟨1, 0⟩] : List (PointXY ℝ)).length true)
          (fun _ => ⟨7, 7, 7, 7⟩))) 0 ⟨7, 7, 7, 7⟩
      = ⟨0, 0, 1, 0⟩ := by
  obtain ⟨hv, hu, _, _⟩ := control_points_general
    (⟨fun x y => Real.sqrt (x*x + y*y), Real.sqrt⟩ : Libm ℝ) (fun _ => ⟨7, 7, 7, 7⟩)
    [⟨0, 0⟩, ⟨1, 0⟩, ⟨0, 0⟩, ⟨1, 0⟩] 1 true [] (by decide) (by norm_num) (by norm_num) 0
    (by decide) _ rfl
  obtain ⟨hvx, hvy⟩ := hv (Or.inl rfl)
  obtain ⟨hux, huy⟩ := hu (Or.inl rfl)
  refine control_point_ext _ _ ?_ ?_ ?_ ?_
  · rw [hux]
    simp only [knot_cu_next, interpolate_cu_next, point_at, g_array_index, List.length_cons,
      List.length_nil]
    norm_num
  · rw [huy]
    simp only [knot_cu_next, interpolate_cu_next, point_at, g_array_index, List.length_cons,
      List.length_nil]
    norm_num
  · rw [hvx]
    simp only [knot_cv_prev, interpolate_cv_prev, point_at, g_array_index, List.length_cons,
      List.length_nil]
    norm_num
  · rw [hvy]
    simp only [knot_cv_prev, interpolate_cv_prev, point_at, g_array_index, List.length_cons,
      List.length_nil]
    norm_num

/-- C16 as stated fails: in the call `sample_curve` makes for the first
segment of the closed curve through `(0,0)`, `(1,0)`, `(0,0)`, `(1,0)` with
slackness 1 the velocity deviation `eps` is not zero and the divisor
`(c0.vl + c1.vl)/2` is zero. -/
theorem recurse_divisor_zero :
    ∃ (cp : GwySplineSampleParams ℝ) (c0 c1 : GwySplineSampleItem ℝ),
      cp = segment_params (fun _ => ⟨7, 7, 7, 7⟩)
          { points := [⟨0, 0⟩, ⟨1, 0⟩, ⟨0, 0⟩, ⟨1, 0⟩], slackness := 1, closed := true,
            natural_sampling_valid := false,
            control_points := (calculate_control_points
              (⟨fun x y => Real.sqrt (x*x + y*y), Real.sqrt⟩ : Libm ℝ)
              ((([⟨0, 0⟩, ⟨1, 0⟩, ⟨0, 0⟩, ⟨1, 0⟩] : List (PointXY ℝ)).length : Int) - 1)
              [⟨0, 0⟩, ⟨1, 0⟩, ⟨0, 0⟩, ⟨1, 0⟩] 1 true
              (g_array_set_size [] (segment_count
                ([⟨0, 0⟩, ⟨1, 0⟩, ⟨0, 0⟩, ⟨1, 0⟩] : List (PointXY ℝ)).length true)
                (fun _ => ⟨7, 7, 7, 7⟩))),
            natural_points := [], length := 0, fixed_sampling_valid := false, nfixed := 0,
            fixed_samples := [] } G_MAXDOUBLE (1/100) 0
        ∧ c0 = segment_item (⟨fun x y => Real.sqrt (x*x + y*y), Real.sqrt⟩ : Libm ℝ)
            cp.pt0 cp.pt1 cp.uv 0
        ∧ c1 = segment_item (⟨fun x y => Real.sqrt (x*x + y*y), Real.sqrt⟩ : Libm ℝ)
            cp.pt0 cp.pt1 cp.uv 1
        ∧ sample_curve_eps (⟨fun x y => Real.sqrt (x*x + y*y), Real.sqrt⟩ : Libm ℝ) cp c0 c1
            ≠ 0
        ∧ (c0.vl + c1.vl)/2 = 0 := by
  refine ⟨_, _, _, rfl, rfl, rfl, ?_, ?_⟩
  · simp only [segment_params, back_and_forth_control_points]
    simp only [sample_curve_eps, sample_curve_middle, segment_item, interpolate_v, point_at,
      g_array_index, List.length_cons, List.length_nil]
    norm_num [division_time]
  · simp only [segment_params, back_and_forth_control_points]
    simp only [segment_item, interpolate_v, point_at, g_array_index, List.length_cons,
      List.length_nil]
    norm_num

/-- C16 as the code has it.  The test of `sample_curve_recurse` on an interval
of a segment divides `eps` by `(c0.vl + c1.vl)/2` only when `eps` is not zero;
the end speeds are not negative, so the divisor is not zero as soon as one of
them is not zero.  In `division_time`, called with speeds `v0, v1` that are
not negative, `v1 + v0` is not zero when the function divides by it, and
`2*eps` is not zero when the function divides by it. -/
theorem natural_sampling_divisors {L : Libm F} (hL : L.Exact)
    (cp : GwySplineSampleParams F) (ta tb x v0 v1 : F) (h0 : 0 ≤ v0) (h1 : 0 ≤ v1) :
    sample_curve_within L cp (segment_item L cp.pt0 cp.pt1 cp.uv ta)
        (segment_item L cp.pt0 cp.pt1 cp.uv tb)
      = (decide (L.hypot
            ((sample_curve_middle L cp (segment_item L cp.pt0 cp.pt1 cp.uv ta)
                (segment_item L cp.pt0 cp.pt1 cp.uv tb)).z.x
              - ((segment_item L cp.pt0 cp.pt1 cp.uv ta).z.x
                  + (segment_item L cp.pt0 cp.pt1 cp.uv tb).z.x)/2)
            ((sample_curve_middle L cp (segment_item L cp.pt0 cp.pt1 cp.uv ta)
                (segment_item L cp.pt0 cp.pt1 cp.uv tb)).z.y
              - ((segment_item L cp.pt0 cp.pt1 cp.uv ta).z.y
                  + (segment_item L cp.pt0 cp.pt1 cp.uv tb).z.y)/2) ≤ cp.max_dev)
        && vrdev_within
          (sample_curve_eps L cp (segment_item L cp.pt0 cp.pt1 cp.uv ta)
            (segment_item L cp.pt0 cp.pt1 cp.uv tb))
          (((segment_item L cp.pt0 cp.pt1 cp.uv ta).vl
            + (segment_item L cp.pt0 cp.pt1 cp.uv tb).vl)/2) cp.max_vrdev)
      ∧ (∀ d m : F, vrdev_within 0 d m = decide (0 ≤ m))
      ∧ (∀ eps d m : F, eps ≠ 0 → d ≠ 0 → vrdev_within eps d m = decide (eps/d ≤ m))
      ∧ 0 ≤ (segment_item L cp.pt0 cp.pt1 cp.uv ta).vl
      ∧ 0 ≤ (segment_item L cp.pt0 cp.pt1 cp.uv tb).vl
      ∧ ((segment_item L cp.pt0 cp.pt1 cp.uv ta).vl ≠ 0
          ∨ (segment_item L cp.pt0 cp.pt1 cp.uv tb).vl ≠ 0 →
        ((segment_item L cp.pt0 cp.pt1 cp.uv ta).vl
          + (segment_item L cp.pt0 cp.pt1 cp.uv tb).vl)/2 ≠ 0)
      ∧ (v0 = v1 → division_time L v0 v1 x = x)
      ∧ (v0 ≠ v1 → v1 + v0 ≠ 0)
      ∧ (v0 ≠ v1 → (v1 - v0)/(v1 + v0) < 1/1000000 →
          division_time L v0 v1 x = x*(1 + (v1 - v0)/(v1 + v0)*(1 - x)))
      ∧ (v0 ≠ v1 → ¬((v1 - v0)/(v1 + v0) < 1/1000000) →
          2*((v1 - v0)/(v1 + v0)) ≠ 0
            ∧ division_time L v0 v1 x
              = (L.sqrt (4*x*((v1 - v0)/(v1 + v0))
                    + (1 - (v1 - v0)/(v1 + v0))*(1 - (v1 - v0)/(v1 + v0)))
                  - (1 - (v1 - v0)/(v1 + v0)))/(2*((v1 - v0)/(v1 + v0)))) := by
  have ha : 0 ≤ (segment_item L cp.pt0 cp.pt1 cp.uv ta).vl := hL.hypot_nonneg _ _
  have hb : 0 ≤ (segment_item L cp.pt0 cp.pt1 cp.uv tb).vl := hL.hypot_nonneg _ _
  refine ⟨rfl, ?_, ?_, ha, hb, ?_, ?_, ?_, ?_, ?_⟩
  · intro d m
    simp [vrdev_within]
  · intro eps d m he hd
    simp [vrdev_within, he, hd]
  · intro h hsum
    have hz : (segment_item L cp.pt0 cp.pt1 cp.uv ta).vl = 0
        ∧ (segment_item L cp.pt0 cp.pt1 cp.uv tb).vl = 0 := by
      constructor <;> linarith
    rcases h with h | h
    · exact h hz.1
    · exact h hz.2
  · intro h
    simp [division_time, h]
  · intro h
    exact ne_of_gt (division_eps_bounds v0 v1 h0 h1 h).1
  · intro h hlt
    simp only [division_time, if_neg h, if_pos hlt]
  · intro h hlt
    refine ⟨?_, by simp only [division_time, if_neg h, if_neg hlt]⟩
    have : (0 : F) < (v1 - v0)/(v1 + v0) := by
      have := not_lt.mp hlt
      linarith [this, (by norm_num : (0 : F) < 1/1000000)]
    positivity

/-- Witness of C16 as the code has it: an interval of a straight segment and
the speeds 1 and 3. -/
theorem natural_sampling_divisors_witness :
    0 ≤ (segment_item (⟨fun x y => Real.sqrt (x*x + y*y), Real.sqrt⟩ : Libm ℝ)
          ⟨0, 0⟩ ⟨3, 4⟩ ⟨1, 1, 2, 3⟩ 0).vl
      ∧ 0 ≤ (segment_item (⟨fun x y => Real.sqrt (x*x + y*y), Real.sqrt⟩ : Libm ℝ)
          ⟨0, 0⟩ ⟨3, 4⟩ ⟨1, 1, 2, 3⟩ 1).vl
      ∧ ((segment_item (⟨fun x y => Real.sqrt (x*x + y*y), Real.sqrt⟩ : Libm ℝ)
            ⟨0, 0⟩ ⟨3, 4⟩ ⟨1, 1, 2, 3⟩ 0).vl ≠ 0
          ∨ (segment_item (⟨fun x y => Real.sqrt (x*x + y*y), Real.sqrt⟩ : Libm ℝ)
            ⟨0, 0⟩ ⟨3, 4⟩ ⟨1, 1, 2, 3⟩ 1).vl ≠ 0 →
        ((segment_item (⟨fun x y => Real.sqrt (x*x + y*y), Real.sqrt⟩ : Libm ℝ)
            ⟨0, 0⟩ ⟨3, 4⟩ ⟨1, 1, 2, 3⟩ 0).vl
          + (segment_item (⟨fun x y => Real.sqrt (x*x + y*y), Real.sqrt⟩ : Libm ℝ)
            ⟨0, 0⟩ ⟨3, 4⟩ ⟨1, 1, 2, 3⟩ 1).vl)/2 ≠ 0)
      ∧ (((1 : ℝ) = 3) → division_time
          (⟨fun x y => Real.sqrt (x*x + y*y), Real.sqrt⟩ : Libm ℝ) 1 3 (1/2) = 1/2)
      ∧ ((1 : ℝ) ≠ 3 → (3 : ℝ) + 1 ≠ 0) :=
  ((natural_sampling_divisors real_libm_exact
    { pt0 := ⟨0, 0⟩, pt1 := ⟨3, 4⟩, uv := ⟨1, 1, 2, 3⟩, max_dev := 1, max_vrdev := 1/100,
      points := [], otype := CURVE_RECURSE_OUTPUT_T_L, depth := 0 }
    0 1 (1/2) 1 3 (by norm_num) (by norm_num)).2.2.2).imp id
    (fun h => ⟨h.1, h.2.1, h.2.2.1, h.2.2.2.1⟩)

end Divisors

end Gwy

namespace Gwy

open GwySplineRecurseOutputType

section Rotation

variable {F : Type} [LinearOrderedField F]

/-! ## Closed curves: all knots alike -/

theorem point_at_rotate (xy : List (PointXY F)) (i : Nat) (hi : i < xy.length) :
    point_at (xy.rotate 1) i = point_at xy ((i + 1) % xy.length) := by
  simp only [point_at, g_array_index, List.getD_eq_getElem?_getD, List.getElem?_rotate hi]

/-- The control points `calculate_control_points` stores for segment `k` of a
closed curve, as called by `sample_curve`, in terms of the knots: they do not
depend on what the array held before. -/
theorem closed_cell_determined (L : Libm F) (junk junk2 : Nat → ControlPoint F)
    (xy : List (PointXY F)) (slackness : F) (old old2 : List (ControlPoint F))
    (hn : 2 ≤ xy.length) (hs0 : 0 ≤ slackness) (hs1 : slackness ≤ 1) (k : Nat)
    (hk : k < xy.length) :
    g_array_index (calculate_control_points L ((xy.length : Int) - 1) xy slackness true
        (g_array_set_size old (segment_count xy.length true) junk)) k (junk k)
      = g_array_index (calculate_control_points L ((xy.length : Int) - 1) xy slackness true
        (g_array_set_size old2 (segment_count xy.length true) junk2)) k (junk2 k) := by
  have hseg : segment_count xy.length true = xy.length := by simp [segment_count]
  by_cases hstr : slackness = 0 ∨ xy.length = 2
  · rw [control_points_straight L junk xy slackness true old hn hstr ⟨hs0, hs1⟩ k
        (by rw [hseg]; exact hk),
      control_points_straight L junk2 xy slackness true old2 hn hstr ⟨hs0, hs1⟩ k
        (by rw [hseg]; exact hk)]
  · have hpos : 0 < slackness := lt_of_le_of_ne hs0 (fun h => hstr (Or.inl h.symm))
    have hlen : 3 ≤ xy.length := by
      rcases Nat.lt_or_ge xy.length 3 with h | h
      · exact absurd (Or.inr (by omega)) hstr
      · exact h
    obtain ⟨hv, hu, _, _⟩ := control_points_general L junk xy slackness true old hlen hpos hs1
      k (by rw [hseg]; exact hk) _ rfl
    obtain ⟨hv2, hu2, _, _⟩ := control_points_general L junk2 xy slackness true old2 hlen hpos
      hs1 k (by rw [hseg]; exact hk) _ rfl
    obtain ⟨hvx, hvy⟩ := hv (Or.inl rfl)
    obtain ⟨hux, huy⟩ := hu (Or.inl rfl)
    obtain ⟨hvx2, hvy2⟩ := hv2 (Or.inl rfl)
    obtain ⟨hux2, huy2⟩ := hu2 (Or.inl rfl)
    exact control_point_ext _ _ (hux.trans hux2.symm) (huy.trans huy2.symm)
      (hvx.trans hvx2.symm) (hvy.trans hvy2.symm)

/-- C21: on a closed curve with at least two points and a slackness in
`[0, 1]` `calculate_control_points` treats all knots alike.  Rotating the
knots by one position rotates the control pairs by one position: pair `k` of
the rotated curve is pair `(k + 1) % npts` of the curve.  And all `npts`
pairs are set in both `u` and `v`: they do not depend on what the array held
before the call (`old`, `junk`). -/
theorem closed_control_points_rotate (L : Libm F) (junk junk2 : Nat → ControlPoint F)
    (xy : List (PointXY F)) (slackness : F) (old old2 : List (ControlPoint F)) (k : Nat)
    (hn : 2 ≤ xy.length) (hs0 : 0 ≤ slackness) (hs1 : slackness ≤ 1)
    (hk : k < xy.length) :
    g_array_index (calculate_control_points L (((xy.rotate 1).length : Int) - 1)
        (xy.rotate 1) slackness true
        (g_array_set_size old2 (segment_count (xy.rotate 1).length true) junk2)) k (junk2 k)
      = g_array_index (calculate_control_points L ((xy.length : Int) - 1) xy slackness true
        (g_array_set_size old (segment_count xy.length true) junk))
        ((k + 1) % xy.length) (junk ((k + 1) % xy.length))
    ∧ g_array_index (calculate_control_points L ((xy.length : Int) - 1) xy slackness true
        (g_array_set_size old (segment_count xy.length true) junk)) k (junk k)
      = g_array_index (calculate_control_points L ((xy.length : Int) - 1) xy slackness true
        (g_array_set_size old2 (segment_count xy.length true) junk2)) k (junk2 k) := by
  refine ⟨?_, closed_cell_determined L junk junk2 xy slackness old old2 hn hs0 hs1 k hk⟩
  have hlen2 : (xy.rotate 1).length = xy.length := List.length_rotate xy 1
  have hseg : segment_count xy.length true = xy.length := by simp [segment_count]
  have hpos : 0 < xy.length := by omega
  have hm : (k + 1) % xy.length < xy.length := Nat.mod_lt _ hpos
  have a1 : point_at (xy.rotate 1) k = point_at xy ((k + 1) % xy.length) :=
    point_at_rotate xy k hk
  have a2 : point_at (xy.rotate 1) ((k + 1) % xy.length)
      = point_at xy (((k + 1) % xy.length + 1) % xy.length) :=
    point_at_rotate xy _ hm
  have a3 : point_at (xy.rotate 1) ((k + 2) % xy.length)
      = point_at xy (((k + 1) % xy.length + 2) % xy.length) := by
    rw [point_at_rotate xy _ (Nat.mod_lt _ hpos), Nat.mod_add_mod, Nat.mod_add_mod]
  have a4 : point_at (xy.rotate 1) ((k + (xy.length - 1)) % xy.length)
      = point_at xy (((k + 1) % xy.length + (xy.length - 1)) % xy.length) := by
    rw [point_at_rotate xy _ (Nat.mod_lt _ hpos), Nat.mod_add_mod, Nat.mod_add_mod]
    congr 2
    omega
  by_cases hstr : slackness = 0 ∨ xy.length = 2
  · have hstr2 : slackness = 0 ∨ (xy.rotate 1).length = 2 := by rw [hlen2]; exact hstr
    rw [control_points_straight L junk2 (xy.rotate 1) slackness true old2
        (by rw [hlen2]; exact hn) hstr2 ⟨hs0, hs1⟩ k (by rw [hlen2, hseg]; exact hk),
      control_points_straight L junk xy slackness true old hn hstr ⟨hs0, hs1⟩
        ((k + 1) % xy.length) (by rw [hseg]; exact hm),
      hlen2, a1, a2]
  · have hslk : 0 < slackness := lt_of_le_of_ne hs0 (fun h => hstr (Or.inl h.symm))
    have hlen : 3 ≤ xy.length := by
      rcases Nat.lt_or_ge xy.length 3 with h | h
      · exact absurd (Or.inr (by omega)) hstr
      · exact h
    obtain ⟨hv, hu, _, _⟩ := control_points_general L junk2 (xy.rotate 1) slackness true old2
      (by rw [hlen2]; exact hlen) hslk hs1 k (by rw [hlen2, hseg]; exact hk) _ rfl
    obtain ⟨hv2, hu2, _, _⟩ := control_points_general L junk xy slackness true old hlen hslk
      hs1 ((k + 1) % xy.length) (by rw [hseg]; exact hm) _ rfl
    obtain ⟨hvx, hvy⟩ := hv (Or.inl rfl)
    obtain ⟨hux, huy⟩ := hu (Or.inl rfl)
    obtain ⟨hvx2, hvy2⟩ := hv2 (Or.inl rfl)
    obtain ⟨hux2, huy2⟩ := hu2 (Or.inl rfl)
    rw [hlen2, a1, a2, a3] at hvx hvy
    rw [hlen2, a1, a2, a4] at hux huy
    rw [hlen2]
    exact control_point_ext _ _ (hux.trans hux2.symm) (huy.trans huy2.symm)
      (hvx.trans hvx2.symm) (hvy.trans hvy2.symm)

/-- Witness of C21: the closed triangle `(0,0)`, `(1,0)`, `(1,1)` with
slackness 1 and the pair 2 of the rotated triangle. -/
theorem closed_control_points_rotate_witness :
    g_array_index (calculate_control_points
        (⟨fun x y => Real.sqrt (x*x + y*y), Real.sqrt⟩ : Libm ℝ)
        (((([⟨0, 0⟩, ⟨1, 0⟩, ⟨1, 1⟩] : List (PointXY ℝ)).rotate 1).length : Int) - 1)
        (([⟨0, 0⟩, ⟨1, 0⟩, ⟨1, 1⟩] : List (PointXY ℝ)).rotate 1) 1 true
        (g_array_set_size [] (segment_count
          (([⟨0, 0⟩, ⟨1, 0⟩, ⟨1, 1⟩] : List (PointXY ℝ)).rotate 1).length true)
          (fun _ => ⟨7, 7, 7, 7⟩))) 2 ⟨7, 7, 7, 7⟩
      = g_array_index (calculate_control_points
        (⟨fun x y => Real.sqrt (x*x + y*y), Real.sqrt⟩ : Libm ℝ)
        ((([⟨0, 0⟩, ⟨1, 0⟩, ⟨1, 1⟩] : List (PointXY ℝ)).length : Int) - 1)
        [⟨0, 0⟩, ⟨1, 0⟩, ⟨1, 1⟩] 1 true
        (g_array_set_size [⟨5, 5, 5, 5⟩] (segment_count
          ([⟨0, 0⟩, ⟨1, 0⟩, ⟨1, 1⟩] : List (PointXY ℝ)).length true)
          (fun _ => ⟨9, 9, 9, 9⟩)))
        ((2 + 1) % ([⟨0, 0⟩, ⟨1, 0⟩, ⟨1, 1⟩] : List (PointXY ℝ)).length) ⟨9, 9, 9, 9⟩ :=
  (closed_control_points_rotate (⟨fun x y => Real.sqrt (x*x + y*y), Real.sqrt⟩ : Libm ℝ)
    (fun _ => ⟨9, 9, 9, 9⟩) (fun _ => ⟨7, 7, 7, 7⟩) [⟨0, 0⟩, ⟨1, 0⟩, ⟨1, 1⟩] 1
    [⟨5, 5, 5, 5⟩] [] 2 (by decide) (by norm_num) (by norm_num) (by decide)).1

end Rotation

end Gwy

namespace Gwy

open GwySplineRecurseOutputType

section Division

variable {F : Type} [LinearOrderedField F]

/-! ## The fraction of time of `division_time` -/

/-- An exact `sqrt` does not decrease. -/
theorem Libm.Exact.sqrt_le_sqrt {L : Libm F} (hL : L.Exact) (a b : F) (ha : 0 ≤ a)
    (hab : a ≤ b) : L.sqrt a ≤ L.sqrt b := by
  obtain ⟨_, ha2⟩ := hL.2 a ha
  obtain ⟨hb1, hb2⟩ := hL.2 b (le_trans ha hab)
  by_contra hcon
  push_neg at hcon
  have h5 := mul_self_lt_mul_self hb1 hcon
  linarith

/-- The value of `division_time` on its third branch. -/
theorem division_time_quadratic (L : Libm F) (v0 v1 x : F) (hne : v0 ≠ v1)
    (hge : ¬((v1 - v0)/(v1 + v0) < 1/1000000)) :
    division_time L v0 v1 x
      = (L.sqrt (4*x*((v1 - v0)/(v1 + v0))
            + (1 - (v1 - v0)/(v1 + v0))*(1 - (v1 - v0)/(v1 + v0)))
          - (1 - (v1 - v0)/(v1 + v0)))/(2*((v1 - v0)/(v1 + v0))) := by
  simp only [division_time, if_neg hne, if_neg hge]

/-- The value of `division_time` on its second branch. -/
theorem division_time_linear (L : Libm F) (v0 v1 x : F) (hne : v0 ≠ v1)
    (hlt : (v1 - v0)/(v1 + v0) < 1/1000000) :
    division_time L v0 v1 x = x*(1 + (v1 - v0)/(v1 + v0)*(1 - x)) := by
  simp only [division_time, if_neg hne, if_pos hlt]

/-- C23: on the quadratic branch (`v1 > v0 >= 0` and
`eps = (v1 - v0)/(v1 + v0) >= 1e-6`), for a distance fraction `x` in `[0, 1]`,
`division_time` returns `(sqrt(4*x*eps + (1 - eps)^2) - (1 - eps))/(2*eps)`;
this `tau` satisfies `(1 - eps)*tau + eps*tau^2 = x`, that is
`v0*tau + (v1 - v0)*tau^2/2 = x*(v0 + v1)/2`, and lies in `[0, 1]`. -/
theorem quadratic_branch_inverts {L : Libm F} (hL : L.Exact) (v0 v1 x : F)
    (h0 : 0 ≤ v0) (hlt : v0 < v1) (heps : 1/1000000 ≤ (v1 - v0)/(v1 + v0))
    (hx0 : 0 ≤ x) (hx1 : x ≤ 1) :
    division_time L v0 v1 x
        = (L.sqrt (4*x*((v1 - v0)/(v1 + v0))
              + (1 - (v1 - v0)/(v1 + v0))*(1 - (v1 - v0)/(v1 + v0)))
            - (1 - (v1 - v0)/(v1 + v0)))/(2*((v1 - v0)/(v1 + v0)))
      ∧ (1 - (v1 - v0)/(v1 + v0))*division_time L v0 v1 x
          + (v1 - v0)/(v1 + v0)*(division_time L v0 v1 x*division_time L v0 v1 x) = x
      ∧ v0*division_time L v0 v1 x
          + (v1 - v0)*(division_time L v0 v1 x*division_time L v0 v1 x)/2 = x*(v0 + v1)/2
      ∧ 0 ≤ division_time L v0 v1 x ∧ division_time L v0 v1 x ≤ 1 := by
  have h1 : 0 ≤ v1 := le_trans h0 hlt.le
  have hne : v0 ≠ v1 := ne_of_lt hlt
  have hge : ¬((v1 - v0)/(v1 + v0) < 1/1000000) := not_lt.mpr heps
  obtain ⟨hsum, _, hhi⟩ := division_eps_bounds v0 v1 h0 h1 hne
  have hval := division_time_quadratic L v0 v1 x hne hge
  have hunit := division_time_unit hL v0 v1 x h0 h1 hx0 hx1
  have he : (v1 - v0)/(v1 + v0)*(v1 + v0) = v1 - v0 := div_mul_cancel₀ _ (ne_of_gt hsum)
  generalize (v1 - v0)/(v1 + v0) = eps at heps hhi hval he ⊢
  have hepos : 0 < eps := lt_of_lt_of_le (by norm_num) heps
  have harg : 0 ≤ 4*x*eps + (1 - eps)*(1 - eps) := by
    have := mul_nonneg hx0 hepos.le
    have := mul_self_nonneg (1 - eps)
    linarith
  obtain ⟨_, hs⟩ := hL.2 _ harg
  generalize L.sqrt (4*x*eps + (1 - eps)*(1 - eps)) = s at hs hval
  generalize division_time L v0 v1 x = tau at hval hunit ⊢
  have hT : 2*eps*tau = s - (1 - eps) := by
    rw [hval]
    field_simp
  have hquad : (1 - eps)*tau + eps*(tau*tau) = x := by
    apply mul_left_cancel₀ (ne_of_gt (by linarith : (0 : F) < 4*eps))
    linear_combination (2*eps*tau + (1 - eps) + s)*hT + hs
  refine ⟨hval, hquad, ?_, hunit.1, hunit.2⟩
  linear_combination ((v1 + v0)/2)*hquad + (tau/2 - tau*tau/2)*he

/-- Witness of C23: the speeds 1 and 3 and half the distance. -/
theorem quadratic_branch_inverts_witness :
    (1 - ((3 : ℝ) - 1)/(3 + 1))
          *division_time (⟨fun x y => Real.sqrt (x*x + y*y), Real.sqrt⟩ : Libm ℝ) 1 3 (1/2)
        + ((3 : ℝ) - 1)/(3 + 1)
          *(division_time (⟨fun x y => Real.sqrt (x*x + y*y), Real.sqrt⟩ : Libm ℝ) 1 3 (1/2)
            *division_time (⟨fun x y => Real.sqrt (x*x + y*y), Real.sqrt⟩ : Libm ℝ) 1 3 (1/2))
        = 1/2
      ∧ 0 ≤ division_time (⟨fun x y => Real.sqrt (x*x + y*y), Real.sqrt⟩ : Libm ℝ) 1 3 (1/2)
      ∧ division_time (⟨fun x y => Real.sqrt (x*x + y*y), Real.sqrt⟩ : Libm ℝ) 1 3 (1/2)
          ≤ 1 :=
  ⟨(quadratic_branch_inverts real_libm_exact 1 3 (1/2) (by norm_num) (by norm_num)
      (by norm_num) (by norm_num) (by norm_num)).2.1,
    (division_time_unit real_libm_exact 1 3 (1/2) (by norm_num) (by norm_num)
      (by norm_num) (by norm_num))⟩

/-- The fraction of time does not decrease with the fraction of distance. -/
theorem division_time_mono {L : Libm F} (hL : L.Exact) (v0 v1 x y : F)
    (h0 : 0 ≤ v0) (h1 : 0 ≤ v1) (hx0 : 0 ≤ x) (hxy : x ≤ y) (hy1 : y ≤ 1) :
    division_time L v0 v1 x ≤ division_time L v0 v1 y := by
  by_cases hne : v0 = v1
  · simp only [division_time, if_pos hne]
    exact hxy
  · obtain ⟨hsum, hlo, hhi⟩ := division_eps_bounds v0 v1 h0 h1 hne
    by_cases hlt : (v1 - v0)/(v1 + v0) < 1/1000000
    · rw [division_time_linear L v0 v1 x hne hlt, division_time_linear L v0 v1 y hne hlt]
      generalize (v1 - v0)/(v1 + v0) = eps at hlo hhi
      have hd : 0 ≤ y - x := sub_nonneg.mpr hxy
      have hfac : 0 ≤ 1 + eps*(1 - x - y) := by
        have ha : -1 ≤ 1 - x - y := by linarith
        have hb : 1 - x - y ≤ 1 := by linarith
        have hc : -1 ≤ eps*(1 - x - y) := by
          rcases le_total 0 (1 - x - y) with hs | hs
          · have := mul_nonneg (by linarith : 0 ≤ eps + 1) hs
            linarith
          · have := mul_nonneg (by linarith : 0 ≤ 1 - eps) (by linarith : 0 ≤ -(1 - x - y))
            linarith
        linarith
      have := mul_nonneg hd hfac
      linarith
    · rw [division_time_quadratic L v0 v1 x hne hlt, division_time_quadratic L v0 v1 y hne hlt]
      have he : (1 : F)/1000000 ≤ (v1 - v0)/(v1 + v0) := not_lt.mp hlt
      generalize (v1 - v0)/(v1 + v0) = eps at he
      have hepos : 0 < eps := lt_of_lt_of_le (by norm_num) he
      have harg : 0 ≤ 4*x*eps + (1 - eps)*(1 - eps) := by
        have := mul_nonneg hx0 hepos.le
        have := mul_self_nonneg (1 - eps)
        linarith
      have hle : 4*x*eps + (1 - eps)*(1 - eps) ≤ 4*y*eps + (1 - eps)*(1 - eps) := by
        have := mul_le_mul_of_nonneg_right hxy hepos.le
        linarith
      have hs := hL.sqrt_le_sqrt _ _ harg hle
      apply div_le_div_of_nonneg_right _ (by linarith : (0 : F) ≤ 2*eps)
      linarith

/-- C29: for speeds `v0, v1 >= 0`, `division_time` fixes the distance
fractions 0 and 1, maps `x` in `[0, 1]` into `[0, 1]` and does not decrease
from `x` to `y >= x`; the fraction of time for half the distance lies
strictly between 0 and 1, so the time at which `sample_curve_recurse` divides
an interval `(ta, tb)` lies strictly inside it. -/
theorem division_time_unit_interval {L : Libm F} (hL : L.Exact) (v0 v1 x y ta tb : F)
    (h0 : 0 ≤ v0) (h1 : 0 ≤ v1) (hx0 : 0 ≤ x) (hxy : x ≤ y) (hy1 : y ≤ 1) (hlt : ta < tb) :
    division_time L v0 v1 0 = 0 ∧ division_time L v0 v1 1 = 1
      ∧ 0 ≤ division_time L v0 v1 x ∧ division_time L v0 v1 x ≤ 1
      ∧ division_time L v0 v1 x ≤ division_time L v0 v1 y
      ∧ 0 < division_time L v0 v1 (1/2) ∧ division_time L v0 v1 (1/2) < 1
      ∧ ta < ta*(1 - division_time L v0 v1 (1/2)) + tb*division_time L v0 v1 (1/2)
      ∧ ta*(1 - division_time L v0 v1 (1/2)) + tb*division_time L v0 v1 (1/2) < tb := by
  obtain ⟨hq0, hq1⟩ := division_time_half_bounds hL v0 v1 h0 h1
  obtain ⟨hm0, hm1⟩ := middle_time_between hL v0 v1 ta tb h0 h1 hlt
  obtain ⟨hu0, hu1⟩ := division_time_unit hL v0 v1 x h0 h1 hx0 (le_trans hxy hy1)
  exact ⟨division_time_zero hL v0 v1 h0 h1, division_time_one hL v0 v1 h0 h1, hu0, hu1,
    division_time_mono hL v0 v1 x y h0 h1 hx0 hxy hy1, by linarith, by linarith, hm0, hm1⟩

/-- Witness of C29: the speeds 3 and 1, the fractions 1/4 and 3/4 and the
interval `(0, 1)`. -/
theorem division_time_unit_interval_witness :
    division_time (⟨fun x y => Real.sqrt (x*x + y*y), Real.sqrt⟩ : Libm ℝ) 3 1 0 = 0
      ∧ division_time (⟨fun x y => Real.sqrt (x*x + y*y), Real.sqrt⟩ : Libm ℝ) 3 1 1 = 1
      ∧ 0 ≤ division_time (⟨fun x y => Real.sqrt (x*x + y*y), Real.sqrt⟩ : Libm ℝ) 3 1 (1/4)
      ∧ division_time (⟨fun x y => Real.sqrt (x*x + y*y), Real.sqrt⟩ : Libm ℝ) 3 1 (1/4) ≤ 1
      ∧ division_time (⟨fun x y => Real.sqrt (x*x + y*y), Real.sqrt⟩ : Libm ℝ) 3 1 (1/4)
          ≤ division_time (⟨fun x y => Real.sqrt (x*x + y*y), Real.sqrt⟩ : Libm ℝ) 3 1 (3/4)
      ∧ 0 < division_time (⟨fun x y => Real.sqrt (x*x + y*y), Real.sqrt⟩ : Libm ℝ) 3 1 (1/2)
      ∧ division_time (⟨fun x y => Real.sqrt (x*x + y*y), Real.sqrt⟩ : Libm ℝ) 3 1 (1/2) < 1
      ∧ (0 : ℝ) < 0*(1 - division_time
            (⟨fun x y => Real.sqrt (x*x + y*y), Real.sqrt⟩ : Libm ℝ) 3 1 (1/2))
          + 1*division_time (⟨fun x y => Real.sqrt (x*x + y*y), Real.sqrt⟩ : Libm ℝ) 3 1 (1/2)
      ∧ 0*(1 - division_time
            (⟨fun x y => Real.sqrt (x*x + y*y), Real.sqrt⟩ : Libm ℝ) 3 1 (1/2))
          + 1*division_time (⟨fun x y => Real.sqrt (x*x + y*y), Real.sqrt⟩ : Libm ℝ) 3 1 (1/2)
          < (1 : ℝ) :=
  division_time_unit_interval real_libm_exact 3 1 (1/4) (3/4) 0 1 (by norm_num) (by norm_num)
    (by norm_num) (by norm_num) (by norm_num) (by norm_num)

/-- C22 on the code: the test is `eps < 1e-6`, not `|eps| < 1e-6`.  For the
decelerating speeds `v0 = 3`, `v1 = 1` (`eps = -1/2`) and `x = 1/2`
`division_time` returns the linearised value `x*(1 + eps*(1 - x)) = 3/8`,
which is not the quadratic solution
`(sqrt(4*x*eps + (1 - eps)^2) - (1 - eps))/(2*eps)` and does not satisfy
`(1 - eps)*tau + eps*tau^2 = x`. -/
theorem division_time_decelerating :
    division_time (⟨fun x y => Real.sqrt (x*x + y*y), Real.sqrt⟩ : Libm ℝ) 3 1 (1/2) = 3/8
      ∧ ((1 : ℝ) - 3)/(1 + 3) = -(1/2)
      ∧ (3/8 : ℝ) ≠ (Real.sqrt (4*(1/2)*(-(1/2)) + (1 - -(1/2))*(1 - -(1/2)))
          - (1 - -(1/2)))/(2*(-(1/2)))
      ∧ (1 - -(1/2))*(3/8 : ℝ) + -(1/2)*((3/8)*(3/8)) ≠ 1/2 := by
  refine ⟨?_, by norm_num, ?_, by norm_num⟩
  · rw [division_time_linear _ _ _ _ (by norm_num) (by norm_num)]
    norm_num
  · intro h
    have harg : (0 : ℝ) ≤ 4*(1/2)*(-(1/2)) + (1 - -(1/2))*(1 - -(1/2)) := by norm_num
    have hs := Real.mul_self_sqrt harg
    generalize Real.sqrt (4*(1/2)*(-(1/2)) + (1 - -(1/2))*(1 - -(1/2))) = s at h hs
    have hval : s = 9/8 := by
      field_simp at h
      linarith
    rw [hval] at hs
    norm_num at hs

end Division

end Gwy

namespace Gwy

open GwySplineRecurseOutputType

section Api

variable {F : Type} [LinearOrderedField F]

/-! ## The caches in the reachable states -/

/-- In a reachable state both caches are invalid. -/
theorem reachable_flags (s : GwySpline F) (h : Reachable s) :
    s.natural_sampling_valid = false ∧ s.fixed_sampling_valid = false := by
  induction h with
  | new => exact ⟨rfl, rfl⟩
  | set_points s xy n b _ ih =>
    rcases set_points_cases s xy n b with h | h
    · rw [h.2.2.2]; exact ih
    · rw [h]; exact ⟨rfl, rfl⟩
  | set_slackness s x _ ih =>
    rcases set_slackness_cases s x with h | h
    · rw [h]; exact ih
    · rw [h.2.2]; exact ⟨rfl, rfl⟩
  | set_closed s c _ ih =>
    rcases set_closed_cases s c with h | h
    · rw [h]; exact ih
    · rw [h]; exact ⟨rfl, rfl⟩

/-- C25: in every state reachable from `gwy_spline_new` by the setters
(`gwy_spline_length` and `gwy_spline_sample` do not change the state) both
`natural_sampling_valid` and `fixed_sampling_valid` are false; so
`gwy_spline_length` returns 0, and `gwy_spline_sample` returns 0 and leaves
the buffer `xy` as it was. -/
theorem reachable_caches_invalid (s : GwySpline F) (xy : List (PointXY F)) (n : Nat)
    (h : Reachable s) :
    s.natural_sampling_valid = false ∧ s.fixed_sampling_valid = false
      ∧ gwy_spline_length s = 0 ∧ gwy_spline_sample s xy n = (xy, 0) := by
  obtain ⟨h1, h2⟩ := reachable_flags s h
  refine ⟨h1, h2, ?_, ?_⟩
  · simp [gwy_spline_length, h1]
  · simp [gwy_spline_sample, h2]

/-- Witness of C25: the closed spline through two points with slackness
1/2. -/
theorem reachable_caches_invalid_witness :
    (gwy_spline_set_closed (gwy_spline_set_slackness
        (gwy_spline_set_points (gwy_spline_new : GwySpline ℚ) [⟨0, 0⟩, ⟨3, 4⟩] 2 true) (1/2))
        true).natural_sampling_valid = false
      ∧ (gwy_spline_set_closed (gwy_spline_set_slackness
        (gwy_spline_set_points (gwy_spline_new : GwySpline ℚ) [⟨0, 0⟩, ⟨3, 4⟩] 2 true) (1/2))
        true).fixed_sampling_valid = false
      ∧ gwy_spline_length (gwy_spline_set_closed (gwy_spline_set_slackness
        (gwy_spline_set_points (gwy_spline_new : GwySpline ℚ) [⟨0, 0⟩, ⟨3, 4⟩] 2 true) (1/2))
        true) = 0
      ∧ gwy_spline_sample (gwy_spline_set_closed (gwy_spline_set_slackness
        (gwy_spline_set_points (gwy_spline_new : GwySpline ℚ) [⟨0, 0⟩, ⟨3, 4⟩] 2 true) (1/2))
        true) [⟨9, 9⟩, ⟨9, 9⟩] 2 = ([⟨9, 9⟩, ⟨9, 9⟩], 0) :=
  reachable_caches_invalid _ [⟨9, 9⟩, ⟨9, 9⟩] 2
    (Reachable.set_closed _ true (Reachable.set_slackness _ (1/2)
      (Reachable.set_points _ [⟨0, 0⟩, ⟨3, 4⟩] 2 true Reachable.new)))

end Api

end Gwy

namespace Gwy

open GwySplineRecurseOutputType

section Tangent

variable {F : Type} [LinearOrderedField F]

/-! ## The tangent at the knots -/

/-- C30 as the code has it: on a curve with at least three points and a
slackness in `(0, 1]`, at an interior knot `P = xy[j]` (any knot when the
curve is closed), with `cv` the control points of the segment that ends at
`P` and `cu` those of the segment that starts at `P`: the end velocity
`3*(P - v)` is `3*slackness*(1 - q)` times `cn - cp` and the start velocity
`3*(u - P)` is `3*slackness*q` times `cn - cp`, both factors are not
negative, and the two velocities are equal when the two chords at `P` have
the same nonzero length. -/
theorem knot_tangent_continuous {L : Libm F} (hL : L.Exact) (junk : Nat → ControlPoint F)
    (xy : List (PointXY F)) (slackness : F) (closed : Bool) (old : List (ControlPoint F))
    (j : Nat) (cv cu : ControlPoint F)
    (hn : 3 ≤ xy.length) (hs0 : 0 < slackness) (hs1 : slackness ≤ 1) (hj : j < xy.length)
    (hint : closed = true ∨ (1 ≤ j ∧ j + 1 < xy.length))
    (hcv : cv = g_array_index (calculate_control_points L ((xy.length : Int) - 1) xy
      slackness closed (g_array_set_size old (segment_count xy.length closed) junk))
      ((j + (xy.length - 1)) % xy.length) (junk ((j + (xy.length - 1)) % xy.length)))
    (hcu : cu = g_array_index (calculate_control_points L ((xy.length : Int) - 1) xy
      slackness closed (g_array_set_size old (segment_count xy.length closed) junk))
      j (junk j)) :
    3*((point_at xy j).x - cv.vx)
        = 3*slackness*(1 - knot_ratio L (point_at xy ((j + (xy.length - 1)) % xy.length))
            (point_at xy j) (point_at xy ((j + 1) % xy.length)))
          *(((point_at xy j).x + (point_at xy ((j + 1) % xy.length)).x)/2
            - ((point_at xy ((j + (xy.length - 1)) % xy.length)).x + (point_at xy j).x)/2)
      ∧ 3*((point_at xy j).y - cv.vy)
        = 3*slackness*(1 - knot_ratio L (point_at xy ((j + (xy.length - 1)) % xy.length))
            (point_at xy j) (point_at xy ((j + 1) % xy.length)))
          *(((point_at xy j).y + (point_at xy ((j + 1) % xy.length)).y)/2
            - ((point_at xy ((j + (xy.length - 1)) % xy.length)).y + (point_at xy j).y)/2)
      ∧ 3*(cu.ux - (point_at xy j).x)
        = 3*slackness*knot_ratio L (point_at xy ((j + (xy.length - 1)) % xy.length))
            (point_at xy j) (point_at xy ((j + 1) % xy.length))
          *(((point_at xy j).x + (point_at xy ((j + 1) % xy.length)).x)/2
            - ((point_at xy ((j + (xy.length - 1)) % xy.length)).x + (point_at xy j).x)/2)
      ∧ 3*(cu.uy - (point_at xy j).y)
        = 3*slackness*knot_ratio L (point_at xy ((j + (xy.length - 1)) % xy.length))
            (point_at xy j) (point_at xy ((j + 1) % xy.length))
          *(((point_at xy j).y + (point_at xy ((j + 1) % xy.length)).y)/2
            - ((point_at xy ((j + (xy.length - 1)) % xy.length)).y + (point_at xy j).y)/2)
      ∧ 0 ≤ 3*slackness*(1 - knot_ratio L
          (point_at xy ((j + (xy.length - 1)) % xy.length)) (point_at xy j)
          (point_at xy ((j + 1) % xy.length)))
      ∧ 0 ≤ 3*slackness*knot_ratio L (point_at xy ((j + (xy.length - 1)) % xy.length))
          (point_at xy j) (point_at xy ((j + 1) % xy.length))
      ∧ (L.hypot ((point_at xy ((j + (xy.length - 1)) % xy.length)).x - (point_at xy j).x)
            ((point_at xy ((j + (xy.length - 1)) % xy.length)).y - (point_at xy j).y)
          = L.hypot ((point_at xy j).x - (point_at xy ((j + 1) % xy.length)).x)
            ((point_at xy j).y - (point_at xy ((j + 1) % xy.length)).y) →
        L.hypot ((point_at xy j).x - (point_at xy ((j + 1) % xy.length)).x)
            ((point_at xy j).y - (point_at xy ((j + 1) % xy.length)).y) ≠ 0 →
        3*((point_at xy j).x - cv.vx) = 3*(cu.ux - (point_at xy j).x)
          ∧ 3*((point_at xy j).y - cv.vy) = 3*(cu.uy - (point_at xy j).y)) := by
  have hpos : 0 < xy.length := by omega
  have hk1 : (j + (xy.length - 1)) % xy.length < segment_count xy.length closed := by
    unfold segment_count
    rcases hint with h | h
    · rw [h]
      simp only [if_true, Nat.sub_zero]
      exact Nat.mod_lt _ hpos
    · have e : (j + (xy.length - 1)) % xy.length = j - 1 := by
        rw [show j + (xy.length - 1) = (j - 1) + xy.length by omega, Nat.add_mod_right]
        exact Nat.mod_eq_of_lt (by omega)
      rw [e]
      split <;> omega
  have hk2 : j < segment_count xy.length closed := by
    unfold segment_count
    rcases hint with h | h
    · rw [h]
      simp only [if_true, Nat.sub_zero]
      exact hj
    · split <;> omega
  obtain ⟨hv, _, _, _⟩ := control_points_general L junk xy slackness closed old hn hs0
    hs1 _ hk1 cv hcv
  obtain ⟨_, hu, _, _⟩ := control_points_general L junk xy slackness closed old hn hs0
    hs1 j hk2 cu hcu
  have e1 : ((j + (xy.length - 1)) % xy.length + 1) % xy.length = j := by
    rw [Nat.mod_add_mod, show j + (xy.length - 1) + 1 = j + xy.length by omega,
      Nat.add_mod_right]
    exact Nat.mod_eq_of_lt hj
  have e2 : ((j + (xy.length - 1)) % xy.length + 2) % xy.length = (j + 1) % xy.length := by
    rw [Nat.mod_add_mod, show j + (xy.length - 1) + 2 = j + 1 + xy.length by omega,
      Nat.add_mod_right]
  have hv2 := hv (by
    rcases hint with h | h
    · exact Or.inl h
    · right
      have e : (j + (xy.length - 1)) % xy.length = j - 1 := by
        rw [show j + (xy.length - 1) = (j - 1) + xy.length by omega, Nat.add_mod_right]
        exact Nat.mod_eq_of_lt (by omega)
      rw [e]
      omega)
  have hu2 := hu (by
    rcases hint with h | h
    · exact Or.inl h
    · exact Or.inr h.1)
  rw [e1, e2] at hv2
  obtain ⟨hvx, hvy⟩ := hv2
  obtain ⟨hux, huy⟩ := hu2
  simp only [knot_cv_prev, interpolate_cv_prev] at hvx hvy
  simp only [knot_cu_next, interpolate_cu_next] at hux huy
  obtain ⟨hq0, hq1⟩ := knot_ratio_bounds hL (point_at xy ((j + (xy.length - 1)) % xy.length))
    (point_at xy j) (point_at xy ((j + 1) % xy.length))
  have hq : L.hypot ((point_at xy ((j + (xy.length - 1)) % xy.length)).x - (point_at xy j).x)
        ((point_at xy ((j + (xy.length - 1)) % xy.length)).y - (point_at xy j).y)
      = L.hypot ((point_at xy j).x - (point_at xy ((j + 1) % xy.length)).x)
        ((point_at xy j).y - (point_at xy ((j + 1) % xy.length)).y) →
      L.hypot ((point_at xy j).x - (point_at xy ((j + 1) % xy.length)).x)
        ((point_at xy j).y - (point_at xy ((j + 1) % xy.length)).y) ≠ 0 →
      knot_ratio L (point_at xy ((j + (xy.length - 1)) % xy.length)) (point_at xy j)
        (point_at xy ((j + 1) % xy.length)) = 1/2 := by
    intro heq hne
    simp only [knot_ratio, heq]
    generalize L.hypot ((point_at xy j).x - (point_at xy ((j + 1) % xy.length)).x)
      ((point_at xy j).y - (point_at xy ((j + 1) % xy.length)).y) = d at hne
    have h2 : d + d ≠ 0 := by
      intro h
      apply hne
      linarith
    rw [if_neg h2]
    field_simp
    ring
  generalize knot_ratio L (point_at xy ((j + (xy.length - 1)) % xy.length)) (point_at xy j)
    (point_at xy ((j + 1) % xy.length)) = q at hvx hvy hux huy hq0 hq1 hq ⊢
  refine ⟨by rw [hvx]; ring, by rw [hvy]; ring, by rw [hux]; ring, by rw [huy]; ring,
    ?_, ?_, ?_⟩
  · have : 0 ≤ 1 - q := sub_nonneg.mpr hq1
    positivity
  · positivity
  · intro heq hne
    have hqv := hq heq hne
    rw [hvx, hvy, hux, huy, hqv]
    constructor <;> ring

/-- Witness of C30 as the code has it: the knot `(0,0)` of the closed
triangle `(0,0)`, `(1,0)`, `(1,1)` with slackness 1. -/
theorem knot_tangent_continuous_witness :
    ∃ cv cu : ControlPoint ℝ,
      cv = g_array_index (calculate_control_points
          (⟨fun x y => Real.sqrt (x*x + y*y), Real.sqrt⟩ : Libm ℝ)
          ((([⟨0, 0⟩, ⟨1, 0⟩, ⟨1, 1⟩] : List (PointXY ℝ)).length : Int) - 1)
          [⟨0, 0⟩, ⟨1, 0⟩, ⟨1, 1⟩] 1 true
          (g_array_set_size [] (segment_count
            ([⟨0, 0⟩, ⟨1, 0⟩, ⟨1, 1⟩] : List (PointXY ℝ)).length true)
            (fun _ => ⟨7, 7, 7, 7⟩))) 2 ⟨7, 7, 7, 7⟩
      ∧ cu = g_array_index (calculate_control_points
          (⟨fun x y => Real.sqrt (x*x + y*y), Real.sqrt⟩ : Libm ℝ)
          ((([⟨0, 0⟩, ⟨1, 0⟩, ⟨1, 1⟩] : List (PointXY ℝ)).length : Int) - 1)
          [⟨0, 0⟩, ⟨1, 0⟩, ⟨1, 1⟩] 1 true
          (g_array_set_size [] (segment_count
            ([⟨0, 0⟩, ⟨1, 0⟩, ⟨1, 1⟩] : List (PointXY ℝ)).length true)
            (fun _ => ⟨7, 7, 7, 7⟩))) 0 ⟨7, 7, 7, 7⟩
      ∧ 3*((0 : ℝ) - cv.vx)
        = 3*1*(1 - knot_ratio (⟨fun x y => Real.sqrt (x*x + y*y), Real.sqrt⟩ : Libm ℝ)
            ⟨1, 1⟩ ⟨0, 0⟩ ⟨1, 0⟩)*((0 + 1)/2 - (1 + 0)/2)
      ∧ 3*(cu.ux - (0 : ℝ))
        = 3*1*knot_ratio (⟨fun x y => Real.sqrt (x*x + y*y), Real.sqrt⟩ : Libm ℝ)
            ⟨1, 1⟩ ⟨0, 0⟩ ⟨1, 0⟩*((0 + 1)/2 - (1 + 0)/2) :=
  ⟨_, _, rfl, rfl,
    (knot_tangent_continuous real_libm_exact (fun _ => ⟨7, 7, 7, 7⟩)
      [⟨0, 0⟩, ⟨1, 0⟩, ⟨1, 1⟩] 1 true [] 0 _ _ (by decide) (by norm_num) (by norm_num)
      (by decide) (Or.inl rfl) rfl rfl).1,
    (knot_tangent_continuous real_libm_exact (fun _ => ⟨7, 7, 7, 7⟩)
      [⟨0, 0⟩, ⟨1, 0⟩, ⟨1, 1⟩] 1 true [] 0 _ _ (by decide) (by norm_num) (by norm_num)
      (by decide) (Or.inl rfl) rfl rfl).2.2.1⟩

/-- C30 as stated fails on the closed curve through the two points `(0,0)`,
`(1,0)` with slackness 1, which has two segments: at the knot `(1,0)` the end
velocity of the segment that arrives is `(1, 0)`, the start velocity of the
segment that leaves is `(-1, 0)`, and `cn - cp` is zero, so they are not
multiples of it. -/
theorem two_point_loop_tangent :
    ∃ cv cu : ControlPoint ℝ,
      cv = g_array_index (calculate_control_points
          (⟨fun x y => Real.sqrt (x*x + y*y), Real.sqrt⟩ : Libm ℝ)
          ((([⟨0, 0⟩, ⟨1, 0⟩] : List (PointXY ℝ)).length : Int) - 1)
          [⟨0, 0⟩, ⟨1, 0⟩] 1 true
          (g_array_set_size [] (segment_count
            ([⟨0, 0⟩, ⟨1, 0⟩] : List (PointXY ℝ)).length true)
            (fun _ => ⟨7, 7, 7, 7⟩))) 0 ⟨7, 7, 7, 7⟩
      ∧ cu = g_array_index (calculate_control_points
          (⟨fun x y => Real.sqrt (x*x + y*y), Real.sqrt⟩ : Libm ℝ)
          ((([⟨0, 0⟩, ⟨1, 0⟩] : List (PointXY ℝ)).length : Int) - 1)
          [⟨0, 0⟩, ⟨1, 0⟩] 1 true
          (g_array_set_size [] (segment_count
            ([⟨0, 0⟩, ⟨1, 0⟩] : List (PointXY ℝ)).length true)
            (fun _ => ⟨7, 7, 7, 7⟩))) 1 ⟨7, 7, 7, 7⟩
      ∧ 3*((1 : ℝ) - cv.vx) = 1 ∧ 3*((0 : ℝ) - cv.vy) = 0
      ∧ 3*(cu.ux - (1 : ℝ)) = -1 ∧ 3*(cu.uy - (0 : ℝ)) = 0
      ∧ ¬∃ a b : ℝ, 0 ≤ a ∧ 0 ≤ b
          ∧ 3*((1 : ℝ) - cv.vx) = a*((1 + 0)/2 - (0 + 1)/2)
          ∧ 3*(cu.ux - (1 : ℝ)) = b*((1 + 0)/2 - (0 + 1)/2) := by
  have h0 := control_points_straight (⟨fun x y => Real.sqrt (x*x + y*y), Real.sqrt⟩ : Libm ℝ)
    (fun _ => ⟨7, 7, 7, 7⟩) [⟨0, 0⟩, ⟨1, 0⟩] 1 true [] (by decide) (Or.inr rfl)
    ⟨by norm_num, by norm_num⟩ 0 (by decide)
  have h1 := control_points_straight (⟨fun x y => Real.sqrt (x*x + y*y), Real.sqrt⟩ : Libm ℝ)
    (fun _ => ⟨7, 7, 7, 7⟩) [⟨0, 0⟩, ⟨1, 0⟩] 1 true [] (by decide) (Or.inr rfl)
    ⟨by norm_num, by norm_num⟩ 1 (by decide)
  refine ⟨_, _, rfl, rfl, ?_, ?_, ?_, ?_, ?_⟩
  · rw [h0]
    simp only [interpolate_straight_line, point_at, g_array_index, List.length_cons,
      List.length_nil]
    norm_num
  · rw [h0]
    simp only [interpolate_straight_line, point_at, g_array_index, List.length_cons,
      List.length_nil]
    norm_num
  · rw [h1]
    simp only [interpolate_straight_line, point_at, g_array_index, List.length_cons,
      List.length_nil]
    norm_num
  · rw [h1]
    simp only [interpolate_straight_line, point_at, g_array_index, List.length_cons,
      List.length_nil]
    norm_num
  · rintro ⟨a, b, _, _, ha, _⟩
    rw [h0] at ha
    simp only [interpolate_straight_line, point_at, g_array_index, List.length_cons,
      List.length_nil] at ha
    norm_num at ha

end Tangent

end Gwy

namespace Gwy

open GwySplineRecurseOutputType

section Shape

variable {F : Type} [LinearOrderedField F]

/-! ## The shape of the natural sampling -/

/-- Times of consecutive pairs of a natural sampling increase strictly. -/
theorem natural_time_step {L : Libm F} {junk : Nat → ControlPoint F}
    {spline : GwySpline F} {max_dev max_vrdev : F} {p : List (PointXY F)}
    (h : NaturalSampling L junk spline max_dev max_vrdev p) :
    ∀ j, 1 ≤ j → j < p.length → (point_at p (j - 1)).x < (point_at p j).x := by
  obtain ⟨_, _, hstep, _⟩ := natural_sampling_index h
  intro j hj1 hj2
  obtain ⟨k, ta, tb, _, _, _, hx0, hx1, hleaf⟩ := hstep j hj1 hj2
  have := hleaf.1
  rw [hx0, hx1]
  linarith

/-- Times of a natural sampling increase strictly with the index. -/
theorem natural_time_lt {L : Libm F} {junk : Nat → ControlPoint F}
    {spline : GwySpline F} {max_dev max_vrdev : F} {p : List (PointXY F)}
    (h : NaturalSampling L junk spline max_dev max_vrdev p) :
    ∀ (d j : Nat), j + d + 1 < p.length → (point_at p j).x < (point_at p (j + d + 1)).x := by
  have hstep := natural_time_step h
  intro d
  induction d with
  | zero =>
    intro j hj
    have := hstep (j + 1) (by omega) (by omega)
    simpa using this
  | succ d ih =>
    intro j hj
    have h1 := ih j (by omega)
    have h2 := hstep (j + (d + 1) + 1) (by omega) hj
    have h3 : j + (d + 1) + 1 - 1 = j + d + 1 := by omega
    rw [h3] at h2
    linarith

/-- Every knot time `m` from 1 to the number of segments is the time of a
pair of the natural sampling; the pair before it lies in segment `m - 1`. -/
theorem natural_knot_hit {L : Libm F} {junk : Nat → ControlPoint F}
    {spline : GwySpline F} {max_dev max_vrdev : F} {p : List (PointXY F)}
    (h : NaturalSampling L junk spline max_dev max_vrdev p) (m : Nat)
    (hm : m < segment_count spline.points.length spline.closed) :
    ∃ (j : Nat) (ta : F), 1 ≤ j ∧ j < p.length ∧ (point_at p j).x = (m : F) + 1
      ∧ 0 ≤ ta ∧ ta < 1 ∧ (point_at p (j - 1)).x = (m : F) + ta
      ∧ Leaf L (segment_params junk spline max_dev max_vrdev m) ta 1
          ((point_at p j).y - (point_at p (j - 1)).y) := by
  classical
  obtain ⟨hlen, hp0, hstep, hlast⟩ := natural_sampling_index h
  have hex : ∃ j, j < p.length ∧ (m : F) + 1 ≤ (point_at p j).x := by
    refine ⟨p.length - 1, by omega, ?_⟩
    rw [hlast]
    exact_mod_cast hm
  have hj := Nat.find_spec hex
  have hmin := fun i (hi : i < Nat.find hex) => Nat.find_min hex hi
  generalize Nat.find hex = j at hj hmin
  have hm0 : (0 : F) ≤ (m : F) := Nat.cast_nonneg m
  have hj1 : 1 ≤ j := by
    rcases Nat.eq_zero_or_pos j with h0 | h0
    · rw [h0, hp0] at hj
      have := hj.2
      simp only [] at this
      linarith
    · exact h0
  have hprev : (point_at p (j - 1)).x < (m : F) + 1 := by
    by_contra hc
    exact hmin (j - 1) (by omega) ⟨by omega, not_lt.mp hc⟩
  obtain ⟨k, ta, tb, hk, hta, htb, hx0, hx1, hleaf⟩ := hstep j hj1 hj.1
  have hlt := hleaf.1
  rw [hx0] at hprev
  have hge := hj.2
  rw [hx1] at hge
  have hk1 : (k : F) < (m : F) + 1 := by linarith
  have hk2 : k < m + 1 := by exact_mod_cast hk1
  have hk3 : (m : F) < (k : F) + 1 := by linarith
  have hk4 : m < k + 1 := by exact_mod_cast hk3
  have hkm : k = m := by omega
  subst hkm
  have htb1 : tb = 1 := by linarith
  subst htb1
  exact ⟨j, ta, hj1, hj.1, hx1, hta, hlt, hx0, hleaf⟩

/-- A tiling of two pairs or more starts with a pair strictly inside the
interval. -/
theorem tiling_head_interior {R : F → F → F → Prop} (hR : ∀ a b y, R a b y → a < b)
    {ta tb : F} {l : List (PointXY F)} (h : Tiling R ta tb l) (h2 : 2 ≤ l.length) :
    ∃ (tm y : F) (l2 : List (PointXY F)), l = ⟨tm, y⟩ :: l2 ∧ ta < tm ∧ tm < tb := by
  cases h with
  | single ta tb y hr => simp at h2
  | cons ta tm tb y l hr ht => exact ⟨tm, y, l, rfl, hR _ _ _ hr, tiling_lt hR ht⟩

/-- The loop of `sample_curve` over the segments appends, for every segment
it visits, a pair whose time lies strictly inside the segment. -/
theorem segments_interior {L : Libm F} (hL : L.Exact) (fuel : Nat) (junk : Nat → ControlPoint F)
    (spline : GwySpline F) (max_dev max_vrdev : F) :
    ∀ (rem i : Nat) (pt : PointXY F) (pre : List (PointXY F)) (a : PointXY F)
      (p2 : List (PointXY F)),
      1 ≤ i → i + rem = segment_count spline.points.length spline.closed + 1 →
      (rem ≠ 0 → pt = point_at spline.points (i - 1)) →
      a.x = (i : F) - 1 →
      sample_curve_segments L fuel junk spline max_dev max_vrdev CURVE_RECURSE_OUTPUT_T_L
        rem i pt (pre ++ [a]) = some p2 →
      ∀ k, i ≤ k + 1 → k < segment_count spline.points.length spline.closed →
        ∃ e, e ∈ p2 ∧ (k : F) < e.x ∧ e.x < (k : F) + 1 := by
  intro rem
  induction rem with
  | zero =>
    intro i pt pre a p2 hi hrem _ ha h k hk1 hk2
    omega
  | succ rem ih =>
    intro i pt pre a p2 hi hrem hpt ha h k hk1 hk2
    have hpt2 := hpt (by omega)
    subst hpt2
    rw [segments_unfold] at h
    have hle := segment_count_le spline.points.length spline.closed
    have hidx := next_point_index spline.points.length i hi (by omega)
    have hpt1 : (if i = spline.points.length then point_at spline.points 0
        else point_at spline.points i)
        = point_at spline.points ((i - 1 + 1) % spline.points.length) := by
      rw [← hidx]
      split <;> rfl
    rw [hpt1] at h
    cases hrec : sample_curve_recurse L fuel
        { pt0 := point_at spline.points (i - 1)
          pt1 := point_at spline.points ((i - 1 + 1) % spline.points.length)
          uv := g_array_index spline.control_points (i - 1) (junk (i - 1))
          max_dev := max_dev, max_vrdev := max_vrdev, points := pre ++ [a]
          otype := CURVE_RECURSE_OUTPUT_T_L, depth := 0 }
        (segment_item L (point_at spline.points (i - 1))
          (point_at spline.points ((i - 1 + 1) % spline.points.length))
          (g_array_index spline.control_points (i - 1) (junk (i - 1))) 0)
        (segment_item L (point_at spline.points (i - 1))
          (point_at spline.points ((i - 1 + 1) % spline.points.length))
          (g_array_index spline.control_points (i - 1) (junk (i - 1))) 1) with
    | none => simp [hrec] at h
    | some r =>
      simp only [hrec] at h
      obtain ⟨new, hr, htil, hlen⟩ := recurse_spec hL fuel _ r 0 1 rfl (by norm_num) hrec
      have hlen2 : 2 ≤ new.length := hlen rfl
      subst hr
      simp only [if_true] at h
      have hacc := accumulate_spec (F := F) i new pre a
      have hl1 : (pre ++ [a] ++ new).length - (pre ++ [a]).length = new.length := by
        simp only [List.length_append, List.length_singleton]
        omega
      have hl2 : (pre ++ [a]).length = pre.length + 1 := by simp
      rw [hl1, hl2, hacc] at h
      have hik : (i : F) - 1 = ((i - 1 : ℕ) : F) := by
        rw [Nat.cast_sub hi]; simp
      obtain ⟨hchain, init, z, hz, hzx⟩ := accumulated_chain junk spline max_dev max_vrdev _ i
        (i - 1) hik (by omega) (leaf_congr L _ _ rfl rfl rfl rfl rfl) htil a (le_refl 0)
        (le_refl 1) (by rw [ha, hik]; ring)
      obtain ⟨tm, y, l2, hnew, htm0, htm1⟩ :=
        tiling_head_interior (fun a b y h => h.1) htil hlen2
      have hmem : (⟨tm + ((i : F) - 1), y + a.y⟩ : PointXY F) ∈ accumulated i a.y new := by
        rw [hnew]
        simp [accumulated]
      rw [hz, ← List.append_assoc] at h
      have hi1 : 1 ≤ i + 1 := by omega
      have hzi : z.x = ((i + 1 : ℕ) : F) - 1 := by
        rw [hzx, ← hik]; push_cast; ring
      have hpt3 : rem ≠ 0 → point_at spline.points ((i - 1 + 1) % spline.points.length)
          = point_at spline.points (i + 1 - 1) := by
        intro _
        have h5 : (i - 1 + 1) % spline.points.length = i := by
          rw [Nat.sub_add_cancel hi, Nat.mod_eq_of_lt (by omega)]
        simp [h5]
      by_cases hki : k + 1 = i
      · obtain ⟨new2, _, _, hp2, _, _, _, _⟩ :=
          segments_spec hL fuel junk spline max_dev max_vrdev rem (i + 1) _
            (pre ++ [a] ++ init) z p2 hi1 (by omega) hpt3 hzi h
        refine ⟨⟨tm + ((i : F) - 1), y + a.y⟩, ?_, ?_, ?_⟩
        · rw [hz] at hmem
          rw [hp2]
          simp only [List.mem_append] at hmem ⊢
          rcases hmem with hm | hm
          · exact Or.inl (Or.inl (Or.inr hm))
          · exact Or.inl (Or.inr hm)
        · have hkF : (k : F) = (i : F) - 1 := by
            rw [← hki]; push_cast; ring
          simp only []
          linarith
        · have hkF : (k : F) = (i : F) - 1 := by
            rw [← hki]; push_cast; ring
          simp only []
          linarith
      · exact ih (i + 1) _ (pre ++ [a] ++ init) z p2 hi1 (by omega) hpt3 hzi h k
          (by omega) hk2

/-- Sum of the consecutive differences of a sequence. -/
theorem sum_range_differences (f : Nat → F) :
    ∀ n, ((List.range n).map (fun j => f (j + 1) - f j)).sum = f n - f 0 := by
  intro n
  induction n with
  | zero => simp
  | succ n ih =>
    rw [List.range_succ, List.map_append, List.sum_append, ih]
    simp

/-- With slackness 0 (or two points) the control points that `sample_curve`
stores are those of straight segments. -/
theorem straight_cells (L : Libm F) (junk : Nat → ControlPoint F) (s s2 : GwySpline F)
    (hpts : 2 ≤ s.points.length) (hstr : s.slackness = 0 ∨ s.points.length = 2)
    (hs : 0 ≤ s.slackness ∧ s.slackness ≤ 1)
    (hs2 : s2 = { s with control_points :=
        (calculate_control_points L ((s.points.length : Int) - 1) s.points
          s.slackness s.closed
          (g_array_set_size s.control_points
            (segment_count s.points.length s.closed) junk)) }) :
    ∀ k, k < segment_count s2.points.length s2.closed →
      g_array_index s2.control_points k (junk k)
        = interpolate_straight_line (point_at s2.points k)
            (point_at s2.points ((k + 1) % s2.points.length)) ⟨0, 0, 0, 0⟩ := by
  have hp2 : s2.points = s.points := by rw [hs2]
  have hc2 : s2.closed = s.closed := by rw [hs2]
  intro k hk
  rw [hp2, hc2] at hk
  rw [hp2, hs2]
  exact control_points_straight L junk s.points s.slackness s.closed s.control_points
    hpts hstr hs k hk

/-- With slackness 0 (or two points) the recursion returns on every segment
with two levels of fuel. -/
theorem straight_segments_return {L : Libm F} (hL : L.Exact) (junk : Nat → ControlPoint F)
    (s s2 : GwySpline F) (fuel : Nat)
    (hpts : 2 ≤ s.points.length) (hstr : s.slackness = 0 ∨ s.points.length = 2)
    (hs : 0 ≤ s.slackness ∧ s.slackness ≤ 1) (hfuel : 2 ≤ fuel)
    (hs2 : s2 = { s with control_points :=
        (calculate_control_points L ((s.points.length : Int) - 1) s.points
          s.slackness s.closed
          (g_array_set_size s.control_points
            (segment_count s.points.length s.closed) junk)) }) :
    ∀ k, k < segment_count s2.points.length s2.closed →
      ∀ pts : List (PointXY F), ∃ r, sample_curve_recurse L fuel
        { segment_params junk s2 G_MAXDOUBLE (1/100) k with points := pts }
        (segment_item L (point_at s2.points k)
          (point_at s2.points ((k + 1) % s2.points.length))
          (g_array_index s2.control_points k (junk k)) 0)
        (segment_item L (point_at s2.points k)
          (point_at s2.points ((k + 1) % s2.points.length))
          (g_array_index s2.control_points k (junk k)) 1) = some r := by
  intro k hk pts
  exact recurse_straight_returns hL _ ⟨0, 0, 0, 0⟩
    (by simp only [segment_params]; exact straight_cells L junk s s2 hpts hstr hs hs2 k hk)
    G_MAXDOUBLE_nonneg (by simp only [segment_params]; norm_num) rfl fuel hfuel 0 1

/-- With slackness 0 (or two points) `sample_curve` returns with two levels
of fuel. -/
theorem straight_natural_returns {L : Libm F} (hL : L.Exact) (junk : Nat → ControlPoint F)
    (s : GwySpline F) (fuel : Nat)
    (hpts : 2 ≤ s.points.length) (hstr : s.slackness = 0 ∨ s.points.length = 2)
    (hs : 0 ≤ s.slackness ∧ s.slackness ≤ 1) (hfuel : 2 ≤ fuel) :
    ∃ (s2 : GwySpline F) (p : List (PointXY F)),
      sample_curve L fuel junk s G_MAXDOUBLE (1/100) CURVE_RECURSE_OUTPUT_T_L = some (s2, p) := by
  obtain ⟨p, hp⟩ := sample_curve_returns L fuel junk s _ G_MAXDOUBLE (1/100) hpts rfl
    (straight_segments_return hL junk s _ fuel hpts hstr hs hfuel rfl)
  exact ⟨_, p, hp⟩

end Shape

end Gwy

namespace Gwy

open GwySplineRecurseOutputType

section Natural

variable {F : Type} [LinearOrderedField F]

/-! ## The natural sampling that `sample_curve` returns -/

/-- A returning `sample_curve` has, for every segment, a pair whose time lies
strictly inside the segment. -/
theorem sample_curve_interior {L : Libm F} (hL : L.Exact) (fuel : Nat)
    (junk : Nat → ControlPoint F) (spline s2 : GwySpline F) (max_dev max_vrdev : F)
    (p : List (PointXY F)) (hn : 2 ≤ spline.points.length)
    (h : sample_curve L fuel junk spline max_dev max_vrdev CURVE_RECURSE_OUTPUT_T_L
      = some (s2, p)) :
    ∀ k, k < segment_count spline.points.length spline.closed →
      ∃ e, e ∈ p ∧ (k : F) < e.x ∧ e.x < (k : F) + 1 := by
  unfold sample_curve at h
  have h0 : spline.points.length ≠ 0 := by omega
  have h1 : spline.points.length ≠ 1 := by omega
  simp only [h0, h1, if_false] at h
  cases hseg : sample_curve_segments L fuel junk
      { spline with control_points :=
        (calculate_control_points L ((spline.points.length : Int) - 1) spline.points
          spline.slackness spline.closed
          (g_array_set_size spline.control_points
            (spline.points.length - (if spline.closed then 0 else 1)) junk)) }
      max_dev max_vrdev CURVE_RECURSE_OUTPUT_T_L
      (spline.points.length - (if spline.closed then 0 else 1)) 1
      (point_at spline.points 0) [⟨0, 0⟩] with
  | none => simp [hseg] at h
  | some p2 =>
    simp only [hseg, Option.some.injEq, Prod.mk.injEq] at h
    obtain ⟨hs2, hp⟩ := h
    subst hp
    intro k hk
    have hspec := segments_interior hL fuel junk s2 max_dev max_vrdev
      (segment_count spline.points.length spline.closed) 1 (point_at spline.points 0) []
      ⟨0, 0⟩ p2 (le_refl 1)
    rw [← hs2] at hspec
    exact hspec (by simp only []; omega) (fun _ => rfl) (by simp) hseg k (by omega) hk

/-- C28: when `sample_curve` returns in `(t, l)` mode on a spline with at
least two points, the natural sampling `p` starts with `(0, 0)`, its times
increase strictly and its cumulative lengths do not decrease.  Every segment
`k` has at least two pairs: one with a time strictly between `k` and `k + 1`
and a later one with the time `k + 1`, since an interval at depth 0 is never
accepted.  The last pair has the time `nseg`, and its length is the total
curve length that the code accumulates: the first length is 0 and every
increase is the length emitted for one interval of a segment, so the last
length is the sum of these. -/
theorem natural_sampling_shape {L : Libm F} (hL : L.Exact) (fuel : Nat)
    (junk : Nat → ControlPoint F) (spline s2 : GwySpline F) (max_dev max_vrdev : F)
    (p : List (PointXY F)) (hn : 2 ≤ spline.points.length)
    (h : sample_curve L fuel junk spline max_dev max_vrdev CURVE_RECURSE_OUTPUT_T_L
      = some (s2, p)) :
    point_at p 0 = ⟨0, 0⟩
      ∧ (∀ j, 1 ≤ j → j < p.length → (point_at p (j - 1)).x < (point_at p j).x)
      ∧ (∀ j, 1 ≤ j → j < p.length → (point_at p (j - 1)).y ≤ (point_at p j).y)
      ∧ (∀ k, k < segment_count spline.points.length spline.closed →
          ∃ j1 j2, j1 < j2 ∧ j2 < p.length
            ∧ (k : F) < (point_at p j1).x ∧ (point_at p j1).x < (k : F) + 1
            ∧ (point_at p j2).x = (k : F) + 1)
      ∧ (∀ (cparam : GwySplineSampleParams F) (c0 c1 : GwySplineSampleItem F),
          cparam.depth = 0 → sample_curve_accept L cparam c0 c1 = false)
      ∧ 2*segment_count spline.points.length spline.closed + 1 ≤ p.length
      ∧ (point_at p (p.length - 1)).x
          = (segment_count spline.points.length spline.closed : F)
      ∧ (∀ j, 1 ≤ j → j < p.length →
          NatStep L junk s2 max_dev max_vrdev (point_at p (j - 1)) (point_at p j))
      ∧ (point_at p (p.length - 1)).y
          = ((List.range (p.length - 1)).map (fun j =>
              (point_at p (j + 1)).y - (point_at p j).y)).sum := by
  obtain ⟨hs2, hnat⟩ := sample_curve_spec hL fuel junk spline s2 max_dev max_vrdev p hn h
  have hp2 : s2.points = spline.points := by rw [hs2]
  have hc2 : s2.closed = spline.closed := by rw [hs2]
  obtain ⟨hlen, hp0, hstep, hlast⟩ := natural_sampling_index hnat
  rw [hp2, hc2] at hlen hlast
  have hmono := natural_length_mono hL hnat
  have hint := sample_curve_interior hL fuel junk spline s2 max_dev max_vrdev p hn h
  refine ⟨hp0, natural_time_step hnat, ?_, ?_, ?_, hlen, hlast, hstep, ?_⟩
  · intro j hj1 hj2
    have := hmono 1 (j - 1) (by omega)
    rwa [Nat.sub_add_cancel hj1] at this
  · intro k hk
    obtain ⟨e, he, hx0, hx1⟩ := hint k hk
    obtain ⟨j1, hj1, hget⟩ := List.mem_iff_getElem.mp he
    have hpa : point_at p j1 = e := by
      rw [← hget]
      simp [point_at, g_array_index, List.getD_eq_getElem?_getD, hj1]
    obtain ⟨j2, ta, hj21, hj22, hx2, _, _, _, _⟩ :=
      natural_knot_hit hnat k (by rw [hp2, hc2]; exact hk)
    refine ⟨j1, j2, ?_, hj22, by rw [hpa]; exact hx0, by rw [hpa]; exact hx1, hx2⟩
    by_contra hc
    have hle : j2 ≤ j1 := by omega
    rcases Nat.eq_or_lt_of_le hle with heq | hlt
    · rw [heq, hpa] at hx2
      linarith
    · have := natural_time_lt hnat (j1 - j2 - 1) j2 (by omega)
      have e3 : j2 + (j1 - j2 - 1) + 1 = j1 := by omega
      rw [e3, hpa, hx2] at this
      linarith
  · intro cparam c0 c1 hd
    simp [sample_curve_accept, hd]
  · have := sum_range_differences (fun j => (point_at p j).y) (p.length - 1)
    rw [this, hp0]
    simp

/-- Witness of C28: the open curve through `(0,0)` and `(3,4)`. -/
theorem natural_sampling_shape_witness :
    ∃ (s2 : GwySpline ℝ) (p : List (PointXY ℝ)),
      sample_curve (⟨fun x y => Real.sqrt (x*x + y*y), Real.sqrt⟩ : Libm ℝ) 2
          (fun _ => ⟨7, 7, 7, 7⟩)
          { points := [⟨0, 0⟩, ⟨3, 4⟩], slackness := 1/2, closed := false,
            natural_sampling_valid := false, control_points := [], natural_points := [],
            length := 0, fixed_sampling_valid := false, nfixed := 0, fixed_samples := [] }
          G_MAXDOUBLE (1/100) CURVE_RECURSE_OUTPUT_T_L = some (s2, p)
        ∧ point_at p 0 = ⟨0, 0⟩
        ∧ (∀ j, 1 ≤ j → j < p.length → (point_at p (j - 1)).x < (point_at p j).x)
        ∧ (∀ j, 1 ≤ j → j < p.length → (point_at p (j - 1)).y ≤ (point_at p j).y)
        ∧ (∃ j1 j2, j1 < j2 ∧ j2 < p.length
            ∧ (0 : ℝ) < (point_at p j1).x ∧ (point_at p j1).x < 1
            ∧ (point_at p j2).x = 1)
        ∧ (point_at p (p.length - 1)).x = 1 := by
  obtain ⟨s2, p, hp⟩ := straight_natural_returns real_libm_exact (fun _ => ⟨7, 7, 7, 7⟩)
    { points := [⟨0, 0⟩, ⟨3, 4⟩], slackness := 1/2, closed := false,
      natural_sampling_valid := false, control_points := [], natural_points := [],
      length := 0, fixed_sampling_valid := false, nfixed := 0, fixed_samples := [] }
    2 (by decide) (Or.inr rfl) ⟨by norm_num, by norm_num⟩ (le_refl 2)
  have h := natural_sampling_shape real_libm_exact 2 (fun _ => ⟨7, 7, 7, 7⟩) _ s2
    G_MAXDOUBLE (1/100) p (by decide) hp
  refine ⟨s2, p, hp, h.1, h.2.1, h.2.2.1, ?_, ?_⟩
  · simpa using h.2.2.2.1 0 (by decide)
  · simpa [segment_count] using h.2.2.2.2.2.2.1

end Natural

end Gwy

namespace Gwy

open GwySplineRecurseOutputType

section Scan

variable {F : Type} [LinearOrderedField F]

/-! ## The scan of the natural sampling in `sample_curve_uniformly` -/

/-- The scans of the main loop of `sample_curve_uniformly`.  When the
cumulative length at some index `jl` is not below any target position and the
targets do not decrease, the loop returns; the scan of sample `k` starts where
the scan of sample `k - 1` stopped and stops at an index `J k` of `p` whose
bracket holds the target. -/
theorem uniform_loop_scan [FloorRing F] (L : Libm F) (junk : Nat → ControlPoint F)
    (spline : GwySpline F) (p : List (PointXY F)) (nsamples jl : Nat)
    (hjl : jl < p.length)
    (hlast : ∀ i, i < nsamples →
      ¬((point_at p jl).y < sample_position spline.closed nsamples spline.length i))
    (hmono : ∀ i, i + 1 < nsamples →
      sample_position spline.closed nsamples spline.length i
        ≤ sample_position spline.closed nsamples spline.length (i + 1)) :
    ∀ (rem i j : Nat) (coords velocities : Option (List (PointXY F))),
      i + rem = nsamples → 1 ≤ j → j ≤ jl →
      (rem ≠ 0 →
        (point_at p (j - 1)).y ≤ sample_position spline.closed nsamples spline.length i) →
      ∃ (r : Option (List (PointXY F)) × Option (List (PointXY F))) (J : Nat → Nat),
        sample_uniform_loop L junk spline p nsamples rem i j coords velocities = some r
          ∧ ∀ k, i ≤ k → k < i + rem →
              sample_scan p (sample_position spline.closed nsamples spline.length k)
                  (p.length - (if k = i then j else J (k - 1)))
                  (if k = i then j else J (k - 1)) = some (J k)
                ∧ (if k = i then j else J (k - 1)) ≤ J k
                ∧ 1 ≤ J k ∧ J k < p.length
                ∧ ¬((point_at p (J k)).y
                    < sample_position spline.closed nsamples spline.length k)
                ∧ (point_at p (J k - 1)).y
                    ≤ sample_position spline.closed nsamples spline.length k := by
  intro rem
  induction rem with
  | zero =>
    intro i j coords velocities _ _ _ _
    refine ⟨(coords, velocities), fun _ => 0, by simp [sample_uniform_loop], ?_⟩
    intro k h1 h2
    omega
  | succ rem ih =>
    intro i j coords velocities hi hj1 hjl2 hinv1
    have hinv1 := hinv1 (by omega)
    obtain ⟨j2, hs, hle1, hle2, hnot, hall⟩ :=
      sample_scan_spec p (sample_position spline.closed nsamples spline.length i)
        (p.length - j) j jl hjl2 hjl (hlast i (by omega)) (by omega)
    have hj2len : j2 < p.length := by omega
    have hlow : (point_at p (j2 - 1)).y
        ≤ sample_position spline.closed nsamples spline.length i := by
      by_cases hjj : j2 = j
      · rw [hjj]; exact hinv1
      · exact le_of_lt (hall (j2 - 1) (by omega) (by omega))
    obtain ⟨r, J, hr, hin⟩ := ih (i + 1) j2
      (coords.map (fun b => b.set i (sample_uniform_eval L junk spline p
        (sample_position spline.closed nsamples spline.length i) j2).1))
      (velocities.map (fun b => b.set i (sample_uniform_eval L junk spline p
        (sample_position spline.closed nsamples spline.length i) j2).2))
      (by omega) (by omega) hle2
      (fun hr => le_trans hlow (hmono i (by omega)))
    refine ⟨r, fun k => if k = i then j2 else J k, ?_, ?_⟩
    · rw [sample_uniform_loop]
      simp only [hs, hj2len, not_true_eq_false, if_false]
      rw [hr]
    · intro k h1 h2
      by_cases hk : k = i
      · subst hk
        simp only [if_true]
        exact ⟨hs, hle1, by omega, hj2len, hnot, hlow⟩
      · have hk1 : k - 1 = i ↔ k = i + 1 := by omega
        have := hin k (by omega) (by omega)
        simp only [hk, if_false, hk1]
        by_cases hk2 : k = i + 1
        · simp only [hk2, if_true] at this ⊢
          exact this
        · have hk4 : ¬(k - 1 = i) := by omega
          simp only [hk2, if_false, hk4] at this ⊢
          exact this

/-- In exact arithmetic: on a spline with at least two points on which
`sample_curve` returns the natural sampling `p`, and for `n >= 1` samples,
every target position is at most the last cumulative length, the targets do
not decrease, and `sample_curve_uniformly` returns: no scan runs past the end
of `p` and no assertion fails.  The scan of sample `k` starts at 1 for
`k = 0` and where the scan of sample `k - 1` stopped otherwise; it stops at
an index `J k` smaller than the number of natural samples, and the bracket
from `J k - 1` to `J k` holds the target.  In doubles the last target of an
open curve can be rounded above the last cumulative length, and then the scan
passes the end of `p`. -/
theorem uniform_scan_stops [FloorRing F] {L : Libm F} (hL : L.Exact)
    (junk : Nat → ControlPoint F) (s s2 : GwySpline F) (n fuel : Nat)
    (coords velocities : Option (List (PointXY F))) (p : List (PointXY F))
    (hpts : 2 ≤ s.points.length) (hn : 1 ≤ n)
    (hp : sample_curve L fuel junk s G_MAXDOUBLE (1/100) CURVE_RECURSE_OUTPUT_T_L
      = some (s2, p)) :
    (∀ i, i < n →
        sample_position s.closed n (point_at p (p.length - 1)).y i
          ≤ (point_at p (p.length - 1)).y)
      ∧ (∀ i, i + 1 < n →
        sample_position s.closed n (point_at p (p.length - 1)).y i
          ≤ sample_position s.closed n (point_at p (p.length - 1)).y (i + 1))
      ∧ ∃ (c v : Option (List (PointXY F))) (J : Nat → Nat),
          sample_curve_uniformly L fuel junk s n coords velocities
              = some ({ s2 with length := (point_at p (p.length - 1)).y }, c, v)
            ∧ ∀ k, k < n →
                sample_scan p (sample_position s.closed n (point_at p (p.length - 1)).y k)
                    (p.length - (if k = 0 then 1 else J (k - 1)))
                    (if k = 0 then 1 else J (k - 1)) = some (J k)
                  ∧ (if k = 0 then 1 else J (k - 1)) ≤ J k
                  ∧ 1 ≤ J k ∧ J k < p.length
                  ∧ ¬((point_at p (J k)).y
                      < sample_position s.closed n (point_at p (p.length - 1)).y k)
                  ∧ (point_at p (J k - 1)).y
                      ≤ sample_position s.closed n (point_at p (p.length - 1)).y k := by
  obtain ⟨hs2, hnat⟩ := sample_curve_spec hL fuel junk s s2 G_MAXDOUBLE (1/100) p hpts hp
  obtain ⟨hlen, hp0, hstep, hlastx⟩ := natural_sampling_index hnat
  have hmono := natural_length_mono hL hnat
  have hclosed : s2.closed = s.closed := by rw [hs2]
  have hsc : 1 ≤ segment_count s2.points.length s2.closed := by
    rw [hs2]
    simp only [segment_count]
    split <;> omega
  have hLnn : 0 ≤ (point_at p (p.length - 1)).y := by
    have := hmono (p.length - 1) 0 (by omega)
    rw [hp0] at this
    simpa using this
  have hle : ∀ i, i < n →
      sample_position s.closed n (point_at p (p.length - 1)).y i
        ≤ (point_at p (p.length - 1)).y := fun i hi =>
    ((sample_position_facts (point_at p (p.length - 1)).y n i hLnn hi).2.2.2.1 _).2
  have hinc : ∀ i, i + 1 < n →
      sample_position s.closed n (point_at p (p.length - 1)).y i
        ≤ sample_position s.closed n (point_at p (p.length - 1)).y (i + 1) :=
    fun i hi => sample_position_mono _ n i _ hLnn hi
  obtain ⟨r, J, hloop, hin⟩ := uniform_loop_scan L junk
    { s2 with length := (point_at p (p.length - 1)).y } p n (p.length - 1) (by omega)
    (fun i hi => not_lt.mpr (by simp only [hclosed]; exact hle i hi))
    (fun i hi => by simp only [hclosed]; exact hinc i hi)
    n 0 1 coords velocities (by omega) (le_refl 1) (by omega)
    (fun _ => by
      simp only [Nat.sub_self, hp0]
      exact ((sample_position_facts (point_at p (p.length - 1)).y n 0 hLnn
        (by omega)).2.2.2.1 _).1)
  refine ⟨hle, hinc, r.1, r.2, J, ?_, ?_⟩
  · unfold sample_curve_uniformly
    have h0 : n ≠ 0 := by omega
    have h1 : s.points.length ≠ 0 := by omega
    have h2 : s.points.length ≠ 1 := by omega
    simp only [h0, h1, h2, if_false, hp]
    rw [hloop]
  · intro k hk
    have := hin k (Nat.zero_le _) (by omega)
    simp only [hclosed] at this
    exact this

/-- An instance: the open curve through `(0,0)` and `(3,4)` sampled at
three points. -/
theorem uniform_scan_stops_witness :
    ∃ (s2 : GwySpline ℝ) (p : List (PointXY ℝ)) (c v : Option (List (PointXY ℝ))),
      sample_curve (⟨fun x y => Real.sqrt (x*x + y*y), Real.sqrt⟩ : Libm ℝ) 2
          (fun _ => ⟨7, 7, 7, 7⟩)
          { points := [⟨0, 0⟩, ⟨3, 4⟩], slackness := 1/2, closed := false,
            natural_sampling_valid := false, control_points := [], natural_points := [],
            length := 0, fixed_sampling_valid := false, nfixed := 0, fixed_samples := [] }
          G_MAXDOUBLE (1/100) CURVE_RECURSE_OUTPUT_T_L = some (s2, p)
        ∧ (∀ i, i < 3 →
            sample_position false 3 (point_at p (p.length - 1)).y i
              ≤ (point_at p (p.length - 1)).y)
        ∧ sample_curve_uniformly (⟨fun x y => Real.sqrt (x*x + y*y), Real.sqrt⟩ : Libm ℝ) 2
            (fun _ => ⟨7, 7, 7, 7⟩)
            { points := [⟨0, 0⟩, ⟨3, 4⟩], slackness := 1/2, closed := false,
              natural_sampling_valid := false, control_points := [], natural_points := [],
              length := 0, fixed_sampling_valid := false, nfixed := 0, fixed_samples := [] }
            3 (some (List.replicate 3 ⟨0, 0⟩)) none
            = some ({ s2 with length := (point_at p (p.length - 1)).y }, c, v) := by
  obtain ⟨s2, p, hp⟩ := straight_natural_returns real_libm_exact (fun _ => ⟨7, 7, 7, 7⟩)
    { points := [⟨0, 0⟩, ⟨3, 4⟩], slackness := 1/2, closed := false,
      natural_sampling_valid := false, control_points := [], natural_points := [],
      length := 0, fixed_sampling_valid := false, nfixed := 0, fixed_samples := [] }
    2 (by decide) (Or.inr rfl) ⟨by norm_num, by norm_num⟩ (le_refl 2)
  obtain ⟨h1, _, c, v, _, h3, _⟩ := uniform_scan_stops real_libm_exact
    (fun _ => ⟨7, 7, 7, 7⟩) _ s2 3 2 (some (List.replicate 3 ⟨0, 0⟩)) none p
    (by decide) (by decide) hp
  exact ⟨s2, p, c, v, hp, h1, h3⟩

end Scan

end Gwy

namespace Gwy

open GwySplineRecurseOutputType

section Bracket

variable {F : Type} [LinearOrderedField F]

/-! ## The segment and the speeds of a bracket in `sample_curve_uniformly` -/

/-- The parameter of `sample_uniform_locate` is the division of the bracket
by `division_time` at the speeds of `sample_uniform_speeds`. -/
theorem locate_speeds [FloorRing F] (L : Libm F) (junk : Nat → ControlPoint F)
    (spline : GwySpline F) (p : List (PointXY F)) (pos : F) (j : Nat) :
    (sample_uniform_locate L junk spline p pos j).2
      = division_time L (sample_uniform_speeds L junk spline p j).1
            (sample_uniform_speeds L junk spline p j).2
            (if (point_at p (j - 1)).y = (point_at p j).y then 1/2
              else (pos - (point_at p (j - 1)).y)/((point_at p j).y - (point_at p (j - 1)).y))
          *(point_at p j).x
        + (1 - division_time L (sample_uniform_speeds L junk spline p j).1
            (sample_uniform_speeds L junk spline p j).2
            (if (point_at p (j - 1)).y = (point_at p j).y then 1/2
              else (pos - (point_at p (j - 1)).y)/((point_at p j).y - (point_at p (j - 1)).y)))
          *(point_at p (j - 1)).x :=
  rfl

/-- The segment index of the time 1 on a curve of more than one point. -/
theorem segment_index_one [FloorRing F] (npts : Nat) (h : 2 ≤ npts) :
    segment_index npts (1 : F) = 1 := by
  have hne : ¬(1 = npts) := by omega
  simp [segment_index, hne]

/-- In the straight-line case `calculate_control_points` keeps the length of
the array. -/
theorem control_points_length_straight (L : Libm F) (xy : List (PointXY F)) (slackness : F)
    (closed : Bool) (uv : List (ControlPoint F)) (hn : 2 ≤ xy.length)
    (hs : slackness = 0 ∨ xy.length = 2) :
    (calculate_control_points L ((xy.length : Int) - 1) xy slackness closed uv).length
      = uv.length := by
  obtain ⟨n, hn2⟩ : ∃ n, xy.length = n + 1 := ⟨xy.length - 1, by omega⟩
  have hint : ((xy.length : Int) - 1) = (n : Int) := by rw [hn2]; push_cast; ring
  have hcond : n = 1 ∨ slackness = 0 := by
    rcases hs with h | h
    · exact Or.inr h
    · left; omega
  unfold calculate_control_points
  rw [hint]
  split
  · rfl
  · split
    · rfl
    · simp only [Int.toNat_ofNat, hcond, if_true]
      exact (control_points_straight_loop n xy (if closed then n + 1 else n) 0 uv
        (by cases closed <;> simp)).1

/-- Uniform sampling over the natural sampling `p` that `sample_curve`
returned: cell `k` of each buffer receives the value computed at a bracket
`J k` of `p` that holds the target of sample `k`. -/
theorem uniformly_of_natural [FloorRing F] {L : Libm F} (hL : L.Exact)
    (junk : Nat → ControlPoint F) (s s2 : GwySpline F) (n fuel : Nat)
    (coords velocities : Option (List (PointXY F))) (p : List (PointXY F))
    (hpts : 2 ≤ s.points.length) (hn : 1 ≤ n)
    (hp : sample_curve L fuel junk s G_MAXDOUBLE (1/100) CURVE_RECURSE_OUTPUT_T_L
      = some (s2, p)) :
    ∃ (f g : List (PointXY F) → List (PointXY F)) (J : Nat → Nat),
      NaturalSampling L junk { s2 with length := (point_at p (p.length - 1)).y }
          G_MAXDOUBLE (1/100) p
        ∧ sample_curve_uniformly L fuel junk s n coords velocities
            = some ({ s2 with length := (point_at p (p.length - 1)).y },
                coords.map f, velocities.map g)
        ∧ (∀ b : List (PointXY F), (f b).length = b.length ∧ (g b).length = b.length)
        ∧ (∀ k, k < n →
            (1 ≤ J k ∧ J k < p.length
              ∧ ¬((point_at p (J k)).y
                  < sample_position s2.closed n (point_at p (p.length - 1)).y k)
              ∧ (point_at p (J k - 1)).y
                  ≤ sample_position s2.closed n (point_at p (p.length - 1)).y k
              ∧ (J k = 1
                ∨ (point_at p (J k - 1)).y
                    < sample_position s2.closed n (point_at p (p.length - 1)).y k
                ∨ (1 ≤ k ∧ (point_at p (J k - 1)).y
                    ≤ sample_position s2.closed n (point_at p (p.length - 1)).y (k - 1))))
            ∧ ∀ b : List (PointXY F), k < b.length →
                (f b)[k]? = some (sample_uniform_eval L junk
                  { s2 with length := (point_at p (p.length - 1)).y } p
                  (sample_position s2.closed n (point_at p (p.length - 1)).y k) (J k)).1
                ∧ (g b)[k]? = some (sample_uniform_eval L junk
                  { s2 with length := (point_at p (p.length - 1)).y } p
                  (sample_position s2.closed n (point_at p (p.length - 1)).y k) (J k)).2) := by
  obtain ⟨hs2, hnat⟩ := sample_curve_spec hL fuel junk s s2 G_MAXDOUBLE (1/100) p hpts hp
  obtain ⟨hlen, hp0, hstep, hlastx⟩ := natural_sampling_index hnat
  have hmono := natural_length_mono hL hnat
  have hclosed : s2.closed = s.closed := by rw [hs2]
  have hsc : 1 ≤ segment_count s2.points.length s2.closed := by
    rw [hs2]
    simp only [segment_count]
    split <;> omega
  have hLnn : 0 ≤ (point_at p (p.length - 1)).y := by
    have := hmono (p.length - 1) 0 (by omega)
    rw [hp0] at this
    simpa using this
  obtain ⟨f, g, J, hloop, hlens, hin, hout⟩ := uniform_loop_spec L junk
    { s2 with length := (point_at p (p.length - 1)).y } p n (p.length - 1) (by omega)
    (fun i hi => not_lt.mpr
      ((sample_position_facts (point_at p (p.length - 1)).y n i hLnn hi).2.2.2.1 _).2)
    (fun i hi => sample_position_mono _ n i _ hLnn hi)
    n 0 1 coords velocities (by omega) (le_refl 1) (by omega)
    (fun _ => by
      simp only [Nat.sub_self, hp0]
      exact ((sample_position_facts (point_at p (p.length - 1)).y n 0 hLnn
        (by omega)).2.2.2.1 _).1)
    (Or.inl rfl)
  refine ⟨f, g, J, hnat, ?_, hlens, ?_⟩
  · unfold sample_curve_uniformly
    have h0 : n ≠ 0 := by omega
    have h1 : s.points.length ≠ 0 := by omega
    have h2 : s.points.length ≠ 1 := by omega
    simp only [h0, h1, h2, if_false, hp]
    rw [hloop]
  · intro k hk
    exact hin k (Nat.zero_le _) (by omega)

/-- C24 fails on the code: on the open curve through `(0,0)`, `(1,0)`, `(3,0)`
with slackness 0 the natural sampling has a bracket that lies in the first
segment and ends at the time 1.  The speeds of the curve at both ends of the
bracket are 1, the length of the first chord, but the two speeds that
`sample_curve_uniformly` passes to `division_time` are both 2: it takes the
segment `floor(p[j].x) = 1`, the second one, and evaluates its velocity at the
times of the bracket, which are not made local to the segment. -/
theorem bracket_speeds_other_segment :
    ∃ (s2 : GwySpline ℝ) (p : List (PointXY ℝ)) (j : Nat),
      sample_curve (⟨fun x y => Real.sqrt (x*x + y*y), Real.sqrt⟩ : Libm ℝ) 2
          (fun _ => ⟨7, 7, 7, 7⟩)
          { points := [⟨0, 0⟩, ⟨1, 0⟩, ⟨3, 0⟩], slackness := 0, closed := false,
            natural_sampling_valid := false, control_points := [], natural_points := [],
            length := 0, fixed_sampling_valid := false, nfixed := 0, fixed_samples := [] }
          G_MAXDOUBLE (1/100) CURVE_RECURSE_OUTPUT_T_L = some (s2, p)
        ∧ 1 ≤ j ∧ j < p.length
        ∧ 0 ≤ (point_at p (j - 1)).x ∧ (point_at p (j - 1)).x < 1 ∧ (point_at p j).x = 1
        ∧ sample_uniform_speeds (⟨fun x y => Real.sqrt (x*x + y*y), Real.sqrt⟩ : Libm ℝ)
            (fun _ => ⟨7, 7, 7, 7⟩) s2 p j = (2, 2)
        ∧ (segment_item (⟨fun x y => Real.sqrt (x*x + y*y), Real.sqrt⟩ : Libm ℝ)
            (point_at s2.points 0) (point_at s2.points 1)
            (g_array_index s2.control_points 0 ⟨7, 7, 7, 7⟩) ((point_at p (j - 1)).x - 0)).vl = 1
        ∧ (segment_item (⟨fun x y => Real.sqrt (x*x + y*y), Real.sqrt⟩ : Libm ℝ)
            (point_at s2.points 0) (point_at s2.points 1)
            (g_array_index s2.control_points 0 ⟨7, 7, 7, 7⟩) ((point_at p j).x - 0)).vl = 1 := by
  have h4 : Real.sqrt 4 = 2 := by
    rw [show (4 : ℝ) = 2^2 by norm_num]
    exact Real.sqrt_sq (by norm_num)
  obtain ⟨s2, p, hp⟩ := straight_natural_returns real_libm_exact (fun _ => ⟨7, 7, 7, 7⟩)
    { points := [⟨0, 0⟩, ⟨1, 0⟩, ⟨3, 0⟩], slackness := 0, closed := false,
      natural_sampling_valid := false, control_points := [], natural_points := [],
      length := 0, fixed_sampling_valid := false, nfixed := 0, fixed_samples := [] }
    2 (by decide) (Or.inl rfl) ⟨le_refl 0, zero_le_one⟩ (le_refl 2)
  obtain ⟨hs2, hnat⟩ := sample_curve_spec real_libm_exact 2 _ _ s2 _ _ p (by decide) hp
  have hcells := straight_cells (⟨fun x y => Real.sqrt (x*x + y*y), Real.sqrt⟩ : Libm ℝ)
    (fun _ => ⟨7, 7, 7, 7⟩) _ s2 (by decide) (Or.inl rfl) ⟨le_refl 0, zero_le_one⟩ hs2
  have hpts : s2.points = [⟨0, 0⟩, ⟨1, 0⟩, ⟨3, 0⟩] := by rw [hs2]
  have hcl : s2.closed = false := by rw [hs2]
  have hcount : segment_count s2.points.length s2.closed = 2 := by
    rw [hpts, hcl]
    rfl
  obtain ⟨j, ta, hj1, hj2, hx1, hta0, hta1, hx0, _⟩ :=
    natural_knot_hit hnat 0 (by rw [hcount]; decide)
  have hx1b : (point_at p j).x = 1 := by simpa using hx1
  have hx0b : (point_at p (j - 1)).x = ta := by simpa using hx0
  have c0 := hcells 0 (by rw [hcount]; decide)
  have c1 := hcells 1 (by rw [hcount]; decide)
  have e1 : (0 + 1) % s2.points.length = 1 := by rw [hpts]; rfl
  rw [e1] at c0
  refine ⟨s2, p, j, hp, hj1, hj2, by rw [hx0b]; exact hta0, by rw [hx0b]; exact hta1, hx1b,
    ?_, ?_, ?_⟩
  · simp only [sample_uniform_speeds, hx1b, segment_index_one s2.points.length
      (by rw [hpts]; decide), c1, interpolate_v_straight]
    simp only [hpts, point_at, g_array_index]
    norm_num [h4]
  · rw [c0, segment_item_straight]
    simp only [hpts, point_at, g_array_index]
    norm_num
  · rw [c0, segment_item_straight]
    simp only [hpts, point_at, g_array_index]
    norm_num

/-- C26 fails on the code for open curves: on the open curve through `(0,0)`
and `(3,4)`, which has one segment and one control point cell, the second of
two samples has the target position 5, the end of the curve.  Its bracket `j`
ends at the time 1, the segment index that `sample_curve_uniformly` takes is
1, the number of segments (the correction `if (k == npts) k--` does not apply
because `npts` is 2), and the velocity it stores is computed from the cell
`control_points[1]` past the end of the array: it is `3*(u - (3,4))` with `u`
whatever that cell holds. -/
theorem open_curve_reads_past_end (junk : Nat → ControlPoint ℝ) :
    ∃ (s2 : GwySpline ℝ) (p : List (PointXY ℝ)) (j : Nat) (c v : List (PointXY ℝ)),
      sample_curve (⟨fun x y => Real.sqrt (x*x + y*y), Real.sqrt⟩ : Libm ℝ) 2 junk
          { points := [⟨0, 0⟩, ⟨3, 4⟩], slackness := 0, closed := false,
            natural_sampling_valid := false, control_points := [], natural_points := [],
            length := 0, fixed_sampling_valid := false, nfixed := 0, fixed_samples := [] }
          G_MAXDOUBLE (1/100) CURVE_RECURSE_OUTPUT_T_L = some (s2, p)
        ∧ sample_curve_uniformly (⟨fun x y => Real.sqrt (x*x + y*y), Real.sqrt⟩ : Libm ℝ) 2
            junk
            { points := [⟨0, 0⟩, ⟨3, 4⟩], slackness := 0, closed := false,
              natural_sampling_valid := false, control_points := [], natural_points := [],
              length := 0, fixed_sampling_valid := false, nfixed := 0, fixed_samples := [] }
            2 (some [⟨0, 0⟩, ⟨0, 0⟩]) (some [⟨0, 0⟩, ⟨0, 0⟩])
            = some ({ s2 with length := 5 }, some c, some v)
        ∧ s2.control_points.length = 1
        ∧ segment_count s2.points.length s2.closed = 1
        ∧ sample_position s2.closed 2 (5 : ℝ) 1 = 5
        ∧ 1 ≤ j ∧ j < p.length ∧ (point_at p j).x = 1
        ∧ segment_index s2.points.length (point_at p j).x = 1
        ∧ (sample_uniform_locate (⟨fun x y => Real.sqrt (x*x + y*y), Real.sqrt⟩ : Libm ℝ)
            junk { s2 with length := 5 } p 5 j).1 = 1
        ∧ v[1]? = some (sample_uniform_eval
            (⟨fun x y => Real.sqrt (x*x + y*y), Real.sqrt⟩ : Libm ℝ)
            junk { s2 with length := 5 } p 5 j).2
        ∧ (sample_uniform_eval (⟨fun x y => Real.sqrt (x*x + y*y), Real.sqrt⟩ : Libm ℝ)
            junk { s2 with length := 5 } p 5 j).2
          = ⟨3*((junk 1).ux - 3), 3*((junk 1).uy - 4)⟩ := by
  have h25 : Real.sqrt 25 = 5 := by
    rw [show (25 : ℝ) = 5^2 by norm_num]
    exact Real.sqrt_sq (by norm_num)
  obtain ⟨s2, p, hp⟩ := straight_natural_returns real_libm_exact junk
    { points := [⟨0, 0⟩, ⟨3, 4⟩], slackness := 0, closed := false,
      natural_sampling_valid := false, control_points := [], natural_points := [],
      length := 0, fixed_sampling_valid := false, nfixed := 0, fixed_samples := [] }
    2 (by decide) (Or.inl rfl) ⟨le_refl 0, zero_le_one⟩ (le_refl 2)
  obtain ⟨hs2, _⟩ := sample_curve_spec real_libm_exact 2 _ _ s2 _ _ p (by decide) hp
  obtain ⟨f, g, J, hnat, hres, hlens, hin⟩ := uniformly_of_natural real_libm_exact junk _ s2
    2 2 (some [⟨0, 0⟩, ⟨0, 0⟩]) (some [⟨0, 0⟩, ⟨0, 0⟩]) p (by decide) (by decide) hp
  have hcells := straight_cells (⟨fun x y => Real.sqrt (x*x + y*y), Real.sqrt⟩ : Libm ℝ)
    junk _ s2 (by decide) (Or.inl rfl) ⟨le_refl 0, zero_le_one⟩ hs2
  have hpts : s2.points = [⟨0, 0⟩, ⟨3, 4⟩] := by rw [hs2]
  have hcl : s2.closed = false := by rw [hs2]
  have hcount : segment_count s2.points.length s2.closed = 1 := by
    rw [hpts, hcl]
    rfl
  have hcplen : s2.control_points.length = 1 := by
    have h := control_points_length_straight
      (⟨fun x y => Real.sqrt (x*x + y*y), Real.sqrt⟩ : Libm ℝ) [⟨0, 0⟩, ⟨3, 4⟩] 0 false
      (g_array_set_size [] (segment_count 2 false) junk) (by decide) (Or.inl rfl)
    rw [g_array_set_size_length] at h
    rw [hs2]
    exact h
  have htot := straight_total_length real_libm_exact junk
    { s2 with length := (point_at p (p.length - 1)).y } G_MAXDOUBLE (1/100) p hnat
    (by simp only [hpts]; decide) hcells
  have hL5 : (point_at p (p.length - 1)).y = 5 := by
    rw [htot]
    simp only [polyline_length, hpts, hcl, segment_count, point_at, g_array_index]
    norm_num [h25, List.range_succ]
  rw [hL5] at hres hin hnat
  have hpos1 : sample_position s2.closed 2 (5 : ℝ) 1 = 5 := by
    rw [hcl]
    exact ((sample_position_facts (5 : ℝ) 2 1 (by norm_num)
      (by decide)).2.2.2.2.1 (le_refl 2)).2
  obtain ⟨⟨hJ1, hJ2, hnot, hlow, _⟩, hval⟩ := hin 1 (by decide)
  rw [hpos1] at hnot hlow hval
  obtain ⟨hlen, hp0, hstep, hlastx⟩ := natural_sampling_index hnat
  have hmono := natural_length_mono real_libm_exact hnat (p.length - 1 - J 1) (J 1) (by omega)
  have e1 : J 1 + (p.length - 1 - J 1) = p.length - 1 := by omega
  rw [e1, hL5] at hmono
  have hy : (point_at p (J 1)).y = 5 := le_antisymm hmono (not_lt.mp hnot)
  obtain ⟨k, ta, tb, hk, hta, htb, hx0, hx1, hleaf⟩ := hstep (J 1) hJ1 hJ2
  have hk0 : k = 0 := by
    have : k < 1 := by
      have h := hk
      simp only [hpts, hcl] at h
      exact h
    omega
  subst hk0
  have hlt : ta < tb := hleaf.1
  have hcum1 := straight_cumulative real_libm_exact junk
    { s2 with length := (5 : ℝ) } G_MAXDOUBLE (1/100) p hnat hcells (J 1) hJ2 0 tb hk
    (by linarith) htb hx1
  have hcum0 := straight_cumulative real_libm_exact junk
    { s2 with length := (5 : ℝ) } G_MAXDOUBLE (1/100) p hnat hcells (J 1 - 1) (by omega) 0 ta hk
    hta (by linarith) hx0
  have hcum1b : (point_at p (J 1)).y = tb*5 := by
    rw [hcum1]
    simp only [hpts, point_at, g_array_index, List.range_zero, List.map_nil, List.sum_nil]
    norm_num [h25]
  have hcum0b : (point_at p (J 1 - 1)).y = ta*5 := by
    rw [hcum0]
    simp only [hpts, point_at, g_array_index, List.range_zero, List.map_nil, List.sum_nil]
    norm_num [h25]
  have htb1 : tb = 1 := by
    rw [hcum1b] at hy
    linarith
  have hx1b : (point_at p (J 1)).x = 1 := by
    rw [hx1, htb1]
    norm_num
  have hne : (point_at p (J 1 - 1)).y ≠ (point_at p (J 1)).y := by
    rw [hcum0b, hy]
    intro h
    linarith
  obtain ⟨q, _, _, _, hq1, _, ht, hkk⟩ := locate_spec real_libm_exact junk
    { s2 with length := (5 : ℝ) } p 5 (J 1) (by simp only [hpts]; decide) hlow hnot
  have hq : q = 1 := hq1 hne hy.symm
  have ht1 : (sample_uniform_locate (⟨fun x y => Real.sqrt (x*x + y*y), Real.sqrt⟩ : Libm ℝ)
      junk { s2 with length := (5 : ℝ) } p 5 (J 1)).2 = 1 := by
    rw [ht, hq, hx1b]
    ring
  have hidx : segment_index s2.points.length (1 : ℝ) = 1 :=
    segment_index_one _ (by rw [hpts]; decide)
  have hk1 : (sample_uniform_locate (⟨fun x y => Real.sqrt (x*x + y*y), Real.sqrt⟩ : Libm ℝ)
      junk { s2 with length := (5 : ℝ) } p 5 (J 1)).1 = 1 := by
    rw [hkk, ht1]
    exact hidx
  have hcell : g_array_index s2.control_points 1 (junk 1) = junk 1 := by
    simp only [g_array_index]
    exact List.getD_eq_default _ _ (by rw [hcplen])
  have heval : (sample_uniform_eval (⟨fun x y => Real.sqrt (x*x + y*y), Real.sqrt⟩ : Libm ℝ)
      junk { s2 with length := (5 : ℝ) } p 5 (J 1)).2
      = ⟨3*((junk 1).ux - 3), 3*((junk 1).uy - 4)⟩ := by
    simp only [sample_uniform_eval]
    rw [hk1, ht1, hcell]
    simp only [Nat.cast_one, sub_self, interpolate_v_zero, hpts, point_at, g_array_index]
    norm_num
  refine ⟨s2, p, J 1, f [⟨0, 0⟩, ⟨0, 0⟩], g [⟨0, 0⟩, ⟨0, 0⟩], hp, hres, hcplen, hcount, hpos1,
    hJ1, hJ2, hx1b, by rw [hx1b]; exact hidx, hk1, ?_, heval⟩
  exact (hval [⟨0, 0⟩, ⟨0, 0⟩] (by decide)).2

end Bracket

end Gwy

namespace Gwy

open GwySplineRecurseOutputType

section Double

variable {F : Type} [LinearOrderedField F]

/-! ## Targets rounded above the length of the curve -/

/-- With exact operations the rounded target is the target of exact
arithmetic. -/
theorem sample_position_rounded_id (closed : Bool) (n : Nat) (L : F) (i : Nat) :
    sample_position_rounded (fun x => x) closed n L i = sample_position closed n L i := by
  simp only [sample_position_rounded, sample_position]

/-- The main loop of `sample_curve_uniformly` is the loop
`sample_uniform_loop_with` at the targets and the body of exact arithmetic. -/
theorem uniform_loop_eq_with [FloorRing F] (L : Libm F) (junk : Nat → ControlPoint F)
    (spline : GwySpline F) (p : List (PointXY F)) (nsamples : Nat) :
    ∀ (rem i j : Nat) (coords velocities : Option (List (PointXY F))),
      sample_uniform_loop L junk spline p nsamples rem i j coords velocities
        = sample_uniform_loop_with
            (sample_position spline.closed nsamples spline.length)
            (sample_uniform_eval L junk spline p) p rem i j coords velocities := by
  intro rem
  induction rem with
  | zero => intro i j coords velocities; rfl
  | succ rem ih =>
    intro i j coords velocities
    rw [sample_uniform_loop, sample_uniform_loop_with]
    cases sample_scan p (sample_position spline.closed nsamples spline.length i)
        (p.length - j) j with
    | none => rfl
    | some j2 =>
      simp only []
      split
      · rfl
      · exact ih _ _ _ _

/-- A target above every cumulative length sends the scan past the end of the
natural sampling. -/
theorem sample_scan_none (p : List (PointXY F)) (pos : F)
    (h : ∀ m, m < p.length → (point_at p m).y < pos) :
    ∀ (fuel j : Nat), sample_scan p pos fuel j = none := by
  intro fuel
  induction fuel with
  | zero =>
    intro j
    simp only [sample_scan]
    rw [if_neg]
    rintro ⟨h1, h2⟩
    exact h2 (h j h1)
  | succ fuel ih =>
    intro j
    simp only [sample_scan]
    split
    · next h1 => rw [if_pos (h j h1)]; exact ih (j + 1)
    · rfl

/-- When the target of a sample `i0` is above every cumulative length the
main loop aborts, at that sample if not before, whatever the body computes:
the values of the samples from `i0` on are not stored. -/
theorem uniform_loop_with_abort (position : Nat → F)
    (eval : F → Nat → PointXY F × PointXY F) (p : List (PointXY F)) (i0 : Nat)
    (h : ∀ m, m < p.length → (point_at p m).y < position i0) :
    ∀ (rem i j : Nat) (coords velocities : Option (List (PointXY F))),
      i ≤ i0 → i0 < i + rem →
      sample_uniform_loop_with position eval p rem i j coords velocities = none := by
  intro rem
  induction rem with
  | zero => intro i j coords velocities h1 h2; omega
  | succ rem ih =>
    intro i j coords velocities h1 h2
    rw [sample_uniform_loop_with]
    by_cases hi : i = i0
    · subst hi
      simp only [sample_scan_none p (position i) h]
    · cases sample_scan p (position i) (p.length - j) j with
      | none => rfl
      | some j2 =>
        simp only []
        split
        · rfl
        · exact ih _ _ _ _ (by omega) (by omega)

end Double

/-! ### Rounding to the nearest double -/

/-- The integer logarithm of a number between two consecutive powers of 2. -/
theorem int_log_two_eq (x : ℚ) (k : ℤ) (hx : 0 < x) (h1 : (2 : ℚ)^k ≤ x)
    (h2 : x < (2 : ℚ)^(k + 1)) : Int.log 2 x = k := by
  have ha : k ≤ Int.log 2 x :=
    (Int.zpow_le_iff_le_log (by norm_num) hx).mp (by exact_mod_cast h1)
  have hb : Int.log 2 x < k + 1 :=
    (Int.lt_zpow_iff_log_lt (by norm_num) hx).mp (by exact_mod_cast h2)
  omega

/-- Rounding of a positive number that lies between `f*2^e` and
`(f + 1)*2^e`, with `f` a significand of 53 bits: the nearer of the two, the
even one at a tie. -/
theorem round_double_eval (x : ℚ) (e f : ℤ) (hf1 : (2 : ℚ)^(52 : ℕ) ≤ (f : ℚ))
    (hf2 : (f : ℚ) + 1 ≤ (2 : ℚ)^(53 : ℕ)) (hlo : (f : ℚ)*(2 : ℚ)^e ≤ x)
    (hhi : x < ((f : ℚ) + 1)*(2 : ℚ)^e) :
    round_double x
      = ((if x/(2 : ℚ)^e - (f : ℚ) < 1/2 then f
          else if 1/2 < x/(2 : ℚ)^e - (f : ℚ) then f + 1
          else if f % 2 = 0 then f
          else f + 1 : ℤ) : ℚ)*(2 : ℚ)^e := by
  have hp : (0 : ℚ) < (2 : ℚ)^e := zpow_pos (by norm_num) e
  have hfpos : (0 : ℚ) < (f : ℚ) := lt_of_lt_of_le (by positivity) hf1
  have hx : 0 < x := lt_of_lt_of_le (mul_pos hfpos hp) hlo
  have habs : |x| = x := abs_of_pos hx
  have hlog : Int.log 2 x = e + 52 := by
    apply int_log_two_eq x (e + 52) hx
    · calc (2 : ℚ)^(e + 52) = (2 : ℚ)^(52 : ℕ)*(2 : ℚ)^e := by
            rw [zpow_add₀ (by norm_num), mul_comm]; norm_cast
        _ ≤ (f : ℚ)*(2 : ℚ)^e := mul_le_mul_of_nonneg_right hf1 hp.le
        _ ≤ x := hlo
    · calc x < ((f : ℚ) + 1)*(2 : ℚ)^e := hhi
        _ ≤ (2 : ℚ)^(53 : ℕ)*(2 : ℚ)^e := mul_le_mul_of_nonneg_right hf2 hp.le
        _ = (2 : ℚ)^(e + 52 + 1) := by
            rw [show e + 52 + 1 = e + 53 by ring, zpow_add₀ (by norm_num), mul_comm]
            norm_cast
  have hfloor : ⌊x/(2 : ℚ)^e⌋ = f := by
    rw [Int.floor_eq_iff]
    constructor
    · rw [le_div_iff₀ hp]; exact hlo
    · rw [div_lt_iff₀ hp]; exact hhi
  have hx0 : x ≠ 0 := ne_of_gt hx
  have hneg : ¬(x < 0) := not_lt.mpr hx.le
  have he : Int.log 2 x - 52 = e := by omega
  simp only [round_double, hx0, if_false, habs, he, hfloor, hneg, one_mul]

/-- The double nearest to `0.1`. -/
theorem double_tenth : round_double (1/10) = 3602879701896397/36028797018963968 := by
  rw [round_double_eval (1/10) (-56) 7205759403792793 (by norm_num) (by norm_num)
    (by norm_num) (by norm_num)]
  norm_num

/-- The number 3 is a double. -/
theorem double_three : round_double 3 = 3 := by
  rw [round_double_eval 3 (-51) 6755399441055744 (by norm_num) (by norm_num)
    (by norm_num) (by norm_num)]
  norm_num

/-- The number 6 is a double. -/
theorem double_six : round_double 6 = 6 := by
  rw [round_double_eval 6 (-50) 6755399441055744 (by norm_num) (by norm_num)
    (by norm_num) (by norm_num)]
  norm_num

/-- The double `0.1` is a double. -/
theorem double_tenth_fixed :
    round_double (3602879701896397/36028797018963968) = 3602879701896397/36028797018963968 := by
  rw [round_double_eval _ (-56) 7205759403792794 (by norm_num) (by norm_num)
    (by norm_num) (by norm_num)]
  norm_num

/-- Twice the double `0.1` is a double. -/
theorem double_fifth_fixed :
    round_double (3602879701896397/18014398509481984) = 3602879701896397/18014398509481984 := by
  rw [round_double_eval _ (-55) 7205759403792794 (by norm_num) (by norm_num)
    (by norm_num) (by norm_num)]
  norm_num

/-- Three times the double `0.1` lies halfway between two doubles and is
rounded to the even one, up: `3*0.1 = 0.30000000000000004`. -/
theorem double_three_tenths :
    round_double (3*(3602879701896397/36028797018963968)) = 1351079888211149/4503599627370496 := by
  rw [round_double_eval _ (-54) 5404319552844595 (by norm_num) (by norm_num)
    (by norm_num) (by norm_num)]
  norm_num

/-- Six times the double `0.1` is rounded up likewise:
`6*0.1 = 0.6000000000000001`. -/
theorem double_six_tenths :
    round_double (6*(3602879701896397/36028797018963968)) = 1351079888211149/2251799813685248 := by
  rw [round_double_eval _ (-53) 5404319552844595 (by norm_num) (by norm_num)
    (by norm_num) (by norm_num)]
  norm_num

/-- The quotient `0.30000000000000004/3` in doubles is
`0.10000000000000002`. -/
theorem double_three_tenths_third :
    round_double (1351079888211149/4503599627370496/3) = 7205759403792795/72057594037927936 := by
  rw [round_double_eval _ (-56) 7205759403792794 (by norm_num) (by norm_num)
    (by norm_num) (by norm_num)]
  norm_num

/-- The quotient `0.6000000000000001/6` in doubles is
`0.10000000000000002`. -/
theorem double_six_tenths_sixth :
    round_double (1351079888211149/2251799813685248/6) = 7205759403792795/72057594037927936 := by
  rw [round_double_eval _ (-56) 7205759403792794 (by norm_num) (by norm_num)
    (by norm_num) (by norm_num)]
  norm_num

/-- The quotient `0.1/3` in doubles. -/
theorem double_tenth_third :
    round_double (3602879701896397/36028797018963968/3) = 4803839602528529/144115188075855872 := by
  rw [round_double_eval _ (-57) 4803839602528529 (by norm_num) (by norm_num)
    (by norm_num) (by norm_num)]
  norm_num

/-- The quotient `0.2/3` in doubles. -/
theorem double_fifth_third :
    round_double (3602879701896397/18014398509481984/3) = 4803839602528529/72057594037927936 := by
  rw [round_double_eval _ (-56) 4803839602528529 (by norm_num) (by norm_num)
    (by norm_num) (by norm_num)]
  norm_num

/-- The target of the last of four samples on an open curve of length `0.1`,
in doubles: `(3*0.1)/3.0 = 0.10000000000000002`. -/
theorem double_target_four :
    sample_position_rounded round_double false 4 (3602879701896397/36028797018963968) 3
      = 7205759403792795/72057594037927936 := by
  simp only [sample_position_rounded, Bool.false_eq_true, if_false, gt_iff_lt,
    Nat.one_lt_ofNat, if_true, Nat.cast_ofNat]
  rw [show ((4 : ℚ) - 1) = 3 by norm_num, double_three, double_three_tenths,
    double_three_tenths_third]

/-- The target of the last of seven samples on an open curve of length `0.1`,
in doubles: `(6*0.1)/6.0 = 0.10000000000000002`. -/
theorem double_target_seven :
    sample_position_rounded round_double false 7 (3602879701896397/36028797018963968) 6
      = 7205759403792795/72057594037927936 := by
  simp only [sample_position_rounded, Bool.false_eq_true, if_false, gt_iff_lt,
    Nat.one_lt_ofNat, if_true, Nat.cast_ofNat]
  rw [show ((7 : ℚ) - 1) = 6 by norm_num, double_six, double_six_tenths,
    double_six_tenths_sixth]

/-- Zero is a double. -/
theorem double_zero : round_double 0 = 0 := by
  simp [round_double]

/-- The target of the first of four samples, in doubles. -/
theorem double_target_four_first :
    sample_position_rounded round_double false 4 (3602879701896397/36028797018963968) 0
      = 0 := by
  simp only [sample_position_rounded, Bool.false_eq_true, if_false, gt_iff_lt,
    Nat.one_lt_ofNat, if_true, Nat.cast_ofNat, Nat.cast_zero, zero_mul]
  rw [double_zero, zero_div, double_zero]

/-- The target of the second of four samples, in doubles. -/
theorem double_target_four_second :
    sample_position_rounded round_double false 4 (3602879701896397/36028797018963968) 1
      = 4803839602528529/144115188075855872 := by
  simp only [sample_position_rounded, Bool.false_eq_true, if_false, gt_iff_lt,
    Nat.one_lt_ofNat, if_true, Nat.cast_ofNat, Nat.cast_one, one_mul]
  rw [show ((4 : ℚ) - 1) = 3 by norm_num, double_three, double_tenth_fixed,
    double_tenth_third]

/-- The target of the third of four samples, in doubles. -/
theorem double_target_four_third :
    sample_position_rounded round_double false 4 (3602879701896397/36028797018963968) 2
      = 4803839602528529/72057594037927936 := by
  simp only [sample_position_rounded, Bool.false_eq_true, if_false, gt_iff_lt,
    Nat.one_lt_ofNat, if_true, Nat.cast_ofNat]
  rw [show ((4 : ℚ) - 1) = 3 by norm_num, double_three,
    show (2 : ℚ)*(3602879701896397/36028797018963968)
      = 3602879701896397/18014398509481984 by norm_num,
    double_fifth_fixed, double_fifth_third]

/-- C10 fails on the code: the targets are computed in doubles.  On an open
curve of length `0.1` (the double nearest to 1/10) sampled at four points the
last target is `(3*0.1)/3.0`: the product is rounded up to
`0.30000000000000004` and the quotient to `0.10000000000000002`, one unit in
the last place above the length, where exact arithmetic gives the length. -/
theorem double_target_exceeds_length :
    round_double (1/10) = 3602879701896397/36028797018963968
      ∧ sample_position_rounded round_double false 4 (round_double (1/10)) 3
          = 7205759403792795/72057594037927936
      ∧ round_double (1/10)
          < sample_position_rounded round_double false 4 (round_double (1/10)) 3
      ∧ sample_position_rounded round_double false 4 (round_double (1/10)) 3
          ≠ sample_position false 4 (round_double (1/10)) 3
      ∧ sample_position false 4 (round_double (1/10)) 3 = round_double (1/10) := by
  have hex : sample_position false 4 (round_double (1/10)) 3 = round_double (1/10) := by
    simp only [sample_position, Bool.false_eq_true, if_false, gt_iff_lt, Nat.one_lt_ofNat,
      if_true, Nat.cast_ofNat]
    ring
  rw [hex, double_tenth, double_target_four]
  refine ⟨rfl, rfl, ?_, ?_, rfl⟩ <;> norm_num

/-- C27 fails on the code: the open curve through `(0, 0)` and `(0.1, 0)` has
in doubles the natural sampling `(0, 0)`, `(0.5, 0.05)`, `(1, 0.1)` and the
length `0.1`.  With four samples the scans of the first three targets stop at
the indices 1, 1 and 2, and the scan of the last target, which is rounded
above the last cumulative length, passes the end of the natural sampling:
`g_assert(j < nseg)` does not hold. -/
theorem double_scan_past_end :
    round_double (1/10) = 3602879701896397/36028797018963968
      ∧ sample_scan
          [⟨0, 0⟩, ⟨1/2, 3602879701896397/72057594037927936⟩,
            ⟨1, 3602879701896397/36028797018963968⟩]
          (sample_position_rounded round_double false 4 (round_double (1/10)) 0) (3 - 1) 1
          = some 1
      ∧ sample_scan
          [⟨0, 0⟩, ⟨1/2, 3602879701896397/72057594037927936⟩,
            ⟨1, 3602879701896397/36028797018963968⟩]
          (sample_position_rounded round_double false 4 (round_double (1/10)) 1) (3 - 1) 1
          = some 1
      ∧ sample_scan
          [⟨0, 0⟩, ⟨1/2, 3602879701896397/72057594037927936⟩,
            ⟨1, 3602879701896397/36028797018963968⟩]
          (sample_position_rounded round_double false 4 (round_double (1/10)) 2) (3 - 1) 1
          = some 2
      ∧ sample_scan
          [⟨0, 0⟩, ⟨1/2, 3602879701896397/72057594037927936⟩,
            ⟨1, 3602879701896397/36028797018963968⟩]
          (sample_position_rounded round_double false 4 (round_double (1/10)) 3) (3 - 2) 2
          = none := by
  rw [double_tenth, double_target_four, double_target_four_first, double_target_four_second,
    double_target_four_third]
  refine ⟨rfl, ?_, ?_, ?_, ?_⟩
  · simp only [sample_scan, point_at, g_array_index]
    norm_num
  · simp only [sample_scan, point_at, g_array_index]
    norm_num
  · simp only [sample_scan, point_at, g_array_index]
    norm_num
  · simp only [sample_scan, point_at, g_array_index]
    norm_num

/-- C6 fails on the code: on the open curve through `(0, 0)` and `(0.1, 0)`
(natural sampling `(0, 0)`, `(0.5, 0.05)`, `(1, 0.1)` and length `0.1` in
doubles) sampled at four points the main loop of `sample_curve_uniformly`
aborts, whatever its body computes for the first three samples: the last
sample, which should be the last knot, is not stored. -/
theorem double_last_sample_not_stored (eval : ℚ → Nat → PointXY ℚ × PointXY ℚ)
    (coords velocities : Option (List (PointXY ℚ))) :
    sample_uniform_loop_with
        (sample_position_rounded round_double false 4 (round_double (1/10))) eval
        [⟨0, 0⟩, ⟨1/2, 3602879701896397/72057594037927936⟩,
          ⟨1, 3602879701896397/36028797018963968⟩] 4 0 1 coords velocities
      = none := by
  apply uniform_loop_with_abort _ _ _ 3 _ 4 0 1 coords velocities (by decide) (by decide)
  intro m hm
  rw [double_tenth, double_target_four]
  simp only [List.length_cons, List.length_nil] at hm
  interval_cases m <;> simp only [point_at, g_array_index] <;> norm_num

/-- C7 fails on the code: on the open curve through `(0, 0)` and `(0.1, 0)`
with slackness 0 sampled at seven points the target of the last sample is
`(6*0.1)/6.0 = 0.10000000000000002` in doubles, above the length `0.1`, and
the main loop of `sample_curve_uniformly` aborts whatever its body computes:
the sampling produces no points. -/
theorem double_seven_samples_abort (eval : ℚ → Nat → PointXY ℚ × PointXY ℚ)
    (coords velocities : Option (List (PointXY ℚ))) :
    sample_position_rounded round_double false 7 (round_double (1/10)) 6
        = 7205759403792795/72057594037927936
      ∧ sample_uniform_loop_with
          (sample_position_rounded round_double false 7 (round_double (1/10))) eval
          [⟨0, 0⟩, ⟨1/2, 3602879701896397/72057594037927936⟩,
            ⟨1, 3602879701896397/36028797018963968⟩] 7 0 1 coords velocities
        = none := by
  rw [double_tenth]
  refine ⟨double_target_seven, ?_⟩
  apply uniform_loop_with_abort _ _ _ 6 _ 7 0 1 coords velocities (by decide) (by decide)
  intro m hm
  rw [double_target_seven]
  simp only [List.length_cons, List.length_nil] at hm
  interval_cases m <;> simp only [point_at, g_array_index] <;> norm_num

end Gwy
